import Mathlib

/-!
# IAED vaccination store: a shallow embedding of the C sources

The definitions below follow `date.c`, `utils.c`, `batch.c`, `records.c`,
`system.c` and the command handlers of `project.c`.

Modelling conventions
* A C string is the list of its bytes before the terminating NUL (`CStr`).
  `strcmp` compares bytes as unsigned values; only the sign of its result is
  specified by C, so the model returns `-1`, `0` or `1`.
* `int` is modelled by `Int`.  The hash functions compute `127 * h + *v` in
  `int`; the model computes on the integers, which is the same value for the
  table sizes up to 16909320 (`hash_user_int32_eq`) and can differ above.  The
  batch table has at most 7993 buckets.  The record table has no cap: the
  statements that a call on it returns with a given effect are made for tables
  of at most `MAX_EXACT_SIZE` buckets; the statements conditional on the value
  returned and the invariants of the counters are made without the bound.
* `char` is signed (as on the x86 targets of the project): a byte `b ≥ 128`
  is read as `b - 256` by the hash functions.
* A chained hash table is the list of its bucket chains; the `size` field of the
  C struct is the length of that list, and a chain (nodes linked by `next`) is a
  list of nodes, head first.  In the same way the pair `records`/`record_count`
  of a user group is one list.
* A bucket access outside the array is undefined in C; the model reads an empty
  chain there and drops the write (`chainAt`, `setChain`).  The index can leave
  the array for a name with a byte above 127; the statements about an insertion
  are made for names of bytes below 128.
* `malloc`, `realloc` and `strdup` are taken to succeed.
* The load-factor tests `(float)count / size >= 0.75` and
  `(float)count / size < 0.25` are modelled by the integer comparisons
  `4 * count ≥ 3 * size` and `4 * count < size`, which agree with the
  single-precision quotient for all counts and all table sizes up to
  `MAX_EXACT_SIZE`, that is `2 ^ 23`.
* A mutation made through a pointer that a search returned is a modification of
  the first matching node of the chain (`modifyFirst`).
* A command handler takes as arguments the fields that `sscanf` stored for the
  line, together with the number of fields read where the source tests it; the
  printed output is not modelled.  The strings of a command are strings of
  bytes (`isBytes`).
-/

namespace IAED

/-! ## Strings and dates -/

/-- A C string: its bytes before the terminating NUL. -/
abbrev CStr := List Nat

/-- The sign of C `strcmp`: bytes are compared as unsigned values. -/
def strcmp : CStr → CStr → Int
  | [], [] => 0
  | [], _ :: _ => -1
  | _ :: _, [] => 1
  | a :: as, b :: bs => if a < b then -1 else if b < a then 1 else strcmp as bs

/-- The value a signed `char` holding byte `b` has in an `int` expression. -/
def charVal (b : Nat) : Int := if b < 128 then (b : Int) else (b : Int) - 256

/-- The C struct `Date` (date.h). -/
structure Date where
  day : Int
  month : Int
  year : Int
deriving DecidableEq, Repr

/-- date.c `compareDate1Date2`: `1` if `date1` is later, `-1` if earlier, `0` if equal. -/
def compareDate1Date2 (date1 date2 : Date) : Int :=
  if date1.year > date2.year then 1
  else if date1.year < date2.year then -1
  else if date1.month > date2.month then 1
  else if date1.month < date2.month then -1
  else if date1.day > date2.day then 1
  else if date1.day < date2.day then -1
  else 0

/-- date.c `expiredVaccineDate`: the system date is strictly later than `date`. -/
def expiredVaccineDate (system_date date : Date) : Bool :=
  decide (compareDate1Date2 system_date date > 0)

/-! ## utils.c: primes -/

/-- The trial-division loop of `isPrime`, `for (i = 2; i * i <= num; i++)`. -/
def isPrimeLoop (num : Int) : Nat → Int → Bool
  | 0, _ => true
  | fuel + 1, i =>
    if i * i ≤ num then
      if num.tmod i = 0 then false else isPrimeLoop num fuel (i + 1)
    else true

/-- utils.c `isPrime`. -/
def isPrime (num : Int) : Bool :=
  if num ≤ 1 then false else isPrimeLoop num num.toNat 2

/-- The loop of `nextPrime`, `while (!isPrime(num)) num++`. -/
def nextPrimeLoop : Nat → Int → Int
  | 0, num => num
  | fuel + 1, num => if isPrime num then num else nextPrimeLoop fuel (num + 1)

/-- utils.c `nextPrime`; the loop needs at most `|num| + 3` rounds. -/
def nextPrime (num : Int) : Int := nextPrimeLoop (num.natAbs + 3) num

/-! ## Constants (constants.h, batch.h) -/

def MAX_BATCHES_NUMBER : Int := 1000
def INITIAL_TABLE_SIZE : Int := 101
def MAX_TABLE_SIZE : Int := 7993
def MAX_BATCH_NAME_SIZE : Int := 20
def MAX_VACCINE_NAME_SIZE : Int := 50

/-! ## Bucket arrays -/

/-- Read of `buckets[key]`; the empty chain outside the array, where the read of
the source is undefined. -/
def chainAt {α : Type} (buckets : List (List α)) (key : Int) : List α :=
  if key < 0 then [] else buckets.getD key.toNat []

/-- Write `buckets[key] = chain`; dropped outside the array, where the write of
the source is undefined. -/
def setChain {α : Type} (buckets : List (List α)) (key : Int) (chain : List α) :
    List (List α) :=
  if key < 0 then buckets else buckets.set key.toNat chain

/-- Apply `f` to the first node of a chain that satisfies `p`: a mutation through
the pointer a chain search returned. -/
def modifyFirst {α : Type} (p : α → Bool) (f : α → α) : List α → List α
  | [] => []
  | x :: xs => if p x then f x :: xs else x :: modifyFirst p f xs

/-- Relink every node of `nodes`, in traversal order, at the head of the chain
its key selects: the rehash loop shared by both resize functions. -/
def rehash {α : Type} (key : α → Int) (nodes : List α) (new_buckets : List (List α)) :
    List (List α) :=
  nodes.foldl (fun nb cur => setChain nb (key cur) (cur :: chainAt nb (key cur))) new_buckets

/-! ## batch.c -/

/-- The C struct `BatchInfo`. -/
structure BatchInfo where
  batch : CStr
  date : Date
  doses : Int
  applications : Int
  vaccine_name : CStr
deriving DecidableEq, Repr

/-- The C struct `Batches`, a chain node; `next` is the rest of the chain. -/
structure Batches where
  batch_id : CStr
  batch_info : BatchInfo
deriving DecidableEq, Repr

/-- The C struct `BatchesHashTable`. -/
structure BatchesHashTable where
  batches : List (List Batches)
  batch_count : Int
deriving DecidableEq, Repr

/-- The field `size`: the number of buckets. -/
def BatchesHashTable.size (ht : BatchesHashTable) : Int := ht.batches.length

/-- The nodes in the order of the loop `for i < size: for (cur = batches[i]; cur; cur = cur->next)`. -/
def BatchesHashTable.nodes (ht : BatchesHashTable) : List Batches := ht.batches.flatten

/-- batch.c `hash`: `h = (127 * h + *v) % table_size` over the bytes of `v`, on
the integers; the `int` of the source holds the same values up to 16909320
buckets, and the batch table has at most 7993. -/
def hash (v : CStr) (table_size : Int) : Int :=
  v.foldl (fun h c => (127 * h + charVal c).tmod table_size) 0

/-- batch.c `initBatchesHashTable`. -/
def initBatchesHashTable : BatchesHashTable :=
  { batches := List.replicate INITIAL_TABLE_SIZE.toNat [], batch_count := 0 }

/-- batch.c `resizeBatchesHashTable`. -/
def resizeBatchesHashTable (ht : BatchesHashTable) : Int × BatchesHashTable :=
  if ht.size = MAX_TABLE_SIZE then (1, ht)
  else
    let new_size := if nextPrime (ht.size * 2) > MAX_TABLE_SIZE then MAX_TABLE_SIZE
      else nextPrime (ht.size * 2)
    let new_buckets : List (List Batches) := List.replicate new_size.toNat []
    (1, { ht with
          batches := rehash (fun cur => hash cur.batch_id new_size) ht.nodes new_buckets })

/-- batch.c `tooManyBatchesInSystem`. -/
def tooManyBatchesInSystem (ht : BatchesHashTable) : Bool :=
  decide (ht.batch_count ≥ MAX_BATCHES_NUMBER)

/-- batch.c `insertBatchInSystem`: the return value and the table afterwards. -/
def insertBatchInSystem (ht : BatchesHashTable) (batch_id : CStr) (date : Date)
    (doses : Int) (vaccine_name : CStr) : Int × BatchesHashTable :=
  let ht1 := if 4 * ht.batch_count ≥ 3 * ht.size then (resizeBatchesHashTable ht).2 else ht
  let key := hash batch_id ht1.size
  let batch : BatchInfo :=
    { batch := batch_id, date := date, doses := doses, applications := 0,
      vaccine_name := vaccine_name }
  let new_node : Batches := { batch_id := batch_id, batch_info := batch }
  (1, { batches := setChain ht1.batches key (new_node :: chainAt ht1.batches key),
        batch_count := ht1.batch_count + 1 })

/-- batch.c `searchBatchInSystem`: the first node of the bucket chain whose
identifier equals `batch_id`, or `none` for `NULL`. -/
def searchBatchInSystem (ht : BatchesHashTable) (batch_id : CStr) : Option Batches :=
  (chainAt ht.batches (hash batch_id ht.size)).find?
    (fun current => decide (strcmp current.batch_id batch_id = 0))

/-- batch.c `compareBatches`: by date, then by identifier. -/
def compareBatches (batch1 batch2 : BatchInfo) : Int :=
  let date_cmp := compareDate1Date2 batch1.date batch2.date
  if date_cmp ≠ 0 then date_cmp else strcmp batch1.batch batch2.batch

/-- The test of `oldestExistingValidBatchByVaccineName`: same vaccine name, doses
left, not expired at `current_date`. -/
def eligibleBatch (vaccine_name : CStr) (current_date : Date) (batch_info : BatchInfo) : Bool :=
  decide (strcmp batch_info.vaccine_name vaccine_name = 0) &&
  decide (batch_info.doses - batch_info.applications > 0) &&
  !expiredVaccineDate current_date batch_info.date

/-- One round of the scan of `oldestExistingValidBatchByVaccineName`. -/
def oldestStep (vaccine_name : CStr) (current_date : Date) (oldest_batch : Option BatchInfo)
    (current : Batches) : Option BatchInfo :=
  if eligibleBatch vaccine_name current_date current.batch_info then
    match oldest_batch with
    | none => some current.batch_info
    | some oldest =>
      if compareDate1Date2 current.batch_info.date oldest.date < 0 then some current.batch_info
      else some oldest
  else oldest_batch

/-- batch.c `oldestExistingValidBatchByVaccineName`. -/
def oldestExistingValidBatchByVaccineName (ht : BatchesHashTable) (vaccine_name : CStr)
    (current_date : Date) : Option BatchInfo :=
  ht.nodes.foldl (oldestStep vaccine_name current_date) none

/-- batch.c `removeBatchFromSystem`: unlink the first node of the bucket chain
whose identifier equals `batch_id`, if there is one. -/
def removeBatchFromSystem (ht : BatchesHashTable) (batch_id : CStr) : BatchesHashTable :=
  let key := hash batch_id ht.size
  let chain := chainAt ht.batches key
  match chain.find? (fun current => decide (strcmp current.batch_id batch_id = 0)) with
  | some _ =>
    { batches := setChain ht.batches key
        (chain.eraseP (fun current => decide (strcmp current.batch_id batch_id = 0))),
      batch_count := ht.batch_count - 1 }
  | none => ht

/-- What `listBatchesInSystemByGivenNames` prints for one requested name: a batch
(`printBatch`) or the error `ENOSUCHVACCINE` with the name. -/
inductive BatchListing where
  | batch (batch_info : BatchInfo)
  | noSuchVaccine (name : CStr)
deriving DecidableEq, Repr

/-- The scan of `listBatchesInSystemByGivenNames` for one name: the buckets in
ascending order, each chain from its head, until a node carries the vaccine name. -/
def firstBatchWithVaccine (ht : BatchesHashTable) (name : CStr) : Option Batches :=
  ht.batches.findSome? (fun chain =>
    chain.find? (fun current => decide (strcmp current.batch_info.vaccine_name name = 0)))

/-- batch.c `listBatchesInSystemByGivenNames`: what is printed, in order.  The loop
over `vaccineNames` starts at index 1 and `count` is the length of the list. -/
def listBatchesInSystemByGivenNames (ht : BatchesHashTable) (vaccineNames : List CStr) :
    List BatchListing :=
  (vaccineNames.drop 1).map (fun name =>
    match firstBatchWithVaccine ht name with
    | some current => BatchListing.batch current.batch_info
    | none => BatchListing.noSuchVaccine name)

/-! ## Sorting (batch.c and records.c share the algorithm) -/

/-- Read of `a[i]` with an `int` index; `none` outside the array. -/
def readAt {α : Type} (a : List α) (i : Int) : Option α :=
  if i < 0 then none else a[i.toNat]?

/-- The calls `swapBatches(&a[i], &a[j])` and `swap_records(&a[i], &a[j])`;
`none` if an index is outside the array. -/
def swapAt {α : Type} (a : List α) (i j : Int) : Option (List α) :=
  match readAt a i, readAt a j with
  | some x, some y => some ((a.set i.toNat y).set j.toNat x)
  | _, _ => none

/-- The values `low, low + 1, ..., high - 1` of the loop variable `j`. -/
def loopRange (low high : Int) : List Int :=
  (List.range (high - low).toNat).map (fun t : Nat => low + (t : Int))

/-- One round of the partition loop: the array and `i` afterwards. -/
def partitionStep {α : Type} (cmp : α → α → Int) (pivot : α)
    (st : Option (List α × Int)) (j : Int) : Option (List α × Int) :=
  match st with
  | none => none
  | some (a, i) =>
    match readAt a j with
    | none => none
    | some x =>
      if cmp x pivot < 0 then
        match swapAt a (i + 1) j with
        | none => none
        | some a1 => some (a1, i + 1)
      else some (a, i)

/-- The partition of `partitionBatches` and `partition_records`: last element as
pivot; returns the array and the pivot index. -/
def partitionBy {α : Type} (cmp : α → α → Int) (a : List α) (low high : Int) :
    Option (List α × Int) :=
  match readAt a high with
  | none => none
  | some pivot =>
    match (loopRange low high).foldl (partitionStep cmp pivot) (some (a, low - 1)) with
    | none => none
    | some (a1, i) =>
      match swapAt a1 (i + 1) high with
      | none => none
      | some a2 => some (a2, i + 1)

/-- The recursion of `quicksortBatches` and `quicksort_records`; `fuel` bounds the
recursion depth and `none` is returned when it runs out or an access leaves the array. -/
def quicksortBy {α : Type} (cmp : α → α → Int) : Nat → List α → Int → Int → Option (List α)
  | 0, _, _, _ => none
  | fuel + 1, a, low, high =>
    if low < high then
      match partitionBy cmp a low high with
      | none => none
      | some (a1, pivotIndex) =>
        match quicksortBy cmp fuel a1 low (pivotIndex - 1) with
        | none => none
        | some a2 => quicksortBy cmp fuel a2 (pivotIndex + 1) high
    else some a

/-- batch.c `partitionBatches`. -/
def partitionBatches (batches : List BatchInfo) (low high : Int) :
    Option (List BatchInfo × Int) :=
  partitionBy compareBatches batches low high

/-- batch.c `quicksortBatches`. -/
def quicksortBatches (fuel : Nat) (batches : List BatchInfo) (low high : Int) :
    Option (List BatchInfo) :=
  quicksortBy compareBatches fuel batches low high

/-- batch.c `listAllBatchesInSystem`: the return value and the batches printed, in
order.  The buffer has room for `batch_count` pointers and receives one per node;
writing past its end is undefined, which the model reports as `none`.  The
recursion depth of the sort is bounded by the number of batches. -/
def listAllBatchesInSystem (ht : BatchesHashTable) : Option (Int × List BatchInfo) :=
  let batches_info := ht.nodes.map (fun current => current.batch_info)
  let batches_count : Int := batches_info.length
  if ht.batch_count < batches_count then none
  else
    match quicksortBatches (batches_info.length + 1) batches_info 0 (batches_count - 1) with
    | none => none
    | some sorted => some (1, sorted.take batches_count.toNat)

/-! ## records.c -/

/-- The C struct `VaccinationRecord`. -/
structure VaccinationRecord where
  record_id : Int
  user_name : CStr
  vaccine_name : CStr
  batch_id : CStr
  vaccination_date : Date
deriving DecidableEq, Repr

/-- The C struct `VaccinationRecordsUser`, a chain node: `records` holds the
`record_count` records of the user, `next` is the rest of the chain. -/
structure VaccinationRecordsUser where
  user : CStr
  records : List VaccinationRecord
deriving DecidableEq, Repr

/-- The field `record_count`. -/
def VaccinationRecordsUser.record_count (u : VaccinationRecordsUser) : Int := u.records.length

/-- The C struct `VaccinationRecordsHashtable`. -/
structure VaccinationRecordsHashtable where
  vaccination_records : List (List VaccinationRecordsUser)
  users_count : Int
  all_records_count : Int
deriving DecidableEq, Repr

/-- The field `size`: the number of buckets. -/
def VaccinationRecordsHashtable.size (ht : VaccinationRecordsHashtable) : Int :=
  ht.vaccination_records.length

/-- The user groups in the order of the loop over buckets and chains. -/
def VaccinationRecordsHashtable.users (ht : VaccinationRecordsHashtable) :
    List VaccinationRecordsUser :=
  ht.vaccination_records.flatten

/-- records.c `hash_user`, on the integers; `hash_user_int32` is the same loop in
the 32-bit arithmetic of `int`. -/
def hash_user (v : CStr) (table_size : Int) : Int :=
  v.foldl (fun h c => (127 * h + charVal c).tmod table_size) 0

/-- records.c `createVaccinationRecord`. -/
def createVaccinationRecord (user_name vaccine_name batch_id : CStr) (vaccination_date : Date)
    (id : Int) : VaccinationRecord :=
  { record_id := id, user_name := user_name, vaccine_name := vaccine_name,
    batch_id := batch_id, vaccination_date := vaccination_date }

/-- records.c `initVaccinationRecordsHashtable`. -/
def initVaccinationRecordsHashtable : VaccinationRecordsHashtable :=
  { vaccination_records := List.replicate INITIAL_TABLE_SIZE.toNat [],
    users_count := 0, all_records_count := 0 }

/-- records.c `resizeVaccinationRecordsHashtable`. -/
def resizeVaccinationRecordsHashtable (ht : VaccinationRecordsHashtable) (new_size : Int) :
    Int × VaccinationRecordsHashtable :=
  if new_size < INITIAL_TABLE_SIZE then (1, ht)
  else if new_size = ht.size then (1, ht)
  else
    let new_vaccination_records : List (List VaccinationRecordsUser) :=
      List.replicate new_size.toNat []
    (1, { ht with
          vaccination_records :=
            rehash (fun user => hash_user user.user new_size) ht.users new_vaccination_records })

/-- records.c `findUser`. -/
def findUser (ht : VaccinationRecordsHashtable) (user_name : CStr) :
    Option VaccinationRecordsUser :=
  (chainAt ht.vaccination_records (hash_user user_name ht.size)).find?
    (fun user => decide (strcmp user.user user_name = 0))

/-- records.c `userExistInSystem`. -/
def userExistInSystem (ht : VaccinationRecordsHashtable) (user : CStr) : Bool :=
  (findUser ht user).isSome

/-- records.c `isAlreadyVaccinated`, for a user group that exists. -/
def isAlreadyVaccinated (user : VaccinationRecordsUser) (vaccine_name : CStr) (date : Date) :
    Bool :=
  user.records.any (fun r =>
    decide (strcmp r.vaccine_name vaccine_name = 0) &&
    decide (compareDate1Date2 r.vaccination_date date = 0))

/-- The array update of `insertIntoExistingUserRecords`: `i` runs past the leading
records whose date is not later than the new one, the rest is shifted up by one
and the new record is stored at `i`. -/
def insertRecordSorted (records : List VaccinationRecord) (record : VaccinationRecord) :
    List VaccinationRecord :=
  records.takeWhile
      (fun r => decide (compareDate1Date2 r.vaccination_date record.vaccination_date ≤ 0)) ++
    record :: records.dropWhile
      (fun r => decide (compareDate1Date2 r.vaccination_date record.vaccination_date ≤ 0))

/-- records.c `insertIntoExistingUserRecords`; `user` is the group `findUser`
returned for `user_name`, the first match of its chain. -/
def insertIntoExistingUserRecords (ht : VaccinationRecordsHashtable)
    (user : VaccinationRecordsUser) (user_name vaccine_name batch_id : CStr)
    (vaccination_date : Date) : Int × VaccinationRecordsHashtable :=
  if isAlreadyVaccinated user vaccine_name vaccination_date then (2, ht)
  else
    let record := createVaccinationRecord user_name vaccine_name batch_id vaccination_date
      ht.all_records_count
    let index := hash_user user_name ht.size
    (1, { ht with
          vaccination_records := setChain ht.vaccination_records index
            (modifyFirst (fun u => decide (strcmp u.user user_name = 0))
              (fun u => { u with records := insertRecordSorted u.records record })
              (chainAt ht.vaccination_records index)),
          all_records_count := ht.all_records_count + 1 })

/-- records.c `insertVaccinationRecord`: the return value (`1` inserted, `2`
already vaccinated) and the table afterwards.  The test
`(float)users_count / size >= 0.75` is the comparison `4 * users_count ≥ 3 * size`
up to `2 ^ 23` buckets. -/
def insertVaccinationRecord (ht : VaccinationRecordsHashtable)
    (user_name vaccine_name batch_id : CStr) (vaccination_date : Date) :
    Int × VaccinationRecordsHashtable :=
  let ht1 := if 4 * ht.users_count ≥ 3 * ht.size then
      (resizeVaccinationRecordsHashtable ht (nextPrime (ht.size * 2))).2
    else ht
  let index := hash_user user_name ht1.size
  match findUser ht1 user_name with
  | some user =>
    insertIntoExistingUserRecords ht1 user user_name vaccine_name batch_id vaccination_date
  | none =>
    let user : VaccinationRecordsUser :=
      { user := user_name,
        records := [createVaccinationRecord user_name vaccine_name batch_id vaccination_date
          ht1.all_records_count] }
    (1, { vaccination_records := setChain ht1.vaccination_records index
            (user :: chainAt ht1.vaccination_records index),
          users_count := ht1.users_count + 1,
          all_records_count := ht1.all_records_count + 1 })

/-- records.c `compare_records`: by date, then by record id. -/
def compare_records (record1 record2 : VaccinationRecord) : Int :=
  let date_cmp := compareDate1Date2 record1.vaccination_date record2.vaccination_date
  if date_cmp = 0 then
    if record1.record_id < record2.record_id then -1
    else if record1.record_id > record2.record_id then 1
    else 0
  else date_cmp

/-- records.c `partition_records`. -/
def partition_records (records : List VaccinationRecord) (low high : Int) :
    Option (List VaccinationRecord × Int) :=
  partitionBy compare_records records low high

/-- records.c `quicksort_records`. -/
def quicksort_records (fuel : Nat) (records : List VaccinationRecord) (low high : Int) :
    Option (List VaccinationRecord) :=
  quicksortBy compare_records fuel records low high

/-- records.c `listAllRecordsInSystem`: the return value and the records printed,
in order.  The buffer has room for `all_records_count` pointers and receives one
per stored record; the first `all_records_count` entries are sorted and printed.
Writing past the end of the buffer or reading an entry that was never written is
undefined, which the model reports as `none`. -/
def listAllRecordsInSystem (ht : VaccinationRecordsHashtable) :
    Option (Int × List VaccinationRecord) :=
  let sys_records_num := ht.all_records_count
  let all_records := ht.users.flatMap (fun user => user.records)
  if sys_records_num ≠ (all_records.length : Int) then none
  else
    match quicksort_records (all_records.length + 1) all_records 0 (sys_records_num - 1) with
    | none => none
    | some sorted => some (1, sorted.take sys_records_num.toNat)

/-- records.c `listAllUserRecordsInSystem`: the records printed for a user that exists. -/
def listAllUserRecordsInSystem (ht : VaccinationRecordsHashtable) (name : CStr) :
    List VaccinationRecord :=
  match findUser ht name with
  | some user => user.records
  | none => []

/-- records.c `deleteRecordVaccinationRecordsUser`: the return value and the
table afterwards. -/
def deleteRecordVaccinationRecordsUser (ht : VaccinationRecordsHashtable) (user_name : CStr) :
    Int × VaccinationRecordsHashtable :=
  let index := hash_user user_name ht.size
  let chain := chainAt ht.vaccination_records index
  let r : Int × VaccinationRecordsHashtable :=
    match chain.find? (fun curr => decide (strcmp curr.user user_name = 0)) with
    | some curr =>
      (curr.record_count,
       { ht with
         vaccination_records := setChain ht.vaccination_records index
           (chain.eraseP (fun curr => decide (strcmp curr.user user_name = 0))),
         all_records_count := ht.all_records_count - curr.record_count })
    | none => (0, ht)
  let ht1 : VaccinationRecordsHashtable := { r.2 with users_count := r.2.users_count - 1 }
  if 4 * ht1.users_count < ht1.size then
    (r.1, (resizeVaccinationRecordsHashtable ht1 (nextPrime (ht1.size / 2))).2)
  else (r.1, ht1)

/-- The compaction shared by the two record deletions: the records that satisfy
`gone` are freed, the others kept in order; the group is deleted when none is left.
For a user that does not exist the source dereferences `NULL`; the model leaves
the table as it is. -/
def deleteRecordsWhere (ht : VaccinationRecordsHashtable) (user_name : CStr)
    (gone : VaccinationRecord → Bool) : Int × VaccinationRecordsHashtable :=
  match findUser ht user_name with
  | none => (0, ht)
  | some user =>
    let new_records := user.records.filter (fun r => !gone r)
    let deleted : Int := (user.records.filter gone).length
    let index := hash_user user_name ht.size
    let ht1 : VaccinationRecordsHashtable :=
      { ht with
        vaccination_records := setChain ht.vaccination_records index
          (modifyFirst (fun u => decide (strcmp u.user user_name = 0))
            (fun u => { u with records := new_records })
            (chainAt ht.vaccination_records index)),
        all_records_count := ht.all_records_count - deleted }
    if new_records.length = 0 then
      (deleted, (deleteRecordVaccinationRecordsUser ht1 user_name).2)
    else (deleted, ht1)

/-- records.c `deleteRecordByNameAndDate`. -/
def deleteRecordByNameAndDate (ht : VaccinationRecordsHashtable) (user_name : CStr)
    (vaccination_date : Date) : Int × VaccinationRecordsHashtable :=
  deleteRecordsWhere ht user_name
    (fun r => decide (compareDate1Date2 r.vaccination_date vaccination_date = 0))

/-- records.c `deleteRecordByNameDateAndBatchID`. -/
def deleteRecordByNameDateAndBatchID (ht : VaccinationRecordsHashtable) (user_name : CStr)
    (vaccination_date : Date) (batch_id : CStr) : Int × VaccinationRecordsHashtable :=
  deleteRecordsWhere ht user_name
    (fun r => decide (compareDate1Date2 r.vaccination_date vaccination_date = 0) &&
      decide (strcmp r.batch_id batch_id = 0))

/-! ## system.h and the command handlers of project.c -/

/-- The C struct `VaccinationSystem`. -/
structure VaccinationSystem where
  batches_ht : BatchesHashTable
  records_ht : VaccinationRecordsHashtable
  current_date : Date
deriving DecidableEq, Repr

/-- project.c `removeBatchInput` on the identifier read from the command line: a
batch with no application is unlinked, any other has its doses set to `0`. -/
def removeBatchInput (vaccinationSystem : VaccinationSystem) (batch_id : CStr) :
    VaccinationSystem :=
  match searchBatchInSystem vaccinationSystem.batches_ht batch_id with
  | none => vaccinationSystem
  | some batch =>
    if batch.batch_info.applications = 0 then
      { vaccinationSystem with
        batches_ht := removeBatchFromSystem vaccinationSystem.batches_ht batch_id }
    else
      let ht := vaccinationSystem.batches_ht
      let key := hash batch_id ht.size
      { vaccinationSystem with
        batches_ht :=
          { ht with
            batches := setChain ht.batches key
              (modifyFirst (fun current => decide (strcmp current.batch_id batch_id = 0))
                (fun current => { current with
                  batch_info := { current.batch_info with doses := 0 } })
                (chainAt ht.batches key)) } }

/-! ## Predicates used in the statements -/

/-- Every byte of the string is below 128, so `char` reads it as itself. -/
def isAscii (s : CStr) : Prop := ∀ b ∈ s, b < 128

instance (s : CStr) : Decidable (isAscii s) := by unfold isAscii; infer_instance

/-- Every node of every chain sits in the bucket its key selects. -/
def Placed {α : Type} (key : α → Int) (bs : List (List α)) : Prop :=
  ∀ j : Nat, j < bs.length → ∀ x ∈ bs.getD j [], key x = (j : Int)

/-- The well-formed record tables: at least one bucket, every user group in the
bucket its name hashes to, user names pairwise distinct and made of bytes below 128. -/
structure RecordsWF (ht : VaccinationRecordsHashtable) : Prop where
  size_pos : 0 < ht.size
  placed : Placed (fun u => hash_user u.user ht.size) ht.vaccination_records
  nodup : (ht.users.map (fun u => u.user)).Nodup
  ascii : ∀ u ∈ ht.users, isAscii u.user

instance {α : Type} (key : α → Int) (bs : List (List α)) : Decidable (Placed key bs) := by
  unfold Placed; infer_instance

instance (ht : VaccinationRecordsHashtable) : Decidable (RecordsWF ht) :=
  decidable_of_iff
    (0 < ht.size ∧ Placed (fun u => hash_user u.user ht.size) ht.vaccination_records ∧
      (ht.users.map (fun u => u.user)).Nodup ∧ ∀ u ∈ ht.users, isAscii u.user)
    ⟨fun h => ⟨h.1, h.2.1, h.2.2.1, h.2.2.2⟩, fun h => ⟨h.1, h.2, h.3, h.4⟩⟩

/-- The part of `insertVaccinationRecord` that follows the load-factor test, run on
the table `ht1` that test leaves. -/
def insertAfterGrow (ht1 : VaccinationRecordsHashtable)
    (user_name vaccine_name batch_id : CStr) (vaccination_date : Date) :
    Int × VaccinationRecordsHashtable :=
  match findUser ht1 user_name with
  | some user =>
    insertIntoExistingUserRecords ht1 user user_name vaccine_name batch_id vaccination_date
  | none =>
    (1, { vaccination_records := setChain ht1.vaccination_records
            (hash_user user_name ht1.size)
            ({ user := user_name,
               records := [createVaccinationRecord user_name vaccine_name batch_id
                 vaccination_date ht1.all_records_count] } ::
              chainAt ht1.vaccination_records (hash_user user_name ht1.size)),
          users_count := ht1.users_count + 1,
          all_records_count := ht1.all_records_count + 1 })

/-- The array `a1` holds the entries of `a`, rearranged inside the index range
`low..high` only. -/
structure SegPerm {α : Type} (a a1 : List α) (low high : Int) : Prop where
  perm : a1.Perm a
  frame : ∀ k : Nat, ((k : Int) < low ∨ high < (k : Int)) → a1[k]? = a[k]?
  seg : ∀ P : α → Prop,
    (∀ k : Nat, low ≤ (k : Int) → (k : Int) ≤ high → ∀ x, a[k]? = some x → P x) →
    ∀ k : Nat, low ≤ (k : Int) → (k : Int) ≤ high → ∀ x, a1[k]? = some x → P x

/-- The entries of the index range `low..high` are in non-decreasing order for `cmp`. -/
def SortedSeg {α : Type} (cmp : α → α → Int) (a : List α) (low high : Int) : Prop :=
  ∀ k l : Nat, low ≤ (k : Int) → k < l → (l : Int) ≤ high →
    ∀ x y, a[k]? = some x → a[l]? = some y → cmp x y ≤ 0

/-- What the sorting proofs need of a comparison function: its non-positive
results form a total preorder. -/
structure CmpOrder {α : Type} (cmp : α → α → Int) : Prop where
  total : ∀ a b, ¬ cmp a b < 0 → cmp b a ≤ 0
  trans : ∀ a b c, cmp a b ≤ 0 → cmp b c ≤ 0 → cmp a c ≤ 0

/-- The first part of `deleteRecordVaccinationRecordsUser`: the group is unlinked
and its records are counted off, and `users_count` is decremented. -/
def unlinkUser (ht : VaccinationRecordsHashtable) (user_name : CStr) :
    Int × VaccinationRecordsHashtable :=
  match (chainAt ht.vaccination_records (hash_user user_name ht.size)).find?
      (fun curr => decide (strcmp curr.user user_name = 0)) with
  | some curr =>
    (curr.record_count,
     { vaccination_records := setChain ht.vaccination_records (hash_user user_name ht.size)
         ((chainAt ht.vaccination_records (hash_user user_name ht.size)).eraseP
           (fun curr => decide (strcmp curr.user user_name = 0))),
       users_count := ht.users_count - 1,
       all_records_count := ht.all_records_count - curr.record_count })
  | none => (0, { ht with users_count := ht.users_count - 1 })

/-- The last part of `deleteRecordVaccinationRecordsUser`: the table is resized to
`nextPrime(size / 2)` when the load factor is below 0.25.  The test
`(float)users_count / size < 0.25` is the comparison `4 * users_count < size` up
to `2 ^ 23` buckets. -/
def shrinkIfSparse (ht1 : VaccinationRecordsHashtable) : VaccinationRecordsHashtable :=
  if 4 * ht1.users_count < ht1.size then
    (resizeVaccinationRecordsHashtable ht1 (nextPrime (ht1.size / 2))).2
  else ht1

/-- The compaction step of a record deletion: the records of the group are
replaced by the kept ones and `all_records_count` is lowered by the number freed. -/
def compactUser (ht : VaccinationRecordsHashtable) (user_name : CStr)
    (new_records : List VaccinationRecord) (deleted : Int) : VaccinationRecordsHashtable :=
  { vaccination_records := setChain ht.vaccination_records (hash_user user_name ht.size)
      (modifyFirst (fun u => decide (strcmp u.user user_name = 0))
        (fun u => ⟨u.user, new_records⟩)
        (chainAt ht.vaccination_records (hash_user user_name ht.size))),
    users_count := ht.users_count,
    all_records_count := ht.all_records_count - deleted }

/-- The invariant of the reachable record tables used for the bucket count: at
least 101 buckets, an odd number of them, and a load factor that was below 0.75
before the last user was counted. -/
def RecordsSizeInv (ht : VaccinationRecordsHashtable) : Prop :=
  INITIAL_TABLE_SIZE ≤ ht.size ∧ ht.size % 2 = 1 ∧ 4 * (ht.users_count - 1) < 3 * ht.size

/-- The invariant of the reachable batch tables used for the bucket count: between
101 and 7993 buckets, and below the cap a load factor that was below 0.75 before
the last batch was counted. -/
def BatchSizeInv (ht : BatchesHashTable) : Prop :=
  INITIAL_TABLE_SIZE ≤ ht.size ∧ ht.size ≤ MAX_TABLE_SIZE ∧
    (ht.size < MAX_TABLE_SIZE → 4 * (ht.batch_count - 1) < 3 * ht.size)

/-! ## Operations and reachable tables -/

/-- Apply `f` to the first node, in the order of the bucket scan, that satisfies `p`:
a mutation through the pointer a scan of the whole table returned. -/
def modifyFirstInBuckets {α : Type} (p : α → Bool) (f : α → α) :
    List (List α) → List (List α)
  | [] => []
  | chain :: rest =>
    if chain.any p then modifyFirst p f chain :: rest
    else chain :: modifyFirstInBuckets p f rest

/-- The effect of `applyVaccineInput` on the batch table when the record is
inserted: `batch_info->applications++` through the pointer that
`oldestExistingValidBatchByVaccineName` returned.  The scan keeps the first node
it meets among those of the earliest date, so that node is the first one of the
scan that carries the returned data. -/
def applyToOldestBatch (ht : BatchesHashTable) (vaccine_name : CStr) (current_date : Date) :
    BatchesHashTable :=
  match oldestExistingValidBatchByVaccineName ht vaccine_name current_date with
  | none => ht
  | some batch_info =>
    { ht with
      batches := modifyFirstInBuckets (fun n => decide (n.batch_info = batch_info))
        (fun n => ⟨n.batch_id, { n.batch_info with applications := n.batch_info.applications + 1 }⟩)
        ht.batches }

/-- The operations of the batch table: creation, removal (`removeBatchInput`: full
or soft), application of a dose, and the read-only lookups and listings. -/
inductive BatchOp where
  | insert (batch_id : CStr) (date : Date) (doses : Int) (vaccine_name : CStr)
  | remove (batch_id : CStr)
  | applyVaccine (vaccine_name : CStr) (current_date : Date)
  | find (batch_id : CStr)
  | listAll
  | listByNames (vaccineNames : List CStr)
  | oldest (vaccine_name : CStr) (current_date : Date)

/-- The batch table after an operation.  `searchBatchInSystem`,
`listAllBatchesInSystem`, `listBatchesInSystemByGivenNames` and
`oldestExistingValidBatchByVaccineName` write nothing to the table. -/
def BatchOp.run : BatchOp → BatchesHashTable → BatchesHashTable
  | .insert batch_id date doses vaccine_name, ht =>
    (insertBatchInSystem ht batch_id date doses vaccine_name).2
  | .remove batch_id, ht =>
    (removeBatchInput
      { batches_ht := ht, records_ht := initVaccinationRecordsHashtable,
        current_date := ⟨1, 1, 2025⟩ } batch_id).batches_ht
  | .applyVaccine vaccine_name current_date, ht =>
    applyToOldestBatch ht vaccine_name current_date
  | .find _, ht => ht
  | .listAll, ht => ht
  | .listByNames _, ht => ht
  | .oldest _ _, ht => ht

/-- The batch tables reachable from the initial table. -/
inductive BatchReachable : BatchesHashTable → Prop
  | init : BatchReachable initBatchesHashTable
  | step (ht : BatchesHashTable) (op : BatchOp) :
      BatchReachable ht → BatchReachable (op.run ht)

/-- The mutating operations of the record table. -/
inductive RecordsOp where
  | insert (user_name vaccine_name batch_id : CStr) (vaccination_date : Date)
  | deleteUser (user_name : CStr)
  | deleteByDate (user_name : CStr) (vaccination_date : Date)
  | deleteByDateAndBatch (user_name : CStr) (vaccination_date : Date) (batch_id : CStr)

/-- The record table after an operation. -/
def RecordsOp.run : RecordsOp → VaccinationRecordsHashtable → VaccinationRecordsHashtable
  | .insert user_name vaccine_name batch_id vaccination_date, ht =>
    (insertVaccinationRecord ht user_name vaccine_name batch_id vaccination_date).2
  | .deleteUser user_name, ht => (deleteRecordVaccinationRecordsUser ht user_name).2
  | .deleteByDate user_name vaccination_date, ht =>
    (deleteRecordByNameAndDate ht user_name vaccination_date).2
  | .deleteByDateAndBatch user_name vaccination_date batch_id, ht =>
    (deleteRecordByNameDateAndBatchID ht user_name vaccination_date batch_id).2

/-- The guard of the callers in project.c: the three deletions are called only for
a user that `userExistInSystem` finds. -/
def RecordsOp.allowed : RecordsOp → VaccinationRecordsHashtable → Bool
  | .insert _ _ _ _, _ => true
  | .deleteUser user_name, ht => userExistInSystem ht user_name
  | .deleteByDate user_name _, ht => userExistInSystem ht user_name
  | .deleteByDateAndBatch user_name _ _, ht => userExistInSystem ht user_name

/-- The record tables reachable from the initial table by inserts and deletes. -/
inductive RecordsReachable : VaccinationRecordsHashtable → Prop
  | init : RecordsReachable initVaccinationRecordsHashtable
  | step (ht : VaccinationRecordsHashtable) (op : RecordsOp) :
      RecordsReachable ht → op.allowed ht = true → RecordsReachable (op.run ht)

/-- Run a sequence of operations; `none` if one of them is not allowed. -/
def runRecordsOps : List RecordsOp → VaccinationRecordsHashtable →
    Option VaccinationRecordsHashtable
  | [], ht => some ht
  | op :: ops, ht => if op.allowed ht then runRecordsOps ops (op.run ht) else none

/-- Run a sequence of batch operations. -/
def runBatchOps (ops : List BatchOp) (ht : BatchesHashTable) : BatchesHashTable :=
  ops.foldl (fun h op => op.run h) ht

/-- A sample user name: two lower-case letters. -/
def sampleUser (n : Nat) : CStr := [97 + n / 26, 97 + n % 26]

/-- A sample batch identifier: two hexadecimal digits. -/
def sampleBatch (n : Nat) : CStr :=
  [(if n / 16 < 10 then 48 + n / 16 else 55 + n / 16),
   (if n % 16 < 10 then 48 + n % 16 else 55 + n % 16)]

/-- Vaccinate the sample users `0 .. n-1`, each once, on 2025-01-10. -/
def insertSampleUsers (n : Nat) : List RecordsOp :=
  (List.range n).map (fun k => RecordsOp.insert (sampleUser k) [86] [65] ⟨10, 1, 2025⟩)

/-- Delete all records of the sample users `0 .. n-1`. -/
def deleteSampleUsers (n : Nat) : List RecordsOp :=
  (List.range n).map (fun k => RecordsOp.deleteUser (sampleUser k))

/-- Create the sample batches `0 .. n-1`. -/
def insertSampleBatches (n : Nat) : List BatchOp :=
  (List.range n).map (fun k => BatchOp.insert (sampleBatch k) ⟨10, 1, 2025⟩ 5 [86])

/-- A sample record table: user `a` vaccinated on 2025-01-10 (batch `A`) and twice
on 2025-01-11 (batches `A` and `B`), user `b` once on 2025-01-10. -/
def sampleRecordsTable : VaccinationRecordsHashtable :=
  (insertVaccinationRecord
    (insertVaccinationRecord
      (insertVaccinationRecord
        (insertVaccinationRecord initVaccinationRecordsHashtable
          [97] [86, 49] [65] ⟨10, 1, 2025⟩).2
        [98] [86, 49] [65] ⟨10, 1, 2025⟩).2
      [97] [86, 50] [65] ⟨11, 1, 2025⟩).2
    [97] [86, 51] [66] ⟨11, 1, 2025⟩).2

/-- The group of user `a` in `sampleRecordsTable`. -/
def sampleGroupA : VaccinationRecordsUser :=
  { user := [97],
    records := [⟨0, [97], [86, 49], [65], ⟨10, 1, 2025⟩⟩,
                ⟨2, [97], [86, 50], [65], ⟨11, 1, 2025⟩⟩,
                ⟨3, [97], [86, 51], [66], ⟨11, 1, 2025⟩⟩] }

/-- The group of user `b` in `sampleRecordsTable`. -/
def sampleGroupB : VaccinationRecordsUser :=
  { user := [98], records := [⟨1, [98], [86, 49], [65], ⟨10, 1, 2025⟩⟩] }

/-! ## date.c: validity of a date; utils.c: validation of the input -/

/-- date.c `isLeapYear`. -/
def isLeapYear (year : Int) : Bool :=
  (decide (year.tmod 4 = 0) && decide (year.tmod 100 ≠ 0)) || decide (year.tmod 400 = 0)

/-- date.c `days_of_month` (`APR = 4`, `JUNE = 6`, `SEPT = 9`, `NOV = 11`, `FEB = 2`,
`OCT = 10`). -/
def days_of_month (month year : Int) : Int :=
  if month = 4 ∨ month = 6 ∨ month = 9 ∨ month = 11 then 30
  else if month = 2 then (if isLeapYear year then 29 else 28)
  else if month = 10 then (if year = 1582 then 21 else 31)
  else 31

/-- date.c `validDate`: the fields of `date` are in range and `date` is not
earlier than `system_date`. -/
def validDate (system_date date : Date) : Bool :=
  if date.year < 0 ∨ ¬ (1 ≤ date.month ∧ date.month ≤ 12) ∨
      ¬ (1 ≤ date.day ∧ date.day ≤ days_of_month date.month date.year) ∨
      expiredVaccineDate system_date date = true then false
  else true

/-- utils.c `validBatch`: six fields were read, and the identifier has 1 to 20
characters, each of them in `0`..`9` or `A`..`F`. -/
def validBatch (batch : CStr) (num_args : Int) : Bool :=
  if num_args ≠ 6 then false
  else if (batch.length : Int) = 0 ∨ (batch.length : Int) > MAX_BATCH_NAME_SIZE then false
  else batch.all (fun c =>
    decide ((48 ≤ charVal c ∧ charVal c ≤ 57) ∨ (65 ≤ charVal c ∧ charVal c ≤ 70)))

/-- The C library `isspace` in the "C" locale: space, `\t`, `\n`, `\v`, `\f`, `\r`. -/
def isspace (c : Int) : Bool := decide (c = 32 ∨ (9 ≤ c ∧ c ≤ 13))

/-- The loop of `validName`; `slash_found` says that the previous character was a
backslash. -/
def validNameLoop : CStr → Bool → Bool
  | [], _ => true
  | c :: rest, slash_found =>
    if isspace (charVal c) then false
    else if slash_found && (decide (charVal c = 110) || decide (charVal c = 116)) then false
    else validNameLoop rest (decide (charVal c = 92))

/-- utils.c `validName`. -/
def validName (name : CStr) (num_args : Int) : Bool :=
  if num_args ≠ 6 then false
  else if (name.length : Int) = 0 ∨ (name.length : Int) > MAX_VACCINE_NAME_SIZE then false
  else validNameLoop name false

/-- utils.c `validDosesNumber`. -/
def validDosesNumber (doses_number : Int) : Bool := !decide (doses_number < 0)

/-- batch.c `validBatchNumber`: no stored batch has this identifier. -/
def validBatchNumber (ht : BatchesHashTable) (batch_id : CStr) : Bool :=
  (searchBatchInSystem ht batch_id).isNone

/-! ## system.c and the command handlers of project.c

Each handler takes the fields that `sscanf` read from the command line and
returns the system afterwards. -/

/-- system.c `initVaccinationSystem`. -/
def initVaccinationSystem : VaccinationSystem :=
  { batches_ht := initBatchesHashTable, records_ht := initVaccinationRecordsHashtable,
    current_date := ⟨1, 1, 2025⟩ }

/-- project.c `validcreateBatchInput`. -/
def validcreateBatchInput (batch name : CStr) (date : Date) (doses_number : Int)
    (vs : VaccinationSystem) (num_args : Int) : Bool :=
  if !validBatch batch num_args || !validBatchNumber vs.batches_ht batch ||
      !validName name num_args || !validDate vs.current_date date ||
      !validDosesNumber doses_number then false
  else true

/-- project.c `createBatchInput` with `parseCreateBatchInput`: the capacity test
comes first, then the validation of the fields, then the insertion. -/
def createBatchInput (vaccinationSystem : VaccinationSystem) (num_args : Int) (batch : CStr)
    (date : Date) (doses_number : Int) (name : CStr) : VaccinationSystem :=
  if tooManyBatchesInSystem vaccinationSystem.batches_ht then vaccinationSystem
  else if !validcreateBatchInput batch name date doses_number vaccinationSystem num_args then
    vaccinationSystem
  else
    { vaccinationSystem with
      batches_ht :=
        (insertBatchInSystem vaccinationSystem.batches_ht batch date doses_number name).2 }

/-- project.c `applyVaccineInput` with `parseApplyVaccineInput`: the record is
inserted against the oldest valid batch of the vaccine, dated with the current
date; the batch counts one more application unless the insertion answers `2`. -/
def applyVaccineInput (vaccinationSystem : VaccinationSystem) (name vaccine_name : CStr) :
    VaccinationSystem :=
  match oldestExistingValidBatchByVaccineName vaccinationSystem.batches_ht vaccine_name
      vaccinationSystem.current_date with
  | none => vaccinationSystem
  | some batch_info =>
    let result := insertVaccinationRecord vaccinationSystem.records_ht name vaccine_name
      batch_info.batch vaccinationSystem.current_date
    if result.1 = 2 then { vaccinationSystem with records_ht := result.2 }
    else
      { vaccinationSystem with
        records_ht := result.2,
        batches_ht := applyToOldestBatch vaccinationSystem.batches_ht vaccine_name
          vaccinationSystem.current_date }

/-- project.c `deleteRecordInput1Arg`: the value printed (`-1` for none) and the
system afterwards. -/
def deleteRecordInput1Arg (vaccinationSystem : VaccinationSystem) (name : CStr) :
    Int × VaccinationSystem :=
  if !userExistInSystem vaccinationSystem.records_ht name then (-1, vaccinationSystem)
  else
    ((deleteRecordVaccinationRecordsUser vaccinationSystem.records_ht name).1,
     { vaccinationSystem with
       records_ht := (deleteRecordVaccinationRecordsUser vaccinationSystem.records_ht name).2 })

/-- project.c `deleteRecordInput2Args`; the source calls
`validDate(date, vaccinationSystem->current_date, pt)`, in this order. -/
def deleteRecordInput2Args (vaccinationSystem : VaccinationSystem) (name : CStr)
    (date : Date) : Int × VaccinationSystem :=
  if !userExistInSystem vaccinationSystem.records_ht name then (-1, vaccinationSystem)
  else if !validDate date vaccinationSystem.current_date then (-1, vaccinationSystem)
  else
    ((deleteRecordByNameAndDate vaccinationSystem.records_ht name date).1,
     { vaccinationSystem with
       records_ht := (deleteRecordByNameAndDate vaccinationSystem.records_ht name date).2 })

/-- project.c `validDeleteRecordInput3Args`. -/
def validDeleteRecordInput3Args (vaccinationSystem : VaccinationSystem) (name batch_name : CStr)
    (date : Date) : Int :=
  if !userExistInSystem vaccinationSystem.records_ht name then -1
  else if !validDate date vaccinationSystem.current_date then -1
  else if (searchBatchInSystem vaccinationSystem.batches_ht batch_name).isNone then -1
  else 1

/-- project.c `deleteRecordInput3Args`. -/
def deleteRecordInput3Args (vaccinationSystem : VaccinationSystem) (name : CStr)
    (date : Date) (batch_name : CStr) : Int × VaccinationSystem :=
  if validDeleteRecordInput3Args vaccinationSystem name batch_name date = -1 then
    (-1, vaccinationSystem)
  else
    ((deleteRecordByNameDateAndBatchID vaccinationSystem.records_ht name date batch_name).1,
     { vaccinationSystem with
       records_ht :=
         (deleteRecordByNameDateAndBatchID vaccinationSystem.records_ht name date
           batch_name).2 })

/-- project.c `passTimeInput`. -/
def passTimeInput (vaccinationSystem : VaccinationSystem) (date : Date) : VaccinationSystem :=
  if !validDate vaccinationSystem.current_date date then vaccinationSystem
  else { vaccinationSystem with current_date := date }

/-- The commands of `handleInputSwitch` (`c`, `l`, `a`, `r`, `d` with one, two or
three arguments, `u`, `t`) with the fields read from the line. -/
inductive SysOp where
  | createBatch (num_args : Int) (batch : CStr) (date : Date) (doses_number : Int) (name : CStr)
  | listBatches
  | applyVaccine (name vaccine_name : CStr)
  | removeBatch (batch_id : CStr)
  | deleteRecord1 (name : CStr)
  | deleteRecord2 (name : CStr) (date : Date)
  | deleteRecord3 (name : CStr) (date : Date) (batch_name : CStr)
  | listRecords
  | passTime (date : Date)

/-- The system after a command; the listings write nothing. -/
def SysOp.run : SysOp → VaccinationSystem → VaccinationSystem
  | .createBatch num_args batch date doses_number name, vs =>
    createBatchInput vs num_args batch date doses_number name
  | .listBatches, vs => vs
  | .applyVaccine name vaccine_name, vs => applyVaccineInput vs name vaccine_name
  | .removeBatch batch_id, vs => removeBatchInput vs batch_id
  | .deleteRecord1 name, vs => (deleteRecordInput1Arg vs name).2
  | .deleteRecord2 name date, vs => (deleteRecordInput2Args vs name date).2
  | .deleteRecord3 name date batch_name, vs => (deleteRecordInput3Args vs name date batch_name).2
  | .listRecords, vs => vs
  | .passTime date, vs => passTimeInput vs date

/-- The values of the list are bytes. -/
def isBytes (s : CStr) : Prop := ∀ b ∈ s, b < 256

instance (s : CStr) : Decidable (isBytes s) := by unfold isBytes; infer_instance

/-- The strings read from the command line are strings of bytes. -/
def SysOp.bytes : SysOp → Prop
  | .createBatch _ batch _ _ name => isBytes batch ∧ isBytes name
  | .listBatches => True
  | .applyVaccine name vaccine_name => isBytes name ∧ isBytes vaccine_name
  | .removeBatch batch_id => isBytes batch_id
  | .deleteRecord1 name => isBytes name
  | .deleteRecord2 name _ => isBytes name
  | .deleteRecord3 name _ batch_name => isBytes name ∧ isBytes batch_name
  | .listRecords => True
  | .passTime _ => True

instance (op : SysOp) : Decidable op.bytes := by
  cases op <;> unfold SysOp.bytes <;> infer_instance

/-- The system states reachable from the initial state by commands. -/
inductive SysReachable : VaccinationSystem → Prop
  | init : SysReachable initVaccinationSystem
  | step (vs : VaccinationSystem) (op : SysOp) :
      SysReachable vs → op.bytes → SysReachable (op.run vs)

/-- Run a sequence of commands. -/
def runSysOps (ops : List SysOp) (vs : VaccinationSystem) : VaccinationSystem :=
  ops.foldl (fun s op => op.run s) vs

/-- The well-formed batch tables: at least one bucket, every node in the bucket
its identifier hashes to, identifiers pairwise distinct and made of bytes below 128. -/
structure BatchesWF (ht : BatchesHashTable) : Prop where
  size_pos : 0 < ht.size
  placed : Placed (fun n => hash n.batch_id ht.size) ht.batches
  nodup : (ht.nodes.map (fun n => n.batch_id)).Nodup
  ascii : ∀ n ∈ ht.nodes, isAscii n.batch_id

instance (ht : BatchesHashTable) : Decidable (BatchesWF ht) :=
  decidable_of_iff
    (0 < ht.size ∧ Placed (fun n => hash n.batch_id ht.size) ht.batches ∧
      (ht.nodes.map (fun n => n.batch_id)).Nodup ∧ ∀ n ∈ ht.nodes, isAscii n.batch_id)
    ⟨fun h => ⟨h.1, h.2.1, h.2.2.1, h.2.2.2⟩, fun h => ⟨h.1, h.2, h.3, h.4⟩⟩

/-- The records stored in the table, in the order of the scan of
`listAllRecordsInSystem`. -/
def storedRecords (ht : VaccinationRecordsHashtable) : List VaccinationRecord :=
  ht.users.flatMap (fun user => user.records)

/-- The leap years of the Gregorian calendar. -/
def gregorianLeapYear (year : Int) : Prop :=
  (year % 4 = 0 ∧ year % 100 ≠ 0) ∨ year % 400 = 0

instance (year : Int) : Decidable (gregorianLeapYear year) := by
  unfold gregorianLeapYear; infer_instance

/-- The number of days of a month of the Gregorian calendar. -/
def gregorianMonthLength (month year : Int) : Int :=
  if month = 2 then (if gregorianLeapYear year then 29 else 28)
  else if month = 4 ∨ month = 6 ∨ month = 9 ∨ month = 11 then 30
  else 31

/-- A date of the Gregorian calendar with a year that is not negative. -/
def calendarValid (date : Date) : Prop :=
  0 ≤ date.year ∧ 1 ≤ date.month ∧ date.month ≤ 12 ∧ 1 ≤ date.day ∧
    date.day ≤ gregorianMonthLength date.month date.year

instance (date : Date) : Decidable (calendarValid date) := by
  unfold calendarValid; infer_instance

/-- The node that `insertBatchInSystem` allocates: no application yet. -/
def newBatchNode (batch_id : CStr) (date : Date) (doses : Int) (vaccine_name : CStr) :
    Batches :=
  { batch_id := batch_id,
    batch_info := { batch := batch_id, date := date, doses := doses, applications := 0,
                    vaccine_name := vaccine_name } }

/-- The part of `insertBatchInSystem` that follows the load-factor test, run on the
table `ht1` that test leaves: the node is linked at the head of its chain. -/
def linkBatch (ht1 : BatchesHashTable) (new_node : Batches) : BatchesHashTable :=
  { batches := setChain ht1.batches (hash new_node.batch_id ht1.size)
      (new_node :: chainAt ht1.batches (hash new_node.batch_id ht1.size)),
    batch_count := ht1.batch_count + 1 }

/-- How one command may change the batch table: the table stays well formed; a
node stored afterwards is a node stored before, possibly with changed doses and
more applications, or a node of a new identifier with no application; a batch
with an application stays; and the counter goes up only below the capacity. -/
structure BatchStep (ht ht1 : BatchesHashTable) : Prop where
  wf : BatchesWF ht1
  back : ∀ y ∈ ht1.nodes,
    (∃ x ∈ ht.nodes, y.batch_id = x.batch_id ∧ y.batch_info.batch = x.batch_info.batch ∧
        x.batch_info.applications ≤ y.batch_info.applications) ∨
      ((∀ x ∈ ht.nodes, x.batch_id ≠ y.batch_id) ∧ y.batch_info.batch = y.batch_id ∧
        y.batch_info.applications = 0)
  keep : ∀ x ∈ ht.nodes, 1 ≤ x.batch_info.applications →
    ∃ y ∈ ht1.nodes, y.batch_id = x.batch_id ∧
      x.batch_info.applications ≤ y.batch_info.applications
  count : ht1.batch_count ≤ ht.batch_count ∨
    (ht.batch_count < MAX_BATCHES_NUMBER ∧ ht1.batch_count = ht.batch_count + 1)

/-- The invariant of the reachable system states: the batch table is well formed,
both copies of a batch identifier agree, no application count is negative, the
batch of every stored record is stored with at least one application, the batch
counter is within the capacity and the current date is not before 2025-01-01. -/
structure SysInv (vs : VaccinationSystem) : Prop where
  wf : BatchesWF vs.batches_ht
  ids : ∀ n ∈ vs.batches_ht.nodes, n.batch_info.batch = n.batch_id
  apps : ∀ n ∈ vs.batches_ht.nodes, 0 ≤ n.batch_info.applications
  used : ∀ r ∈ storedRecords vs.records_ht,
    ∃ n ∈ vs.batches_ht.nodes, n.batch_id = r.batch_id ∧ 1 ≤ n.batch_info.applications
  count : vs.batches_ht.batch_count ≤ MAX_BATCHES_NUMBER
  date : compareDate1Date2 ⟨1, 1, 2025⟩ vs.current_date ≤ 0

/-- A sample run: batch `A` of vaccine `V` (5 doses, valid until 2026-01-01) is
created and user `a` is vaccinated with `V`. -/
def sampleCommands : List SysOp :=
  [SysOp.createBatch 6 [65] ⟨1, 1, 2026⟩ 5 [86], SysOp.applyVaccine [97] [86]]

/-- The system after the sample run. -/
def sampleSystem : VaccinationSystem := runSysOps sampleCommands initVaccinationSystem

/-- The initial system with the batch counter set to the capacity. -/
def fullSystem : VaccinationSystem :=
  { batches_ht := { batches := initBatchesHashTable.batches, batch_count := 1000 },
    records_ht := initVaccinationRecordsHashtable, current_date := ⟨1, 1, 2025⟩ }

/-- A run of the record table that reuses a record id: `u` and `w` are vaccinated
twice each (ids 0 to 3), the records of `w` are deleted and `u` is vaccinated a
third time, all on 2025-01-10. -/
def reusedIdOps : List RecordsOp :=
  [RecordsOp.insert [117] [86, 49] [65] ⟨10, 1, 2025⟩,
   RecordsOp.insert [119] [86, 49] [65] ⟨10, 1, 2025⟩,
   RecordsOp.insert [119] [86, 50] [66] ⟨10, 1, 2025⟩,
   RecordsOp.insert [117] [86, 50] [66] ⟨10, 1, 2025⟩,
   RecordsOp.deleteUser [119],
   RecordsOp.insert [117] [86, 51] [67] ⟨10, 1, 2025⟩]

/-- The insertions of the operation store an identifier made of bytes below 128. -/
def BatchOp.ascii : BatchOp → Prop
  | .insert batch_id _ _ _ => isAscii batch_id
  | _ => True

instance : (op : BatchOp) → Decidable op.ascii
  | .insert batch_id _ _ _ => inferInstanceAs (Decidable (isAscii batch_id))
  | .remove _ => inferInstanceAs (Decidable True)
  | .applyVaccine _ _ => inferInstanceAs (Decidable True)
  | .find _ => inferInstanceAs (Decidable True)
  | .listAll => inferInstanceAs (Decidable True)
  | .listByNames _ => inferInstanceAs (Decidable True)
  | .oldest _ _ => inferInstanceAs (Decidable True)

/-- The insertions of the operation store a user name made of bytes below 128. -/
def RecordsOp.ascii : RecordsOp → Prop
  | .insert user_name _ _ _ => isAscii user_name
  | _ => True

instance : (op : RecordsOp) → Decidable op.ascii
  | .insert user_name _ _ _ => inferInstanceAs (Decidable (isAscii user_name))
  | .deleteUser _ => inferInstanceAs (Decidable True)
  | .deleteByDate _ _ => inferInstanceAs (Decidable True)
  | .deleteByDateAndBatch _ _ _ => inferInstanceAs (Decidable True)

/-- The two counters of the record table count the groups of `users` and their
records, and no group is empty. -/
def CountersExact (users : List VaccinationRecordsUser) (users_count all_records_count : Int) :
    Prop :=
  users_count = (users.length : Int) ∧
  all_records_count = (users.map (fun u => u.record_count)).sum ∧
  ∀ u ∈ users, u.record_count ≠ 0

/-- The invariant of the batch tables built with ASCII identifiers: at least one
bucket, stored identifiers ASCII, and `batch_count` the number of nodes. -/
def BatchCountInv (ht : BatchesHashTable) : Prop :=
  0 < ht.size ∧ (∀ n ∈ ht.nodes, isAscii n.batch_id) ∧
    ht.batch_count = (ht.nodes.length : Int)

/-- A run of the batch table: the batches `A` and `B` are created, a dose of `V`
is applied and `B`, which has no application, is removed. -/
def countedBatchOps : List BatchOp :=
  [BatchOp.insert [65] ⟨1, 1, 2026⟩ 5 [86], BatchOp.insert [66] ⟨1, 2, 2026⟩ 5 [86],
   BatchOp.applyVaccine [86] ⟨1, 1, 2025⟩, BatchOp.remove [66]]

/-- A run of the record table: `u` is vaccinated twice and `w` once, then the
records of `w` of 2025-01-10 are deleted, which deletes the group of `w`. -/
def countedRecordsOps : List RecordsOp :=
  [RecordsOp.insert [117] [86, 49] [65] ⟨10, 1, 2025⟩,
   RecordsOp.insert [119] [86, 49] [65] ⟨10, 1, 2025⟩,
   RecordsOp.insert [117] [86, 50] [66] ⟨11, 1, 2025⟩,
   RecordsOp.deleteByDate [119] ⟨10, 1, 2025⟩]

/-- The record table after the run `countedRecordsOps`. -/
def countedRecordsTable : VaccinationRecordsHashtable :=
  countedRecordsOps.foldl (fun ht op => op.run ht) initVaccinationRecordsHashtable

/-! ## The range in which the model is exact -/

/-- The value a 32-bit `int` holds after the arithmetic result `x` is stored in
it: two's-complement wrap. -/
def wrapInt (x : Int) : Int := (x + 2147483648) % 4294967296 - 2147483648

/-- records.c `hash_user` with the `int` arithmetic of the machine: the product
`a * h` and the sum `a * h + *v` are 32-bit values.  `hash_user` computes on the
integers; the two agree for table sizes up to 16909320, where `127 * h + *v`
cannot leave the range of `int`. -/
def hash_user_int32 (v : CStr) (table_size : Int) : Int :=
  v.foldl (fun h c => (wrapInt (wrapInt (127 * h) + charVal c)).tmod table_size) 0

/-- The bucket counts up to which the model computes what the source computes:
`127 * h + *v` stays within 32 bits (up to 16909320 buckets), and the `float`
quotient `(float)users_count / size` compares with 0.75 and with 0.25 as the
exact quotient does (up to 2^23 buckets; at 8388611 buckets and 6291458 users the
quotient rounds to 0.75). -/
def MAX_EXACT_SIZE : Int := 8388608

/-- Remove the sample batches `0 .. n-1`. -/
def removeSampleBatches (n : Nat) : List BatchOp :=
  (List.range n).map (fun k => BatchOp.remove (sampleBatch k))

/-- The record tables reached from the initial table by inserts and by deletes
for users that exist, through tables of at most `MAX_EXACT_SIZE` buckets. -/
inductive RecordsReachableExact : VaccinationRecordsHashtable → Prop
  | init : RecordsReachableExact initVaccinationRecordsHashtable
  | step (ht : VaccinationRecordsHashtable) (op : RecordsOp) :
      RecordsReachableExact ht → op.allowed ht = true →
      (op.run ht).size ≤ MAX_EXACT_SIZE → RecordsReachableExact (op.run ht)

/-- Run a sequence of operations; `none` if one of them is not allowed or leaves
more than `MAX_EXACT_SIZE` buckets. -/
def runRecordsOpsExact : List RecordsOp → VaccinationRecordsHashtable →
    Option VaccinationRecordsHashtable
  | [], ht => some ht
  | op :: ops, ht =>
    if op.allowed ht = true ∧ (op.run ht).size ≤ MAX_EXACT_SIZE then
      runRecordsOpsExact ops (op.run ht)
    else none

/-- The lower load bound of the reachable record tables: the load factor is at
least 0.25, or the table has at most 195 buckets, the bucket counts that are
never shrunk. -/
def RecordsLoadInv (ht : VaccinationRecordsHashtable) : Prop :=
  ht.size ≤ 4 * ht.users_count ∨ ht.size ≤ 195

/-! # Theorems -/

/-! ## Strings, dates and hashing -/

theorem strcmp_self (a : CStr) : strcmp a a = 0 := by
  induction a with
  | nil => rfl
  | cons x xs ih => simp [strcmp, ih]

theorem strcmp_eq_zero_iff {a b : CStr} : strcmp a b = 0 ↔ a = b := by
  constructor
  · intro h
    induction a generalizing b with
    | nil => cases b with
      | nil => rfl
      | cons y ys => simp [strcmp] at h
    | cons x xs ih => cases b with
      | nil => simp [strcmp] at h
      | cons y ys =>
        simp only [strcmp] at h
        split_ifs at h with h1 h2
        · exact absurd h (by decide)
        · have hxy : x = y := by omega
          rw [hxy, ih h]
  · rintro rfl
    exact strcmp_self a

theorem hashFold_range (m : Int) (hm : 0 < m) (v : CStr) (hv : isAscii v) :
    ∀ h0 : Int, 0 ≤ h0 → h0 < m →
      0 ≤ v.foldl (fun h c => (127 * h + charVal c).tmod m) h0 ∧
      v.foldl (fun h c => (127 * h + charVal c).tmod m) h0 < m := by
  induction v with
  | nil => intro h0 h1 h2; exact ⟨h1, h2⟩
  | cons c cs ih =>
    intro h0 h1 h2
    simp only [List.foldl_cons]
    have hc : c < 128 := hv c (List.mem_cons_self _ _)
    have hcv : 0 ≤ charVal c := by unfold charVal; rw [if_pos hc]; omega
    apply ih (fun b hb => hv b (List.mem_cons_of_mem _ hb))
    · exact Int.tmod_nonneg _ (by nlinarith)
    · exact Int.tmod_lt_of_pos _ hm

theorem hash_range {v : CStr} {m : Int} (hv : isAscii v) (hm : 0 < m) :
    0 ≤ hash v m ∧ hash v m < m :=
  hashFold_range m hm v hv 0 (le_refl 0) hm

theorem hash_user_range {v : CStr} {m : Int} (hv : isAscii v) (hm : 0 < m) :
    0 ≤ hash_user v m ∧ hash_user v m < m :=
  hashFold_range m hm v hv 0 (le_refl 0) hm

/-! ## Bucket arrays -/

theorem length_setChain {α : Type} (bs : List (List α)) (key : Int) (c : List α) :
    (setChain bs key c).length = bs.length := by
  unfold setChain; split_ifs <;> simp

theorem chainAt_setChain_self {α : Type} {bs : List (List α)} {key : Int} (c : List α)
    (h0 : 0 ≤ key) (h1 : key < bs.length) : chainAt (setChain bs key c) key = c := by
  have hlt : key.toNat < bs.length := by omega
  unfold chainAt setChain
  rw [if_neg (by omega), if_neg (by omega), List.getD_eq_getElem?_getD,
    List.getElem?_set_self hlt]
  rfl

theorem chainAt_setChain_ne {α : Type} {bs : List (List α)} {key key1 : Int} (c : List α)
    (h : key ≠ key1) : chainAt (setChain bs key c) key1 = chainAt bs key1 := by
  unfold chainAt setChain
  by_cases hk1 : key1 < 0
  · simp [hk1]
  · by_cases hk : key < 0
    · simp [hk]
    · rw [if_neg hk1, if_neg hk, if_neg hk1, List.getD_eq_getElem?_getD,
        List.getD_eq_getElem?_getD, List.getElem?_set_ne (by omega)]

theorem nextPrimeLoop_pos : ∀ (fuel : Nat) (num : Int),
    0 < num + fuel → 0 < nextPrimeLoop fuel num := by
  intro fuel
  induction fuel with
  | zero => intro num h; simpa [nextPrimeLoop] using h
  | succ n ih =>
    intro num h
    unfold nextPrimeLoop
    split_ifs with hp
    · unfold isPrime at hp
      by_contra hcon
      rw [if_pos (by omega)] at hp
      exact absurd hp (by decide)
    · apply ih
      push_cast at h
      omega

theorem nextPrime_pos (num : Int) : 0 < nextPrime num := by
  unfold nextPrime
  apply nextPrimeLoop_pos
  have h1 : -|num| ≤ num := neg_abs_le num
  push_cast
  omega

theorem length_rehash {α : Type} (key : α → Int) (nodes : List α) :
    ∀ bs : List (List α), (rehash key nodes bs).length = bs.length := by
  unfold rehash
  induction nodes with
  | nil => intro bs; rfl
  | cons x xs ih => intro bs; rw [List.foldl_cons, ih, length_setChain]

/-! ## The batch store: insert, find -/

theorem resizeBatchesHashTable_size_pos (ht : BatchesHashTable) (h : 0 < ht.size) :
    0 < (resizeBatchesHashTable ht).2.size := by
  unfold resizeBatchesHashTable
  split_ifs with h1 h2
  · exact h
  · simp only [BatchesHashTable.size, length_rehash, List.length_replicate]
    unfold MAX_TABLE_SIZE
    omega
  · have hp := nextPrime_pos (ht.size * 2)
    simp only [BatchesHashTable.size, length_rehash, List.length_replicate]
    simp only [BatchesHashTable.size] at hp
    omega

theorem insertBatchInSystem_fst (ht : BatchesHashTable) (batch_id : CStr) (date : Date)
    (doses : Int) (vaccine_name : CStr) :
    (insertBatchInSystem ht batch_id date doses vaccine_name).1 = 1 := rfl

/-- The table an insertion works on: the table itself or, at load factor 0.75, the resized one. -/
theorem insertBatchInSystem_snd (ht : BatchesHashTable) (batch_id : CStr) (date : Date)
    (doses : Int) (vaccine_name : CStr) :
    ∃ ht1 : BatchesHashTable,
      (ht1 = ht ∨ ht1 = (resizeBatchesHashTable ht).2) ∧
      (insertBatchInSystem ht batch_id date doses vaccine_name).2 =
        { batches := setChain ht1.batches (hash batch_id ht1.size)
            ({ batch_id := batch_id,
               batch_info := { batch := batch_id, date := date, doses := doses,
                               applications := 0, vaccine_name := vaccine_name } } ::
              chainAt ht1.batches (hash batch_id ht1.size)),
          batch_count := ht1.batch_count + 1 } := by
  unfold insertBatchInSystem
  by_cases h : 4 * ht.batch_count ≥ 3 * ht.size
  · exact ⟨(resizeBatchesHashTable ht).2, Or.inr rfl, by simp only [if_pos h]⟩
  · exact ⟨ht, Or.inl rfl, by simp only [if_neg h]⟩

/-- C1: after `insertBatchInSystem` (which returns 1) on a table with at least one
bucket, `searchBatchInSystem` on the same identifier returns a node carrying
exactly the inserted identifier, date, doses and vaccine name and 0 applications;
the table may or may not have been resized by the insertion. -/
theorem insertBatchInSystem_search_same (ht : BatchesHashTable) (batch_id : CStr) (date : Date)
    (doses : Int) (vaccine_name : CStr) (hsize : 0 < ht.size) (hid : isAscii batch_id) :
    (insertBatchInSystem ht batch_id date doses vaccine_name).1 = 1 ∧
    searchBatchInSystem (insertBatchInSystem ht batch_id date doses vaccine_name).2 batch_id =
      some { batch_id := batch_id,
             batch_info := { batch := batch_id, date := date, doses := doses,
                             applications := 0, vaccine_name := vaccine_name } } := by
  refine ⟨rfl, ?_⟩
  obtain ⟨ht1, hht1, heq⟩ := insertBatchInSystem_snd ht batch_id date doses vaccine_name
  have hpos : 0 < ht1.size := by
    rcases hht1 with h | h
    · rw [h]; exact hsize
    · rw [h]; exact resizeBatchesHashTable_size_pos ht hsize
  have hr := hash_range hid hpos
  rw [heq]
  unfold searchBatchInSystem
  have hs : BatchesHashTable.size
      { batches := setChain ht1.batches (hash batch_id ht1.size)
          ({ batch_id := batch_id,
             batch_info := { batch := batch_id, date := date, doses := doses,
                             applications := 0, vaccine_name := vaccine_name } } ::
            chainAt ht1.batches (hash batch_id ht1.size)),
        batch_count := ht1.batch_count + 1 } = ht1.size := by
    simp [BatchesHashTable.size, length_setChain]
  rw [hs]
  simp only
  rw [chainAt_setChain_self _ hr.1 (by simpa [BatchesHashTable.size] using hr.2)]
  simp [List.find?_cons, strcmp_self]

/-- C1 at the batch `B1` (2025-01-10, 5 doses) and the initial table. -/
theorem insertBatchInSystem_search_same_witness :
    (insertBatchInSystem initBatchesHashTable [66, 49] ⟨10, 1, 2025⟩ 5 [86]).1 = 1 ∧
    searchBatchInSystem
        (insertBatchInSystem initBatchesHashTable [66, 49] ⟨10, 1, 2025⟩ 5 [86]).2 [66, 49] =
      some { batch_id := [66, 49],
             batch_info := { batch := [66, 49], date := ⟨10, 1, 2025⟩, doses := 5,
                             applications := 0, vaccine_name := [86] } } :=
  insertBatchInSystem_search_same initBatchesHashTable [66, 49] ⟨10, 1, 2025⟩ 5 [86]
    (by decide) (by decide)

/-! ## Dates -/

theorem compareDate1Date2_self (a : Date) : compareDate1Date2 a a = 0 := by
  unfold compareDate1Date2; split_ifs <;> omega

theorem compareDate1Date2_le_iff (a b : Date) :
    compareDate1Date2 a b ≤ 0 ↔
      (a.year < b.year ∨ (a.year = b.year ∧
        (a.month < b.month ∨ (a.month = b.month ∧ a.day ≤ b.day)))) := by
  unfold compareDate1Date2
  split_ifs <;> omega

theorem compareDate1Date2_lt_iff (a b : Date) :
    compareDate1Date2 a b < 0 ↔
      (a.year < b.year ∨ (a.year = b.year ∧
        (a.month < b.month ∨ (a.month = b.month ∧ a.day < b.day)))) := by
  unfold compareDate1Date2
  split_ifs <;> omega

theorem compareDate1Date2_eq_zero_iff {a b : Date} : compareDate1Date2 a b = 0 ↔ a = b := by
  constructor
  · intro h
    have h1 : ¬ compareDate1Date2 a b < 0 := by omega
    have h2 : compareDate1Date2 a b ≤ 0 := by omega
    rw [compareDate1Date2_lt_iff] at h1
    rw [compareDate1Date2_le_iff] at h2
    cases a; cases b
    simp only [Date.mk.injEq]
    simp only at h1 h2
    omega
  · rintro rfl; exact compareDate1Date2_self a

theorem compareDate1Date2_trans {a b c : Date} (h1 : compareDate1Date2 a b ≤ 0)
    (h2 : compareDate1Date2 b c ≤ 0) : compareDate1Date2 a c ≤ 0 := by
  rw [compareDate1Date2_le_iff] at *
  omega

theorem compareDate1Date2_lt_of_lt_of_le {a b c : Date} (h1 : compareDate1Date2 a b < 0)
    (h2 : compareDate1Date2 b c ≤ 0) : compareDate1Date2 a c < 0 := by
  rw [compareDate1Date2_le_iff] at h2
  rw [compareDate1Date2_lt_iff] at *
  omega

theorem compareDate1Date2_total {a b : Date} (h : ¬ compareDate1Date2 a b < 0) :
    compareDate1Date2 b a ≤ 0 := by
  rw [compareDate1Date2_lt_iff] at h
  rw [compareDate1Date2_le_iff]
  omega

theorem compareDate1Date2_antisymm {a b : Date} (h : compareDate1Date2 a b < 0) :
    ¬ compareDate1Date2 b a ≤ 0 := by
  rw [compareDate1Date2_lt_iff] at h
  rw [compareDate1Date2_le_iff]
  omega

/-! ## The oldest valid batch -/

theorem eligibleBatch_iff (vaccine_name : CStr) (current_date : Date) (b : BatchInfo) :
    eligibleBatch vaccine_name current_date b = true ↔
      b.vaccine_name = vaccine_name ∧ b.doses - b.applications > 0 ∧
        compareDate1Date2 current_date b.date ≤ 0 := by
  unfold eligibleBatch expiredVaccineDate
  simp [strcmp_eq_zero_iff, and_assoc]

/-- The scan of `oldestExistingValidBatchByVaccineName`, started with any current choice. -/
theorem oldestFold_spec (v : CStr) (d : Date) (l : List Batches) :
    ∀ acc : Option BatchInfo,
      (l.foldl (oldestStep v d) acc = none ↔
        acc = none ∧ ∀ n ∈ l, eligibleBatch v d n.batch_info = false) ∧
      (∀ b, l.foldl (oldestStep v d) acc = some b →
        (acc = some b ∨ ∃ n ∈ l, n.batch_info = b ∧ eligibleBatch v d b = true) ∧
        (∀ o, acc = some o → compareDate1Date2 b.date o.date ≤ 0) ∧
        (∀ n ∈ l, eligibleBatch v d n.batch_info = true →
          compareDate1Date2 b.date n.batch_info.date ≤ 0)) := by
  induction l with
  | nil =>
    intro acc
    refine ⟨by simp, ?_⟩
    intro b hb
    simp only [List.foldl_nil] at hb
    refine ⟨Or.inl hb, ?_, by simp⟩
    intro o ho
    rw [hb] at ho
    cases ho
    exact le_of_eq (compareDate1Date2_self b.date)
  | cons x xs ih =>
    intro acc
    simp only [List.foldl_cons]
    obtain ⟨ih1, ih2⟩ := ih (oldestStep v d acc x)
    by_cases he : eligibleBatch v d x.batch_info = true
    · -- the node is eligible: it replaces the choice when strictly earlier
      cases acc with
      | none =>
        have hstep : oldestStep v d none x = some x.batch_info := by
          simp [oldestStep, he]
        rw [hstep] at ih1 ih2 ⊢
        constructor
        · constructor
          · intro h; exact absurd (ih1.mp h).1 (by simp)
          · rintro ⟨-, h⟩
            have := h x (List.mem_cons_self _ _)
            rw [he] at this; cases this
        · intro b hb
          obtain ⟨h1, h2, h3⟩ := ih2 b hb
          refine ⟨Or.inr ?_, by simp, ?_⟩
          · rcases h1 with h1 | ⟨n, hn, hnb, hne⟩
            · cases h1; exact ⟨x, List.mem_cons_self _ _, rfl, he⟩
            · exact ⟨n, List.mem_cons_of_mem _ hn, hnb, hne⟩
          · intro n hn hne
            rcases List.mem_cons.mp hn with rfl | hn
            · exact h2 _ rfl
            · exact h3 n hn hne
      | some o =>
        by_cases hlt : compareDate1Date2 x.batch_info.date o.date < 0
        · have hstep : oldestStep v d (some o) x = some x.batch_info := by
            simp [oldestStep, he, hlt]
          rw [hstep] at ih1 ih2 ⊢
          constructor
          · constructor
            · intro h; exact absurd (ih1.mp h).1 (by simp)
            · rintro ⟨h, -⟩; cases h
          · intro b hb
            obtain ⟨h1, h2, h3⟩ := ih2 b hb
            have hbx : compareDate1Date2 b.date x.batch_info.date ≤ 0 := h2 _ rfl
            refine ⟨Or.inr ?_, ?_, ?_⟩
            · rcases h1 with h1 | ⟨n, hn, hnb, hne⟩
              · cases h1; exact ⟨x, List.mem_cons_self _ _, rfl, he⟩
              · exact ⟨n, List.mem_cons_of_mem _ hn, hnb, hne⟩
            · intro o1 ho1
              cases ho1
              exact compareDate1Date2_trans hbx (le_of_lt hlt)
            · intro n hn hne
              rcases List.mem_cons.mp hn with rfl | hn
              · exact hbx
              · exact h3 n hn hne
        · have hstep : oldestStep v d (some o) x = some o := by
            simp [oldestStep, he, hlt]
          rw [hstep] at ih1 ih2 ⊢
          constructor
          · constructor
            · intro h; exact absurd (ih1.mp h).1 (by simp)
            · rintro ⟨h, -⟩; cases h
          · intro b hb
            obtain ⟨h1, h2, h3⟩ := ih2 b hb
            have hbo : compareDate1Date2 b.date o.date ≤ 0 := h2 _ rfl
            refine ⟨?_, ?_, ?_⟩
            · rcases h1 with h1 | ⟨n, hn, hnb, hne⟩
              · exact Or.inl h1
              · exact Or.inr ⟨n, List.mem_cons_of_mem _ hn, hnb, hne⟩
            · intro o1 ho1
              cases ho1
              exact hbo
            · intro n hn hne
              rcases List.mem_cons.mp hn with rfl | hn
              · exact compareDate1Date2_trans hbo (compareDate1Date2_total hlt)
              · exact h3 n hn hne
    · -- the node is not eligible: the choice stays
      have hstep : oldestStep v d acc x = acc := by
        simp [oldestStep, he]
      have hef : eligibleBatch v d x.batch_info = false := by simpa using he
      rw [hstep] at ih1 ih2 ⊢
      constructor
      · rw [ih1]
        constructor
        · rintro ⟨h1, h2⟩
          refine ⟨h1, ?_⟩
          intro n hn
          rcases List.mem_cons.mp hn with rfl | hn
          · exact hef
          · exact h2 n hn
        · rintro ⟨h1, h2⟩
          exact ⟨h1, fun n hn => h2 n (List.mem_cons_of_mem _ hn)⟩
      · intro b hb
        obtain ⟨h1, h2, h3⟩ := ih2 b hb
        refine ⟨?_, h2, ?_⟩
        · rcases h1 with h1 | ⟨n, hn, hnb, hne⟩
          · exact Or.inl h1
          · exact Or.inr ⟨n, List.mem_cons_of_mem _ hn, hnb, hne⟩
        · intro n hn hne
          rcases List.mem_cons.mp hn with rfl | hn
          · rw [hef] at hne; cases hne
          · exact h3 n hn hne

/-- C2: `oldestExistingValidBatchByVaccineName` returns no batch exactly when no
stored batch is eligible (same vaccine name, `doses - applications > 0`, and the
date `d` not strictly later than the batch date); otherwise it returns a stored
eligible batch whose date is not later than the date of any eligible batch. -/
theorem oldestExistingValidBatchByVaccineName_spec (ht : BatchesHashTable) (v : CStr)
    (d : Date) :
    (oldestExistingValidBatchByVaccineName ht v d = none ↔
      ∀ n ∈ ht.nodes, ¬ (n.batch_info.vaccine_name = v ∧
        n.batch_info.doses - n.batch_info.applications > 0 ∧
        compareDate1Date2 d n.batch_info.date ≤ 0)) ∧
    (∀ b, oldestExistingValidBatchByVaccineName ht v d = some b →
      (∃ n ∈ ht.nodes, n.batch_info = b) ∧
      (b.vaccine_name = v ∧ b.doses - b.applications > 0 ∧ compareDate1Date2 d b.date ≤ 0) ∧
      ∀ n ∈ ht.nodes,
        (n.batch_info.vaccine_name = v ∧
          n.batch_info.doses - n.batch_info.applications > 0 ∧
          compareDate1Date2 d n.batch_info.date ≤ 0) →
        compareDate1Date2 b.date n.batch_info.date ≤ 0) := by
  obtain ⟨h1, h2⟩ := oldestFold_spec v d ht.nodes none
  unfold oldestExistingValidBatchByVaccineName
  constructor
  · rw [h1]
    constructor
    · rintro ⟨-, h⟩ n hn hel
      have := h n hn
      rw [(eligibleBatch_iff v d n.batch_info).mpr hel] at this
      cases this
    · intro h
      refine ⟨rfl, fun n hn => ?_⟩
      by_contra hc
      have hc1 : eligibleBatch v d n.batch_info = true := by simpa using hc
      exact h n hn ((eligibleBatch_iff v d n.batch_info).mp hc1)
  · intro b hb
    obtain ⟨h3, -, h5⟩ := h2 b hb
    rcases h3 with h3 | ⟨n, hn, hnb, hne⟩
    · cases h3
    · exact ⟨⟨n, hn, hnb⟩, (eligibleBatch_iff v d b).mp hne,
        fun m hm hel => h5 m hm ((eligibleBatch_iff v d m.batch_info).mpr hel)⟩

/-! ## Nodes of a bucket array after a write -/

theorem flatten_eq_split {α : Type} (bs : List (List α)) (k : Nat) (hk : k < bs.length) :
    bs.flatten = (bs.take k).flatten ++ bs.getD k [] ++ (bs.drop (k + 1)).flatten := by
  have h1 : bs = bs.take k ++ bs.getD k [] :: bs.drop (k + 1) := by
    rw [List.getD_eq_getElem?_getD, List.getElem?_eq_getElem hk]
    simp
  conv_lhs => rw [h1]
  simp [List.flatten_append]

theorem flatten_set {α : Type} (bs : List (List α)) (k : Nat) (c : List α)
    (hk : k < bs.length) :
    (bs.set k c).flatten = (bs.take k).flatten ++ c ++ (bs.drop (k + 1)).flatten := by
  rw [List.set_eq_take_append_cons_drop, if_pos hk]
  simp [List.flatten_append]

theorem flatten_setChain {α : Type} (bs : List (List α)) (key : Int) (c : List α)
    (h0 : 0 ≤ key) (h1 : key < bs.length) :
    (setChain bs key c).flatten =
      (bs.take key.toNat).flatten ++ c ++ (bs.drop (key.toNat + 1)).flatten := by
  unfold setChain
  rw [if_neg (by omega)]
  exact flatten_set bs key.toNat c (by omega)

theorem flatten_eq_split_chainAt {α : Type} (bs : List (List α)) (key : Int)
    (h0 : 0 ≤ key) (h1 : key < bs.length) :
    bs.flatten =
      (bs.take key.toNat).flatten ++ chainAt bs key ++ (bs.drop (key.toNat + 1)).flatten := by
  unfold chainAt
  rw [if_neg (by omega)]
  exact flatten_eq_split bs key.toNat (by omega)

theorem chainAt_replicate_nil {α : Type} (n : Nat) (key : Int) :
    chainAt (List.replicate n ([] : List α)) key = [] := by
  unfold chainAt
  split_ifs
  · rfl
  · rw [List.getD_eq_getElem?_getD, List.getElem?_replicate]
    split_ifs <;> rfl

theorem flatten_setChain_replicate_nil {α : Type} (n : Nat) (key : Int) (c : List α)
    (h0 : 0 ≤ key) (h1 : key < n) :
    (setChain (List.replicate n ([] : List α)) key c).flatten = c := by
  rw [flatten_setChain _ _ _ h0 (by simpa using h1)]
  simp [List.take_replicate, List.drop_replicate]

theorem insertBatchInSystem_no_resize (ht : BatchesHashTable) (batch_id : CStr) (date : Date)
    (doses : Int) (vaccine_name : CStr) (h : ¬ 4 * ht.batch_count ≥ 3 * ht.size) :
    (insertBatchInSystem ht batch_id date doses vaccine_name).2 =
      { batches := setChain ht.batches (hash batch_id ht.size)
          ({ batch_id := batch_id,
             batch_info := { batch := batch_id, date := date, doses := doses,
                             applications := 0, vaccine_name := vaccine_name } } ::
            chainAt ht.batches (hash batch_id ht.size)),
        batch_count := ht.batch_count + 1 } := by
  unfold insertBatchInSystem
  simp only [if_neg h]

theorem nodes_insert_init (batch_id : CStr) (date : Date) (doses : Int) (vaccine_name : CStr)
    (hid : isAscii batch_id) :
    (insertBatchInSystem initBatchesHashTable batch_id date doses vaccine_name).2.nodes =
      [{ batch_id := batch_id,
         batch_info := { batch := batch_id, date := date, doses := doses,
                         applications := 0, vaccine_name := vaccine_name } }] := by
  rw [insertBatchInSystem_no_resize _ _ _ _ _ (by decide)]
  have hsz : initBatchesHashTable.size = 101 := by decide
  have hr := @hash_range batch_id 101 hid (by omega)
  unfold BatchesHashTable.nodes
  simp only [hsz]
  unfold initBatchesHashTable
  simp only
  rw [chainAt_replicate_nil]
  exact flatten_setChain_replicate_nil _ _ _ hr.1 (by
    have : ((INITIAL_TABLE_SIZE.toNat : Nat) : Int) = 101 := by decide
    omega)

/-! ## Chains: search after a modification or an unlink -/

theorem chainAt_ne_nil_range {α : Type} {bs : List (List α)} {key : Int}
    (h : chainAt bs key ≠ []) : 0 ≤ key ∧ key < bs.length := by
  unfold chainAt at h
  by_cases hk : key < 0
  · rw [if_pos hk] at h; exact absurd rfl h
  · rw [if_neg hk, List.getD_eq_getElem?_getD] at h
    by_cases hl : key.toNat < bs.length
    · omega
    · rw [List.getElem?_eq_none (by omega)] at h
      exact absurd rfl h

theorem chainAt_mem {α : Type} {bs : List (List α)} {key : Int}
    (h : chainAt bs key ≠ []) : chainAt bs key ∈ bs := by
  obtain ⟨h0, h1⟩ := chainAt_ne_nil_range h
  have hl : key.toNat < bs.length := by omega
  unfold chainAt
  rw [if_neg (by omega), List.getD_eq_getElem?_getD, List.getElem?_eq_getElem hl]
  exact List.getElem_mem hl

theorem find?_modifyFirst_self {α : Type} (p : α → Bool) (f : α → α) (x : α) :
    ∀ chain : List α, chain.find? p = some x → p (f x) = true →
      (modifyFirst p f chain).find? p = some (f x) := by
  intro chain
  induction chain with
  | nil => intro h; simp at h
  | cons y ys ih =>
    intro h hpf
    by_cases hy : p y = true
    · simp only [List.find?_cons, hy] at h
      cases h
      simp [modifyFirst, hy, List.find?_cons, hpf]
    · simp only [List.find?_cons, hy] at h
      simp [modifyFirst, hy, List.find?_cons, ih h hpf]

theorem find?_modifyFirst_other {α : Type} (p q : α → Bool) (f : α → α)
    (hpq : ∀ x, p x = true → q x = false) (hf : ∀ x, q (f x) = q x) :
    ∀ chain : List α, (modifyFirst p f chain).find? q = chain.find? q := by
  intro chain
  induction chain with
  | nil => rfl
  | cons y ys ih =>
    by_cases hy : p y = true
    · have h1 : q y = false := hpq y hy
      have h2 : q (f y) = false := by rw [hf]; exact h1
      simp [modifyFirst, hy, List.find?_cons, h1, h2]
    · simp [modifyFirst, hy, List.find?_cons, ih]

theorem find?_eraseP_other {α : Type} (p q : α → Bool)
    (hpq : ∀ x, p x = true → q x = false) :
    ∀ chain : List α, (chain.eraseP p).find? q = chain.find? q := by
  intro chain
  induction chain with
  | nil => rfl
  | cons y ys ih =>
    by_cases hy : p y = true
    · have h1 : q y = false := hpq y hy
      simp [List.eraseP_cons, hy, List.find?_cons, h1]
    · simp [List.eraseP_cons, hy, List.find?_cons, ih]

theorem find?_eraseP_self {α β : Type} (p : α → Bool) (key : α → β) (k : β)
    (hp : ∀ x, p x = true ↔ key x = k) :
    ∀ chain : List α, (chain.map key).Nodup → (chain.eraseP p).find? p = none := by
  intro chain
  induction chain with
  | nil => intro _; rfl
  | cons y ys ih =>
    intro hnd
    rw [List.map_cons, List.nodup_cons] at hnd
    by_cases hy : p y = true
    · simp only [List.eraseP_cons, hy, cond_true]
      rw [List.find?_eq_none]
      intro x hx hpx
      have h1 : key y = k := (hp y).mp hy
      have h2 : key x = k := (hp x).mp hpx
      exact hnd.1 (by rw [h1, ← h2]; exact List.mem_map_of_mem key hx)
    · simp [List.eraseP_cons, hy, List.find?_cons, ih hnd.2]

theorem strcmp_ne_of_eq {a b c : CStr} (hbc : b ≠ c) (h : strcmp a b = 0) :
    ¬ strcmp a c = 0 := by
  rw [strcmp_eq_zero_iff] at *
  rw [h]; exact hbc

/-- A search for `other` is not affected by a write to the chain of a different key
or by a chain update that leaves the search result for `other` unchanged. -/
theorem find?_chainAt_setChain {α : Type} (bs : List (List α)) (key key1 : Int)
    (q : α → Bool) (c : List α) (hc : c.find? q = (chainAt bs key).find? q) :
    (chainAt (setChain bs key c) key1).find? q = (chainAt bs key1).find? q := by
  by_cases hk : key = key1
  · subst hk
    by_cases hr : 0 ≤ key ∧ key < bs.length
    · rw [chainAt_setChain_self c hr.1 hr.2, hc]
    · have h1 : setChain bs key c = bs := by
        unfold setChain
        split_ifs with h2
        · rfl
        · exact List.set_eq_of_length_le (by omega)
      rw [h1]
  · rw [chainAt_setChain_ne c hk]

/-! ## Removing a batch -/

theorem oldest_eligible (ht : BatchesHashTable) (v : CStr) (d : Date) (b : BatchInfo)
    (h : oldestExistingValidBatchByVaccineName ht v d = some b) :
    eligibleBatch v d b = true := by
  obtain ⟨h3, -, -⟩ := (oldestFold_spec v d ht.nodes none).2 b h
  rcases h3 with h3 | ⟨n, -, -, hne⟩
  · cases h3
  · exact hne

theorem search_some_range (ht : BatchesHashTable) (batch_id : CStr) (node : Batches)
    (h : searchBatchInSystem ht batch_id = some node) :
    0 ≤ hash batch_id ht.size ∧ hash batch_id ht.size < ht.batches.length := by
  apply chainAt_ne_nil_range
  intro hnil
  unfold searchBatchInSystem at h
  rw [hnil] at h
  simp at h

theorem removeBatchInput_soft_eq (vs : VaccinationSystem) (batch_id : CStr) (node : Batches)
    (hfind : searchBatchInSystem vs.batches_ht batch_id = some node)
    (happ : node.batch_info.applications ≠ 0) :
    (removeBatchInput vs batch_id).batches_ht =
      { batches := setChain vs.batches_ht.batches (hash batch_id vs.batches_ht.size)
          (modifyFirst (fun current => decide (strcmp current.batch_id batch_id = 0))
            (fun current => { current with
              batch_info := { current.batch_info with doses := 0 } })
            (chainAt vs.batches_ht.batches (hash batch_id vs.batches_ht.size))),
        batch_count := vs.batches_ht.batch_count } := by
  unfold removeBatchInput
  rw [hfind]
  simp only [if_neg happ]

theorem removeBatchInput_full_eq (vs : VaccinationSystem) (batch_id : CStr) (node : Batches)
    (hfind : searchBatchInSystem vs.batches_ht batch_id = some node)
    (happ : node.batch_info.applications = 0) :
    (removeBatchInput vs batch_id).batches_ht =
      { batches := setChain vs.batches_ht.batches (hash batch_id vs.batches_ht.size)
          ((chainAt vs.batches_ht.batches (hash batch_id vs.batches_ht.size)).eraseP
            (fun current => decide (strcmp current.batch_id batch_id = 0))),
        batch_count := vs.batches_ht.batch_count - 1 } := by
  have hfind1 := hfind
  unfold searchBatchInSystem at hfind1
  unfold removeBatchInput
  rw [hfind]
  simp only [if_pos happ]
  unfold removeBatchFromSystem
  simp only [hfind1]

/-- C4: removing a stored batch that has applications only sets its doses to 0.
The batch is still found, with the same identifier, date, vaccine name and
applications; `batch_count` and the bucket count are unchanged; the search result
for every other identifier is unchanged; and the batch is never the answer of
`oldestExistingValidBatchByVaccineName` afterwards. -/
theorem removeBatchInput_soft (vs : VaccinationSystem) (batch_id : CStr) (node : Batches)
    (hfind : searchBatchInSystem vs.batches_ht batch_id = some node)
    (happ : node.batch_info.applications > 0) :
    searchBatchInSystem (removeBatchInput vs batch_id).batches_ht batch_id =
      some { batch_id := node.batch_id,
             batch_info := { batch := node.batch_info.batch, date := node.batch_info.date,
                             doses := 0, applications := node.batch_info.applications,
                             vaccine_name := node.batch_info.vaccine_name } } ∧
    (removeBatchInput vs batch_id).batches_ht.batch_count = vs.batches_ht.batch_count ∧
    (removeBatchInput vs batch_id).batches_ht.size = vs.batches_ht.size ∧
    (∀ other : CStr, other ≠ batch_id →
      searchBatchInSystem (removeBatchInput vs batch_id).batches_ht other =
        searchBatchInSystem vs.batches_ht other) ∧
    (∀ (v : CStr) (d : Date),
      oldestExistingValidBatchByVaccineName (removeBatchInput vs batch_id).batches_ht v d ≠
        some { batch := node.batch_info.batch, date := node.batch_info.date,
               doses := 0, applications := node.batch_info.applications,
               vaccine_name := node.batch_info.vaccine_name }) := by
  obtain ⟨h0, h1⟩ := search_some_range _ _ _ hfind
  have heq := removeBatchInput_soft_eq vs batch_id node hfind (by omega)
  have hsize : (removeBatchInput vs batch_id).batches_ht.size = vs.batches_ht.size := by
    rw [heq]; simp [BatchesHashTable.size, length_setChain]
  refine ⟨?_, by rw [heq], hsize, ?_, ?_⟩
  · unfold searchBatchInSystem
    rw [hsize, heq]
    simp only
    rw [chainAt_setChain_self _ h0 h1]
    unfold searchBatchInSystem at hfind
    have hp := List.find?_some hfind
    exact find?_modifyFirst_self _ _ node _ hfind (by simpa using hp)
  · intro other hother
    unfold searchBatchInSystem
    rw [hsize, heq]
    simp only
    apply find?_chainAt_setChain
    apply find?_modifyFirst_other
    · intro x hx
      have hx1 : strcmp x.batch_id batch_id = 0 := by simpa using hx
      simpa using strcmp_ne_of_eq (Ne.symm hother) hx1
    · intro x; rfl
  · intro v d hcon
    have hel := oldest_eligible _ v d _ hcon
    rw [eligibleBatch_iff] at hel
    obtain ⟨-, h2, -⟩ := hel
    simp only at h2
    omega

/-- C4 at a 101-bucket table holding batch `A` (bucket 65) with 2 applications. -/
theorem removeBatchInput_soft_witness :
    searchBatchInSystem (removeBatchInput
        { batches_ht :=
            { batches := List.replicate 65 [] ++
                [⟨[65], ⟨[65], ⟨1, 1, 2025⟩, 5, 2, [86]⟩⟩] :: List.replicate 35 [],
              batch_count := 1 },
          records_ht := initVaccinationRecordsHashtable,
          current_date := ⟨1, 1, 2025⟩ } [65]).batches_ht [65] =
      some { batch_id := [65],
             batch_info := { batch := [65], date := ⟨1, 1, 2025⟩, doses := 0,
                             applications := 2, vaccine_name := [86] } } :=
  (removeBatchInput_soft
    { batches_ht :=
        { batches := List.replicate 65 [] ++
            [⟨[65], ⟨[65], ⟨1, 1, 2025⟩, 5, 2, [86]⟩⟩] :: List.replicate 35 [],
          batch_count := 1 },
      records_ht := initVaccinationRecordsHashtable,
      current_date := ⟨1, 1, 2025⟩ } [65] ⟨[65], ⟨[65], ⟨1, 1, 2025⟩, 5, 2, [86]⟩⟩
    (by decide) (by decide)).1

/-- C5: in a table whose identifiers are pairwise distinct, removing a stored batch
that has no application deletes it: the identifier is no longer found,
`batch_count` drops by exactly 1, and the search result for every other
identifier, in the same chain or not, is unchanged. -/
theorem removeBatchInput_full (vs : VaccinationSystem) (batch_id : CStr) (node : Batches)
    (hnodup : (vs.batches_ht.nodes.map (fun n => n.batch_id)).Nodup)
    (hfind : searchBatchInSystem vs.batches_ht batch_id = some node)
    (happ : node.batch_info.applications = 0) :
    searchBatchInSystem (removeBatchInput vs batch_id).batches_ht batch_id = none ∧
    (removeBatchInput vs batch_id).batches_ht.batch_count = vs.batches_ht.batch_count - 1 ∧
    (∀ other : CStr, other ≠ batch_id →
      searchBatchInSystem (removeBatchInput vs batch_id).batches_ht other =
        searchBatchInSystem vs.batches_ht other) := by
  obtain ⟨h0, h1⟩ := search_some_range _ _ _ hfind
  have heq := removeBatchInput_full_eq vs batch_id node hfind happ
  have hsize : (removeBatchInput vs batch_id).batches_ht.size = vs.batches_ht.size := by
    rw [heq]; simp [BatchesHashTable.size, length_setChain]
  refine ⟨?_, by rw [heq], ?_⟩
  · unfold searchBatchInSystem
    rw [hsize, heq]
    simp only
    rw [chainAt_setChain_self _ h0 h1]
    apply find?_eraseP_self _ (fun n : Batches => n.batch_id) batch_id
    · intro x; simp [strcmp_eq_zero_iff]
    · have hne : chainAt vs.batches_ht.batches (hash batch_id vs.batches_ht.size) ≠ [] := by
        intro hnil
        unfold searchBatchInSystem at hfind
        rw [hnil] at hfind
        simp at hfind
      exact List.Nodup.sublist
        (List.Sublist.map _ (List.sublist_flatten_of_mem (chainAt_mem hne))) hnodup
  · intro other hother
    unfold searchBatchInSystem
    rw [hsize, heq]
    simp only
    apply find?_chainAt_setChain
    apply find?_eraseP_other
    intro x hx
    have hx1 : strcmp x.batch_id batch_id = 0 := by simpa using hx
    simpa using strcmp_ne_of_eq (Ne.symm hother) hx1

/-- C5 at the table obtained by inserting the batches `34` and `A`, which share
bucket 65 of the initial table, and removing `A`. -/
theorem removeBatchInput_full_witness :
    searchBatchInSystem (removeBatchInput
        { batches_ht :=
            (insertBatchInSystem
              (insertBatchInSystem initBatchesHashTable [51, 52] ⟨2, 1, 2025⟩ 3 [86]).2
              [65] ⟨1, 1, 2025⟩ 5 [86]).2,
          records_ht := initVaccinationRecordsHashtable,
          current_date := ⟨1, 1, 2025⟩ } [65]).batches_ht [65] = none ∧
    searchBatchInSystem (removeBatchInput
        { batches_ht :=
            (insertBatchInSystem
              (insertBatchInSystem initBatchesHashTable [51, 52] ⟨2, 1, 2025⟩ 3 [86]).2
              [65] ⟨1, 1, 2025⟩ 5 [86]).2,
          records_ht := initVaccinationRecordsHashtable,
          current_date := ⟨1, 1, 2025⟩ } [65]).batches_ht [51, 52] =
      some ⟨[51, 52], ⟨[51, 52], ⟨2, 1, 2025⟩, 3, 0, [86]⟩⟩ :=
  ⟨(removeBatchInput_full
    { batches_ht :=
        (insertBatchInSystem
          (insertBatchInSystem initBatchesHashTable [51, 52] ⟨2, 1, 2025⟩ 3 [86]).2
          [65] ⟨1, 1, 2025⟩ 5 [86]).2,
      records_ht := initVaccinationRecordsHashtable,
      current_date := ⟨1, 1, 2025⟩ } [65] ⟨[65], ⟨[65], ⟨1, 1, 2025⟩, 5, 0, [86]⟩⟩
    (by decide) (by decide) (by decide)).1, by decide⟩

/-! ## Rehashing and placement -/

theorem find?_eq_some_of_unique {α : Type} (p : α → Bool) (l : List α)
    (huniq : ∀ x ∈ l, ∀ y ∈ l, p x = true → p y = true → x = y)
    (x : α) (hx : x ∈ l) (hpx : p x = true) : l.find? p = some x := by
  cases hf : l.find? p with
  | none =>
    rw [List.find?_eq_none] at hf
    exact absurd hpx (hf x hx)
  | some y =>
    rw [huniq y (List.mem_of_find?_eq_some hf) x hx (List.find?_some hf) hpx]

theorem find?_perm_of_unique {α : Type} (p : α → Bool) {l1 l2 : List α} (hperm : l1.Perm l2)
    (huniq : ∀ x ∈ l1, ∀ y ∈ l1, p x = true → p y = true → x = y) :
    l1.find? p = l2.find? p := by
  cases hf : l1.find? p with
  | none =>
    rw [List.find?_eq_none] at hf
    symm
    rw [List.find?_eq_none]
    intro x hx
    exact hf x (hperm.mem_iff.mpr hx)
  | some y =>
    symm
    apply find?_eq_some_of_unique
    · intro a ha b hb
      exact huniq a (hperm.mem_iff.mpr ha) b (hperm.mem_iff.mpr hb)
    · exact hperm.mem_iff.mp (List.mem_of_find?_eq_some hf)
    · exact List.find?_some hf

theorem chainAt_rehash {α : Type} (key : α → Int) (nodes : List α) :
    ∀ (bs : List (List α)) (j : Int), 0 ≤ j → j < bs.length →
      chainAt (rehash key nodes bs) j =
        (nodes.filter (fun x => decide (key x = j))).reverse ++ chainAt bs j := by
  induction nodes with
  | nil => intro bs j _ _; simp [rehash]
  | cons x xs ih =>
    intro bs j h0 h1
    have hstep : rehash key (x :: xs) bs =
        rehash key xs (setChain bs (key x) (x :: chainAt bs (key x))) := by
      simp [rehash]
    rw [hstep, ih _ j h0 (by rw [length_setChain]; exact h1)]
    by_cases hk : key x = j
    · subst hk
      rw [chainAt_setChain_self _ h0 h1]
      simp [List.filter_cons]
    · rw [chainAt_setChain_ne _ hk]
      simp [List.filter_cons, hk]

theorem flatten_setChain_cons_perm {α : Type} (bs : List (List α)) (key : Int) (x : α)
    (h0 : 0 ≤ key) (h1 : key < bs.length) :
    (setChain bs key (x :: chainAt bs key)).flatten.Perm (x :: bs.flatten) := by
  rw [flatten_setChain _ _ _ h0 h1]
  conv_rhs => rw [flatten_eq_split_chainAt bs key h0 h1]
  simp only [List.append_assoc, List.cons_append]
  exact List.perm_middle

theorem flatten_rehash_perm {α : Type} (key : α → Int) (nodes : List α) :
    ∀ bs : List (List α), (∀ x ∈ nodes, 0 ≤ key x ∧ key x < bs.length) →
      (rehash key nodes bs).flatten.Perm (nodes ++ bs.flatten) := by
  induction nodes with
  | nil => intro bs _; simp [rehash]
  | cons x xs ih =>
    intro bs hr
    have hstep : rehash key (x :: xs) bs =
        rehash key xs (setChain bs (key x) (x :: chainAt bs (key x))) := by
      simp [rehash]
    rw [hstep]
    have hx := hr x (List.mem_cons_self _ _)
    refine (ih _ ?_).trans ?_
    · intro y hy
      rw [length_setChain]
      exact hr y (List.mem_cons_of_mem _ hy)
    · refine (List.Perm.append_left xs (flatten_setChain_cons_perm bs (key x) x hx.1 hx.2)).trans ?_
      simp only [List.cons_append]
      exact List.perm_middle

theorem placed_chainAt {α : Type} {key : α → Int} {bs : List (List α)} (h : Placed key bs)
    (j : Int) : ∀ x ∈ chainAt bs j, key x = j := by
  intro x hx
  have hne : chainAt bs j ≠ [] := List.ne_nil_of_mem hx
  obtain ⟨h0, h1⟩ := chainAt_ne_nil_range hne
  unfold chainAt at hx
  rw [if_neg (by omega)] at hx
  have := h j.toNat (by omega) x hx
  omega

theorem placed_of_chainAt {α : Type} {key : α → Int} {bs : List (List α)}
    (h : ∀ j : Int, 0 ≤ j → j < bs.length → ∀ x ∈ chainAt bs j, key x = j) : Placed key bs := by
  intro j hj x hx
  apply h j (by omega) (by omega) x
  unfold chainAt
  rw [if_neg (by omega)]
  simpa using hx

theorem placed_rehash {α : Type} (key : α → Int) (nodes : List α) (n : Nat) :
    Placed key (rehash key nodes (List.replicate n [])) := by
  apply placed_of_chainAt
  intro j h0 h1 x hx
  rw [length_rehash] at h1
  rw [chainAt_rehash key nodes _ j h0 (by simpa using h1), chainAt_replicate_nil] at hx
  simp only [List.append_nil, List.mem_reverse, List.mem_filter, decide_eq_true_eq] at hx
  exact hx.2

theorem placed_mem_flatten {α : Type} {key : α → Int} {bs : List (List α)} (h : Placed key bs)
    {x : α} (hx : x ∈ bs.flatten) : x ∈ chainAt bs (key x) := by
  rw [List.mem_flatten] at hx
  obtain ⟨c, hc, hxc⟩ := hx
  obtain ⟨j, hj, hcj⟩ := List.getElem_of_mem hc
  have hget : bs.getD j [] = c := by
    rw [List.getD_eq_getElem _ _ hj]; exact hcj
  have hk : key x = (j : Int) := h j hj x (by rw [hget]; exact hxc)
  unfold chainAt
  rw [if_neg (by omega), hk, Int.toNat_ofNat, hget]
  exact hxc

/-- In a placed bucket array, searching the chain of key `k` for a property that only
nodes of key `k` have is searching the whole array. -/
theorem find?_flatten_of_placed {α : Type} {key : α → Int} {bs : List (List α)}
    (h : Placed key bs) (p : α → Bool) (k : Int) (hp : ∀ x, p x = true → key x = k) :
    bs.flatten.find? p = (chainAt bs k).find? p := by
  cases hf : (chainAt bs k).find? p with
  | some y =>
    have hne : chainAt bs k ≠ [] := List.ne_nil_of_mem (List.mem_of_find?_eq_some hf)
    obtain ⟨h0, h1⟩ := chainAt_ne_nil_range hne
    rw [flatten_eq_split_chainAt bs k h0 h1, List.append_assoc, List.find?_append,
      List.find?_append, hf]
    have hnone : (bs.take k.toNat).flatten.find? p = none := by
      rw [List.find?_eq_none]
      intro x hx hpx
      rw [List.mem_flatten] at hx
      obtain ⟨c, hc, hxc⟩ := hx
      obtain ⟨j, hj, hcj⟩ := List.getElem_of_mem hc
      rw [List.length_take] at hj
      rw [List.getElem_take] at hcj
      have hget : bs.getD j [] = c := by
        rw [List.getD_eq_getElem _ _ (by omega)]; exact hcj
      have hk : key x = (j : Int) := h j (by omega) x (by rw [hget]; exact hxc)
      have := hp x hpx
      omega
    rw [hnone]
    rfl
  | none =>
    rw [List.find?_eq_none] at hf ⊢
    intro x hx hpx
    have hxk := placed_mem_flatten h hx
    rw [hp x hpx] at hxk
    exact hf x hxk hpx

/-! ## The record store: lookup and resize -/

theorem users_unique (l : List VaccinationRecordsUser) (name : CStr)
    (hnd : (l.map (fun u => u.user)).Nodup) :
    ∀ x ∈ l, ∀ y ∈ l,
      decide (strcmp x.user name = 0) = true → decide (strcmp y.user name = 0) = true →
        x = y := by
  intro x hx y hy hpx hpy
  rw [decide_eq_true_eq, strcmp_eq_zero_iff] at hpx hpy
  exact List.inj_on_of_nodup_map hnd hx hy (by rw [hpx, hpy])

theorem findUser_eq_find_users (ht : VaccinationRecordsHashtable)
    (hpl : Placed (fun u => hash_user u.user ht.size) ht.vaccination_records) (name : CStr) :
    findUser ht name = ht.users.find? (fun user => decide (strcmp user.user name = 0)) := by
  unfold findUser VaccinationRecordsHashtable.users
  symm
  apply find?_flatten_of_placed hpl
  intro x hx
  rw [decide_eq_true_eq, strcmp_eq_zero_iff] at hx
  simp only [hx]

theorem resizeVaccinationRecordsHashtable_cases (ht : VaccinationRecordsHashtable)
    (new_size : Int) :
    (resizeVaccinationRecordsHashtable ht new_size).2 = ht ∨
    (INITIAL_TABLE_SIZE ≤ new_size ∧
      (resizeVaccinationRecordsHashtable ht new_size).2 =
        { vaccination_records :=
            rehash (fun user => hash_user user.user new_size) ht.users
              (List.replicate new_size.toNat []),
          users_count := ht.users_count,
          all_records_count := ht.all_records_count }) := by
  unfold resizeVaccinationRecordsHashtable
  split_ifs with h1 h2
  · exact Or.inl rfl
  · exact Or.inl rfl
  · exact Or.inr ⟨by omega, rfl⟩

theorem resize_users_count (ht : VaccinationRecordsHashtable) (new_size : Int) :
    (resizeVaccinationRecordsHashtable ht new_size).2.users_count = ht.users_count ∧
    (resizeVaccinationRecordsHashtable ht new_size).2.all_records_count =
      ht.all_records_count := by
  rcases resizeVaccinationRecordsHashtable_cases ht new_size with h | ⟨-, h⟩ <;> rw [h] <;>
    exact ⟨rfl, rfl⟩

theorem resize_users_perm (ht : VaccinationRecordsHashtable) (new_size : Int)
    (hascii : ∀ u ∈ ht.users, isAscii u.user) :
    (resizeVaccinationRecordsHashtable ht new_size).2.users.Perm ht.users := by
  rcases resizeVaccinationRecordsHashtable_cases ht new_size with h | ⟨hn, h⟩ <;> rw [h]
  unfold VaccinationRecordsHashtable.users
  simp only
  have hn1 : (0 : Int) < new_size := by unfold INITIAL_TABLE_SIZE at hn; omega
  have := flatten_rehash_perm (fun user : VaccinationRecordsUser => hash_user user.user new_size)
    ht.vaccination_records.flatten (List.replicate new_size.toNat []) (by
      intro x hx
      have hr := hash_user_range (hascii x hx) hn1
      simp only [List.length_replicate]
      omega)
  simpa using this

theorem RecordsWF_resize (ht : VaccinationRecordsHashtable) (new_size : Int)
    (hwf : RecordsWF ht) : RecordsWF (resizeVaccinationRecordsHashtable ht new_size).2 := by
  have hperm := resize_users_perm ht new_size hwf.ascii
  rcases resizeVaccinationRecordsHashtable_cases ht new_size with h | ⟨hn, h⟩
  · rw [h]; exact hwf
  · rw [h] at hperm ⊢
    have hn1 : (0 : Int) < new_size := by unfold INITIAL_TABLE_SIZE at hn; omega
    have hsz : VaccinationRecordsHashtable.size
        { vaccination_records :=
            rehash (fun user => hash_user user.user new_size) ht.users
              (List.replicate new_size.toNat []),
          users_count := ht.users_count,
          all_records_count := ht.all_records_count } = new_size := by
      simp only [VaccinationRecordsHashtable.size, length_rehash, List.length_replicate]
      omega
    refine ⟨by rw [hsz]; exact hn1, ?_, ?_, ?_⟩
    · rw [hsz]
      exact placed_rehash _ _ _
    · exact ((hperm.map _).nodup_iff).mpr hwf.nodup
    · intro u hu
      exact hwf.ascii u (hperm.mem_iff.mp hu)

theorem findUser_resize (ht : VaccinationRecordsHashtable) (new_size : Int)
    (hwf : RecordsWF ht) (name : CStr) :
    findUser (resizeVaccinationRecordsHashtable ht new_size).2 name = findUser ht name := by
  have hwf1 := RecordsWF_resize ht new_size hwf
  rw [findUser_eq_find_users _ hwf1.placed, findUser_eq_find_users _ hwf.placed]
  exact find?_perm_of_unique _ (resize_users_perm ht new_size hwf.ascii)
    (users_unique _ name hwf1.nodup)

/-! ## The record store: insertion -/

theorem mem_modifyFirst {α : Type} (p : α → Bool) (f : α → α) :
    ∀ (l : List α) (y : α), y ∈ modifyFirst p f l → y ∈ l ∨ ∃ x ∈ l, y = f x := by
  intro l
  induction l with
  | nil => intro y hy; simp [modifyFirst] at hy
  | cons a as ih =>
    intro y hy
    unfold modifyFirst at hy
    split_ifs at hy with hp
    · rcases List.mem_cons.mp hy with h | h
      · exact Or.inr ⟨a, List.mem_cons_self _ _, h⟩
      · exact Or.inl (List.mem_cons_of_mem _ h)
    · rcases List.mem_cons.mp hy with h | h
      · exact Or.inl (h ▸ List.mem_cons_self _ _)
      · rcases ih y h with h1 | ⟨x, hx, hxy⟩
        · exact Or.inl (List.mem_cons_of_mem _ h1)
        · exact Or.inr ⟨x, List.mem_cons_of_mem _ hx, hxy⟩

theorem map_modifyFirst {α β : Type} (g : α → β) (p : α → Bool) (f : α → α)
    (hg : ∀ x, g (f x) = g x) : ∀ l : List α, (modifyFirst p f l).map g = l.map g := by
  intro l
  induction l with
  | nil => rfl
  | cons a as ih =>
    unfold modifyFirst
    split_ifs with hp
    · simp [hg]
    · simp [ih]

theorem flatten_map_setChain {α β : Type} (g : α → β) (bs : List (List α)) (key : Int)
    (c : List α) (h0 : 0 ≤ key) (h1 : key < bs.length)
    (hc : c.map g = (chainAt bs key).map g) :
    (setChain bs key c).flatten.map g = bs.flatten.map g := by
  rw [flatten_setChain _ _ _ h0 h1]
  conv_rhs => rw [flatten_eq_split_chainAt bs key h0 h1]
  simp only [List.map_append, hc]

theorem findUser_some_range (ht : VaccinationRecordsHashtable) (name : CStr)
    (g : VaccinationRecordsUser) (h : findUser ht name = some g) :
    0 ≤ hash_user name ht.size ∧
      hash_user name ht.size < ht.vaccination_records.length := by
  apply chainAt_ne_nil_range
  intro hnil
  unfold findUser at h
  rw [hnil] at h
  simp at h

theorem insertVaccinationRecord_eq (ht : VaccinationRecordsHashtable)
    (user_name vaccine_name batch_id : CStr) (vaccination_date : Date) :
    ∃ ht1 : VaccinationRecordsHashtable,
      (ht1 = ht ∨
        ht1 = (resizeVaccinationRecordsHashtable ht (nextPrime (ht.size * 2))).2) ∧
      insertVaccinationRecord ht user_name vaccine_name batch_id vaccination_date =
        insertAfterGrow ht1 user_name vaccine_name batch_id vaccination_date := by
  unfold insertVaccinationRecord insertAfterGrow
  by_cases h : 4 * ht.users_count ≥ 3 * ht.size
  · exact ⟨_, Or.inr rfl, by simp only [if_pos h]⟩
  · exact ⟨ht, Or.inl rfl, by simp only [if_neg h]⟩

theorem isAlreadyVaccinated_iff (g : VaccinationRecordsUser) (v : CStr) (d : Date) :
    isAlreadyVaccinated g v d = true ↔
      ∃ r ∈ g.records, r.vaccine_name = v ∧ r.vaccination_date = d := by
  unfold isAlreadyVaccinated
  simp [strcmp_eq_zero_iff, compareDate1Date2_eq_zero_iff]

theorem mem_insertRecordSorted (records : List VaccinationRecord) (record : VaccinationRecord) :
    record ∈ insertRecordSorted records record := by
  unfold insertRecordSorted
  simp

/-- A duplicate is rejected by the part after the load-factor test, with no change. -/
theorem insertAfterGrow_dup (ht1 : VaccinationRecordsHashtable)
    (user_name vaccine_name batch_id : CStr) (vaccination_date : Date)
    (g : VaccinationRecordsUser) (hfind : findUser ht1 user_name = some g)
    (hdup : isAlreadyVaccinated g vaccine_name vaccination_date = true) :
    insertAfterGrow ht1 user_name vaccine_name batch_id vaccination_date = (2, ht1) := by
  unfold insertAfterGrow
  rw [hfind]
  simp only
  unfold insertIntoExistingUserRecords
  rw [if_pos hdup]

theorem insertAfterGrow_none (ht1 : VaccinationRecordsHashtable)
    (user_name vaccine_name batch_id : CStr) (vaccination_date : Date)
    (hfind : findUser ht1 user_name = none) :
    insertAfterGrow ht1 user_name vaccine_name batch_id vaccination_date =
      (1, { vaccination_records := setChain ht1.vaccination_records
              (hash_user user_name ht1.size)
              ({ user := user_name,
                 records := [createVaccinationRecord user_name vaccine_name batch_id
                   vaccination_date ht1.all_records_count] } ::
                chainAt ht1.vaccination_records (hash_user user_name ht1.size)),
            users_count := ht1.users_count + 1,
            all_records_count := ht1.all_records_count + 1 }) := by
  unfold insertAfterGrow
  rw [hfind]

theorem insertAfterGrow_some (ht1 : VaccinationRecordsHashtable)
    (user_name vaccine_name batch_id : CStr) (vaccination_date : Date)
    (g : VaccinationRecordsUser) (hfind : findUser ht1 user_name = some g)
    (hdup : ¬ isAlreadyVaccinated g vaccine_name vaccination_date = true) :
    insertAfterGrow ht1 user_name vaccine_name batch_id vaccination_date =
      (1, { vaccination_records := setChain ht1.vaccination_records
              (hash_user user_name ht1.size)
              (modifyFirst (fun u => decide (strcmp u.user user_name = 0))
                (fun u => ⟨u.user, insertRecordSorted u.records
                  (createVaccinationRecord user_name vaccine_name batch_id vaccination_date
                    ht1.all_records_count)⟩)
                (chainAt ht1.vaccination_records (hash_user user_name ht1.size))),
            users_count := ht1.users_count,
            all_records_count := ht1.all_records_count + 1 }) := by
  unfold insertAfterGrow
  rw [hfind]
  simp only
  unfold insertIntoExistingUserRecords
  rw [if_neg hdup]

/-- After an insertion that returned 1 the user has a group that holds a record with
the inserted vaccine name and date, and the record counter went up by one. -/
theorem insertAfterGrow_inserted (ht1 : VaccinationRecordsHashtable)
    (user_name vaccine_name batch_id : CStr) (vaccination_date : Date)
    (hwf : RecordsWF ht1) (hascii : isAscii user_name)
    (hret : (insertAfterGrow ht1 user_name vaccine_name batch_id vaccination_date).1 = 1) :
    (∃ g, findUser (insertAfterGrow ht1 user_name vaccine_name batch_id vaccination_date).2
        user_name = some g ∧
      isAlreadyVaccinated g vaccine_name vaccination_date = true) ∧
    (insertAfterGrow ht1 user_name vaccine_name batch_id vaccination_date).2.all_records_count =
      ht1.all_records_count + 1 := by
  have hr := hash_user_range hascii hwf.size_pos
  simp only [VaccinationRecordsHashtable.size] at hr
  cases hfind : findUser ht1 user_name with
  | none =>
    rw [insertAfterGrow_none _ _ _ _ _ hfind]
    refine ⟨⟨{ user := user_name,
               records := [createVaccinationRecord user_name vaccine_name batch_id
                 vaccination_date ht1.all_records_count] }, ?_, ?_⟩, rfl⟩
    · unfold findUser
      simp only [VaccinationRecordsHashtable.size, length_setChain]
      rw [chainAt_setChain_self _ hr.1 hr.2]
      simp only [List.find?_cons, strcmp_self, decide_True]
    · rw [isAlreadyVaccinated_iff]
      exact ⟨_, List.mem_singleton_self _, rfl, rfl⟩
  | some g =>
    by_cases hdup : isAlreadyVaccinated g vaccine_name vaccination_date = true
    · rw [insertAfterGrow_dup _ _ _ _ _ g hfind hdup] at hret
      simp at hret
    · rw [insertAfterGrow_some _ _ _ _ _ g hfind hdup]
      refine ⟨⟨⟨g.user, insertRecordSorted g.records
                  (createVaccinationRecord user_name vaccine_name batch_id vaccination_date
                    ht1.all_records_count)⟩, ?_, ?_⟩, rfl⟩
      · unfold findUser
        simp only [VaccinationRecordsHashtable.size, length_setChain]
        rw [chainAt_setChain_self _ hr.1 hr.2]
        unfold findUser at hfind
        simp only [VaccinationRecordsHashtable.size] at hfind
        have hpg := List.find?_some hfind
        exact find?_modifyFirst_self _ _ g _ hfind hpg
      · rw [isAlreadyVaccinated_iff]
        exact ⟨_, mem_insertRecordSorted _ _, rfl, rfl⟩

theorem placed_setChain {α : Type} {key : α → Int} {bs : List (List α)} (h : Placed key bs)
    (k : Int) (c : List α) (hc : ∀ x ∈ c, key x = k) : Placed key (setChain bs k c) := by
  apply placed_of_chainAt
  intro j h0 h1 x hx
  rw [length_setChain] at h1
  by_cases hk : k = j
  · subst hk
    rw [chainAt_setChain_self _ h0 h1] at hx
    exact hc x hx
  · rw [chainAt_setChain_ne _ hk] at hx
    exact placed_chainAt h j x hx

theorem RecordsWF_insertAfterGrow (ht1 : VaccinationRecordsHashtable)
    (user_name vaccine_name batch_id : CStr) (vaccination_date : Date)
    (hwf : RecordsWF ht1) (hascii : isAscii user_name) :
    RecordsWF (insertAfterGrow ht1 user_name vaccine_name batch_id vaccination_date).2 := by
  have hr := hash_user_range hascii hwf.size_pos
  have hpos := hwf.size_pos
  have hpl := hwf.placed
  simp only [VaccinationRecordsHashtable.size] at hr hpos hpl
  cases hfind : findUser ht1 user_name with
  | none =>
    rw [insertAfterGrow_none _ _ _ _ _ hfind]
    have hperm := flatten_setChain_cons_perm ht1.vaccination_records
      (hash_user user_name ht1.vaccination_records.length)
      ({ user := user_name,
         records := [createVaccinationRecord user_name vaccine_name batch_id
           vaccination_date ht1.all_records_count] } : VaccinationRecordsUser) hr.1 hr.2
    refine ⟨?_, ?_, ?_, ?_⟩
    · simpa [VaccinationRecordsHashtable.size, length_setChain] using hpos
    · simp only [VaccinationRecordsHashtable.size, length_setChain]
      apply placed_setChain hpl
      intro x hx
      rcases List.mem_cons.mp hx with rfl | hx
      · rfl
      · exact placed_chainAt hpl _ x hx
    · simp only [VaccinationRecordsHashtable.users, VaccinationRecordsHashtable.size]
      rw [((hperm.map _).nodup_iff), List.map_cons, List.nodup_cons]
      refine ⟨?_, hwf.nodup⟩
      intro hmem
      rw [List.mem_map] at hmem
      obtain ⟨u, hu, hun⟩ := hmem
      rw [findUser_eq_find_users _ hwf.placed, List.find?_eq_none] at hfind
      have := hfind u hu
      simp only [decide_eq_true_eq, strcmp_eq_zero_iff] at this
      exact this hun
    · intro u hu
      simp only [VaccinationRecordsHashtable.users, VaccinationRecordsHashtable.size] at hu
      rcases List.mem_cons.mp (hperm.mem_iff.mp hu) with rfl | hu
      · exact hascii
      · exact hwf.ascii u hu
  | some g =>
    by_cases hdup : isAlreadyVaccinated g vaccine_name vaccination_date = true
    · rw [insertAfterGrow_dup _ _ _ _ _ g hfind hdup]
      exact hwf
    · rw [insertAfterGrow_some _ _ _ _ _ g hfind hdup]
      have hmap := flatten_map_setChain (fun u : VaccinationRecordsUser => u.user)
        ht1.vaccination_records (hash_user user_name ht1.vaccination_records.length)
        (modifyFirst (fun u => decide (strcmp u.user user_name = 0))
          (fun u => ⟨u.user, insertRecordSorted u.records
            (createVaccinationRecord user_name vaccine_name batch_id vaccination_date
              ht1.all_records_count)⟩)
          (chainAt ht1.vaccination_records
            (hash_user user_name ht1.vaccination_records.length)))
        hr.1 hr.2 (map_modifyFirst (fun u : VaccinationRecordsUser => u.user)
          (fun u => decide (strcmp u.user user_name = 0))
          (fun u => ⟨u.user, insertRecordSorted u.records
            (createVaccinationRecord user_name vaccine_name batch_id vaccination_date
              ht1.all_records_count)⟩) (fun _ => rfl) _)
      refine ⟨?_, ?_, ?_, ?_⟩
      · simpa [VaccinationRecordsHashtable.size, length_setChain] using hpos
      · simp only [VaccinationRecordsHashtable.size, length_setChain]
        apply placed_setChain hpl
        intro x hx
        rcases mem_modifyFirst _ _ _ x hx with h | ⟨y, hy, rfl⟩
        · exact placed_chainAt hpl _ x h
        · exact placed_chainAt hpl _ y hy
      · simp only [VaccinationRecordsHashtable.users, VaccinationRecordsHashtable.size]
        rw [hmap]
        exact hwf.nodup
      · intro u hu
        simp only [VaccinationRecordsHashtable.users, VaccinationRecordsHashtable.size] at hu
        have hmem : u.user ∈ List.map (fun u : VaccinationRecordsUser => u.user)
            ht1.vaccination_records.flatten := by
          rw [← hmap]
          exact List.mem_map_of_mem _ hu
        rw [List.mem_map] at hmem
        obtain ⟨w, hw, hwu⟩ := hmem
        rw [← hwu]
        exact hwf.ascii w hw

theorem RecordsWF_init : RecordsWF initVaccinationRecordsHashtable := by
  refine ⟨by decide, ?_, by decide, ?_⟩
  · intro j hj x hx
    unfold initVaccinationRecordsHashtable at hx
    simp only [List.getD_eq_getElem?_getD, List.getElem?_replicate] at hx
    split_ifs at hx <;> simp at hx
  · intro u hu
    have : initVaccinationRecordsHashtable.users = [] := by decide
    rw [this] at hu
    simp at hu

/-- The table the load-factor test of `insertVaccinationRecord` leaves is well
formed, has the same counters and answers every lookup as the table before. -/
theorem insertVaccinationRecord_grow (ht : VaccinationRecordsHashtable)
    (user_name vaccine_name batch_id : CStr) (vaccination_date : Date) (hwf : RecordsWF ht) :
    ∃ ht1 : VaccinationRecordsHashtable,
      insertVaccinationRecord ht user_name vaccine_name batch_id vaccination_date =
        insertAfterGrow ht1 user_name vaccine_name batch_id vaccination_date ∧
      RecordsWF ht1 ∧ ht1.users_count = ht.users_count ∧
      ht1.all_records_count = ht.all_records_count ∧
      ∀ name, findUser ht1 name = findUser ht name := by
  obtain ⟨ht1, h1, h2⟩ :=
    insertVaccinationRecord_eq ht user_name vaccine_name batch_id vaccination_date
  refine ⟨ht1, h2, ?_⟩
  rcases h1 with h | h
  · rw [h]; exact ⟨hwf, rfl, rfl, fun _ => rfl⟩
  · rw [h]
    exact ⟨RecordsWF_resize ht _ hwf, (resize_users_count ht _).1, (resize_users_count ht _).2,
      findUser_resize ht _ hwf⟩

theorem RecordsWF_insertVaccinationRecord (ht : VaccinationRecordsHashtable)
    (user_name vaccine_name batch_id : CStr) (vaccination_date : Date)
    (hwf : RecordsWF ht) (hascii : isAscii user_name) :
    RecordsWF (insertVaccinationRecord ht user_name vaccine_name batch_id vaccination_date).2 := by
  obtain ⟨ht1, h1, h2, -⟩ :=
    insertVaccinationRecord_grow ht user_name vaccine_name batch_id vaccination_date hwf
  rw [h1]
  exact RecordsWF_insertAfterGrow ht1 _ _ _ _ h2 hascii

set_option maxRecDepth 100000 in
/-- C7 (the code reuses an identifier): from the empty table, users `a` and `b` are
vaccinated (record ids 0 and 1), the records of `a` are deleted, which lowers
`all_records_count` to 1, and user `c` is vaccinated.  The new record of `c`
receives id 1, the id the stored record of `b` already has. -/
theorem record_id_reused_after_delete :
    (findUser
        (insertVaccinationRecord
          (deleteRecordVaccinationRecordsUser
            (insertVaccinationRecord
              (insertVaccinationRecord initVaccinationRecordsHashtable
                [97] [86] [65] ⟨10, 1, 2025⟩).2
              [98] [86] [65] ⟨10, 1, 2025⟩).2
            [97]).2
          [99] [86] [65] ⟨10, 1, 2025⟩).2 [98]).map
      (fun u => u.records.map (fun r => r.record_id)) = some [1] ∧
    (findUser
        (insertVaccinationRecord
          (deleteRecordVaccinationRecordsUser
            (insertVaccinationRecord
              (insertVaccinationRecord initVaccinationRecordsHashtable
                [97] [86] [65] ⟨10, 1, 2025⟩).2
              [98] [86] [65] ⟨10, 1, 2025⟩).2
            [97]).2
          [99] [86] [65] ⟨10, 1, 2025⟩).2 [99]).map
      (fun u => u.records.map (fun r => r.record_id)) = some [1] := by
  decide

set_option maxRecDepth 100000 in
/-- C8 (the order by id is broken by the reuse): user `u` gets vaccines 1 and 2 and
user `w` two vaccines in between (ids 0, 1, 2, 3), the records of `w` are
deleted, and `u` gets vaccine 3, all on the same date.  The sequence of `u` then
carries the ids 0, 3, 2 in this order. -/
theorem user_records_not_sorted_by_id :
    (findUser
        (insertVaccinationRecord
          (deleteRecordVaccinationRecordsUser
            (insertVaccinationRecord
              (insertVaccinationRecord
                (insertVaccinationRecord
                  (insertVaccinationRecord initVaccinationRecordsHashtable
                    [117] [86, 49] [65] ⟨10, 1, 2025⟩).2
                  [119] [86, 49] [65] ⟨10, 1, 2025⟩).2
                [119] [86, 50] [66] ⟨10, 1, 2025⟩).2
              [117] [86, 50] [66] ⟨10, 1, 2025⟩).2
            [119]).2
          [117] [86, 51] [67] ⟨10, 1, 2025⟩).2 [117]).map
      (fun u => u.records.map (fun r => (r.vaccination_date, r.record_id))) =
      some [(⟨10, 1, 2025⟩, 0), (⟨10, 1, 2025⟩, 3), (⟨10, 1, 2025⟩, 2)] := by
  decide

/-! ## Sorting: swaps -/

theorem getElem?_some_lt {α : Type} {l : List α} {k : Nat} {x : α} (h : l[k]? = some x) :
    k < l.length := by
  by_contra hc
  rw [List.getElem?_eq_none (by omega)] at h
  cases h

theorem set_set_perm_of_getElem? {α : Type} (l : List α) (i j : Nat) (x y : α)
    (hi : l[i]? = some x) (hj : l[j]? = some y) :
    ((l.set i y).set j x).Perm l := by
  classical
  have hil : i < l.length := getElem?_some_lt hi
  have hjl : j < l.length := getElem?_some_lt hj
  have hjl2 : j < (l.set i y).length := by rw [List.length_set]; exact hjl
  have hxi : l[i] = x := by
    rw [List.getElem?_eq_getElem hil] at hi; exact Option.some.inj hi
  have hyj : l[j] = y := by
    rw [List.getElem?_eq_getElem hjl] at hj; exact Option.some.inj hj
  rw [List.perm_iff_count]
  intro b
  rw [List.count_set _ _ _ _ hjl2, List.count_set _ _ _ _ hil]
  have hj2 : (l.set i y)[j] = y := by
    rw [List.getElem_set]
    split_ifs with h
    · rfl
    · exact hyj
  rw [hj2, hxi]
  have hx : x ∈ l := hxi ▸ List.getElem_mem hil
  have hc : (x == b) = true → 0 < List.count b l := by
    intro h
    have : x = b := by simpa using h
    rw [← this]
    exact List.count_pos_iff.mpr hx
  by_cases h1 : (x == b) = true <;> by_cases h2 : (y == b) = true <;> simp [h1, h2]
  · have := hc h1; omega
  · have := hc h1; omega

theorem readAt_some {α : Type} {a : List α} {i : Int} {x : α} (h : readAt a i = some x) :
    0 ≤ i ∧ a[i.toNat]? = some x := by
  unfold readAt at h
  split_ifs at h with h0
  exact ⟨by omega, h⟩

theorem readAt_of_range {α : Type} (a : List α) (i : Int) (h0 : 0 ≤ i) (h1 : i < a.length) :
    ∃ x, readAt a i = some x ∧ a[i.toNat]? = some x := by
  have hl : i.toNat < a.length := by omega
  refine ⟨a[i.toNat], ?_, List.getElem?_eq_getElem hl⟩
  unfold readAt
  rw [if_neg (by omega), List.getElem?_eq_getElem hl]

theorem swapAt_some {α : Type} {a a1 : List α} {i j : Int} (h : swapAt a i j = some a1) :
    0 ≤ i ∧ 0 ≤ j ∧ ∃ x y, a[i.toNat]? = some x ∧ a[j.toNat]? = some y ∧
      a1 = (a.set i.toNat y).set j.toNat x := by
  unfold swapAt at h
  cases hi : readAt a i with
  | none => rw [hi] at h; simp at h
  | some x =>
    cases hj : readAt a j with
    | none => rw [hi, hj] at h; simp at h
    | some y =>
      rw [hi, hj] at h
      simp only [Option.some.injEq] at h
      exact ⟨(readAt_some hi).1, (readAt_some hj).1, x, y, (readAt_some hi).2,
        (readAt_some hj).2, h.symm⟩

theorem swapAt_of_range {α : Type} (a : List α) (i j : Int) (hi0 : 0 ≤ i)
    (hi1 : i < a.length) (hj0 : 0 ≤ j) (hj1 : j < a.length) :
    ∃ a1, swapAt a i j = some a1 := by
  obtain ⟨x, hx, -⟩ := readAt_of_range a i hi0 hi1
  obtain ⟨y, hy, -⟩ := readAt_of_range a j hj0 hj1
  exact ⟨_, by unfold swapAt; rw [hx, hy]⟩

theorem swapAt_getElem? {α : Type} {a a1 : List α} {i j : Int} (h : swapAt a i j = some a1)
    (k : Nat) :
    a1[k]? = if k = j.toNat then a[i.toNat]? else if k = i.toNat then a[j.toNat]? else a[k]? := by
  obtain ⟨-, -, x, y, hx, hy, rfl⟩ := swapAt_some h
  have hil := getElem?_some_lt hx
  have hjl := getElem?_some_lt hy
  rw [List.getElem?_set, List.getElem?_set, List.length_set]
  by_cases hkj : k = j.toNat
  · subst hkj
    simp [hjl, hx]
  · by_cases hki : k = i.toNat
    · subst hki
      simp [hil, hy, Ne.symm hkj, hkj]
    · simp [Ne.symm hkj, Ne.symm hki, hkj, hki]

theorem swapAt_perm {α : Type} {a a1 : List α} {i j : Int} (h : swapAt a i j = some a1) :
    a1.Perm a := by
  obtain ⟨-, -, x, y, hx, hy, rfl⟩ := swapAt_some h
  exact set_set_perm_of_getElem? a _ _ x y hx hy

/-! ## Sorting: rearrangements inside an index range -/

theorem SegPerm.refl {α : Type} (a : List α) (low high : Int) : SegPerm a a low high :=
  ⟨List.Perm.refl a, fun _ _ => rfl, fun _ h => h⟩

theorem SegPerm.trans {α : Type} {a a1 a2 : List α} {low high : Int}
    (h1 : SegPerm a a1 low high) (h2 : SegPerm a1 a2 low high) : SegPerm a a2 low high :=
  ⟨h2.perm.trans h1.perm, fun k hk => (h2.frame k hk).trans (h1.frame k hk),
   fun P hP => h2.seg P (h1.seg P hP)⟩

theorem SegPerm.mono {α : Type} {a a1 : List α} {low high low1 high1 : Int}
    (h : SegPerm a a1 low1 high1) (hl : low ≤ low1) (hh : high1 ≤ high) :
    SegPerm a a1 low high := by
  refine ⟨h.perm, fun k hk => h.frame k (by omega), ?_⟩
  intro P hP k hk1 hk2 x hx
  by_cases hin : low1 ≤ (k : Int) ∧ (k : Int) ≤ high1
  · exact h.seg P (fun m hm1 hm2 => hP m (by omega) (by omega)) k hin.1 hin.2 x hx
  · rw [h.frame k (by omega)] at hx
    exact hP k hk1 hk2 x hx

theorem SegPerm.length_eq {α : Type} {a a1 : List α} {low high : Int}
    (h : SegPerm a a1 low high) : a1.length = a.length := h.perm.length_eq

theorem SegPerm.of_swapAt {α : Type} {a a1 : List α} {i j low high : Int}
    (h : swapAt a i j = some a1) (hi0 : low ≤ i) (hi1 : i ≤ high) (hj0 : low ≤ j)
    (hj1 : j ≤ high) : SegPerm a a1 low high := by
  obtain ⟨h0i, h0j, x, y, hx, hy, -⟩ := swapAt_some h
  refine ⟨swapAt_perm h, ?_, ?_⟩
  · intro k hk
    rw [swapAt_getElem? h k, if_neg (by omega), if_neg (by omega)]
  · intro P hP k hk1 hk2 v hv
    rw [swapAt_getElem? h k] at hv
    split_ifs at hv with h1 h2
    · exact hP i.toNat (by omega) (by omega) v hv
    · exact hP j.toNat (by omega) (by omega) v hv
    · exact hP k hk1 hk2 v hv

/-! ## Sorting: the partition -/

/-- The invariant of the partition loop after `n` rounds: `i` stays below `j`, the
entries `low..i` are below the pivot, the entries `i+1..j-1` are not, and the
array is a rearrangement inside `low..high-1`. -/
theorem partitionLoop_inv {α : Type} (cmp : α → α → Int) (pivot : α) (a : List α)
    (low high : Int) (h0 : 0 ≤ low) (hh : high < a.length) :
    ∀ n : Nat, (n : Int) ≤ high - low →
      ∃ (a1 : List α) (i : Int),
        ((List.range n).map (fun t : Nat => low + (t : Int))).foldl
            (partitionStep cmp pivot) (some (a, low - 1)) = some (a1, i) ∧
        low - 1 ≤ i ∧ i < low + n ∧ SegPerm a a1 low (high - 1) ∧
        (∀ k : Nat, low ≤ (k : Int) → (k : Int) ≤ i → ∀ x, a1[k]? = some x →
          cmp x pivot < 0) ∧
        (∀ k : Nat, i < (k : Int) → (k : Int) < low + n → ∀ x, a1[k]? = some x →
          ¬ cmp x pivot < 0) := by
  intro n
  induction n with
  | zero =>
    intro _
    refine ⟨a, low - 1, rfl, le_refl _, by simp, SegPerm.refl a _ _, ?_, ?_⟩
    · intro k hk1 hk2; omega
    · intro k hk1 hk2; simp at hk2; omega
  | succ n ih =>
    intro hn
    obtain ⟨a1, i, hfold, hi1, hi2, hseg, hleft, hright⟩ := ih (by push_cast at hn; omega)
    have hlen : a1.length = a.length := hseg.length_eq
    have hjlt : low + (n : Int) < high := by push_cast at hn; omega
    obtain ⟨x, hx, hxget⟩ := readAt_of_range a1 (low + (n : Int)) (by omega) (by omega)
    rw [List.range_succ, List.map_append, List.foldl_append, hfold]
    simp only [List.map_cons, List.map_nil, List.foldl_cons, List.foldl_nil]
    unfold partitionStep
    simp only [hx]
    by_cases hcmp : cmp x pivot < 0
    · obtain ⟨a2, ha2⟩ := swapAt_of_range a1 (i + 1) (low + (n : Int)) (by omega) (by omega)
        (by omega) (by omega)
      simp only [if_pos hcmp, ha2]
      have hget := swapAt_getElem? ha2
      refine ⟨a2, i + 1, rfl, by omega, by push_cast; omega,
        hseg.trans (SegPerm.of_swapAt ha2 (by omega) (by omega) (by omega) (by omega)), ?_, ?_⟩
      · intro k hk1 hk2 v hv
        rw [hget k] at hv
        split_ifs at hv with hkj hki
        · have hij : (i + 1).toNat = (low + (n : Int)).toNat := by omega
          rw [hij, hxget] at hv
          cases hv
          exact hcmp
        · rw [hxget] at hv
          cases hv
          exact hcmp
        · exact hleft k hk1 (by omega) v hv
      · intro k hk1 hk2 v hv
        push_cast at hk2
        rw [hget k] at hv
        split_ifs at hv with hkj hki
        · exact hright (i + 1).toNat (by omega) (by omega) v hv
        · omega
        · exact hright k (by omega) (by omega) v hv
    · simp only [if_neg hcmp]
      refine ⟨a1, i, rfl, hi1, by push_cast; omega, hseg, hleft, ?_⟩
      intro k hk1 hk2 v hv
      push_cast at hk2
      by_cases hkj : (k : Int) = low + (n : Int)
      · have hkn : k = (low + (n : Int)).toNat := by omega
        rw [hkn, hxget] at hv
        cases hv
        exact hcmp
      · exact hright k hk1 (by omega) v hv

theorem partitionBy_spec {α : Type} (cmp : α → α → Int) (a : List α) (low high : Int)
    (h0 : 0 ≤ low) (hlh : low ≤ high) (hh : high < a.length) :
    ∃ (a2 : List α) (p : Int) (pv : α),
      partitionBy cmp a low high = some (a2, p) ∧ low ≤ p ∧ p ≤ high ∧
      SegPerm a a2 low high ∧ a2[p.toNat]? = some pv ∧
      (∀ k : Nat, low ≤ (k : Int) → (k : Int) < p → ∀ x, a2[k]? = some x → cmp x pv < 0) ∧
      (∀ k : Nat, p < (k : Int) → (k : Int) ≤ high → ∀ x, a2[k]? = some x →
        ¬ cmp x pv < 0) := by
  obtain ⟨pivot, hpiv, hpivget⟩ := readAt_of_range a high (by omega) hh
  obtain ⟨a1, i, hfold, hi1, hi2, hseg, hleft, hright⟩ :=
    partitionLoop_inv cmp pivot a low high h0 hh (high - low).toNat (by omega)
  have hlen : a1.length = a.length := hseg.length_eq
  have hi3 : i < high := by omega
  obtain ⟨a2, ha2⟩ := swapAt_of_range a1 (i + 1) high (by omega) (by omega) (by omega)
    (by omega)
  have hget := swapAt_getElem? ha2
  have hpiv1 : a1[high.toNat]? = some pivot := by
    rw [hseg.frame high.toNat (by omega)]; exact hpivget
  refine ⟨a2, i + 1, pivot, ?_, by omega, by omega,
    (hseg.mono (le_refl _) (by omega)).trans
      (SegPerm.of_swapAt ha2 (by omega) (by omega) (by omega) (by omega)), ?_, ?_, ?_⟩
  · unfold partitionBy loopRange
    simp only [hpiv, hfold, ha2]
  · rw [hget]
    by_cases h1 : (i + 1).toNat = high.toNat
    · rw [if_pos h1, h1]; exact hpiv1
    · rw [if_neg h1, if_pos rfl]; exact hpiv1
  · intro k hk1 hk2 v hv
    rw [hget k, if_neg (by omega), if_neg (by omega)] at hv
    exact hleft k hk1 (by omega) v hv
  · intro k hk1 hk2 v hv
    rw [hget k] at hv
    split_ifs at hv with hkh hki
    · exact hright (i + 1).toNat (by omega) (by omega) v hv
    · omega
    · exact hright k (by omega) (by omega) v hv

/-! ## Sorting: the recursion -/

theorem quicksortBy_spec {α : Type} (cmp : α → α → Int) (hc : CmpOrder cmp) :
    ∀ (fuel : Nat) (a : List α) (low high : Int),
      0 ≤ low → high < a.length → 1 ≤ fuel → high - low + 1 ≤ fuel →
      ∃ a1, quicksortBy cmp fuel a low high = some a1 ∧ SegPerm a a1 low high ∧
        SortedSeg cmp a1 low high := by
  intro fuel
  induction fuel with
  | zero => intro a low high _ _ h1; omega
  | succ n ih =>
    intro a low high h0 hh _ hfuel
    unfold quicksortBy
    by_cases hlt : low < high
    · rw [if_pos hlt]
      obtain ⟨a1, p, pv, hpart, hp1, hp2, hseg1, hpv, hleft, hright⟩ :=
        partitionBy_spec cmp a low high h0 (le_of_lt hlt) hh
      have hlen1 : a1.length = a.length := hseg1.length_eq
      obtain ⟨a2, hq2, hseg2, hsort2⟩ := ih a1 low (p - 1) h0 (by omega)
        (by push_cast at hfuel; omega) (by push_cast at hfuel; omega)
      have hlen2 : a2.length = a1.length := hseg2.length_eq
      obtain ⟨a3, hq3, hseg3, hsort3⟩ := ih a2 (p + 1) high (by omega) (by omega)
        (by push_cast at hfuel; omega) (by push_cast at hfuel; omega)
      simp only [hpart, hq2, hq3]
      refine ⟨a3, rfl, ?_, ?_⟩
      · exact (hseg1.trans (hseg2.mono (le_refl _) (by omega))).trans
          (hseg3.mono (by omega) (le_refl _))
      · -- the pivot is still at `p`, the left part below it, the right part not below it
        have hpv3 : a3[p.toNat]? = some pv := by
          rw [hseg3.frame p.toNat (by omega), hseg2.frame p.toNat (by omega)]
          exact hpv
        have hleft3 : ∀ k : Nat, low ≤ (k : Int) → (k : Int) < p → ∀ x, a3[k]? = some x →
            cmp x pv < 0 := by
          intro k hk1 hk2 x hx
          rw [hseg3.frame k (by omega)] at hx
          exact hseg2.seg (fun y => cmp y pv < 0)
            (fun m hm1 hm2 y hy => hleft m hm1 (by omega) y hy) k hk1 (by omega) x hx
        have hright3 : ∀ k : Nat, p < (k : Int) → (k : Int) ≤ high → ∀ x, a3[k]? = some x →
            cmp pv x ≤ 0 := by
          intro k hk1 hk2 x hx
          apply hc.total
          refine hseg3.seg (fun y => ¬ cmp y pv < 0) ?_ k (by omega) hk2 x hx
          intro m hm1 hm2 y hy
          rw [hseg2.frame m (by omega)] at hy
          exact hright m (by omega) hm2 y hy
        intro k l hk hkl hl x y hx hy
        by_cases hlp : (l : Int) < p
        · rw [hseg3.frame k (by omega)] at hx
          rw [hseg3.frame l (by omega)] at hy
          exact hsort2 k l hk hkl (by omega) x y hx hy
        · by_cases hlp2 : (l : Int) = p
          · have hl2 : l = p.toNat := by omega
            rw [hl2, hpv3] at hy
            cases hy
            exact le_of_lt (hleft3 k hk (by omega) x hx)
          · have hy2 := hright3 l (by omega) hl y hy
            by_cases hkp : (k : Int) < p
            · exact hc.trans x pv y (le_of_lt (hleft3 k hk hkp x hx)) hy2
            · by_cases hkp2 : (k : Int) = p
              · have hk2 : k = p.toNat := by omega
                rw [hk2, hpv3] at hx
                cases hx
                exact hy2
              · exact hsort3 k l (by omega) hkl hl x y hx hy
    · rw [if_neg hlt]
      refine ⟨a, rfl, SegPerm.refl a _ _, ?_⟩
      intro k l hk hkl hl
      omega

/-- Sorting the whole array: the result is a permutation in which every earlier
entry compares non-positive with every later one. -/
theorem quicksortBy_whole {α : Type} (cmp : α → α → Int) (hc : CmpOrder cmp) (a : List α) :
    ∃ a1, quicksortBy cmp (a.length + 1) a 0 ((a.length : Int) - 1) = some a1 ∧
      a1.Perm a ∧ a1.Pairwise (fun x y => cmp x y ≤ 0) := by
  obtain ⟨a1, h1, hseg, hsort⟩ := quicksortBy_spec cmp hc (a.length + 1) a 0
    ((a.length : Int) - 1) (le_refl 0) (by omega) (by omega) (by push_cast; omega)
  refine ⟨a1, h1, hseg.perm, ?_⟩
  rw [List.pairwise_iff_getElem]
  intro i j hi hj hij
  have hlen := hseg.length_eq
  exact hsort i j (by omega) hij (by omega) _ _ (List.getElem?_eq_getElem hi)
    (List.getElem?_eq_getElem hj)

/-! ## The comparison functions are total preorders -/

theorem strcmp_swap (a : CStr) : ∀ b : CStr, strcmp b a = - strcmp a b := by
  induction a with
  | nil => intro b; cases b <;> simp [strcmp]
  | cons x xs ih =>
    intro b
    cases b with
    | nil => simp [strcmp]
    | cons y ys =>
      simp only [strcmp]
      split_ifs <;> first | omega | exact ih ys

theorem strcmp_trans (a : CStr) : ∀ b c : CStr, strcmp a b ≤ 0 → strcmp b c ≤ 0 →
    strcmp a c ≤ 0 := by
  induction a with
  | nil => intro b c _ _; cases c <;> simp [strcmp]
  | cons x xs ih =>
    intro b c h1 h2
    cases b with
    | nil => simp [strcmp] at h1
    | cons y ys =>
      cases c with
      | nil => simp [strcmp] at h2
      | cons z zs =>
        simp only [strcmp] at h1 h2 ⊢
        split_ifs at h1 h2 ⊢ <;> first | omega | exact ih ys zs h1 h2

theorem compareDate1Date2_swap (a b : Date) :
    compareDate1Date2 b a = - compareDate1Date2 a b := by
  unfold compareDate1Date2
  split_ifs <;> omega

theorem compareBatches_le_iff (b1 b2 : BatchInfo) :
    compareBatches b1 b2 ≤ 0 ↔
      compareDate1Date2 b1.date b2.date < 0 ∨
        (b1.date = b2.date ∧ strcmp b1.batch b2.batch ≤ 0) := by
  unfold compareBatches
  simp only
  by_cases h : compareDate1Date2 b1.date b2.date = 0
  · rw [if_neg (by simpa using h)]
    have := compareDate1Date2_eq_zero_iff.mp h
    constructor
    · intro h1; exact Or.inr ⟨this, h1⟩
    · rintro (h1 | ⟨-, h1⟩)
      · omega
      · exact h1
  · rw [if_pos h]
    constructor
    · intro h1; exact Or.inl (by omega)
    · rintro (h1 | ⟨h1, -⟩)
      · omega
      · exact absurd (compareDate1Date2_eq_zero_iff.mpr h1) h

theorem compareBatches_swap (b1 b2 : BatchInfo) :
    compareBatches b2 b1 = - compareBatches b1 b2 := by
  unfold compareBatches
  simp only
  rw [compareDate1Date2_swap b1.date b2.date, strcmp_swap b1.batch b2.batch]
  split_ifs <;> omega

theorem compareBatches_order : CmpOrder compareBatches := by
  constructor
  · intro a b h
    rw [compareBatches_swap a b]
    omega
  · intro a b c h1 h2
    rw [compareBatches_le_iff] at h1 h2 ⊢
    rcases h1 with h1 | ⟨h1, h1s⟩
    · left
      rcases h2 with h2 | ⟨h2, -⟩
      · exact compareDate1Date2_lt_of_lt_of_le h1 (le_of_lt h2)
      · rw [← h2]; exact h1
    · rcases h2 with h2 | ⟨h2, h2s⟩
      · left; rw [h1]; exact h2
      · right; exact ⟨h1.trans h2, strcmp_trans _ _ _ h1s h2s⟩

theorem compare_records_le_iff (r1 r2 : VaccinationRecord) :
    compare_records r1 r2 ≤ 0 ↔
      compareDate1Date2 r1.vaccination_date r2.vaccination_date < 0 ∨
        (r1.vaccination_date = r2.vaccination_date ∧ r1.record_id ≤ r2.record_id) := by
  unfold compare_records
  simp only
  by_cases h : compareDate1Date2 r1.vaccination_date r2.vaccination_date = 0
  · rw [if_pos h]
    have := compareDate1Date2_eq_zero_iff.mp h
    constructor
    · intro h1
      refine Or.inr ⟨this, ?_⟩
      split_ifs at h1 <;> omega
    · rintro (h1 | ⟨-, h1⟩)
      · omega
      · split_ifs <;> omega
  · rw [if_neg h]
    constructor
    · intro h1; exact Or.inl (by omega)
    · rintro (h1 | ⟨h1, -⟩)
      · omega
      · exact absurd (compareDate1Date2_eq_zero_iff.mpr h1) h

theorem compare_records_swap (r1 r2 : VaccinationRecord) :
    compare_records r2 r1 = - compare_records r1 r2 := by
  unfold compare_records
  simp only
  rw [compareDate1Date2_swap r1.vaccination_date r2.vaccination_date]
  split_ifs <;> omega

theorem compare_records_order : CmpOrder compare_records := by
  constructor
  · intro a b h
    rw [compare_records_swap a b]
    omega
  · intro a b c h1 h2
    rw [compare_records_le_iff] at h1 h2 ⊢
    rcases h1 with h1 | ⟨h1, h1s⟩
    · left
      rcases h2 with h2 | ⟨h2, -⟩
      · exact compareDate1Date2_lt_of_lt_of_le h1 (le_of_lt h2)
      · rw [← h2]; exact h1
    · rcases h2 with h2 | ⟨h2, h2s⟩
      · left; rw [h1]; exact h2
      · right; exact ⟨h1.trans h2, le_trans h1s h2s⟩

/-! ## The sorted listings -/

/-- C9: when `batch_count` is the number of stored batches, `listAllBatchesInSystem`
returns 1 and prints a permutation of the stored batches, `batch_count` of them,
each printed batch being earlier in date than every later one or of the same date
with an identifier that `strcmp` does not rank after it; and `quicksortBatches`
returns a result for every array and every index range inside it, given fuel
for the length of the range. -/
theorem listAllBatchesInSystem_sorted_perm (ht : BatchesHashTable)
    (hcount : ht.batch_count = ht.nodes.length) :
    (∃ out : List BatchInfo,
      listAllBatchesInSystem ht = some (1, out) ∧
      out.Perm (ht.nodes.map (fun n => n.batch_info)) ∧
      (out.length : Int) = ht.batch_count ∧
      out.Pairwise (fun b1 b2 =>
        compareDate1Date2 b1.date b2.date < 0 ∨
          (b1.date = b2.date ∧ strcmp b1.batch b2.batch ≤ 0))) ∧
    (∀ (fuel : Nat) (a : List BatchInfo) (low high : Int),
      0 ≤ low → high < a.length → 1 ≤ fuel → high - low + 1 ≤ fuel →
      ∃ a1, quicksortBatches fuel a low high = some a1) := by
  constructor
  · obtain ⟨a1, h1, hperm, hsort⟩ := quicksortBy_whole compareBatches compareBatches_order
      (ht.nodes.map (fun n => n.batch_info))
    have hlen : a1.length = ht.nodes.length := by
      rw [hperm.length_eq, List.length_map]
    refine ⟨a1, ?_, hperm, by rw [hlen, hcount], ?_⟩
    · unfold listAllBatchesInSystem quicksortBatches
      simp only [h1]
      rw [if_neg (by rw [hcount, List.length_map]; omega)]
      simp only [Int.toNat_ofNat, List.length_map, Option.some.injEq, Prod.mk.injEq, true_and]
      rw [← hlen, List.take_length]
    · exact hsort.imp (fun h => (compareBatches_le_iff _ _).mp h)
  · intro fuel a low high h0 hh hf1 hf2
    obtain ⟨a1, h1, -, -⟩ :=
      quicksortBy_spec compareBatches compareBatches_order fuel a low high h0 hh hf1 hf2
    exact ⟨a1, h1⟩

/-- C9 on the table holding the batches `34` and `A` of one bucket chain. -/
theorem listAllBatchesInSystem_sorted_perm_witness :
    ∃ out : List BatchInfo,
      listAllBatchesInSystem
        (insertBatchInSystem
          (insertBatchInSystem initBatchesHashTable [51, 52] ⟨2, 1, 2025⟩ 3 [86]).2
          [65] ⟨1, 1, 2025⟩ 5 [86]).2 = some (1, out) ∧
      (out.length : Int) = 2 :=
  have h := (listAllBatchesInSystem_sorted_perm
    (insertBatchInSystem
      (insertBatchInSystem initBatchesHashTable [51, 52] ⟨2, 1, 2025⟩ 3 [86]).2
      [65] ⟨1, 1, 2025⟩ 5 [86]).2 (by decide)).1
  h.elim (fun out ho => ⟨out, ho.1, ho.2.2.1⟩)

/-- C10: when `all_records_count` is the number of stored records,
`listAllRecordsInSystem` returns 1 and prints a permutation of the records of all
users, `all_records_count` of them, each printed record being earlier in date
than every later one or of the same date with a sequence id that is not greater;
and `quicksort_records` returns a result for every array and every index range
inside it, given fuel for the length of the range. -/
theorem listAllRecordsInSystem_sorted_perm (ht : VaccinationRecordsHashtable)
    (hcount : ht.all_records_count = (ht.users.flatMap (fun u => u.records)).length) :
    (∃ out : List VaccinationRecord,
      listAllRecordsInSystem ht = some (1, out) ∧
      out.Perm (ht.users.flatMap (fun u => u.records)) ∧
      (out.length : Int) = ht.all_records_count ∧
      out.Pairwise (fun r1 r2 =>
        compareDate1Date2 r1.vaccination_date r2.vaccination_date < 0 ∨
          (r1.vaccination_date = r2.vaccination_date ∧ r1.record_id ≤ r2.record_id))) ∧
    (∀ (fuel : Nat) (a : List VaccinationRecord) (low high : Int),
      0 ≤ low → high < a.length → 1 ≤ fuel → high - low + 1 ≤ fuel →
      ∃ a1, quicksort_records fuel a low high = some a1) := by
  constructor
  · obtain ⟨a1, h1, hperm, hsort⟩ := quicksortBy_whole compare_records compare_records_order
      (ht.users.flatMap (fun u => u.records))
    have hlen : a1.length = (ht.users.flatMap (fun u => u.records)).length := hperm.length_eq
    refine ⟨a1, ?_, hperm, by rw [hlen, hcount], ?_⟩
    · unfold listAllRecordsInSystem quicksort_records
      simp only [hcount, h1]
      rw [if_neg (by simp)]
      simp only [Int.toNat_ofNat, Option.some.injEq, Prod.mk.injEq, true_and]
      rw [← hlen, List.take_length]
    · exact hsort.imp (fun h => (compare_records_le_iff _ _).mp h)
  · intro fuel a low high h0 hh hf1 hf2
    obtain ⟨a1, h1, -, -⟩ :=
      quicksortBy_spec compare_records compare_records_order fuel a low high h0 hh hf1 hf2
    exact ⟨a1, h1⟩

set_option maxRecDepth 100000 in
/-- C10 on the table holding one record of user `a` and one of user `b`. -/
theorem listAllRecordsInSystem_sorted_perm_witness :
    ∃ out : List VaccinationRecord,
      listAllRecordsInSystem
        (insertVaccinationRecord
          (insertVaccinationRecord initVaccinationRecordsHashtable
            [97] [86] [65] ⟨10, 1, 2025⟩).2
          [98] [86] [65] ⟨10, 1, 2025⟩).2 = some (1, out) ∧
      (out.length : Int) = 2 :=
  have h := (listAllRecordsInSystem_sorted_perm
    (insertVaccinationRecord
      (insertVaccinationRecord initVaccinationRecordsHashtable
        [97] [86] [65] ⟨10, 1, 2025⟩).2
      [98] [86] [65] ⟨10, 1, 2025⟩).2 (by decide)).1
  h.elim (fun out ho => ⟨out, ho.1, ho.2.2.1⟩)

/-! ## The batch listing does not depend on the layout of the table -/

theorem listAllBatchesInSystem_out (ht : BatchesHashTable)
    (hcount : ht.batch_count = ht.nodes.length) :
    ∃ out : List BatchInfo,
      listAllBatchesInSystem ht = some (1, out) ∧
      out.Perm (ht.nodes.map (fun n => n.batch_info)) ∧
      out.Pairwise (fun b1 b2 => compareBatches b1 b2 ≤ 0) := by
  obtain ⟨a1, h1, hperm, hsort⟩ := quicksortBy_whole compareBatches compareBatches_order
    (ht.nodes.map (fun n => n.batch_info))
  have hlen : a1.length = ht.nodes.length := by
    rw [hperm.length_eq, List.length_map]
  refine ⟨a1, ?_, hperm, hsort⟩
  unfold listAllBatchesInSystem quicksortBatches
  simp only [h1]
  rw [if_neg (by rw [hcount, List.length_map]; omega)]
  simp only [Int.toNat_ofNat, List.length_map, Option.some.injEq, Prod.mk.injEq, true_and]
  rw [← hlen, List.take_length]

theorem compareBatches_lt_iff (b1 b2 : BatchInfo) :
    compareBatches b1 b2 < 0 ↔
      compareDate1Date2 b1.date b2.date < 0 ∨
        (b1.date = b2.date ∧ strcmp b1.batch b2.batch < 0) := by
  unfold compareBatches
  simp only
  by_cases h : compareDate1Date2 b1.date b2.date = 0
  · rw [if_neg (by simpa using h)]
    have := compareDate1Date2_eq_zero_iff.mp h
    constructor
    · intro h1; exact Or.inr ⟨this, h1⟩
    · rintro (h1 | ⟨-, h1⟩)
      · omega
      · exact h1
  · rw [if_pos h]
    constructor
    · intro h1; exact Or.inl h1
    · rintro (h1 | ⟨h1, -⟩)
      · exact h1
      · exact absurd (compareDate1Date2_eq_zero_iff.mpr h1) h

theorem compareBatches_eq_zero (b1 b2 : BatchInfo) (h : compareBatches b1 b2 = 0) :
    b1.batch = b2.batch := by
  unfold compareBatches at h
  simp only at h
  split_ifs at h with h1
  · exact absurd h h1
  · exact strcmp_eq_zero_iff.mp h

/-- A listing sorted for `compareBatches` whose identifiers are pairwise distinct is
strictly sorted. -/
theorem pairwise_compareBatches_strict (out : List BatchInfo)
    (hsort : out.Pairwise (fun b1 b2 => compareBatches b1 b2 ≤ 0))
    (hnd : (out.map (fun b => b.batch)).Nodup) :
    out.Pairwise (fun b1 b2 => compareBatches b1 b2 < 0) := by
  have hne : out.Pairwise (fun b1 b2 => b1.batch ≠ b2.batch) := by
    unfold List.Nodup at hnd
    exact List.pairwise_map.mp hnd
  refine (hsort.and hne).imp ?_
  intro a b hab
  by_contra hc
  exact hab.2 (compareBatches_eq_zero a b (by omega))

/-- C11: two batch tables that hold the same batches, with pairwise distinct
identifiers, in any chains and any number of buckets, print the same sequence;
the sequence is a permutation of the batches stored in either table, with one
entry per counted batch, and in it a batch precedes every batch of a later date
and every batch of the same date with a `strcmp`-greater identifier.  (The
listing writes nothing to the table, so listing the same table twice is the case
of two equal tables.) -/
theorem listAllBatchesInSystem_deterministic (ht1 ht2 : BatchesHashTable)
    (hperm : (ht1.nodes.map (fun n => n.batch_info)).Perm
      (ht2.nodes.map (fun n => n.batch_info)))
    (hnodup : (ht1.nodes.map (fun n => n.batch_info.batch)).Nodup)
    (hc1 : ht1.batch_count = ht1.nodes.length)
    (hc2 : ht2.batch_count = ht2.nodes.length) :
    ∃ out : List BatchInfo,
      listAllBatchesInSystem ht1 = some (1, out) ∧
      listAllBatchesInSystem ht2 = some (1, out) ∧
      out.Perm (ht1.nodes.map (fun n => n.batch_info)) ∧
      out.Perm (ht2.nodes.map (fun n => n.batch_info)) ∧
      (out.length : Int) = ht1.batch_count ∧
      out.Pairwise (fun b1 b2 =>
        compareDate1Date2 b1.date b2.date < 0 ∨
          (b1.date = b2.date ∧ strcmp b1.batch b2.batch < 0)) := by
  obtain ⟨out1, ho1, hp1, hs1⟩ := listAllBatchesInSystem_out ht1 hc1
  obtain ⟨out2, ho2, hp2, hs2⟩ := listAllBatchesInSystem_out ht2 hc2
  have hnd0 : ((ht1.nodes.map (fun n => n.batch_info)).map (fun b => b.batch)).Nodup := by
    rw [List.map_map]; exact hnodup
  have hnd1 : (out1.map (fun b => b.batch)).Nodup :=
    ((hp1.map _).nodup_iff).mpr hnd0
  have hp12 : out1.Perm out2 := hp1.trans (hperm.trans hp2.symm)
  have hnd2 : (out2.map (fun b => b.batch)).Nodup :=
    ((hp12.map _).nodup_iff).mp hnd1
  have hst1 := pairwise_compareBatches_strict out1 hs1 hnd1
  have hst2 := pairwise_compareBatches_strict out2 hs2 hnd2
  haveI : IsAntisymm BatchInfo (fun b1 b2 => compareBatches b1 b2 < 0) :=
    ⟨fun a b hab hba => by rw [compareBatches_swap a b] at hba; omega⟩
  have heq : out1 = out2 := List.eq_of_perm_of_sorted hp12 hst1 hst2
  refine ⟨out1, ho1, by rw [heq]; exact ho2, hp1, hp1.trans hperm, ?_, ?_⟩
  · rw [hp1.length_eq, List.length_map, hc1]
  · exact hst1.imp (fun h => (compareBatches_lt_iff _ _).mp h)

set_option maxRecDepth 100000 in
/-- C11 on two tables that received the batches `34` and `A`, of the same date, in
opposite orders: both print `34` before `A`. -/
theorem listAllBatchesInSystem_deterministic_witness :
    (∃ out : List BatchInfo,
      listAllBatchesInSystem
        (insertBatchInSystem
          (insertBatchInSystem initBatchesHashTable [51, 52] ⟨1, 1, 2025⟩ 3 [86]).2
          [65] ⟨1, 1, 2025⟩ 5 [86]).2 = some (1, out) ∧
      listAllBatchesInSystem
        (insertBatchInSystem
          (insertBatchInSystem initBatchesHashTable [65] ⟨1, 1, 2025⟩ 5 [86]).2
          [51, 52] ⟨1, 1, 2025⟩ 3 [86]).2 = some (1, out) ∧
      out.Perm
        ((insertBatchInSystem
          (insertBatchInSystem initBatchesHashTable [51, 52] ⟨1, 1, 2025⟩ 3 [86]).2
          [65] ⟨1, 1, 2025⟩ 5 [86]).2.nodes.map (fun n => n.batch_info))) ∧
    listAllBatchesInSystem
        (insertBatchInSystem
          (insertBatchInSystem initBatchesHashTable [51, 52] ⟨1, 1, 2025⟩ 3 [86]).2
          [65] ⟨1, 1, 2025⟩ 5 [86]).2 =
      some (1, [⟨[51, 52], ⟨1, 1, 2025⟩, 3, 0, [86]⟩, ⟨[65], ⟨1, 1, 2025⟩, 5, 0, [86]⟩]) ∧
    listAllBatchesInSystem
        (insertBatchInSystem
          (insertBatchInSystem initBatchesHashTable [65] ⟨1, 1, 2025⟩ 5 [86]).2
          [51, 52] ⟨1, 1, 2025⟩ 3 [86]).2 =
      some (1, [⟨[51, 52], ⟨1, 1, 2025⟩, 3, 0, [86]⟩, ⟨[65], ⟨1, 1, 2025⟩, 5, 0, [86]⟩]) :=
  ⟨(listAllBatchesInSystem_deterministic
    (insertBatchInSystem
      (insertBatchInSystem initBatchesHashTable [51, 52] ⟨1, 1, 2025⟩ 3 [86]).2
      [65] ⟨1, 1, 2025⟩ 5 [86]).2
    (insertBatchInSystem
      (insertBatchInSystem initBatchesHashTable [65] ⟨1, 1, 2025⟩ 5 [86]).2
      [51, 52] ⟨1, 1, 2025⟩ 3 [86]).2
    (by decide) (by decide) (by decide) (by decide)).elim
    (fun out ho => ⟨out, ho.1, ho.2.1, ho.2.2.1⟩),
   by decide, by decide⟩

/-! ## The order of the record listing after a deletion -/

set_option maxRecDepth 100000 in
/-- C12 (the code lists a later record first): from the empty table, users `a`, `b`
and `c` are vaccinated on the same date (record ids 0, 1, 2), the records of `a`
and of `b` are deleted, which lowers `all_records_count` to 1, and user `d` is
vaccinated on that date and receives id 1.  `listAllRecordsInSystem` then prints
the record of `d` before the record of `c`, which was inserted earlier. -/
theorem listAllRecords_later_record_first :
    listAllRecordsInSystem
        (insertVaccinationRecord
          (deleteRecordVaccinationRecordsUser
            (deleteRecordVaccinationRecordsUser
              (insertVaccinationRecord
                (insertVaccinationRecord
                  (insertVaccinationRecord initVaccinationRecordsHashtable
                    [97] [86] [65] ⟨10, 1, 2025⟩).2
                  [98] [86] [65] ⟨10, 1, 2025⟩).2
                [99] [86] [65] ⟨10, 1, 2025⟩).2
              [97]).2
            [98]).2
          [100] [86] [65] ⟨10, 1, 2025⟩).2 =
      some (1, [⟨1, [100], [86], [65], ⟨10, 1, 2025⟩⟩, ⟨2, [99], [86], [65], ⟨10, 1, 2025⟩⟩]) := by
  decide

/-! ## Bucket counts and counters after each operation -/

theorem nextPrimeLoop_ge : ∀ (fuel : Nat) (num : Int), num ≤ nextPrimeLoop fuel num := by
  intro fuel
  induction fuel with
  | zero => intro num; simp [nextPrimeLoop]
  | succ n ih =>
    intro num
    unfold nextPrimeLoop
    split_ifs
    · exact le_refl _
    · have := ih (num + 1); omega

theorem nextPrime_ge (num : Int) : num ≤ nextPrime num := nextPrimeLoop_ge _ _

theorem resize_records_size (ht : VaccinationRecordsHashtable) (new_size : Int) :
    (resizeVaccinationRecordsHashtable ht new_size).2.size =
      if new_size < INITIAL_TABLE_SIZE ∨ new_size = ht.size then ht.size else new_size := by
  unfold resizeVaccinationRecordsHashtable
  by_cases h1 : new_size < INITIAL_TABLE_SIZE
  · simp [h1]
  · by_cases h2 : new_size = ht.size
    · simp [h1, h2]
    · rw [if_neg h1, if_neg h2, if_neg (by tauto)]
      simp only [VaccinationRecordsHashtable.size, length_rehash, List.length_replicate]
      unfold INITIAL_TABLE_SIZE at h1
      omega

theorem insertAfterGrow_size (ht1 : VaccinationRecordsHashtable)
    (user_name vaccine_name batch_id : CStr) (vaccination_date : Date) :
    (insertAfterGrow ht1 user_name vaccine_name batch_id vaccination_date).2.size = ht1.size ∧
    ((insertAfterGrow ht1 user_name vaccine_name batch_id vaccination_date).2.users_count =
        ht1.users_count ∨
      (insertAfterGrow ht1 user_name vaccine_name batch_id vaccination_date).2.users_count =
        ht1.users_count + 1) := by
  cases hfind : findUser ht1 user_name with
  | none =>
    rw [insertAfterGrow_none _ _ _ _ _ hfind]
    exact ⟨by simp [VaccinationRecordsHashtable.size, length_setChain], Or.inr rfl⟩
  | some g =>
    by_cases hdup : isAlreadyVaccinated g vaccine_name vaccination_date = true
    · rw [insertAfterGrow_dup _ _ _ _ _ g hfind hdup]
      exact ⟨rfl, Or.inl rfl⟩
    · rw [insertAfterGrow_some _ _ _ _ _ g hfind hdup]
      exact ⟨by simp [VaccinationRecordsHashtable.size, length_setChain], Or.inl rfl⟩

/-- The bucket count and the user counter after `insertVaccinationRecord`. -/
theorem insertVaccinationRecord_counters (ht : VaccinationRecordsHashtable)
    (user_name vaccine_name batch_id : CStr) (vaccination_date : Date) :
    (insertVaccinationRecord ht user_name vaccine_name batch_id vaccination_date).2.size =
      (if 4 * ht.users_count ≥ 3 * ht.size then
        (if nextPrime (ht.size * 2) < INITIAL_TABLE_SIZE ∨ nextPrime (ht.size * 2) = ht.size
          then ht.size else nextPrime (ht.size * 2))
       else ht.size) ∧
    ((insertVaccinationRecord ht user_name vaccine_name batch_id vaccination_date).2.users_count =
        ht.users_count ∨
      (insertVaccinationRecord ht user_name vaccine_name batch_id vaccination_date).2.users_count =
        ht.users_count + 1) := by
  have hunf : insertVaccinationRecord ht user_name vaccine_name batch_id vaccination_date =
      insertAfterGrow
        (if 4 * ht.users_count ≥ 3 * ht.size then
          (resizeVaccinationRecordsHashtable ht (nextPrime (ht.size * 2))).2 else ht)
        user_name vaccine_name batch_id vaccination_date := by
    unfold insertVaccinationRecord insertAfterGrow
    rfl
  rw [hunf]
  obtain ⟨h1, h2⟩ := insertAfterGrow_size
    (if 4 * ht.users_count ≥ 3 * ht.size then
      (resizeVaccinationRecordsHashtable ht (nextPrime (ht.size * 2))).2 else ht)
    user_name vaccine_name batch_id vaccination_date
  rw [h1]
  by_cases hg : 4 * ht.users_count ≥ 3 * ht.size
  · simp only [if_pos hg] at h2 ⊢
    rw [(resize_users_count ht _).1] at h2
    exact ⟨resize_records_size ht _, h2⟩
  · simp only [if_neg hg] at h2 ⊢
    exact ⟨trivial, h2⟩

theorem deleteRecordVaccinationRecordsUser_eq (ht : VaccinationRecordsHashtable)
    (user_name : CStr) :
    deleteRecordVaccinationRecordsUser ht user_name =
      ((unlinkUser ht user_name).1, shrinkIfSparse (unlinkUser ht user_name).2) := by
  unfold deleteRecordVaccinationRecordsUser unlinkUser shrinkIfSparse
  simp only
  cases (chainAt ht.vaccination_records (hash_user user_name ht.size)).find?
      (fun curr => decide (strcmp curr.user user_name = 0)) with
  | none => simp only; split_ifs <;> rfl
  | some curr => simp only; split_ifs <;> rfl

theorem unlinkUser_counters (ht : VaccinationRecordsHashtable) (user_name : CStr) :
    (unlinkUser ht user_name).2.users_count = ht.users_count - 1 ∧
    (unlinkUser ht user_name).2.size = ht.size := by
  unfold unlinkUser
  cases (chainAt ht.vaccination_records (hash_user user_name ht.size)).find?
      (fun curr => decide (strcmp curr.user user_name = 0)) with
  | none => exact ⟨rfl, rfl⟩
  | some curr =>
    exact ⟨rfl, by simp [VaccinationRecordsHashtable.size, length_setChain]⟩

theorem shrinkIfSparse_counters (ht1 : VaccinationRecordsHashtable) :
    (shrinkIfSparse ht1).users_count = ht1.users_count ∧
    (shrinkIfSparse ht1).all_records_count = ht1.all_records_count ∧
    (shrinkIfSparse ht1).size =
      (if 4 * ht1.users_count < ht1.size then
        (if nextPrime (ht1.size / 2) < INITIAL_TABLE_SIZE ∨ nextPrime (ht1.size / 2) = ht1.size
          then ht1.size else nextPrime (ht1.size / 2))
       else ht1.size) := by
  unfold shrinkIfSparse
  by_cases hsh : 4 * ht1.users_count < ht1.size
  · rw [if_pos hsh, if_pos hsh]
    exact ⟨(resize_users_count _ _).1, (resize_users_count _ _).2, resize_records_size _ _⟩
  · rw [if_neg hsh, if_neg hsh]
    exact ⟨rfl, rfl, rfl⟩

/-- The bucket count and the user counter after `deleteRecordVaccinationRecordsUser`. -/
theorem deleteUser_counters (ht : VaccinationRecordsHashtable) (user_name : CStr) :
    (deleteRecordVaccinationRecordsUser ht user_name).2.users_count = ht.users_count - 1 ∧
    (deleteRecordVaccinationRecordsUser ht user_name).2.size =
      (if 4 * (ht.users_count - 1) < ht.size then
        (if nextPrime (ht.size / 2) < INITIAL_TABLE_SIZE ∨ nextPrime (ht.size / 2) = ht.size
          then ht.size else nextPrime (ht.size / 2))
       else ht.size) := by
  rw [deleteRecordVaccinationRecordsUser_eq]
  obtain ⟨h1, h2⟩ := unlinkUser_counters ht user_name
  obtain ⟨h3, -, h5⟩ := shrinkIfSparse_counters (unlinkUser ht user_name).2
  simp only
  rw [h3, h5, h1, h2]
  exact ⟨rfl, rfl⟩

/-! ## `nextPrime` finds a prime -/

theorem isPrimeLoop_of_prime (p : Nat) (hp : p.Prime) :
    ∀ (fuel : Nat) (i : Int), 2 ≤ i → isPrimeLoop (p : Int) fuel i = true := by
  intro fuel
  induction fuel with
  | zero => intro i _; rfl
  | succ n ih =>
    intro i hi
    unfold isPrimeLoop
    by_cases hsq : i * i ≤ (p : Int)
    · rw [if_pos hsq]
      have hmod : ¬ (p : Int).tmod i = 0 := by
        intro h0
        rw [Int.tmod_eq_emod (by omega) (by omega)] at h0
        have hdvd : i ∣ (p : Int) := Int.dvd_of_emod_eq_zero h0
        have hi2 : ((i.toNat : Nat) : Int) = i := Int.toNat_of_nonneg (by omega)
        rw [← hi2, Int.natCast_dvd_natCast] at hdvd
        rcases hp.eq_one_or_self_of_dvd i.toNat hdvd with h1 | h1
        · omega
        · have hip : i = (p : Int) := by omega
          rw [hip] at hsq
          have hp2 : (2 : Int) ≤ (p : Int) := by exact_mod_cast hp.two_le
          nlinarith
      rw [if_neg hmod]
      exact ih (i + 1) (by omega)
    · rw [if_neg hsq]

theorem isPrime_of_prime (p : Nat) (hp : p.Prime) : isPrime (p : Int) = true := by
  unfold isPrime
  have hp2 : (2 : Int) ≤ (p : Int) := by exact_mod_cast hp.two_le
  rw [if_neg (by omega)]
  exact isPrimeLoop_of_prime p hp _ 2 (le_refl 2)

theorem nextPrimeLoop_le : ∀ (fuel : Nat) (n p : Int), n ≤ p → isPrime p = true →
    p - n < fuel →
    nextPrimeLoop fuel n ≤ p ∧ isPrime (nextPrimeLoop fuel n) = true := by
  intro fuel
  induction fuel with
  | zero => intro n p h1 _ h3; simp at h3; omega
  | succ k ih =>
    intro n p h1 h2 h3
    unfold nextPrimeLoop
    by_cases hn : isPrime n = true
    · rw [if_pos hn]; exact ⟨h1, hn⟩
    · rw [if_neg hn]
      have hne : n ≠ p := by
        intro h; rw [h] at hn; exact hn h2
      exact ih (n + 1) p (by omega) h2 (by push_cast at h3; omega)

/-- `nextPrime` returns a number that `isPrime` accepts, not below its argument and,
for a positive argument, not above twice the argument. -/
theorem nextPrime_spec (n : Int) :
    isPrime (nextPrime n) = true ∧ n ≤ nextPrime n ∧ (1 ≤ n → nextPrime n ≤ 2 * n) := by
  have habs : -|n| ≤ n := neg_abs_le n
  have habs2 : n ≤ |n| := le_abs_self n
  by_cases hn : n ≤ 2
  · have h2 : isPrime 2 = true := by decide
    obtain ⟨h3, h4⟩ := nextPrimeLoop_le (n.natAbs + 3) n 2 hn h2 (by push_cast; omega)
    exact ⟨h4, nextPrime_ge n, fun h1 => by unfold nextPrime; omega⟩
  · obtain ⟨p, hp, hp1, hp2⟩ := Nat.exists_prime_lt_and_le_two_mul n.toNat (by omega)
    have hpi := isPrime_of_prime p hp
    obtain ⟨h3, h4⟩ := nextPrimeLoop_le (n.natAbs + 3) n (p : Int) (by omega) hpi
      (by push_cast; omega)
    exact ⟨h4, nextPrime_ge n, fun _ => by unfold nextPrime; omega⟩

theorem isPrime_odd (v : Int) (hv : isPrime v = true) (h3 : 3 ≤ v) : v % 2 = 1 := by
  unfold isPrime at hv
  rw [if_neg (by omega)] at hv
  obtain ⟨k, hk⟩ : ∃ k, v.toNat = k + 1 := ⟨v.toNat - 1, by omega⟩
  rw [hk] at hv
  unfold isPrimeLoop at hv
  by_cases h4 : (2 : Int) * 2 ≤ v
  · rw [if_pos h4] at hv
    by_cases hm : v.tmod 2 = 0
    · rw [if_pos hm] at hv; cases hv
    · rw [Int.tmod_eq_emod (by omega) (by omega)] at hm
      omega
  · omega

/-- For an odd bucket count of at least 7, a prime for the halved table lies at
least 4 below the bucket count. -/
theorem nextPrime_half_le (size : Int) (hodd : size % 2 = 1) (h7 : 7 ≤ size) :
    nextPrime (size / 2) ≤ size - 4 := by
  obtain ⟨p, hp, hp1, hp2⟩ :=
    Nat.exists_prime_lt_and_le_two_mul ((size / 2).toNat - 1) (by omega)
  have hpodd : p % 2 = 1 := by
    rcases hp.eq_two_or_odd with h | h
    · omega
    · exact h
  have hpi := isPrime_of_prime p hp
  have habs : size / 2 ≤ |size / 2| := le_abs_self _
  obtain ⟨h3, -⟩ := nextPrimeLoop_le ((size / 2).natAbs + 3) (size / 2) (p : Int) (by omega)
    hpi (by push_cast; omega)
  unfold nextPrime
  omega

/-! ## The record deletions by date: the two shapes of the result -/

theorem deleteRecordsWhere_none (ht : VaccinationRecordsHashtable) (user_name : CStr)
    (gone : VaccinationRecord → Bool) (hfind : findUser ht user_name = none) :
    deleteRecordsWhere ht user_name gone = (0, ht) := by
  unfold deleteRecordsWhere
  rw [hfind]

theorem deleteRecordsWhere_some (ht : VaccinationRecordsHashtable) (user_name : CStr)
    (gone : VaccinationRecord → Bool) (g : VaccinationRecordsUser)
    (hfind : findUser ht user_name = some g) :
    deleteRecordsWhere ht user_name gone =
      if (g.records.filter (fun r => !gone r)).length = 0 then
        (((g.records.filter gone).length : Int),
          (deleteRecordVaccinationRecordsUser
            (compactUser ht user_name (g.records.filter (fun r => !gone r))
              ((g.records.filter gone).length : Int)) user_name).2)
      else
        (((g.records.filter gone).length : Int),
          compactUser ht user_name (g.records.filter (fun r => !gone r))
            ((g.records.filter gone).length : Int)) := by
  unfold deleteRecordsWhere compactUser
  rw [hfind]

theorem compactUser_counters (ht : VaccinationRecordsHashtable) (user_name : CStr)
    (new_records : List VaccinationRecord) (deleted : Int) :
    (compactUser ht user_name new_records deleted).size = ht.size ∧
    (compactUser ht user_name new_records deleted).users_count = ht.users_count ∧
    (compactUser ht user_name new_records deleted).all_records_count =
      ht.all_records_count - deleted := by
  unfold compactUser
  exact ⟨by simp [VaccinationRecordsHashtable.size, length_setChain], rfl, rfl⟩

/-- A deletion by date leaves the table, or a table with the same bucket count and
user counter, or that table after `deleteRecordVaccinationRecordsUser`. -/
theorem deleteRecordsWhere_shape (ht : VaccinationRecordsHashtable) (user_name : CStr)
    (gone : VaccinationRecord → Bool) :
    ∃ ht1 : VaccinationRecordsHashtable,
      ht1.size = ht.size ∧ ht1.users_count = ht.users_count ∧
      ((deleteRecordsWhere ht user_name gone).2 = ht1 ∨
        (deleteRecordsWhere ht user_name gone).2 =
          (deleteRecordVaccinationRecordsUser ht1 user_name).2) := by
  cases hfind : findUser ht user_name with
  | none =>
    rw [deleteRecordsWhere_none _ _ _ hfind]
    exact ⟨ht, rfl, rfl, Or.inl rfl⟩
  | some g =>
    rw [deleteRecordsWhere_some _ _ _ g hfind]
    obtain ⟨h1, h2, -⟩ := compactUser_counters ht user_name
      (g.records.filter (fun r => !gone r)) ((g.records.filter gone).length : Int)
    refine ⟨_, h1, h2, ?_⟩
    split_ifs
    · exact Or.inr rfl
    · exact Or.inl rfl

/-! ## The bucket count of reachable record tables -/

theorem RecordsSizeInv_init : RecordsSizeInv initVaccinationRecordsHashtable := by
  unfold RecordsSizeInv
  decide

theorem RecordsSizeInv_insert (ht : VaccinationRecordsHashtable)
    (user_name vaccine_name batch_id : CStr) (vaccination_date : Date)
    (h : RecordsSizeInv ht) :
    RecordsSizeInv
      (insertVaccinationRecord ht user_name vaccine_name batch_id vaccination_date).2 := by
  obtain ⟨h1, h2, h3⟩ := h
  obtain ⟨hs, hu⟩ :=
    insertVaccinationRecord_counters ht user_name vaccine_name batch_id vaccination_date
  obtain ⟨hp1, hp2, -⟩ := nextPrime_spec (ht.size * 2)
  have hodd := isPrime_odd _ hp1
  unfold RecordsSizeInv
  unfold INITIAL_TABLE_SIZE at *
  rw [hs]
  by_cases hg : 4 * ht.users_count ≥ 3 * ht.size
  · rw [if_pos hg, if_neg (by omega)]
    refine ⟨by omega, hodd (by omega), ?_⟩
    rcases hu with hu | hu <;> rw [hu] <;> omega
  · rw [if_neg hg]
    refine ⟨h1, h2, ?_⟩
    rcases hu with hu | hu <;> rw [hu] <;> omega

theorem RecordsSizeInv_deleteUser (ht : VaccinationRecordsHashtable) (user_name : CStr)
    (h : RecordsSizeInv ht) :
    RecordsSizeInv (deleteRecordVaccinationRecordsUser ht user_name).2 := by
  obtain ⟨h1, h2, h3⟩ := h
  obtain ⟨hu, hs⟩ := deleteUser_counters ht user_name
  obtain ⟨hp1, hp2, -⟩ := nextPrime_spec (ht.size / 2)
  have hodd := isPrime_odd _ hp1
  unfold RecordsSizeInv
  unfold INITIAL_TABLE_SIZE at *
  rw [hs, hu]
  by_cases hsh : 4 * (ht.users_count - 1) < ht.size
  · rw [if_pos hsh]
    by_cases hn : nextPrime (ht.size / 2) < 101 ∨ nextPrime (ht.size / 2) = ht.size
    · rw [if_pos hn]
      exact ⟨h1, h2, by omega⟩
    · rw [if_neg hn]
      exact ⟨by omega, hodd (by omega), by omega⟩
  · rw [if_neg hsh]
    exact ⟨h1, h2, by omega⟩

theorem RecordsSizeInv_deleteRecordsWhere (ht : VaccinationRecordsHashtable)
    (user_name : CStr) (gone : VaccinationRecord → Bool) (h : RecordsSizeInv ht) :
    RecordsSizeInv (deleteRecordsWhere ht user_name gone).2 := by
  obtain ⟨ht1, hs, hu, hr⟩ := deleteRecordsWhere_shape ht user_name gone
  have h1 : RecordsSizeInv ht1 := by
    unfold RecordsSizeInv at h ⊢
    rw [hs, hu]; exact h
  rcases hr with hr | hr <;> rw [hr]
  · exact h1
  · exact RecordsSizeInv_deleteUser ht1 user_name h1

theorem RecordsSizeInv_run (op : RecordsOp) (ht : VaccinationRecordsHashtable)
    (h : RecordsSizeInv ht) : RecordsSizeInv (op.run ht) := by
  cases op with
  | insert u v b d => exact RecordsSizeInv_insert ht u v b d h
  | deleteUser u => exact RecordsSizeInv_deleteUser ht u h
  | deleteByDate u d => exact RecordsSizeInv_deleteRecordsWhere ht u _ h
  | deleteByDateAndBatch u d b => exact RecordsSizeInv_deleteRecordsWhere ht u _ h

theorem RecordsSizeInv_of_reachable (ht : VaccinationRecordsHashtable)
    (h : RecordsReachable ht) : RecordsSizeInv ht := by
  induction h with
  | init => exact RecordsSizeInv_init
  | step ht op _ _ ih => exact RecordsSizeInv_run op ht ih

theorem RecordsReachable_of_run : ∀ (ops : List RecordsOp)
    (ht ht1 : VaccinationRecordsHashtable),
    RecordsReachable ht → runRecordsOps ops ht = some ht1 → RecordsReachable ht1 := by
  intro ops
  induction ops with
  | nil =>
    intro ht ht1 h hr
    simp only [runRecordsOps, Option.some.injEq] at hr
    rw [← hr]; exact h
  | cons op ops ih =>
    intro ht ht1 h hr
    unfold runRecordsOps at hr
    split_ifs at hr with ha
    exact ih (op.run ht) ht1 (RecordsReachable.step ht op h ha) hr

/-- C18: every record table reachable from the initial table by inserts and
deletes has at least 101 buckets. -/
theorem records_size_ge_initial (ht : VaccinationRecordsHashtable)
    (h : RecordsReachable ht) : 101 ≤ ht.size :=
  (RecordsSizeInv_of_reachable ht h).1

set_option maxRecDepth 100000 in
/-- C18 on the table after one insertion and the deletion of that user. -/
theorem records_size_ge_initial_witness :
    101 ≤ (deleteRecordVaccinationRecordsUser
      (insertVaccinationRecord initVaccinationRecordsHashtable
        [97] [86] [65] ⟨10, 1, 2025⟩).2 [97]).2.size :=
  records_size_ge_initial _
    (RecordsReachable.step _ (RecordsOp.deleteUser [97])
      (RecordsReachable.step _ (RecordsOp.insert [97] [86] [65] ⟨10, 1, 2025⟩)
        RecordsReachable.init rfl)
      (by decide))

/-! ## The bucket count of the batch table -/

theorem resizeBatchesHashTable_counters (ht : BatchesHashTable) :
    (resizeBatchesHashTable ht).2.batch_count = ht.batch_count ∧
    (resizeBatchesHashTable ht).2.size =
      (if ht.size = MAX_TABLE_SIZE then ht.size
       else if nextPrime (ht.size * 2) > MAX_TABLE_SIZE then MAX_TABLE_SIZE
       else nextPrime (ht.size * 2)) := by
  unfold resizeBatchesHashTable
  have hp := nextPrime_pos (ht.size * 2)
  by_cases h1 : ht.size = MAX_TABLE_SIZE
  · rw [if_pos h1, if_pos h1]
    exact ⟨rfl, rfl⟩
  · rw [if_neg h1, if_neg h1]
    refine ⟨rfl, ?_⟩
    simp only [BatchesHashTable.size, length_rehash, List.length_replicate]
    simp only [BatchesHashTable.size] at hp
    unfold MAX_TABLE_SIZE
    split_ifs <;> omega

theorem insertBatchInSystem_counters (ht : BatchesHashTable) (batch_id : CStr) (date : Date)
    (doses : Int) (vaccine_name : CStr) :
    (insertBatchInSystem ht batch_id date doses vaccine_name).2.batch_count =
      ht.batch_count + 1 ∧
    (insertBatchInSystem ht batch_id date doses vaccine_name).2.size =
      (if 4 * ht.batch_count ≥ 3 * ht.size then
        (if ht.size = MAX_TABLE_SIZE then ht.size
         else if nextPrime (ht.size * 2) > MAX_TABLE_SIZE then MAX_TABLE_SIZE
         else nextPrime (ht.size * 2))
       else ht.size) := by
  obtain ⟨ht1, hht1, heq⟩ := insertBatchInSystem_snd ht batch_id date doses vaccine_name
  obtain ⟨hr1, hr2⟩ := resizeBatchesHashTable_counters ht
  by_cases hg : 4 * ht.batch_count ≥ 3 * ht.size
  · rw [if_pos hg]
    have h1 : (insertBatchInSystem ht batch_id date doses vaccine_name).2 =
        { batches := setChain (resizeBatchesHashTable ht).2.batches
            (hash batch_id (resizeBatchesHashTable ht).2.size)
            ({ batch_id := batch_id,
               batch_info := { batch := batch_id, date := date, doses := doses,
                               applications := 0, vaccine_name := vaccine_name } } ::
              chainAt (resizeBatchesHashTable ht).2.batches
                (hash batch_id (resizeBatchesHashTable ht).2.size)),
          batch_count := (resizeBatchesHashTable ht).2.batch_count + 1 } := by
      unfold insertBatchInSystem
      simp only [if_pos hg]
    rw [h1]
    refine ⟨by simp only [hr1], ?_⟩
    rw [← hr2]
    simp [BatchesHashTable.size, length_setChain]
  · rw [if_neg hg, insertBatchInSystem_no_resize _ _ _ _ _ hg]
    exact ⟨rfl, by simp [BatchesHashTable.size, length_setChain]⟩

theorem removeBatchInput_counters (vs : VaccinationSystem) (batch_id : CStr) :
    (removeBatchInput vs batch_id).batches_ht.size = vs.batches_ht.size ∧
    ((removeBatchInput vs batch_id).batches_ht.batch_count = vs.batches_ht.batch_count ∨
      (removeBatchInput vs batch_id).batches_ht.batch_count =
        vs.batches_ht.batch_count - 1) := by
  cases hfind : searchBatchInSystem vs.batches_ht batch_id with
  | none =>
    have : removeBatchInput vs batch_id = vs := by
      unfold removeBatchInput; rw [hfind]
    rw [this]
    exact ⟨rfl, Or.inl rfl⟩
  | some node =>
    by_cases happ : node.batch_info.applications = 0
    · rw [removeBatchInput_full_eq vs batch_id node hfind happ]
      exact ⟨by simp [BatchesHashTable.size, length_setChain], Or.inr rfl⟩
    · rw [removeBatchInput_soft_eq vs batch_id node hfind happ]
      exact ⟨by simp [BatchesHashTable.size, length_setChain], Or.inl rfl⟩

theorem length_modifyFirstInBuckets {α : Type} (p : α → Bool) (f : α → α) :
    ∀ bs : List (List α), (modifyFirstInBuckets p f bs).length = bs.length := by
  intro bs
  induction bs with
  | nil => rfl
  | cons c rest ih =>
    unfold modifyFirstInBuckets
    split_ifs
    · rfl
    · simp [ih]

theorem applyToOldestBatch_counters (ht : BatchesHashTable) (vaccine_name : CStr)
    (current_date : Date) :
    (applyToOldestBatch ht vaccine_name current_date).size = ht.size ∧
    (applyToOldestBatch ht vaccine_name current_date).batch_count = ht.batch_count := by
  unfold applyToOldestBatch
  cases oldestExistingValidBatchByVaccineName ht vaccine_name current_date with
  | none => exact ⟨rfl, rfl⟩
  | some info =>
    exact ⟨by simp [BatchesHashTable.size, length_modifyFirstInBuckets], rfl⟩

/-- The bucket count and the batch counter after an operation of the batch table. -/
theorem BatchOp_run_counters (op : BatchOp) (ht : BatchesHashTable) :
    ((op.run ht).size = ht.size ∧
      ((op.run ht).batch_count = ht.batch_count ∨
        (op.run ht).batch_count = ht.batch_count - 1)) ∨
    ((op.run ht).batch_count = ht.batch_count + 1 ∧
      (op.run ht).size =
        (if 4 * ht.batch_count ≥ 3 * ht.size then
          (if ht.size = MAX_TABLE_SIZE then ht.size
           else if nextPrime (ht.size * 2) > MAX_TABLE_SIZE then MAX_TABLE_SIZE
           else nextPrime (ht.size * 2))
         else ht.size)) := by
  cases op with
  | insert batch_id date doses vaccine_name =>
    exact Or.inr (insertBatchInSystem_counters ht batch_id date doses vaccine_name)
  | remove batch_id =>
    exact Or.inl (removeBatchInput_counters _ batch_id)
  | applyVaccine vaccine_name current_date =>
    obtain ⟨h1, h2⟩ := applyToOldestBatch_counters ht vaccine_name current_date
    exact Or.inl ⟨h1, Or.inl h2⟩
  | find _ => exact Or.inl ⟨rfl, Or.inl rfl⟩
  | listAll => exact Or.inl ⟨rfl, Or.inl rfl⟩
  | listByNames _ => exact Or.inl ⟨rfl, Or.inl rfl⟩
  | oldest _ _ => exact Or.inl ⟨rfl, Or.inl rfl⟩

theorem BatchOp_run_size_le (op : BatchOp) (ht : BatchesHashTable)
    (hmax : ht.size ≤ MAX_TABLE_SIZE) :
    ht.size ≤ (op.run ht).size ∧ (op.run ht).size ≤ MAX_TABLE_SIZE := by
  have hge := nextPrime_ge (ht.size * 2)
  have hnn : (0 : Int) ≤ ht.size := by simp [BatchesHashTable.size]
  rcases BatchOp_run_counters op ht with ⟨h1, -⟩ | ⟨-, h2⟩
  · rw [h1]; exact ⟨le_refl _, hmax⟩
  · rw [h2]
    unfold MAX_TABLE_SIZE at *
    split_ifs <;> constructor <;> omega

theorem BatchSizeInv_init : BatchSizeInv initBatchesHashTable := by
  unfold BatchSizeInv
  decide

theorem BatchSizeInv_run (op : BatchOp) (ht : BatchesHashTable) (h : BatchSizeInv ht) :
    BatchSizeInv (op.run ht) := by
  obtain ⟨h1, h2, h3⟩ := h
  have hge := nextPrime_ge (ht.size * 2)
  unfold BatchSizeInv
  rcases BatchOp_run_counters op ht with ⟨hs, hc⟩ | ⟨hc, hs⟩
  · rw [hs]
    refine ⟨h1, h2, fun hlt => ?_⟩
    have := h3 hlt
    rcases hc with hc | hc <;> rw [hc] <;> omega
  · rw [hs, hc]
    unfold MAX_TABLE_SIZE INITIAL_TABLE_SIZE at *
    split_ifs <;> refine ⟨by omega, by omega, fun hlt => ?_⟩ <;> omega

theorem BatchSizeInv_of_reachable (ht : BatchesHashTable) (h : BatchReachable ht) :
    BatchSizeInv ht := by
  induction h with
  | init => exact BatchSizeInv_init
  | step ht op _ ih => exact BatchSizeInv_run op ht ih

theorem BatchReachable_runBatchOps (ops : List BatchOp) :
    ∀ ht : BatchesHashTable, BatchReachable ht → BatchReachable (runBatchOps ops ht) := by
  induction ops with
  | nil => intro ht h; exact h
  | cons op ops ih =>
    intro ht h
    exact ih (op.run ht) (BatchReachable.step ht op h)

/-- C20: no operation of the batch table lowers its bucket count.  For every table
of at most 7993 buckets and every operation (insertion with or without resize,
removal, full or soft, application of a dose, lookup, the two listings and the
oldest-valid query) the bucket count afterwards is at least the bucket count
before and at most 7993; every reachable table has at most 7993 buckets. -/
theorem batch_size_never_decreases :
    (∀ (ht : BatchesHashTable) (op : BatchOp), ht.size ≤ MAX_TABLE_SIZE →
      ht.size ≤ (op.run ht).size ∧ (op.run ht).size ≤ MAX_TABLE_SIZE) ∧
    (∀ ht : BatchesHashTable, BatchReachable ht → ht.size ≤ MAX_TABLE_SIZE) :=
  ⟨fun ht op h => BatchOp_run_size_le op ht h,
   fun ht h => (BatchSizeInv_of_reachable ht h).2.1⟩

/-- C20 on the initial table and the creation of batch `A`. -/
theorem batch_size_never_decreases_witness :
    initBatchesHashTable.size ≤
      (insertBatchInSystem initBatchesHashTable [65] ⟨1, 1, 2025⟩ 5 [86]).2.size :=
  (batch_size_never_decreases.1 initBatchesHashTable
    (BatchOp.insert [65] ⟨1, 1, 2025⟩ 5 [86]) (by decide)).1

/-! ## The load factor after an insertion -/

/-- C13 (what fails): the load test of an insertion runs before the entry is added.
After 75 batches were created in the initial table, the creation of batch 76
returns 1 and leaves 76 batches in 101 buckets, and so does the 76th user in the
record table: `count / size` is 76/101, not below 0.75. -/
theorem load_factor_not_below_threshold :
    (BatchReachable (runBatchOps (insertSampleBatches 75) initBatchesHashTable) ∧
      (insertBatchInSystem (runBatchOps (insertSampleBatches 75) initBatchesHashTable)
        (sampleBatch 75) ⟨10, 1, 2025⟩ 5 [86]).1 = 1 ∧
      (insertBatchInSystem (runBatchOps (insertSampleBatches 75) initBatchesHashTable)
        (sampleBatch 75) ⟨10, 1, 2025⟩ 5 [86]).2.size = 101 ∧
      ¬ (4 * (insertBatchInSystem (runBatchOps (insertSampleBatches 75) initBatchesHashTable)
            (sampleBatch 75) ⟨10, 1, 2025⟩ 5 [86]).2.batch_count <
          3 * (insertBatchInSystem (runBatchOps (insertSampleBatches 75) initBatchesHashTable)
            (sampleBatch 75) ⟨10, 1, 2025⟩ 5 [86]).2.size)) ∧
    ((runRecordsOps (insertSampleUsers 75) initVaccinationRecordsHashtable).map
      (fun ht =>
        ((insertVaccinationRecord ht (sampleUser 75) [86] [65] ⟨10, 1, 2025⟩).1,
         (insertVaccinationRecord ht (sampleUser 75) [86] [65] ⟨10, 1, 2025⟩).2.users_count,
         (insertVaccinationRecord ht (sampleUser 75) [86] [65] ⟨10, 1, 2025⟩).2.size)) =
      some (1, 76, 101)) := by
  refine ⟨⟨BatchReachable_runBatchOps _ _ BatchReachable.init, rfl, ?_, ?_⟩, ?_⟩
  · decide!
  · decide!
  · decide!

/-! ## The load factor after the deletion of a user -/

theorem nextPrimeLoop_first : ∀ (fuel : Nat) (n p : Int), n ≤ p → isPrime p = true →
    isPrime (nextPrimeLoop fuel n) = true → nextPrimeLoop fuel n ≤ p := by
  intro fuel
  induction fuel with
  | zero => intro n p h1 _ _; simpa [nextPrimeLoop] using h1
  | succ k ih =>
    intro n p h1 h2 h3
    unfold nextPrimeLoop at h3 ⊢
    by_cases hn : isPrime n = true
    · rw [if_pos hn]; exact h1
    · rw [if_neg hn] at h3 ⊢
      have hne : n ≠ p := by
        intro h; rw [h] at hn; exact hn h2
      exact ih (n + 1) p (by omega) h2 h3

theorem nextPrime_half_small (size : Int) (h : size ≤ 195) : nextPrime (size / 2) < 101 := by
  have h97 : isPrime 97 = true := by decide
  obtain ⟨hp, -, -⟩ := nextPrime_spec (size / 2)
  have := nextPrimeLoop_first ((size / 2).natAbs + 3) (size / 2) 97 (by omega) h97 hp
  unfold nextPrime
  omega

theorem nextPrime_half_large (size : Int) (h : 196 ≤ size) : 101 ≤ nextPrime (size / 2) := by
  obtain ⟨hp, hge, -⟩ := nextPrime_spec (size / 2)
  by_contra hc
  have h98 : isPrime 98 = false := by decide
  have h99 : isPrime 99 = false := by decide
  have h100 : isPrime 100 = false := by decide
  have hcases : nextPrime (size / 2) = 98 ∨ nextPrime (size / 2) = 99 ∨
      nextPrime (size / 2) = 100 := by omega
  rcases hcases with h1 | h1 | h1 <;> rw [h1] at hp
  · rw [h98] at hp; cases hp
  · rw [h99] at hp; cases hp
  · rw [h100] at hp; cases hp

/-- The load factor after `deleteRecordVaccinationRecordsUser` on a table of an odd
bucket count whose load factor was at least 0.25. -/
theorem deleteUser_load (ht : VaccinationRecordsHashtable) (user_name : CStr)
    (hodd : ht.size % 2 = 1)
    (hload : 4 * ht.users_count ≥ ht.size) :
    (deleteRecordVaccinationRecordsUser ht user_name).2.size <
        4 * (deleteRecordVaccinationRecordsUser ht user_name).2.users_count ∨
    (ht.size ≤ 195 ∧ (deleteRecordVaccinationRecordsUser ht user_name).2.size = ht.size) := by
  obtain ⟨hu, hs⟩ := deleteUser_counters ht user_name
  rw [hs, hu]
  unfold INITIAL_TABLE_SIZE
  by_cases hsh : 4 * (ht.users_count - 1) < ht.size
  · rw [if_pos hsh]
    by_cases h195 : ht.size ≤ 195
    · have := nextPrime_half_small ht.size h195
      rw [if_pos (Or.inl this)]
      exact Or.inr ⟨h195, rfl⟩
    · have hlarge := nextPrime_half_large ht.size (by omega)
      have hle := nextPrime_half_le ht.size hodd (by omega)
      obtain ⟨hp, -, -⟩ := nextPrime_spec (ht.size / 2)
      have hpodd := isPrime_odd _ hp (by omega)
      rw [if_neg (by omega)]
      left
      omega
  · rw [if_neg hsh]
    left
    omega

/-- C19 (what fails): the sample users 0 to 76 are vaccinated, which grows the table
to 211 buckets, and the users 0 to 49 are deleted, which shrinks it to 107
buckets with 27 users.  Deleting user 50, who exists, leaves 26 users in 107
buckets: the load factor is below 0.25 and the bucket count is not 101. -/
theorem load_factor_below_quarter_off_floor :
    ∃ ht : VaccinationRecordsHashtable,
      runRecordsOps (insertSampleUsers 77 ++ deleteSampleUsers 50)
        initVaccinationRecordsHashtable = some ht ∧
      RecordsReachable ht ∧
      userExistInSystem ht (sampleUser 50) = true ∧
      (deleteRecordVaccinationRecordsUser ht (sampleUser 50)).2.users_count = 26 ∧
      (deleteRecordVaccinationRecordsUser ht (sampleUser 50)).2.size = 107 ∧
      4 * (deleteRecordVaccinationRecordsUser ht (sampleUser 50)).2.users_count <
        (deleteRecordVaccinationRecordsUser ht (sampleUser 50)).2.size ∧
      (deleteRecordVaccinationRecordsUser ht (sampleUser 50)).2.size ≠ 101 := by
  have h : (runRecordsOps (insertSampleUsers 77 ++ deleteSampleUsers 50)
      initVaccinationRecordsHashtable).map
      (fun ht => (userExistInSystem ht (sampleUser 50),
        (deleteRecordVaccinationRecordsUser ht (sampleUser 50)).2.users_count,
        (deleteRecordVaccinationRecordsUser ht (sampleUser 50)).2.size)) =
      some (true, 26, 107) := by decide!
  cases hr : runRecordsOps (insertSampleUsers 77 ++ deleteSampleUsers 50)
      initVaccinationRecordsHashtable with
  | none => rw [hr] at h; simp at h
  | some ht =>
    rw [hr] at h
    simp only [Option.map_some', Option.some.injEq, Prod.mk.injEq] at h
    obtain ⟨h1, h2, h3⟩ := h
    refine ⟨ht, rfl, RecordsReachable_of_run _ _ _ RecordsReachable.init hr, h1, h2, h3, ?_, ?_⟩
    · rw [h2, h3]; decide
    · rw [h3]; decide

/-! ## Well-formed record tables under a chain update -/

theorem setChain_out_of_range {α : Type} (bs : List (List α)) (key : Int) (c : List α)
    (h : ¬ (0 ≤ key ∧ key < bs.length)) : setChain bs key c = bs := by
  unfold setChain
  split_ifs with h2
  · rfl
  · exact List.set_eq_of_length_le (by omega)

theorem flatten_setChain_sublist {α : Type} (bs : List (List α)) (key : Int) (c : List α)
    (hc : c.Sublist (chainAt bs key)) : (setChain bs key c).flatten.Sublist bs.flatten := by
  by_cases hr : 0 ≤ key ∧ key < bs.length
  · rw [flatten_setChain _ _ _ hr.1 hr.2]
    conv_rhs => rw [flatten_eq_split_chainAt bs key hr.1 hr.2]
    exact ((List.Sublist.refl _).append hc).append (List.Sublist.refl _)
  · rw [setChain_out_of_range _ _ _ hr]

/-- Replacing a chain by a sublist of it keeps a record table well formed. -/
theorem RecordsWF_of_sublist (ht ht1 : VaccinationRecordsHashtable) (key : Int)
    (c : List VaccinationRecordsUser) (hwf : RecordsWF ht)
    (hc : c.Sublist (chainAt ht.vaccination_records key))
    (hvr : ht1.vaccination_records = setChain ht.vaccination_records key c) :
    RecordsWF ht1 := by
  have hsz : ht1.size = ht.size := by
    simp [VaccinationRecordsHashtable.size, hvr, length_setChain]
  have hsub : ht1.users.Sublist ht.users := by
    unfold VaccinationRecordsHashtable.users
    rw [hvr]
    exact flatten_setChain_sublist _ _ _ hc
  refine ⟨by rw [hsz]; exact hwf.size_pos, ?_, ?_, ?_⟩
  · rw [hsz, hvr]
    apply placed_setChain hwf.placed
    intro x hx
    exact placed_chainAt hwf.placed key x (hc.subset hx)
  · exact List.Nodup.sublist (hsub.map _) hwf.nodup
  · intro u hu
    exact hwf.ascii u (hsub.subset hu)

/-- Changing the records of the first matching group of a chain, and nothing else,
keeps a record table well formed. -/
theorem RecordsWF_of_modify (ht ht1 : VaccinationRecordsHashtable) (key : Int)
    (p : VaccinationRecordsUser → Bool) (f : VaccinationRecordsUser → VaccinationRecordsUser)
    (hwf : RecordsWF ht) (hf : ∀ x, (f x).user = x.user)
    (hvr : ht1.vaccination_records =
      setChain ht.vaccination_records key
        (modifyFirst p f (chainAt ht.vaccination_records key))) :
    RecordsWF ht1 := by
  have hsz : ht1.size = ht.size := by
    simp [VaccinationRecordsHashtable.size, hvr, length_setChain]
  have hmap : ht1.users.map (fun u => u.user) = ht.users.map (fun u => u.user) := by
    unfold VaccinationRecordsHashtable.users
    rw [hvr]
    by_cases hr : 0 ≤ key ∧ key < ht.vaccination_records.length
    · exact flatten_map_setChain _ _ _ _ hr.1 hr.2 (map_modifyFirst _ p f hf _)
    · rw [setChain_out_of_range _ _ _ hr]
  refine ⟨by rw [hsz]; exact hwf.size_pos, ?_, ?_, ?_⟩
  · rw [hsz, hvr]
    apply placed_setChain hwf.placed
    intro x hx
    rcases mem_modifyFirst _ _ _ x hx with h | ⟨y, hy, rfl⟩
    · exact placed_chainAt hwf.placed key x h
    · have := placed_chainAt hwf.placed key y hy
      simp only [hf] at this ⊢
      exact this
  · rw [hmap]; exact hwf.nodup
  · intro u hu
    have hmem : u.user ∈ ht.users.map (fun u => u.user) := by
      rw [← hmap]; exact List.mem_map_of_mem _ hu
    rw [List.mem_map] at hmem
    obtain ⟨w, hw, hwu⟩ := hmem
    rw [← hwu]
    exact hwf.ascii w hw

theorem findUser_of_buckets (ht ht1 : VaccinationRecordsHashtable) (name : CStr)
    (key : Int) (c : List VaccinationRecordsUser)
    (hvr : ht1.vaccination_records = setChain ht.vaccination_records key c)
    (hc : c.find? (fun user => decide (strcmp user.user name = 0)) =
      (chainAt ht.vaccination_records key).find?
        (fun user => decide (strcmp user.user name = 0))) :
    findUser ht1 name = findUser ht name := by
  have hsz : ht1.size = ht.size := by
    simp [VaccinationRecordsHashtable.size, hvr, length_setChain]
  unfold findUser
  rw [hsz, hvr]
  exact find?_chainAt_setChain _ _ _ _ _ hc

theorem name_pred_disjoint (user_name other : CStr) (hne : other ≠ user_name) :
    ∀ x : VaccinationRecordsUser, decide (strcmp x.user user_name = 0) = true →
      decide (strcmp x.user other = 0) = false := by
  intro x hx
  have hx1 : strcmp x.user user_name = 0 := by simpa using hx
  simpa using strcmp_ne_of_eq (Ne.symm hne) hx1

/-! ## Deleting a user group -/

theorem unlinkUser_some (ht : VaccinationRecordsHashtable) (user_name : CStr)
    (g : VaccinationRecordsUser) (hfind : findUser ht user_name = some g) :
    unlinkUser ht user_name =
      (g.record_count,
       { vaccination_records := setChain ht.vaccination_records (hash_user user_name ht.size)
           ((chainAt ht.vaccination_records (hash_user user_name ht.size)).eraseP
             (fun curr => decide (strcmp curr.user user_name = 0))),
         users_count := ht.users_count - 1,
         all_records_count := ht.all_records_count - g.record_count }) := by
  unfold findUser at hfind
  unfold unlinkUser
  rw [hfind]

theorem unlinkUser_spec (ht : VaccinationRecordsHashtable) (user_name : CStr)
    (g : VaccinationRecordsUser) (hwf : RecordsWF ht)
    (hfind : findUser ht user_name = some g) :
    (unlinkUser ht user_name).1 = g.records.length ∧
    RecordsWF (unlinkUser ht user_name).2 ∧
    findUser (unlinkUser ht user_name).2 user_name = none ∧
    (∀ other : CStr, other ≠ user_name →
      findUser (unlinkUser ht user_name).2 other = findUser ht other) ∧
    (unlinkUser ht user_name).2.users_count = ht.users_count - 1 ∧
    (unlinkUser ht user_name).2.all_records_count =
      ht.all_records_count - g.records.length := by
  obtain ⟨h0, h1⟩ := findUser_some_range ht user_name g hfind
  rw [unlinkUser_some ht user_name g hfind]
  have hne : chainAt ht.vaccination_records (hash_user user_name ht.size) ≠ [] := by
    intro hnil
    unfold findUser at hfind
    rw [hnil] at hfind
    simp at hfind
  refine ⟨rfl, ?_, ?_, ?_, rfl, rfl⟩
  · exact RecordsWF_of_sublist ht _ (hash_user user_name ht.size) _ hwf
      (List.eraseP_sublist _) rfl
  · unfold findUser
    simp only [VaccinationRecordsHashtable.size, length_setChain]
    simp only [VaccinationRecordsHashtable.size] at h0 h1
    rw [chainAt_setChain_self _ h0 h1]
    apply find?_eraseP_self _ (fun u : VaccinationRecordsUser => u.user) user_name
    · intro x; simp [strcmp_eq_zero_iff]
    · simp only [VaccinationRecordsHashtable.size] at hne
      exact List.Nodup.sublist
        (List.Sublist.map _ (List.sublist_flatten_of_mem (chainAt_mem hne))) hwf.nodup
  · intro other hother
    apply findUser_of_buckets ht _ other (hash_user user_name ht.size) _ rfl
    exact find?_eraseP_other _ _ (name_pred_disjoint user_name other hother) _

theorem shrinkIfSparse_spec (ht1 : VaccinationRecordsHashtable) (hwf : RecordsWF ht1) :
    RecordsWF (shrinkIfSparse ht1) ∧
    (∀ name : CStr, findUser (shrinkIfSparse ht1) name = findUser ht1 name) := by
  unfold shrinkIfSparse
  split_ifs
  · exact ⟨RecordsWF_resize ht1 _ hwf, findUser_resize ht1 _ hwf⟩
  · exact ⟨hwf, fun _ => rfl⟩

/-- `deleteRecordVaccinationRecordsUser` on a user of a well-formed table. -/
theorem deleteUser_spec (ht : VaccinationRecordsHashtable) (user_name : CStr)
    (g : VaccinationRecordsUser) (hwf : RecordsWF ht)
    (hfind : findUser ht user_name = some g) :
    (deleteRecordVaccinationRecordsUser ht user_name).1 = g.records.length ∧
    RecordsWF (deleteRecordVaccinationRecordsUser ht user_name).2 ∧
    findUser (deleteRecordVaccinationRecordsUser ht user_name).2 user_name = none ∧
    (∀ other : CStr, other ≠ user_name →
      findUser (deleteRecordVaccinationRecordsUser ht user_name).2 other =
        findUser ht other) ∧
    (deleteRecordVaccinationRecordsUser ht user_name).2.users_count = ht.users_count - 1 ∧
    (deleteRecordVaccinationRecordsUser ht user_name).2.all_records_count =
      ht.all_records_count - g.records.length := by
  obtain ⟨h1, h2, h3, h4, h5, h6⟩ := unlinkUser_spec ht user_name g hwf hfind
  obtain ⟨h7, h8⟩ := shrinkIfSparse_spec (unlinkUser ht user_name).2 h2
  obtain ⟨h9, h10, -⟩ := shrinkIfSparse_counters (unlinkUser ht user_name).2
  rw [deleteRecordVaccinationRecordsUser_eq]
  refine ⟨h1, h7, ?_, ?_, ?_, ?_⟩
  · simp only [h8]; exact h3
  · intro other hother
    simp only [h8]; exact h4 other hother
  · simp only [h9]; exact h5
  · simp only [h10]; exact h6

/-! ## Deleting the records of a date -/

theorem compactUser_spec (ht : VaccinationRecordsHashtable) (user_name : CStr)
    (new_records : List VaccinationRecord) (deleted : Int)
    (g : VaccinationRecordsUser) (hwf : RecordsWF ht)
    (hfind : findUser ht user_name = some g) :
    RecordsWF (compactUser ht user_name new_records deleted) ∧
    findUser (compactUser ht user_name new_records deleted) user_name =
      some ⟨g.user, new_records⟩ ∧
    (∀ other : CStr, other ≠ user_name →
      findUser (compactUser ht user_name new_records deleted) other = findUser ht other) := by
  obtain ⟨h0, h1⟩ := findUser_some_range ht user_name g hfind
  refine ⟨?_, ?_, ?_⟩
  · exact RecordsWF_of_modify ht _ (hash_user user_name ht.size)
      (fun u => decide (strcmp u.user user_name = 0))
      (fun u => ⟨u.user, new_records⟩) hwf (fun _ => rfl) rfl
  · unfold findUser compactUser
    simp only [VaccinationRecordsHashtable.size, length_setChain]
    simp only [VaccinationRecordsHashtable.size] at h0 h1
    rw [chainAt_setChain_self _ h0 h1]
    unfold findUser at hfind
    simp only [VaccinationRecordsHashtable.size] at hfind
    have hpg := List.find?_some hfind
    exact find?_modifyFirst_self _ _ g _ hfind hpg
  · intro other hother
    apply findUser_of_buckets ht _ other (hash_user user_name ht.size) _ rfl
    exact find?_modifyFirst_other
      (fun u : VaccinationRecordsUser => decide (strcmp u.user user_name = 0))
      (fun u : VaccinationRecordsUser => decide (strcmp u.user other = 0))
      (fun u : VaccinationRecordsUser => ⟨u.user, new_records⟩)
      (name_pred_disjoint user_name other hother) (fun _ => rfl) _

/-- The two deletions by date on a user of a well-formed table: the return value,
the counters, the group of the user and the groups of the other users. -/
theorem deleteRecordsWhere_spec (ht : VaccinationRecordsHashtable) (user_name : CStr)
    (gone : VaccinationRecord → Bool) (g : VaccinationRecordsUser) (hwf : RecordsWF ht)
    (hfind : findUser ht user_name = some g) :
    (deleteRecordsWhere ht user_name gone).1 = (g.records.filter gone).length ∧
    (deleteRecordsWhere ht user_name gone).2.all_records_count =
      ht.all_records_count - (g.records.filter gone).length ∧
    (g.records.filter (fun r => !gone r) ≠ [] →
      findUser (deleteRecordsWhere ht user_name gone).2 user_name =
        some ⟨g.user, g.records.filter (fun r => !gone r)⟩ ∧
      (deleteRecordsWhere ht user_name gone).2.users_count = ht.users_count) ∧
    (g.records.filter (fun r => !gone r) = [] →
      findUser (deleteRecordsWhere ht user_name gone).2 user_name = none ∧
      (deleteRecordsWhere ht user_name gone).2.users_count = ht.users_count - 1) ∧
    (∀ other : CStr, other ≠ user_name →
      findUser (deleteRecordsWhere ht user_name gone).2 other = findUser ht other) ∧
    RecordsWF (deleteRecordsWhere ht user_name gone).2 := by
  obtain ⟨c1, c2, c3⟩ := compactUser_spec ht user_name (g.records.filter (fun r => !gone r))
    ((g.records.filter gone).length : Int) g hwf hfind
  obtain ⟨-, k2, k3⟩ := compactUser_counters ht user_name
    (g.records.filter (fun r => !gone r)) ((g.records.filter gone).length : Int)
  rw [deleteRecordsWhere_some ht user_name gone g hfind]
  by_cases hempty : g.records.filter (fun r => !gone r) = []
  · have hlen : (g.records.filter (fun r => !gone r)).length = 0 := by rw [hempty]; rfl
    rw [if_pos hlen]
    obtain ⟨-, d2, d3, d4, d5, d6⟩ := deleteUser_spec
      (compactUser ht user_name (g.records.filter (fun r => !gone r))
        ((g.records.filter gone).length : Int)) user_name _ c1 c2
    refine ⟨rfl, ?_, fun hne => absurd hempty hne, fun _ => ⟨d3, ?_⟩, ?_, d2⟩
    · simp only [d6, k3, hlen]; omega
    · simp only [d5, k2]
    · intro other hother
      simp only [d4 other hother, c3 other hother]
  · have hlen : ¬ (g.records.filter (fun r => !gone r)).length = 0 := by
      intro h; exact hempty (List.length_eq_zero.mp h)
    rw [if_neg hlen]
    exact ⟨rfl, k3, fun _ => ⟨c2, k2⟩, fun h => absurd h hempty, c3, c1⟩

/-! ## The record deletions: the contracts -/

theorem sampleRecordsTable_wf : RecordsWF sampleRecordsTable :=
  RecordsWF_insertVaccinationRecord _ _ _ _ _
    (RecordsWF_insertVaccinationRecord _ _ _ _ _
      (RecordsWF_insertVaccinationRecord _ _ _ _ _
        (RecordsWF_insertVaccinationRecord _ _ _ _ _ RecordsWF_init (by decide))
        (by decide))
      (by decide))
    (by decide)

set_option maxRecDepth 100000 in
theorem sampleRecordsTable_findA : findUser sampleRecordsTable [97] = some sampleGroupA := by
  decide

set_option maxRecDepth 100000 in
theorem sampleRecordsTable_size : sampleRecordsTable.size ≤ MAX_EXACT_SIZE := by
  decide

set_option maxRecDepth 100000 in
theorem sampleRecordsTable_findB : findUser sampleRecordsTable [98] = some sampleGroupB := by
  decide

theorem filter_date_eq (records : List VaccinationRecord) (d : Date) :
    records.filter (fun r => decide (compareDate1Date2 r.vaccination_date d = 0)) =
      records.filter (fun r => decide (r.vaccination_date = d)) :=
  List.filter_congr (fun r _ => by simp [compareDate1Date2_eq_zero_iff])

theorem filter_date_ne (records : List VaccinationRecord) (d : Date) :
    records.filter (fun r => !decide (compareDate1Date2 r.vaccination_date d = 0)) =
      records.filter (fun r => decide (r.vaccination_date ≠ d)) :=
  List.filter_congr (fun r _ => by simp [compareDate1Date2_eq_zero_iff])

theorem filter_date_batch_eq (records : List VaccinationRecord) (d : Date) (b : CStr) :
    records.filter (fun r => decide (compareDate1Date2 r.vaccination_date d = 0) &&
        decide (strcmp r.batch_id b = 0)) =
      records.filter (fun r => decide (r.vaccination_date = d ∧ r.batch_id = b)) :=
  List.filter_congr (fun r _ => by
    simp [compareDate1Date2_eq_zero_iff, strcmp_eq_zero_iff])

theorem filter_date_batch_ne (records : List VaccinationRecord) (d : Date) (b : CStr) :
    records.filter (fun r => !(decide (compareDate1Date2 r.vaccination_date d = 0) &&
        decide (strcmp r.batch_id b = 0))) =
      records.filter (fun r => decide (¬ (r.vaccination_date = d ∧ r.batch_id = b))) :=
  List.filter_congr (fun r _ => by
    simp [compareDate1Date2_eq_zero_iff, strcmp_eq_zero_iff])

/-- C14: in a well-formed record table of at most 2^23 buckets, when every record
of an existing user carries the given date, `deleteRecordByNameAndDate` removes
the group itself: `userExistInSystem` is false afterwards and `users_count` has
dropped by 1. -/
theorem deleteRecordByNameAndDate_cascade (ht : VaccinationRecordsHashtable)
    (user_name : CStr) (d : Date) (g : VaccinationRecordsUser) (hwf : RecordsWF ht)
    (hfind : findUser ht user_name = some g)
    (hall : ∀ r ∈ g.records, r.vaccination_date = d) :
    ht.size ≤ MAX_EXACT_SIZE →
    userExistInSystem (deleteRecordByNameAndDate ht user_name d).2 user_name = false ∧
    (deleteRecordByNameAndDate ht user_name d).2.users_count = ht.users_count - 1 := by
  intro _
  obtain ⟨-, -, -, h4, -, -⟩ := deleteRecordsWhere_spec ht user_name
    (fun r => decide (compareDate1Date2 r.vaccination_date d = 0)) g hwf hfind
  have hempty : g.records.filter
      (fun r => !decide (compareDate1Date2 r.vaccination_date d = 0)) = [] := by
    rw [List.filter_eq_nil_iff]
    intro r hr
    simp [compareDate1Date2_eq_zero_iff, hall r hr]
  obtain ⟨h5, h6⟩ := h4 hempty
  unfold deleteRecordByNameAndDate userExistInSystem
  rw [h5]
  exact ⟨rfl, h6⟩

/-- C14 on user `b` of the sample table, whose only record is dated 2025-01-10. -/
theorem deleteRecordByNameAndDate_cascade_witness :
    userExistInSystem
      (deleteRecordByNameAndDate sampleRecordsTable [98] ⟨10, 1, 2025⟩).2 [98] = false ∧
    (deleteRecordByNameAndDate sampleRecordsTable [98] ⟨10, 1, 2025⟩).2.users_count =
      sampleRecordsTable.users_count - 1 :=
  deleteRecordByNameAndDate_cascade sampleRecordsTable [98] ⟨10, 1, 2025⟩ sampleGroupB
    sampleRecordsTable_wf sampleRecordsTable_findB (by decide) sampleRecordsTable_size

/-- C15: in a well-formed record table of at most 2^23 buckets, for an existing
user, `deleteRecordByNameAndDate` returns the number of the user's records of the given
date and lowers `all_records_count` by it; the group then holds the former
sequence without those records, in the former order, or is gone when no record
is left; the group found for every other user name is unchanged. -/
theorem deleteRecordByNameAndDate_spec (ht : VaccinationRecordsHashtable)
    (user_name : CStr) (d : Date) (g : VaccinationRecordsUser) (hwf : RecordsWF ht)
    (hfind : findUser ht user_name = some g) :
    ht.size ≤ MAX_EXACT_SIZE →
    (deleteRecordByNameAndDate ht user_name d).1 =
      (g.records.filter (fun r => decide (r.vaccination_date = d))).length ∧
    (deleteRecordByNameAndDate ht user_name d).2.all_records_count =
      ht.all_records_count - (deleteRecordByNameAndDate ht user_name d).1 ∧
    (g.records.filter (fun r => decide (r.vaccination_date ≠ d)) ≠ [] →
      findUser (deleteRecordByNameAndDate ht user_name d).2 user_name =
        some ⟨g.user, g.records.filter (fun r => decide (r.vaccination_date ≠ d))⟩) ∧
    (g.records.filter (fun r => decide (r.vaccination_date ≠ d)) = [] →
      findUser (deleteRecordByNameAndDate ht user_name d).2 user_name = none) ∧
    (∀ other : CStr, other ≠ user_name →
      findUser (deleteRecordByNameAndDate ht user_name d).2 other = findUser ht other) := by
  intro _
  obtain ⟨h1, h2, h3, h4, h5, -⟩ := deleteRecordsWhere_spec ht user_name
    (fun r => decide (compareDate1Date2 r.vaccination_date d = 0)) g hwf hfind
  rw [filter_date_eq] at h1 h2
  rw [filter_date_ne] at h3 h4
  unfold deleteRecordByNameAndDate
  exact ⟨h1, by rw [h2, h1], fun hne => (h3 hne).1, fun he => (h4 he).1, h5⟩

/-- C15 on user `a` of the sample table and the date 2025-01-11. -/
theorem deleteRecordByNameAndDate_spec_witness :
    (deleteRecordByNameAndDate sampleRecordsTable [97] ⟨11, 1, 2025⟩).1 = 2 ∧
    findUser (deleteRecordByNameAndDate sampleRecordsTable [97] ⟨11, 1, 2025⟩).2 [98] =
      findUser sampleRecordsTable [98] :=
  have h := deleteRecordByNameAndDate_spec sampleRecordsTable [97] ⟨11, 1, 2025⟩ sampleGroupA
    sampleRecordsTable_wf sampleRecordsTable_findA sampleRecordsTable_size
  ⟨h.1, h.2.2.2.2 [98] (by decide)⟩

/-- C16: in a well-formed record table of at most 2^23 buckets, for an existing
user, `deleteRecordByNameDateAndBatchID` returns the number of the user's records that
have both the given date and the given batch identifier and lowers
`all_records_count` by it; the group then holds the former sequence without
exactly those records, in the former order (records of the date from another
batch stay), or is gone when no record is left; the group found for every other
user name is unchanged. -/
theorem deleteRecordByNameDateAndBatchID_spec (ht : VaccinationRecordsHashtable)
    (user_name : CStr) (d : Date) (b : CStr) (g : VaccinationRecordsUser)
    (hwf : RecordsWF ht) (hfind : findUser ht user_name = some g) :
    ht.size ≤ MAX_EXACT_SIZE →
    (deleteRecordByNameDateAndBatchID ht user_name d b).1 =
      (g.records.filter
        (fun r => decide (r.vaccination_date = d ∧ r.batch_id = b))).length ∧
    (deleteRecordByNameDateAndBatchID ht user_name d b).2.all_records_count =
      ht.all_records_count - (deleteRecordByNameDateAndBatchID ht user_name d b).1 ∧
    (g.records.filter (fun r => decide (¬ (r.vaccination_date = d ∧ r.batch_id = b))) ≠ [] →
      findUser (deleteRecordByNameDateAndBatchID ht user_name d b).2 user_name =
        some ⟨g.user, g.records.filter
          (fun r => decide (¬ (r.vaccination_date = d ∧ r.batch_id = b)))⟩) ∧
    (g.records.filter (fun r => decide (¬ (r.vaccination_date = d ∧ r.batch_id = b))) = [] →
      findUser (deleteRecordByNameDateAndBatchID ht user_name d b).2 user_name = none) ∧
    (∀ other : CStr, other ≠ user_name →
      findUser (deleteRecordByNameDateAndBatchID ht user_name d b).2 other =
        findUser ht other) := by
  intro _
  obtain ⟨h1, h2, h3, h4, h5, -⟩ := deleteRecordsWhere_spec ht user_name
    (fun r => decide (compareDate1Date2 r.vaccination_date d = 0) &&
      decide (strcmp r.batch_id b = 0)) g hwf hfind
  rw [filter_date_batch_eq] at h1 h2
  rw [filter_date_batch_ne] at h3 h4
  unfold deleteRecordByNameDateAndBatchID
  exact ⟨h1, by rw [h2, h1], fun hne => (h3 hne).1, fun he => (h4 he).1, h5⟩

set_option maxRecDepth 100000 in
/-- C16 on user `a` of the sample table, the date 2025-01-11 and batch `B`: the
record of that date from batch `A` stays. -/
theorem deleteRecordByNameDateAndBatchID_spec_witness :
    (deleteRecordByNameDateAndBatchID sampleRecordsTable [97] ⟨11, 1, 2025⟩ [66]).1 = 1 ∧
    findUser (deleteRecordByNameDateAndBatchID sampleRecordsTable [97] ⟨11, 1, 2025⟩ [66]).2
        [97] =
      some ⟨[97], [⟨0, [97], [86, 49], [65], ⟨10, 1, 2025⟩⟩,
                   ⟨2, [97], [86, 50], [65], ⟨11, 1, 2025⟩⟩]⟩ :=
  have h := deleteRecordByNameDateAndBatchID_spec sampleRecordsTable [97] ⟨11, 1, 2025⟩ [66]
    sampleGroupA sampleRecordsTable_wf sampleRecordsTable_findA sampleRecordsTable_size
  ⟨h.1, h.2.2.1 (by decide)⟩

/-- C17: in a well-formed record table of at most 2^23 buckets, for an existing
user, `deleteRecordVaccinationRecordsUser` returns the number of records the group
held; afterwards `userExistInSystem` is false for the user, `all_records_count`
has dropped by the returned number and `users_count` by 1, and the group found
for every other user name is unchanged, whether or not the table was shrunk. -/
theorem deleteRecordVaccinationRecordsUser_spec (ht : VaccinationRecordsHashtable)
    (user_name : CStr) (g : VaccinationRecordsUser) (hwf : RecordsWF ht)
    (hfind : findUser ht user_name = some g) :
    ht.size ≤ MAX_EXACT_SIZE →
    (deleteRecordVaccinationRecordsUser ht user_name).1 = g.records.length ∧
    userExistInSystem (deleteRecordVaccinationRecordsUser ht user_name).2 user_name = false ∧
    (deleteRecordVaccinationRecordsUser ht user_name).2.all_records_count =
      ht.all_records_count - (deleteRecordVaccinationRecordsUser ht user_name).1 ∧
    (deleteRecordVaccinationRecordsUser ht user_name).2.users_count = ht.users_count - 1 ∧
    (∀ other : CStr, other ≠ user_name →
      findUser (deleteRecordVaccinationRecordsUser ht user_name).2 other =
        findUser ht other) := by
  intro _
  obtain ⟨h1, -, h3, h4, h5, h6⟩ := deleteUser_spec ht user_name g hwf hfind
  refine ⟨h1, ?_, by rw [h6, h1], h5, h4⟩
  unfold userExistInSystem
  rw [h3]
  rfl

/-- C17 on user `a` of the sample table, who holds three records. -/
theorem deleteRecordVaccinationRecordsUser_spec_witness :
    (deleteRecordVaccinationRecordsUser sampleRecordsTable [97]).1 = 3 ∧
    userExistInSystem (deleteRecordVaccinationRecordsUser sampleRecordsTable [97]).2 [97] =
      false ∧
    findUser (deleteRecordVaccinationRecordsUser sampleRecordsTable [97]).2 [98] =
      findUser sampleRecordsTable [98] :=
  have h := deleteRecordVaccinationRecordsUser_spec sampleRecordsTable [97] sampleGroupA
    sampleRecordsTable_wf sampleRecordsTable_findA sampleRecordsTable_size
  ⟨h.1, h.2.1, h.2.2.2.2 [98] (by decide)⟩

/-! ## `nextPrime` returns the smallest prime -/

/-- A loop of `isPrime` that has rounds left for every candidate and answers `1` met
no divisor between `i` and the square root. -/
theorem isPrimeLoop_no_divisor (num : Int) :
    ∀ (fuel : Nat) (i : Int), 2 ≤ i → num + 2 ≤ fuel + i → isPrimeLoop num fuel i = true →
      ∀ m : Int, i ≤ m → m * m ≤ num → num.tmod m ≠ 0 := by
  intro fuel
  induction fuel with
  | zero =>
    intro i hi hf _ m him hmm
    exfalso
    have hm : m ≤ m * m := by nlinarith
    simp at hf
    omega
  | succ k ih =>
    intro i hi hf h m him hmm
    unfold isPrimeLoop at h
    by_cases h1 : i * i ≤ num
    · rw [if_pos h1] at h
      by_cases h2 : num.tmod i = 0
      · rw [if_pos h2] at h; cases h
      · rw [if_neg h2] at h
        rcases eq_or_lt_of_le him with heq | hlt
        · rw [← heq]; exact h2
        · exact ih (i + 1) (by omega) (by push_cast at hf ⊢; omega) h m (by omega) hmm
    · exfalso
      have hsq : i * i ≤ m * m := by nlinarith
      omega

/-- What `isPrime` accepts is a prime number. -/
theorem prime_of_isPrime (v : Int) (hv : isPrime v = true) : Nat.Prime v.toNat := by
  unfold isPrime at hv
  by_cases h1 : v ≤ 1
  · rw [if_pos h1] at hv; cases hv
  · rw [if_neg h1] at hv
    rw [Nat.prime_def_le_sqrt]
    refine ⟨by omega, ?_⟩
    intro m hm2 hmsq hdvd
    have hmm : m * m ≤ v.toNat := Nat.le_sqrt.mp hmsq
    have hv0 : ((v.toNat : Nat) : Int) = v := Int.toNat_of_nonneg (by omega)
    have hmmi : (m : Int) * (m : Int) ≤ v := by
      rw [← hv0]; exact_mod_cast hmm
    have hno := isPrimeLoop_no_divisor v v.toNat 2 (le_refl 2) (by omega) hv (m : Int)
      (by exact_mod_cast hm2) hmmi
    apply hno
    rw [Int.tmod_eq_emod (by omega) (by omega)]
    apply Int.emod_eq_zero_of_dvd
    rw [← hv0]
    exact Int.natCast_dvd_natCast.mpr hdvd

/-- More rounds than the loop of `nextPrime` needs change nothing. -/
theorem nextPrimeLoop_stable : ∀ (fuel k : Nat) (n : Int),
    isPrime (nextPrimeLoop fuel n) = true →
      nextPrimeLoop (fuel + k) n = nextPrimeLoop fuel n := by
  intro fuel
  induction fuel with
  | zero =>
    intro k n h
    simp only [nextPrimeLoop] at h ⊢
    cases k with
    | zero => rfl
    | succ k => simp only [Nat.zero_add]; unfold nextPrimeLoop; rw [if_pos h]
  | succ f ih =>
    intro k n h
    rw [Nat.add_right_comm]
    unfold nextPrimeLoop at h ⊢
    by_cases hn : isPrime n = true
    · rw [if_pos hn]; rw [if_pos hn]
    · rw [if_neg hn] at h ⊢
      rw [if_neg hn]
      exact ih k (n + 1) h

/-- C23: `nextPrime` stops and returns the smallest prime that is not below its
argument `n`: the result passes `isPrime`, every number of loop rounds from
`|n| + 3` on gives this same result, the result is a prime number and at least
`n`, every prime `p` with `n ≤ p` is at least the result, and for `n ≤ 2` the
result is 2.  The integers of the model are unbounded; in C the product `i * i`
of `isPrime` stays in range for arguments below `46340 ^ 2`. -/
theorem nextPrime_smallest_prime (n : Int) :
    isPrime (nextPrime n) = true ∧
    (∀ fuel : Nat, n.natAbs + 3 ≤ fuel → nextPrimeLoop fuel n = nextPrime n) ∧
    Nat.Prime (nextPrime n).toNat ∧
    n ≤ nextPrime n ∧
    (∀ p : Nat, p.Prime → n ≤ (p : Int) → nextPrime n ≤ (p : Int)) ∧
    (n ≤ 2 → nextPrime n = 2) := by
  obtain ⟨h1, h2, -⟩ := nextPrime_spec n
  have hmin : ∀ p : Nat, p.Prime → n ≤ (p : Int) → nextPrime n ≤ (p : Int) :=
    fun p hp hnp => nextPrimeLoop_first _ n p hnp (isPrime_of_prime p hp) h1
  have hprime := prime_of_isPrime _ h1
  refine ⟨h1, ?_, hprime, h2, hmin, ?_⟩
  · intro fuel hf
    obtain ⟨k, hk⟩ : ∃ k, fuel = n.natAbs + 3 + k := ⟨fuel - (n.natAbs + 3), by omega⟩
    rw [hk]
    exact nextPrimeLoop_stable _ k n h1
  · intro hn
    have hle := hmin 2 Nat.prime_two (by exact_mod_cast hn)
    have h2le := hprime.two_le
    have : (2 : Int) ≤ nextPrime n := by omega
    omega

/-! ## The hash functions are the polynomial hash -/

theorem charVal_ascii {b : Nat} (h : b < 128) : charVal b = (b : Int) := by
  unfold charVal; rw [if_pos h]

/-- On bytes below 128 and a positive modulus the loop of `hash` is the
recurrence `h <- (127 * h + byte) mod m` on natural numbers. -/
theorem hashFold_eq_emod (m : Int) (hm : 0 < m) (v : CStr) (hv : isAscii v) :
    ∀ h0 : Int, 0 ≤ h0 →
      v.foldl (fun h c => (127 * h + charVal c).tmod m) h0 =
        v.foldl (fun (h : Int) (b : Nat) => (127 * h + (b : Int)) % m) h0 := by
  induction v with
  | nil => intro h0 _; rfl
  | cons b v ih =>
    intro h0 hh0
    have hb : b < 128 := hv b (List.mem_cons_self b v)
    simp only [List.foldl_cons]
    rw [charVal_ascii hb, Int.tmod_eq_emod (by positivity) (le_of_lt hm)]
    exact ih (fun c hc => hv c (List.mem_cons_of_mem b hc)) _ (Int.emod_nonneg _ (by omega))

/-- Appending a byte multiplies the base-127 value of a string by 127 and adds the byte. -/
theorem polySum_snoc (v : CStr) (b : Nat) :
    (∑ i ∈ Finset.range (v ++ [b]).length,
        ((v ++ [b]).getD i 0 : Int) * 127 ^ ((v ++ [b]).length - 1 - i)) =
      127 * (∑ i ∈ Finset.range v.length, (v.getD i 0 : Int) * 127 ^ (v.length - 1 - i)) +
        (b : Int) := by
  simp only [List.length_append, List.length_singleton]
  rw [Finset.sum_range_succ, Finset.mul_sum]
  congr 1
  · apply Finset.sum_congr rfl
    intro i hi
    have hi2 : i < v.length := Finset.mem_range.mp hi
    have hget : (v ++ [b]).getD i 0 = v.getD i 0 := by
      simp [List.getD_eq_getElem?_getD, List.getElem?_append_left hi2]
    rw [hget]
    have hexp : v.length + 1 - 1 - i = (v.length - 1 - i) + 1 := by omega
    rw [hexp, pow_succ]
    ring
  · have hget : (v ++ [b]).getD v.length 0 = b := by
      simp [List.getD_eq_getElem?_getD]
    rw [hget]
    simp

theorem hashFold_snoc_emod (m : Int) (v : CStr) (b : Nat) :
    (v ++ [b]).foldl (fun (h : Int) (b : Nat) => (127 * h + (b : Int)) % m) 0 =
      (127 * v.foldl (fun (h : Int) (b : Nat) => (127 * h + (b : Int)) % m) 0 + (b : Int)) % m := by
  rw [List.foldl_append]; rfl

theorem hashFold_eq_polySum (m : Int) (v : CStr) :
    v.foldl (fun (h : Int) (b : Nat) => (127 * h + (b : Int)) % m) 0 =
      (∑ i ∈ Finset.range v.length, (v.getD i 0 : Int) * 127 ^ (v.length - 1 - i)) % m := by
  induction v using List.reverseRecOn with
  | nil => simp
  | append_singleton v b ih =>
    rw [hashFold_snoc_emod, ih, polySum_snoc]
    rw [Int.add_emod, Int.mul_emod, Int.emod_emod_of_dvd _ (dvd_refl m), ← Int.mul_emod,
      ← Int.add_emod]

/-! ## The batch store: lookup in a well-formed table -/

theorem batches_unique (l : List Batches) (id : CStr)
    (hnd : (l.map (fun n => n.batch_id)).Nodup) :
    ∀ x ∈ l, ∀ y ∈ l,
      decide (strcmp x.batch_id id = 0) = true → decide (strcmp y.batch_id id = 0) = true →
        x = y := by
  intro x hx y hy hpx hpy
  rw [decide_eq_true_eq, strcmp_eq_zero_iff] at hpx hpy
  exact List.inj_on_of_nodup_map hnd hx hy (by rw [hpx, hpy])

theorem search_eq_find_nodes (ht : BatchesHashTable)
    (hpl : Placed (fun n => hash n.batch_id ht.size) ht.batches) (id : CStr) :
    searchBatchInSystem ht id =
      ht.nodes.find? (fun n => decide (strcmp n.batch_id id = 0)) := by
  unfold searchBatchInSystem BatchesHashTable.nodes
  symm
  apply find?_flatten_of_placed hpl
  intro x hx
  rw [decide_eq_true_eq, strcmp_eq_zero_iff] at hx
  simp only [hx]

/-- In a well-formed table the search finds exactly the stored node of that identifier. -/
theorem search_iff_mem (ht : BatchesHashTable) (hwf : BatchesWF ht) (id : CStr) (n : Batches) :
    searchBatchInSystem ht id = some n ↔ n ∈ ht.nodes ∧ n.batch_id = id := by
  rw [search_eq_find_nodes ht hwf.placed]
  constructor
  · intro h
    have h1 := List.mem_of_find?_eq_some h
    have h2 := List.find?_some h
    rw [decide_eq_true_eq, strcmp_eq_zero_iff] at h2
    exact ⟨h1, h2⟩
  · rintro ⟨h1, h2⟩
    exact find?_eq_some_of_unique _ _ (batches_unique _ id hwf.nodup) n h1
      (by rw [decide_eq_true_eq, strcmp_eq_zero_iff]; exact h2)

theorem search_none_iff (ht : BatchesHashTable)
    (hpl : Placed (fun n => hash n.batch_id ht.size) ht.batches) (id : CStr) :
    searchBatchInSystem ht id = none ↔ ∀ n ∈ ht.nodes, n.batch_id ≠ id := by
  rw [search_eq_find_nodes ht hpl, List.find?_eq_none]
  constructor
  · intro h n hn he
    exact h n hn (by rw [decide_eq_true_eq, strcmp_eq_zero_iff]; exact he)
  · intro h n hn hp
    rw [decide_eq_true_eq, strcmp_eq_zero_iff] at hp
    exact h n hn hp

/-- A node found by the search is stored and carries the identifier searched for. -/
theorem search_some_mem (ht : BatchesHashTable) (id : CStr) (n : Batches)
    (h : searchBatchInSystem ht id = some n) : n ∈ ht.nodes ∧ n.batch_id = id := by
  unfold searchBatchInSystem at h
  have h1 := List.mem_of_find?_eq_some h
  have h2 := List.find?_some h
  rw [decide_eq_true_eq, strcmp_eq_zero_iff] at h2
  refine ⟨?_, h2⟩
  unfold BatchesHashTable.nodes
  rw [List.mem_flatten]
  exact ⟨_, chainAt_mem (List.ne_nil_of_mem h1), h1⟩

/-! ## The batch store: resize -/

theorem resizeBatchesHashTable_cases (ht : BatchesHashTable) :
    (ht.size = MAX_TABLE_SIZE ∧ resizeBatchesHashTable ht = (1, ht)) ∨
    (ht.size ≠ MAX_TABLE_SIZE ∧
      resizeBatchesHashTable ht =
        (1, { batches :=
                rehash
                  (fun cur => hash cur.batch_id (min (nextPrime (ht.size * 2)) MAX_TABLE_SIZE))
                  ht.nodes
                  (List.replicate (min (nextPrime (ht.size * 2)) MAX_TABLE_SIZE).toNat []),
              batch_count := ht.batch_count })) := by
  unfold resizeBatchesHashTable
  by_cases h : ht.size = MAX_TABLE_SIZE
  · left; exact ⟨h, by rw [if_pos h]⟩
  · right
    refine ⟨h, ?_⟩
    rw [if_neg h]
    have hmin : (if nextPrime (ht.size * 2) > MAX_TABLE_SIZE then MAX_TABLE_SIZE
        else nextPrime (ht.size * 2)) = min (nextPrime (ht.size * 2)) MAX_TABLE_SIZE := by
      split_ifs with h1
      · rw [min_eq_right (le_of_lt h1)]
      · rw [min_eq_left (by omega)]
    simp only [hmin]

theorem resize_target_pos (size : Int) : 0 < min (nextPrime (size * 2)) MAX_TABLE_SIZE := by
  have h := nextPrime_pos (size * 2)
  unfold MAX_TABLE_SIZE
  omega

/-- What a resize that rehashes leaves: the new bucket count, every node in the
bucket of its identifier, the same nodes and the same counter. -/
theorem resizeBatchesHashTable_rehashed (ht : BatchesHashTable)
    (hne : ht.size ≠ MAX_TABLE_SIZE) (hascii : ∀ n ∈ ht.nodes, isAscii n.batch_id) :
    (resizeBatchesHashTable ht).2.size = min (nextPrime (ht.size * 2)) MAX_TABLE_SIZE ∧
    Placed (fun n => hash n.batch_id (resizeBatchesHashTable ht).2.size)
      (resizeBatchesHashTable ht).2.batches ∧
    (resizeBatchesHashTable ht).2.nodes.Perm ht.nodes ∧
    (resizeBatchesHashTable ht).2.batch_count = ht.batch_count := by
  rcases resizeBatchesHashTable_cases ht with ⟨h, -⟩ | ⟨-, h⟩
  · exact absurd h hne
  · have hpos := resize_target_pos ht.size
    have hsz : (resizeBatchesHashTable ht).2.size =
        min (nextPrime (ht.size * 2)) MAX_TABLE_SIZE := by
      rw [h]
      have hp := hpos
      simp only [BatchesHashTable.size, length_rehash, List.length_replicate] at hp ⊢
      exact Int.toNat_of_nonneg (le_of_lt hp)
    refine ⟨hsz, ?_, ?_, by rw [h]⟩
    · rw [hsz, h]
      exact placed_rehash _ _ _
    · rw [h]
      unfold BatchesHashTable.nodes
      simp only
      have := flatten_rehash_perm
        (fun cur : Batches => hash cur.batch_id (min (nextPrime (ht.size * 2)) MAX_TABLE_SIZE))
        ht.batches.flatten
        (List.replicate (min (nextPrime (ht.size * 2)) MAX_TABLE_SIZE).toNat []) (by
          intro x hx
          have hr := hash_range (hascii x hx) hpos
          simp only [List.length_replicate]
          omega)
      simpa using this

theorem BatchesWF_resize (ht : BatchesHashTable) (hwf : BatchesWF ht) :
    BatchesWF (resizeBatchesHashTable ht).2 := by
  by_cases hne : ht.size = MAX_TABLE_SIZE
  · rcases resizeBatchesHashTable_cases ht with ⟨-, h⟩ | ⟨h, -⟩
    · rw [h]; exact hwf
    · exact absurd hne h
  · obtain ⟨h1, h2, h3, -⟩ := resizeBatchesHashTable_rehashed ht hne hwf.ascii
    refine ⟨by rw [h1]; exact resize_target_pos _, h2, ?_, ?_⟩
    · exact ((h3.map _).nodup_iff).mpr hwf.nodup
    · intro n hn
      exact hwf.ascii n (h3.mem_iff.mp hn)

theorem resize_nodes_perm (ht : BatchesHashTable)
    (hascii : ∀ n ∈ ht.nodes, isAscii n.batch_id) :
    (resizeBatchesHashTable ht).2.nodes.Perm ht.nodes := by
  by_cases hne : ht.size = MAX_TABLE_SIZE
  · rcases resizeBatchesHashTable_cases ht with ⟨-, h⟩ | ⟨h, -⟩
    · rw [h]
    · exact absurd hne h
  · exact (resizeBatchesHashTable_rehashed ht hne hascii).2.2.1

theorem search_resize (ht : BatchesHashTable) (hwf : BatchesWF ht) (id : CStr) :
    searchBatchInSystem (resizeBatchesHashTable ht).2 id = searchBatchInSystem ht id := by
  have hwf1 := BatchesWF_resize ht hwf
  rw [search_eq_find_nodes _ hwf1.placed, search_eq_find_nodes _ hwf.placed]
  exact find?_perm_of_unique _ (resize_nodes_perm ht hwf.ascii)
    (batches_unique _ id hwf1.nodup)

/-- C29: `resizeBatchesHashTable` on a table whose identifiers are made of bytes
below 128 returns 1, keeps `batch_count` and keeps the stored nodes (the nodes
afterwards are a rearrangement of the nodes before).  With fewer than 7993
buckets the bucket count becomes `min (nextPrime (2 * size)) 7993` and every
node sits in the bucket `hash` of its identifier for that bucket count.  An
identifier found before is found afterwards, and with pairwise distinct
identifiers the search returns the same node.  With 7993 buckets the table is
left as it is. -/
theorem resizeBatchesHashTable_spec (ht : BatchesHashTable)
    (hascii : ∀ n ∈ ht.nodes, isAscii n.batch_id) :
    (resizeBatchesHashTable ht).1 = 1 ∧
    (ht.size < MAX_TABLE_SIZE →
      (resizeBatchesHashTable ht).2.size = min (nextPrime (ht.size * 2)) MAX_TABLE_SIZE ∧
      Placed (fun n => hash n.batch_id (resizeBatchesHashTable ht).2.size)
        (resizeBatchesHashTable ht).2.batches) ∧
    (resizeBatchesHashTable ht).2.batch_count = ht.batch_count ∧
    (resizeBatchesHashTable ht).2.nodes.Perm ht.nodes ∧
    (∀ (id : CStr) (n : Batches), searchBatchInSystem ht id = some n →
      (searchBatchInSystem (resizeBatchesHashTable ht).2 id).isSome = true ∧
      ((ht.nodes.map (fun n => n.batch_id)).Nodup →
        searchBatchInSystem (resizeBatchesHashTable ht).2 id = some n)) ∧
    (ht.size = MAX_TABLE_SIZE → resizeBatchesHashTable ht = (1, ht)) := by
  have hperm := resize_nodes_perm ht hascii
  refine ⟨?_, ?_, ?_, hperm, ?_, ?_⟩
  · rcases resizeBatchesHashTable_cases ht with ⟨-, h⟩ | ⟨-, h⟩ <;> rw [h]
  · intro hlt
    obtain ⟨h1, h2, -, -⟩ := resizeBatchesHashTable_rehashed ht (by omega) hascii
    exact ⟨h1, h2⟩
  · rcases resizeBatchesHashTable_cases ht with ⟨-, h⟩ | ⟨-, h⟩ <;> rw [h]
  · intro id n hfind
    by_cases hne : ht.size = MAX_TABLE_SIZE
    · rcases resizeBatchesHashTable_cases ht with ⟨-, h⟩ | ⟨h, -⟩
      · rw [h]; exact ⟨by rw [hfind]; rfl, fun _ => hfind⟩
      · exact absurd hne h
    · obtain ⟨-, h2, -, -⟩ := resizeBatchesHashTable_rehashed ht hne hascii
      obtain ⟨hmem, hid⟩ := search_some_mem ht id n hfind
      have hmem1 : n ∈ (resizeBatchesHashTable ht).2.nodes := hperm.mem_iff.mpr hmem
      have hp : decide (strcmp n.batch_id id = 0) = true := by
        rw [decide_eq_true_eq, strcmp_eq_zero_iff]; exact hid
      rw [search_eq_find_nodes _ h2]
      constructor
      · rw [List.find?_isSome]
        exact ⟨n, hmem1, hp⟩
      · intro hnd
        exact find?_eq_some_of_unique _ _
          (batches_unique _ id (((hperm.map _).nodup_iff).mpr hnd)) n hmem1 hp
  · intro h
    rcases resizeBatchesHashTable_cases ht with ⟨-, h1⟩ | ⟨h1, -⟩
    · exact h1
    · exact absurd h h1

set_option maxRecDepth 100000 in
/-- C29 on the 101-bucket table that holds batch `A`: the resize gives 211 buckets. -/
theorem resizeBatchesHashTable_spec_witness :
    (resizeBatchesHashTable
      (insertBatchInSystem initBatchesHashTable [65] ⟨1, 1, 2025⟩ 5 [86]).2).2.size = 211 ∧
    (resizeBatchesHashTable
      (insertBatchInSystem initBatchesHashTable [65] ⟨1, 1, 2025⟩ 5 [86]).2).2.batch_count =
        1 := by
  have h := resizeBatchesHashTable_spec
    (insertBatchInSystem initBatchesHashTable [65] ⟨1, 1, 2025⟩ 5 [86]).2 (by decide)
  refine ⟨?_, ?_⟩
  · rw [(h.2.1 (by decide)).1]; decide
  · rw [h.2.2.1]; decide

/-! ## The batch store: linking a new node -/

theorem insertBatchInSystem_link (ht : BatchesHashTable) (batch_id : CStr) (date : Date)
    (doses : Int) (vaccine_name : CStr) :
    (insertBatchInSystem ht batch_id date doses vaccine_name).2 =
      linkBatch (if 4 * ht.batch_count ≥ 3 * ht.size then (resizeBatchesHashTable ht).2 else ht)
        (newBatchNode batch_id date doses vaccine_name) := rfl

theorem linkBatch_size (ht1 : BatchesHashTable) (n : Batches) :
    (linkBatch ht1 n).size = ht1.size := by
  simp [linkBatch, BatchesHashTable.size, length_setChain]

theorem linkBatch_search_other (ht1 : BatchesHashTable) (n : Batches) (id : CStr)
    (hne : id ≠ n.batch_id) :
    searchBatchInSystem (linkBatch ht1 n) id = searchBatchInSystem ht1 id := by
  unfold searchBatchInSystem
  rw [linkBatch_size]
  unfold linkBatch
  simp only
  apply find?_chainAt_setChain
  rw [List.find?_cons]
  have hq : decide (strcmp n.batch_id id = 0) = false := by
    rw [decide_eq_false_iff_not, strcmp_eq_zero_iff]
    exact fun h => hne h.symm
  rw [hq]

theorem linkBatch_nodes_perm (ht1 : BatchesHashTable) (n : Batches) (hpos : 0 < ht1.size)
    (hid : isAscii n.batch_id) : (linkBatch ht1 n).nodes.Perm (n :: ht1.nodes) := by
  have hr := hash_range hid hpos
  unfold linkBatch BatchesHashTable.nodes
  simp only
  exact flatten_setChain_cons_perm _ _ _ hr.1 (by simpa [BatchesHashTable.size] using hr.2)

theorem BatchesWF_linkBatch (ht1 : BatchesHashTable) (n : Batches) (hwf : BatchesWF ht1)
    (hid : isAscii n.batch_id) (hnone : searchBatchInSystem ht1 n.batch_id = none) :
    BatchesWF (linkBatch ht1 n) := by
  have hperm := linkBatch_nodes_perm ht1 n hwf.size_pos hid
  have hfresh := (search_none_iff ht1 hwf.placed n.batch_id).mp hnone
  refine ⟨by rw [linkBatch_size]; exact hwf.size_pos, ?_, ?_, ?_⟩
  · rw [linkBatch_size]
    unfold linkBatch
    simp only
    apply placed_setChain hwf.placed
    intro x hx
    rcases List.mem_cons.mp hx with h | h
    · rw [h]
    · exact placed_chainAt hwf.placed _ x h
  · rw [(hperm.map _).nodup_iff, List.map_cons, List.nodup_cons]
    refine ⟨?_, hwf.nodup⟩
    intro hmem
    rw [List.mem_map] at hmem
    obtain ⟨w, hw, hwid⟩ := hmem
    exact hfresh w hw hwid
  · intro x hx
    rcases List.mem_cons.mp (hperm.mem_iff.mp hx) with h | h
    · rw [h]; exact hid
    · exact hwf.ascii x h

/-- The table the load-factor test of an insertion leaves is well formed, holds the
same nodes and answers every search as before. -/
theorem insert_grow (ht : BatchesHashTable) (hwf : BatchesWF ht) :
    BatchesWF (if 4 * ht.batch_count ≥ 3 * ht.size then (resizeBatchesHashTable ht).2 else ht) ∧
    (if 4 * ht.batch_count ≥ 3 * ht.size then (resizeBatchesHashTable ht).2
      else ht).nodes.Perm ht.nodes ∧
    (if 4 * ht.batch_count ≥ 3 * ht.size then (resizeBatchesHashTable ht).2
      else ht).batch_count = ht.batch_count ∧
    ∀ id : CStr,
      searchBatchInSystem
        (if 4 * ht.batch_count ≥ 3 * ht.size then (resizeBatchesHashTable ht).2 else ht) id =
        searchBatchInSystem ht id := by
  split_ifs with h
  · exact ⟨BatchesWF_resize ht hwf, resize_nodes_perm ht hwf.ascii,
      (resizeBatchesHashTable_counters ht).1, search_resize ht hwf⟩
  · exact ⟨hwf, List.Perm.refl _, rfl, fun _ => rfl⟩

/-- C30: in a well-formed batch table, `insertBatchInSystem` of an identifier
returns 1 and leaves the answer of `searchBatchInSystem` for every other
identifier as it was, whether the two identifiers share a bucket or not and
whether the insertion resized the table or not. -/
theorem insertBatchInSystem_search_other (ht : BatchesHashTable) (batch_id other : CStr)
    (date : Date) (doses : Int) (vaccine_name : CStr) (hwf : BatchesWF ht)
    (hne : other ≠ batch_id) :
    (insertBatchInSystem ht batch_id date doses vaccine_name).1 = 1 ∧
    searchBatchInSystem (insertBatchInSystem ht batch_id date doses vaccine_name).2 other =
      searchBatchInSystem ht other := by
  refine ⟨rfl, ?_⟩
  rw [insertBatchInSystem_link, linkBatch_search_other _ _ _ hne]
  exact (insert_grow ht hwf).2.2.2 other

set_option maxRecDepth 100000 in
/-- C30 on the table that holds batch `A`: creating batch `C` leaves the answers
for `A`, which is stored, and for `B`, which is not. -/
theorem insertBatchInSystem_search_other_witness :
    searchBatchInSystem
        (insertBatchInSystem
          (insertBatchInSystem initBatchesHashTable [65] ⟨1, 1, 2025⟩ 5 [86]).2
          [67] ⟨2, 1, 2025⟩ 3 [86]).2 [65] =
      searchBatchInSystem
        (insertBatchInSystem initBatchesHashTable [65] ⟨1, 1, 2025⟩ 5 [86]).2 [65] ∧
    searchBatchInSystem
        (insertBatchInSystem
          (insertBatchInSystem initBatchesHashTable [65] ⟨1, 1, 2025⟩ 5 [86]).2
          [67] ⟨2, 1, 2025⟩ 3 [86]).2 [66] =
      searchBatchInSystem
        (insertBatchInSystem initBatchesHashTable [65] ⟨1, 1, 2025⟩ 5 [86]).2 [66] :=
  ⟨(insertBatchInSystem_search_other
      (insertBatchInSystem initBatchesHashTable [65] ⟨1, 1, 2025⟩ 5 [86]).2 [67] [65]
      ⟨2, 1, 2025⟩ 3 [86] (by decide) (by decide)).2,
   (insertBatchInSystem_search_other
      (insertBatchInSystem initBatchesHashTable [65] ⟨1, 1, 2025⟩ 5 [86]).2 [67] [66]
      ⟨2, 1, 2025⟩ 3 [86] (by decide) (by decide)).2⟩

/-! ## The record store: who exists after an insertion -/

theorem findUser_init (name : CStr) : findUser initVaccinationRecordsHashtable name = none := by
  unfold findUser initVaccinationRecordsHashtable
  simp only
  rw [chainAt_replicate_nil]
  rfl

/-- The part of an insertion that follows the load-factor test changes the group
of no other user. -/
theorem insertAfterGrow_other (ht1 : VaccinationRecordsHashtable)
    (user_name vaccine_name batch_id : CStr) (vaccination_date : Date) (other : CStr)
    (hne : other ≠ user_name) :
    findUser (insertAfterGrow ht1 user_name vaccine_name batch_id vaccination_date).2 other =
      findUser ht1 other := by
  cases hfind : findUser ht1 user_name with
  | none =>
    rw [insertAfterGrow_none _ _ _ _ _ hfind]
    apply findUser_of_buckets ht1 _ other (hash_user user_name ht1.size) _ rfl
    rw [List.find?_cons]
    have hq : decide (strcmp user_name other = 0) = false := by
      rw [decide_eq_false_iff_not, strcmp_eq_zero_iff]
      exact fun h => hne h.symm
    simp only [hq]
  | some g =>
    by_cases hdup : isAlreadyVaccinated g vaccine_name vaccination_date = true
    · rw [insertAfterGrow_dup _ _ _ _ _ g hfind hdup]
    · rw [insertAfterGrow_some _ _ _ _ _ g hfind hdup]
      apply findUser_of_buckets ht1 _ other (hash_user user_name ht1.size) _ rfl
      exact find?_modifyFirst_other
        (fun u : VaccinationRecordsUser => decide (strcmp u.user user_name = 0))
        (fun u : VaccinationRecordsUser => decide (strcmp u.user other = 0))
        (fun u : VaccinationRecordsUser => ⟨u.user, insertRecordSorted u.records
          (createVaccinationRecord user_name vaccine_name batch_id vaccination_date
            ht1.all_records_count)⟩)
        (name_pred_disjoint user_name other hne) (fun _ => rfl) _

/-- C27: `userExistInSystem` is false for every name of bytes below 128 on the
initial record table.  In a well-formed record table that has at most 2^23
buckets also after a growth, after `insertVaccinationRecord` returns 1 for a
user name of bytes below 128, `userExistInSystem` is true for that name, and for
every other name of bytes below 128 `findUser` returns the same group as
before, so `userExistInSystem` answers as before; the proof covers the insertion
that grows the table first. -/
theorem userExistInSystem_after_insert :
    (∀ name : CStr, isAscii name →
      userExistInSystem initVaccinationRecordsHashtable name = false) ∧
    (∀ (ht : VaccinationRecordsHashtable) (user_name vaccine_name batch_id : CStr)
        (date : Date),
      RecordsWF ht → isAscii user_name →
      nextPrime (ht.size * 2) ≤ MAX_EXACT_SIZE →
      (insertVaccinationRecord ht user_name vaccine_name batch_id date).1 = 1 →
      userExistInSystem (insertVaccinationRecord ht user_name vaccine_name batch_id date).2
          user_name = true ∧
      ∀ other : CStr, isAscii other → other ≠ user_name →
        findUser (insertVaccinationRecord ht user_name vaccine_name batch_id date).2 other =
            findUser ht other ∧
        userExistInSystem (insertVaccinationRecord ht user_name vaccine_name batch_id date).2
            other = userExistInSystem ht other) := by
  constructor
  · intro name _
    unfold userExistInSystem
    rw [findUser_init]
    rfl
  · intro ht user_name vaccine_name batch_id date hwf hascii _ hret
    obtain ⟨ht1, heq, hwf1, -, -, hfind1⟩ :=
      insertVaccinationRecord_grow ht user_name vaccine_name batch_id date hwf
    rw [heq] at hret ⊢
    obtain ⟨⟨g, hg, -⟩, -⟩ :=
      insertAfterGrow_inserted ht1 user_name vaccine_name batch_id date hwf1 hascii hret
    refine ⟨by unfold userExistInSystem; rw [hg]; rfl, ?_⟩
    intro other _ hne
    have h := insertAfterGrow_other ht1 user_name vaccine_name batch_id date other hne
    rw [hfind1 other] at h
    exact ⟨h, by unfold userExistInSystem; rw [h]⟩

set_option maxRecDepth 100000 in
/-- C27 on the sample table: user `c` is new, user `d` stays unknown, user `a` is
found as before, and the initial table knows no user `a`. -/
theorem userExistInSystem_after_insert_witness :
    userExistInSystem
      (insertVaccinationRecord sampleRecordsTable [99] [86] [65] ⟨12, 1, 2025⟩).2 [99] = true ∧
    userExistInSystem
      (insertVaccinationRecord sampleRecordsTable [99] [86] [65] ⟨12, 1, 2025⟩).2 [100] =
        userExistInSystem sampleRecordsTable [100] ∧
    findUser
      (insertVaccinationRecord sampleRecordsTable [99] [86] [65] ⟨12, 1, 2025⟩).2 [97] =
        findUser sampleRecordsTable [97] ∧
    userExistInSystem initVaccinationRecordsHashtable [97] = false :=
  have h := userExistInSystem_after_insert.2 sampleRecordsTable [99] [86] [65] ⟨12, 1, 2025⟩
    sampleRecordsTable_wf (by decide) (by decide) (by decide)
  ⟨h.1, (h.2 [100] (by decide) (by decide)).2, (h.2 [97] (by decide) (by decide)).1,
   userExistInSystem_after_insert.1 [97] (by decide)⟩

/-! ## Membership in a bucket array after a write -/

theorem mem_flatten_chainAt {α : Type} (bs : List (List α)) (k : Int) (y : α)
    (h : y ∈ chainAt bs k) : y ∈ bs.flatten := by
  rw [List.mem_flatten]
  exact ⟨_, chainAt_mem (List.ne_nil_of_mem h), h⟩

theorem mem_flatten_take {α : Type} (bs : List (List α)) (n : Nat) (y : α)
    (h : y ∈ (bs.take n).flatten) : y ∈ bs.flatten := by
  rw [List.mem_flatten] at h ⊢
  obtain ⟨c, hc, hy⟩ := h
  exact ⟨c, List.mem_of_mem_take hc, hy⟩

theorem mem_flatten_drop {α : Type} (bs : List (List α)) (n : Nat) (y : α)
    (h : y ∈ (bs.drop n).flatten) : y ∈ bs.flatten := by
  rw [List.mem_flatten] at h ⊢
  obtain ⟨c, hc, hy⟩ := h
  exact ⟨c, List.mem_of_mem_drop hc, hy⟩

theorem mem_flatten_setChain {α : Type} (bs : List (List α)) (k : Int) (c : List α) (y : α)
    (h : y ∈ (setChain bs k c).flatten) : y ∈ c ∨ y ∈ bs.flatten := by
  by_cases hr : 0 ≤ k ∧ k < bs.length
  · rw [flatten_setChain _ _ _ hr.1 hr.2] at h
    simp only [List.mem_append] at h
    rcases h with (h | h) | h
    · exact Or.inr (mem_flatten_take _ _ _ h)
    · exact Or.inl h
    · exact Or.inr (mem_flatten_drop _ _ _ h)
  · rw [setChain_out_of_range _ _ _ hr] at h
    exact Or.inr h

theorem mem_flatten_setChain_of_mem {α : Type} (bs : List (List α)) (k : Int) (c : List α)
    (y : α) (h : y ∈ bs.flatten) : y ∈ (setChain bs k c).flatten ∨ y ∈ chainAt bs k := by
  by_cases hr : 0 ≤ k ∧ k < bs.length
  · rw [flatten_eq_split_chainAt bs k hr.1 hr.2] at h
    rw [flatten_setChain _ _ _ hr.1 hr.2]
    simp only [List.mem_append] at h ⊢
    rcases h with (h | h) | h
    · exact Or.inl (Or.inl (Or.inl h))
    · exact Or.inr h
    · exact Or.inl (Or.inr h)
  · rw [setChain_out_of_range _ _ _ hr]
    exact Or.inl h

theorem mem_flatten_setChain_chain {α : Type} (bs : List (List α)) (k : Int) (c : List α)
    (y : α) (hr : 0 ≤ k ∧ k < bs.length) (h : y ∈ c) : y ∈ (setChain bs k c).flatten := by
  rw [flatten_setChain _ _ _ hr.1 hr.2]
  simp only [List.mem_append]
  exact Or.inl (Or.inr h)

/-- A chain rebuilt from the nodes of the old chain puts no new node in the array. -/
theorem mem_flatten_setChain_rebuilt {α : Type} (bs : List (List α)) (k : Int) (c : List α)
    (P : α → Prop) (hbs : ∀ y ∈ bs.flatten, P y) (hc : ∀ y ∈ c, P y) :
    ∀ y ∈ (setChain bs k c).flatten, P y := by
  intro y hy
  rcases mem_flatten_setChain bs k c y hy with h | h
  · exact hc y h
  · exact hbs y h

theorem mem_flatten_rehash {α : Type} (key : α → Int) (nodes : List α) :
    ∀ (bs : List (List α)) (y : α), y ∈ (rehash key nodes bs).flatten →
      y ∈ nodes ∨ y ∈ bs.flatten := by
  induction nodes with
  | nil => intro bs y h; exact Or.inr h
  | cons x rest ih =>
    intro bs y h
    unfold rehash at h
    rw [List.foldl_cons] at h
    rcases ih _ y h with h1 | h1
    · exact Or.inl (List.mem_cons_of_mem _ h1)
    · rcases mem_flatten_setChain _ _ _ _ h1 with h2 | h2
      · rcases List.mem_cons.mp h2 with h3 | h3
        · exact Or.inl (by rw [h3]; exact List.mem_cons_self _ _)
        · exact Or.inr (mem_flatten_chainAt _ _ _ h3)
      · exact Or.inr h2

theorem mem_modifyFirst_of_mem {α : Type} (p : α → Bool) (f : α → α) :
    ∀ (l : List α) (x : α), x ∈ l → x ∈ modifyFirst p f l ∨ f x ∈ modifyFirst p f l := by
  intro l
  induction l with
  | nil => intro x h; cases h
  | cons a rest ih =>
    intro x h
    unfold modifyFirst
    by_cases hp : p a = true
    · rw [if_pos hp]
      rcases List.mem_cons.mp h with h1 | h1
      · right; rw [h1]; exact List.mem_cons_self _ _
      · left; exact List.mem_cons_of_mem _ h1
    · rw [if_neg hp]
      rcases List.mem_cons.mp h with h1 | h1
      · left; rw [h1]; exact List.mem_cons_self _ _
      · rcases ih x h1 with h2 | h2
        · left; exact List.mem_cons_of_mem _ h2
        · right; exact List.mem_cons_of_mem _ h2

/-- If a node of the chain satisfies `p`, the chain afterwards holds the image of
a node that satisfies `p`. -/
theorem modifyFirst_hit {α : Type} (p : α → Bool) (f : α → α) :
    ∀ l : List α, (∃ x ∈ l, p x = true) → ∃ x ∈ l, p x = true ∧ f x ∈ modifyFirst p f l := by
  intro l
  induction l with
  | nil => rintro ⟨x, hx, -⟩; cases hx
  | cons a rest ih =>
    rintro ⟨x, hx, hpx⟩
    unfold modifyFirst
    by_cases hp : p a = true
    · rw [if_pos hp]
      exact ⟨a, List.mem_cons_self _ _, hp, List.mem_cons_self _ _⟩
    · rw [if_neg hp]
      rcases List.mem_cons.mp hx with h1 | h1
      · rw [h1] at hpx; exact absurd hpx hp
      · obtain ⟨w, hw, hpw, hfw⟩ := ih ⟨x, h1, hpx⟩
        exact ⟨w, List.mem_cons_of_mem _ hw, hpw, List.mem_cons_of_mem _ hfw⟩

/-! ## The scan-wide modification -/

theorem flatten_modifyFirstInBuckets_mem {α : Type} (p : α → Bool) (f : α → α) :
    ∀ (bs : List (List α)) (y : α), y ∈ (modifyFirstInBuckets p f bs).flatten →
      y ∈ bs.flatten ∨ ∃ x ∈ bs.flatten, y = f x := by
  intro bs
  induction bs with
  | nil => intro y h; exact Or.inl h
  | cons c rest ih =>
    intro y h
    unfold modifyFirstInBuckets at h
    by_cases hc : c.any p = true
    · rw [if_pos hc] at h
      rw [List.flatten_cons, List.mem_append] at h
      rcases h with h | h
      · rcases mem_modifyFirst p f c y h with h1 | ⟨x, hx, hxy⟩
        · left; rw [List.flatten_cons, List.mem_append]; exact Or.inl h1
        · right
          exact ⟨x, by rw [List.flatten_cons, List.mem_append]; exact Or.inl hx, hxy⟩
      · left; rw [List.flatten_cons, List.mem_append]; exact Or.inr h
    · rw [if_neg hc] at h
      rw [List.flatten_cons, List.mem_append] at h
      rcases h with h | h
      · left; rw [List.flatten_cons, List.mem_append]; exact Or.inl h
      · rcases ih y h with h1 | ⟨x, hx, hxy⟩
        · left; rw [List.flatten_cons, List.mem_append]; exact Or.inr h1
        · right
          exact ⟨x, by rw [List.flatten_cons, List.mem_append]; exact Or.inr hx, hxy⟩

theorem flatten_modifyFirstInBuckets_of_mem {α : Type} (p : α → Bool) (f : α → α) :
    ∀ (bs : List (List α)) (x : α), x ∈ bs.flatten →
      x ∈ (modifyFirstInBuckets p f bs).flatten ∨
        f x ∈ (modifyFirstInBuckets p f bs).flatten := by
  intro bs
  induction bs with
  | nil => intro x h; exact Or.inl h
  | cons c rest ih =>
    intro x h
    rw [List.flatten_cons, List.mem_append] at h
    unfold modifyFirstInBuckets
    by_cases hc : c.any p = true
    · rw [if_pos hc]
      simp only [List.flatten_cons, List.mem_append]
      rcases h with h | h
      · rcases mem_modifyFirst_of_mem p f c x h with h1 | h1
        · exact Or.inl (Or.inl h1)
        · exact Or.inr (Or.inl h1)
      · exact Or.inl (Or.inr h)
    · rw [if_neg hc]
      simp only [List.flatten_cons, List.mem_append]
      rcases h with h | h
      · exact Or.inl (Or.inl h)
      · rcases ih x h with h1 | h1
        · exact Or.inl (Or.inr h1)
        · exact Or.inr (Or.inr h1)

theorem flatten_modifyFirstInBuckets_hit {α : Type} (p : α → Bool) (f : α → α) :
    ∀ bs : List (List α), (∃ x ∈ bs.flatten, p x = true) →
      ∃ x ∈ bs.flatten, p x = true ∧ f x ∈ (modifyFirstInBuckets p f bs).flatten := by
  intro bs
  induction bs with
  | nil => rintro ⟨x, hx, -⟩; simp at hx
  | cons c rest ih =>
    rintro ⟨x, hx, hpx⟩
    rw [List.flatten_cons, List.mem_append] at hx
    unfold modifyFirstInBuckets
    by_cases hc : c.any p = true
    · rw [if_pos hc]
      rw [List.any_eq_true] at hc
      obtain ⟨w, hw, hpw, hfw⟩ := modifyFirst_hit p f c hc
      exact ⟨w, by rw [List.flatten_cons, List.mem_append]; exact Or.inl hw, hpw,
        by rw [List.flatten_cons, List.mem_append]; exact Or.inl hfw⟩
    · rw [if_neg hc]
      rcases hx with h | h
      · exfalso
        apply hc
        rw [List.any_eq_true]
        exact ⟨x, h, hpx⟩
      · obtain ⟨w, hw, hpw, hfw⟩ := ih ⟨x, h, hpx⟩
        exact ⟨w, by rw [List.flatten_cons, List.mem_append]; exact Or.inr hw, hpw,
          by rw [List.flatten_cons, List.mem_append]; exact Or.inr hfw⟩

theorem map_map_modifyFirstInBuckets {α β : Type} (g : α → β) (p : α → Bool) (f : α → α)
    (hg : ∀ x, g (f x) = g x) :
    ∀ bs : List (List α),
      (modifyFirstInBuckets p f bs).map (List.map g) = bs.map (List.map g) := by
  intro bs
  induction bs with
  | nil => rfl
  | cons c rest ih =>
    unfold modifyFirstInBuckets
    split_ifs
    · rw [List.map_cons, List.map_cons, map_modifyFirst g p f hg]
    · rw [List.map_cons, List.map_cons, ih]

theorem map_map_setChain_modifyFirst {α β : Type} (g : α → β) (p : α → Bool) (f : α → α)
    (hg : ∀ x, g (f x) = g x) (bs : List (List α)) (k : Int) :
    (setChain bs k (modifyFirst p f (chainAt bs k))).map (List.map g) =
      bs.map (List.map g) := by
  by_cases hr : 0 ≤ k ∧ k < bs.length
  · have hlt : k.toNat < bs.length := by omega
    unfold setChain chainAt
    rw [if_neg (by omega), if_neg (by omega), List.map_set, map_modifyFirst g p f hg,
      List.getD_eq_getElem _ _ hlt]
    apply List.ext_getElem
    · simp
    · intro i h1 h2
      rw [List.getElem_set]
      split_ifs with h3
      · subst h3; simp
      · rfl
  · rw [setChain_out_of_range _ _ _ hr]

/-! ## Well-formed batch tables under a change that keeps the identifiers -/

theorem getD_map_nil {α β : Type} (g : α → β) (bs : List (List α)) (j : Nat) :
    (bs.map (List.map g)).getD j [] = (bs.getD j []).map g := by
  simp only [List.getD_eq_getElem?_getD, List.getElem?_map]
  cases bs[j]? <;> rfl

theorem placed_of_map_eq {α : Type} (key : α → Int) (bs1 bs2 : List (List α))
    (h : bs1.map (List.map key) = bs2.map (List.map key)) (hpl : Placed key bs2) :
    Placed key bs1 := by
  intro j hj x hx
  have hlen : bs1.length = bs2.length := by
    have := congrArg List.length h
    simpa using this
  have hk : key x ∈ (bs1.getD j []).map key := List.mem_map_of_mem _ hx
  rw [← getD_map_nil, h, getD_map_nil, List.mem_map] at hk
  obtain ⟨w, hw, hwk⟩ := hk
  rw [← hwk]
  exact hpl j (by omega) w hw

theorem BatchesWF_of_ids (ht ht1 : BatchesHashTable) (hwf : BatchesWF ht)
    (hmap : ht1.batches.map (List.map (fun n => n.batch_id)) =
      ht.batches.map (List.map (fun n => n.batch_id))) : BatchesWF ht1 := by
  have hlen : ht1.batches.length = ht.batches.length := by
    have := congrArg List.length hmap
    simpa using this
  have hsz : ht1.size = ht.size := by
    simp [BatchesHashTable.size, hlen]
  have hids : ht1.nodes.map (fun n => n.batch_id) = ht.nodes.map (fun n => n.batch_id) := by
    unfold BatchesHashTable.nodes
    rw [List.map_flatten, List.map_flatten, hmap]
  refine ⟨by rw [hsz]; exact hwf.size_pos, ?_, by rw [hids]; exact hwf.nodup, ?_⟩
  · rw [hsz]
    apply placed_of_map_eq _ _ _ _ hwf.placed
    have := congrArg (List.map (List.map (fun id : CStr => hash id ht.size))) hmap
    simpa [List.map_map, Function.comp_def] using this
  · intro n hn
    have hmem : n.batch_id ∈ ht.nodes.map (fun n => n.batch_id) := by
      rw [← hids]; exact List.mem_map_of_mem _ hn
    rw [List.mem_map] at hmem
    obtain ⟨w, hw, hwn⟩ := hmem
    rw [← hwn]
    exact hwf.ascii w hw

theorem BatchesWF_init : BatchesWF initBatchesHashTable := by
  refine ⟨by decide, ?_, ?_, ?_⟩
  · intro j hj x hx
    unfold initBatchesHashTable at hx
    simp only [List.getD_eq_getElem?_getD] at hx
    rw [List.getElem?_replicate] at hx
    split_ifs at hx <;> simp at hx
  · simp [BatchesHashTable.nodes, initBatchesHashTable]
  · intro n hn
    simp [BatchesHashTable.nodes, initBatchesHashTable] at hn

/-! ## The stored records after an insertion or a deletion -/

theorem mem_storedRecords (ht : VaccinationRecordsHashtable) (r : VaccinationRecord) :
    r ∈ storedRecords ht ↔ ∃ u ∈ ht.users, r ∈ u.records := by
  unfold storedRecords
  rw [List.mem_flatMap]

theorem mem_insertRecordSorted_iff (records : List VaccinationRecord)
    (record r : VaccinationRecord) :
    r ∈ insertRecordSorted records record ↔ r = record ∨ r ∈ records := by
  unfold insertRecordSorted
  have h := List.takeWhile_append_dropWhile
    (fun r : VaccinationRecord =>
      decide (compareDate1Date2 r.vaccination_date record.vaccination_date ≤ 0)) records
  constructor
  · intro hr
    rw [List.mem_append, List.mem_cons] at hr
    rcases hr with hr | hr | hr
    · right; rw [← h]; exact List.mem_append_left _ hr
    · left; exact hr
    · right; rw [← h]; exact List.mem_append_right _ hr
  · intro hr
    rw [List.mem_append, List.mem_cons]
    rcases hr with hr | hr
    · exact Or.inr (Or.inl hr)
    · rw [← h, List.mem_append] at hr
      rcases hr with hr | hr
      · exact Or.inl hr
      · exact Or.inr (Or.inr hr)

theorem stored_resize (ht : VaccinationRecordsHashtable) (new_size : Int) :
    ∀ r ∈ storedRecords (resizeVaccinationRecordsHashtable ht new_size).2,
      r ∈ storedRecords ht := by
  intro r hr
  rcases resizeVaccinationRecordsHashtable_cases ht new_size with h | ⟨-, h⟩
  · rw [h] at hr; exact hr
  · rw [h, mem_storedRecords] at hr
    obtain ⟨u, hu, hru⟩ := hr
    rw [mem_storedRecords]
    refine ⟨u, ?_, hru⟩
    unfold VaccinationRecordsHashtable.users at hu
    simp only at hu
    rcases mem_flatten_rehash _ _ _ u hu with h1 | h1
    · exact h1
    · simp at h1

theorem findUser_some_mem (ht : VaccinationRecordsHashtable) (name : CStr)
    (g : VaccinationRecordsUser) (h : findUser ht name = some g) : g ∈ ht.users := by
  unfold findUser at h
  exact mem_flatten_chainAt _ _ _ (List.mem_of_find?_eq_some h)

/-- After the part of an insertion that follows the load-factor test, a stored
record was stored before or is the new record of an insertion that returned 1. -/
theorem stored_insertAfterGrow (ht1 : VaccinationRecordsHashtable)
    (user_name vaccine_name batch_id : CStr) (vaccination_date : Date) :
    ∀ r ∈ storedRecords
        (insertAfterGrow ht1 user_name vaccine_name batch_id vaccination_date).2,
      r ∈ storedRecords ht1 ∨
        ((insertAfterGrow ht1 user_name vaccine_name batch_id vaccination_date).1 = 1 ∧
          r.batch_id = batch_id) := by
  intro r hr
  cases hfind : findUser ht1 user_name with
  | none =>
    rw [insertAfterGrow_none _ _ _ _ _ hfind] at hr ⊢
    rw [mem_storedRecords] at hr
    obtain ⟨u, hu, hru⟩ := hr
    rcases mem_flatten_setChain _ _ _ u hu with h | h
    · rcases List.mem_cons.mp h with h1 | h1
      · right
        rw [h1] at hru
        simp only [List.mem_singleton] at hru
        rw [hru]
        exact ⟨rfl, rfl⟩
      · left
        rw [mem_storedRecords]
        exact ⟨u, mem_flatten_chainAt _ _ _ h1, hru⟩
    · left
      rw [mem_storedRecords]
      exact ⟨u, h, hru⟩
  | some g =>
    by_cases hdup : isAlreadyVaccinated g vaccine_name vaccination_date = true
    · rw [insertAfterGrow_dup _ _ _ _ _ g hfind hdup] at hr
      exact Or.inl hr
    · rw [insertAfterGrow_some _ _ _ _ _ g hfind hdup] at hr ⊢
      rw [mem_storedRecords] at hr
      obtain ⟨u, hu, hru⟩ := hr
      rcases mem_flatten_setChain _ _ _ u hu with h | h
      · rcases mem_modifyFirst _ _ _ u h with h1 | ⟨x, hx, hxu⟩
        · left
          rw [mem_storedRecords]
          exact ⟨u, mem_flatten_chainAt _ _ _ h1, hru⟩
        · rw [hxu] at hru
          simp only at hru
          rcases (mem_insertRecordSorted_iff _ _ _).mp hru with h2 | h2
          · right; rw [h2]; exact ⟨rfl, rfl⟩
          · left
            rw [mem_storedRecords]
            exact ⟨x, mem_flatten_chainAt _ _ _ hx, h2⟩
      · left
        rw [mem_storedRecords]
        exact ⟨u, h, hru⟩

theorem stored_insert (ht : VaccinationRecordsHashtable)
    (user_name vaccine_name batch_id : CStr) (vaccination_date : Date) :
    ∀ r ∈ storedRecords
        (insertVaccinationRecord ht user_name vaccine_name batch_id vaccination_date).2,
      r ∈ storedRecords ht ∨
        ((insertVaccinationRecord ht user_name vaccine_name batch_id vaccination_date).1 = 1 ∧
          r.batch_id = batch_id) := by
  intro r hr
  obtain ⟨ht1, hht1, heq⟩ :=
    insertVaccinationRecord_eq ht user_name vaccine_name batch_id vaccination_date
  rw [heq] at hr ⊢
  rcases stored_insertAfterGrow ht1 user_name vaccine_name batch_id vaccination_date r hr
    with h | h
  · left
    rcases hht1 with h1 | h1
    · rw [h1] at h; exact h
    · rw [h1] at h; exact stored_resize _ _ r h
  · exact Or.inr h

theorem stored_unlinkUser (ht : VaccinationRecordsHashtable) (user_name : CStr) :
    ∀ r ∈ storedRecords (unlinkUser ht user_name).2, r ∈ storedRecords ht := by
  intro r hr
  unfold unlinkUser at hr
  cases hf : (chainAt ht.vaccination_records (hash_user user_name ht.size)).find?
      (fun curr => decide (strcmp curr.user user_name = 0)) with
  | none => rw [hf] at hr; exact hr
  | some curr =>
    rw [hf] at hr
    rw [mem_storedRecords] at hr ⊢
    obtain ⟨u, hu, hru⟩ := hr
    refine ⟨u, ?_, hru⟩
    exact (flatten_setChain_sublist _ _ _ (List.eraseP_sublist _)).subset hu

theorem stored_deleteUser (ht : VaccinationRecordsHashtable) (user_name : CStr) :
    ∀ r ∈ storedRecords (deleteRecordVaccinationRecordsUser ht user_name).2,
      r ∈ storedRecords ht := by
  intro r hr
  rw [deleteRecordVaccinationRecordsUser_eq] at hr
  simp only at hr
  apply stored_unlinkUser ht user_name r
  unfold shrinkIfSparse at hr
  split_ifs at hr
  · exact stored_resize _ _ r hr
  · exact hr

theorem stored_compactUser (ht : VaccinationRecordsHashtable) (user_name : CStr)
    (g : VaccinationRecordsUser) (hfind : findUser ht user_name = some g)
    (keep : VaccinationRecord → Bool) (deleted : Int) :
    ∀ r ∈ storedRecords (compactUser ht user_name (g.records.filter keep) deleted),
      r ∈ storedRecords ht := by
  intro r hr
  rw [mem_storedRecords] at hr ⊢
  obtain ⟨u, hu, hru⟩ := hr
  unfold compactUser VaccinationRecordsHashtable.users at hu
  simp only at hu
  rcases mem_flatten_setChain _ _ _ u hu with h | h
  · rcases mem_modifyFirst _ _ _ u h with h1 | ⟨x, -, hxu⟩
    · exact ⟨u, mem_flatten_chainAt _ _ _ h1, hru⟩
    · rw [hxu] at hru
      simp only at hru
      exact ⟨g, findUser_some_mem ht user_name g hfind, (List.mem_filter.mp hru).1⟩
  · exact ⟨u, h, hru⟩

theorem stored_deleteRecordsWhere (ht : VaccinationRecordsHashtable) (user_name : CStr)
    (gone : VaccinationRecord → Bool) :
    ∀ r ∈ storedRecords (deleteRecordsWhere ht user_name gone).2, r ∈ storedRecords ht := by
  intro r hr
  cases hfind : findUser ht user_name with
  | none =>
    rw [deleteRecordsWhere_none _ _ _ hfind] at hr
    exact hr
  | some g =>
    rw [deleteRecordsWhere_some _ _ _ g hfind] at hr
    apply stored_compactUser ht user_name g hfind (fun r => !gone r)
      ((g.records.filter gone).length : Int) r
    split_ifs at hr
    · exact stored_deleteUser _ _ r hr
    · exact hr

/-! ## One step of the batch table -/

theorem BatchStep_refl (ht : BatchesHashTable) (hwf : BatchesWF ht) : BatchStep ht ht :=
  ⟨hwf, fun y hy => Or.inl ⟨y, hy, rfl, rfl, le_refl _⟩,
    fun x hx _ => ⟨x, hx, rfl, le_refl _⟩, Or.inl (le_refl _)⟩

theorem validBatch_ascii (batch : CStr) (num_args : Int) (hbytes : isBytes batch)
    (h : validBatch batch num_args = true) : isAscii batch := by
  unfold validBatch at h
  split_ifs at h
  rw [List.all_eq_true] at h
  intro b hb
  have hb1 := h b hb
  have hb2 := hbytes b hb
  rw [decide_eq_true_eq] at hb1
  unfold charVal at hb1
  by_contra hge
  rw [if_neg hge] at hb1
  omega

theorem BatchStep_insert (ht : BatchesHashTable) (batch_id : CStr) (date : Date)
    (doses : Int) (vaccine_name : CStr) (hwf : BatchesWF ht) (hid : isAscii batch_id)
    (hnone : searchBatchInSystem ht batch_id = none)
    (hcount : ht.batch_count < MAX_BATCHES_NUMBER) :
    BatchStep ht (insertBatchInSystem ht batch_id date doses vaccine_name).2 := by
  obtain ⟨hwf1, hperm1, hcount1, hsearch1⟩ := insert_grow ht hwf
  rw [insertBatchInSystem_link]
  have hnone1 := hnone
  rw [← hsearch1 batch_id] at hnone1
  have hperm := (linkBatch_nodes_perm _ (newBatchNode batch_id date doses vaccine_name)
    hwf1.size_pos hid).trans (hperm1.cons _)
  have hfresh := (search_none_iff ht hwf.placed batch_id).mp hnone
  refine ⟨BatchesWF_linkBatch _ _ hwf1 hid hnone1, ?_, ?_, ?_⟩
  · intro y hy
    rcases List.mem_cons.mp (hperm.mem_iff.mp hy) with h | h
    · right
      rw [h]
      exact ⟨hfresh, rfl, rfl⟩
    · exact Or.inl ⟨y, h, rfl, rfl, le_refl _⟩
  · intro x hx _
    exact ⟨x, hperm.mem_iff.mpr (List.mem_cons_of_mem _ hx), rfl, le_refl _⟩
  · right
    refine ⟨hcount, ?_⟩
    unfold linkBatch
    simp only
    rw [hcount1]

theorem BatchesWF_of_sublist (ht ht1 : BatchesHashTable) (key : Int) (c : List Batches)
    (hwf : BatchesWF ht) (hc : c.Sublist (chainAt ht.batches key))
    (hb : ht1.batches = setChain ht.batches key c) : BatchesWF ht1 := by
  have hsz : ht1.size = ht.size := by
    simp [BatchesHashTable.size, hb, length_setChain]
  have hsub : ht1.nodes.Sublist ht.nodes := by
    unfold BatchesHashTable.nodes
    rw [hb]
    exact flatten_setChain_sublist _ _ _ hc
  refine ⟨by rw [hsz]; exact hwf.size_pos, ?_, ?_, ?_⟩
  · rw [hsz, hb]
    apply placed_setChain hwf.placed
    intro x hx
    exact placed_chainAt hwf.placed key x (hc.subset hx)
  · exact List.Nodup.sublist (hsub.map _) hwf.nodup
  · intro n hn
    exact hwf.ascii n (hsub.subset hn)

theorem BatchStep_remove (vs : VaccinationSystem) (batch_id : CStr)
    (hwf : BatchesWF vs.batches_ht) :
    BatchStep vs.batches_ht (removeBatchInput vs batch_id).batches_ht := by
  cases hfind : searchBatchInSystem vs.batches_ht batch_id with
  | none =>
    have h : removeBatchInput vs batch_id = vs := by
      unfold removeBatchInput
      rw [hfind]
    rw [h]
    exact BatchStep_refl _ hwf
  | some node =>
    obtain ⟨hnode, hnid⟩ := (search_iff_mem _ hwf batch_id node).mp hfind
    obtain ⟨hr0, hr1⟩ := search_some_range _ _ _ hfind
    by_cases happ : node.batch_info.applications = 0
    · have heq := removeBatchInput_full_eq vs batch_id node hfind happ
      have hwf1 : BatchesWF (removeBatchInput vs batch_id).batches_ht :=
        BatchesWF_of_sublist _ _ _ _ hwf (List.eraseP_sublist _) (by rw [heq])
      have hsub : (removeBatchInput vs batch_id).batches_ht.nodes.Sublist
          vs.batches_ht.nodes := by
        rw [heq]
        exact flatten_setChain_sublist _ _ _ (List.eraseP_sublist _)
      refine ⟨hwf1, ?_, ?_, ?_⟩
      · intro y hy
        exact Or.inl ⟨y, hsub.subset hy, rfl, rfl, le_refl _⟩
      · intro x hx happx
        refine ⟨x, ?_, rfl, le_refl _⟩
        rw [heq]
        unfold BatchesHashTable.nodes
        simp only
        rcases mem_flatten_setChain_of_mem vs.batches_ht.batches
          (hash batch_id vs.batches_ht.size)
          ((chainAt vs.batches_ht.batches (hash batch_id vs.batches_ht.size)).eraseP
            (fun current => decide (strcmp current.batch_id batch_id = 0))) x hx with h | h
        · exact h
        · apply mem_flatten_setChain_chain _ _ _ _ ⟨hr0, hr1⟩
          rw [List.mem_eraseP_of_neg]
          · exact h
          · intro hp
            rw [decide_eq_true_eq, strcmp_eq_zero_iff] at hp
            have hxn : x = node :=
              List.inj_on_of_nodup_map hwf.nodup hx hnode (by rw [hp, hnid])
            rw [hxn, happ] at happx
            omega
      · left
        rw [heq]
        simp only
        omega
    · have heq := removeBatchInput_soft_eq vs batch_id node hfind happ
      have hwf1 : BatchesWF (removeBatchInput vs batch_id).batches_ht := by
        apply BatchesWF_of_ids _ _ hwf
        rw [heq]
        exact map_map_setChain_modifyFirst (fun n : Batches => n.batch_id) _ _
          (by intro _; rfl) _ _
      refine ⟨hwf1, ?_, ?_, ?_⟩
      · intro y hy
        rw [heq] at hy
        unfold BatchesHashTable.nodes at hy
        simp only at hy
        left
        rcases mem_flatten_setChain _ _ _ y hy with h | h
        · rcases mem_modifyFirst _ _ _ y h with h1 | ⟨x, hx, hxy⟩
          · exact ⟨y, mem_flatten_chainAt _ _ _ h1, rfl, rfl, le_refl _⟩
          · rw [hxy]
            exact ⟨x, mem_flatten_chainAt _ _ _ hx, rfl, rfl, le_refl _⟩
        · exact ⟨y, h, rfl, rfl, le_refl _⟩
      · intro x hx _
        rw [heq]
        unfold BatchesHashTable.nodes
        simp only
        rcases mem_flatten_setChain_of_mem vs.batches_ht.batches
          (hash batch_id vs.batches_ht.size)
          (modifyFirst (fun current => decide (strcmp current.batch_id batch_id = 0))
            (fun current => { current with
              batch_info := { current.batch_info with doses := 0 } })
            (chainAt vs.batches_ht.batches (hash batch_id vs.batches_ht.size))) x hx
          with h | h
        · exact ⟨x, h, rfl, le_refl _⟩
        · rcases mem_modifyFirst_of_mem
            (fun current : Batches => decide (strcmp current.batch_id batch_id = 0))
            (fun current : Batches => { current with
              batch_info := { current.batch_info with doses := 0 } }) _ x h with h1 | h1
          · exact ⟨x, mem_flatten_setChain_chain _ _ _ _ ⟨hr0, hr1⟩ h1, rfl, le_refl _⟩
          · exact ⟨_, mem_flatten_setChain_chain _ _ _ _ ⟨hr0, hr1⟩ h1, rfl, le_refl _⟩
      · left
        rw [heq]

theorem BatchStep_apply (ht : BatchesHashTable) (vaccine_name : CStr) (current_date : Date)
    (hwf : BatchesWF ht) :
    BatchStep ht (applyToOldestBatch ht vaccine_name current_date) := by
  unfold applyToOldestBatch
  cases oldestExistingValidBatchByVaccineName ht vaccine_name current_date with
  | none => exact BatchStep_refl _ hwf
  | some info =>
    simp only
    refine ⟨?_, ?_, ?_, Or.inl (le_refl _)⟩
    · apply BatchesWF_of_ids _ _ hwf
      exact map_map_modifyFirstInBuckets (fun n : Batches => n.batch_id) _ _ (by intro _; rfl) _
    · intro y hy
      left
      rcases flatten_modifyFirstInBuckets_mem _ _ _ y hy with h | ⟨x, hx, hxy⟩
      · exact ⟨y, h, rfl, rfl, le_refl _⟩
      · rw [hxy]
        exact ⟨x, hx, rfl, rfl, by simp⟩
    · intro x hx _
      rcases flatten_modifyFirstInBuckets_of_mem
        (fun n : Batches => decide (n.batch_info = info))
        (fun n : Batches =>
          ⟨n.batch_id, { n.batch_info with applications := n.batch_info.applications + 1 }⟩)
        ht.batches x hx with h | h
      · exact ⟨x, h, rfl, le_refl _⟩
      · exact ⟨_, h, rfl, by simp⟩

/-- The batch that `applyVaccineInput` draws from is stored afterwards with one
more application. -/
theorem applyToOldestBatch_hit (ht : BatchesHashTable) (vaccine_name : CStr)
    (current_date : Date) (info : BatchInfo)
    (h : oldestExistingValidBatchByVaccineName ht vaccine_name current_date = some info) :
    ∃ x ∈ ht.nodes, x.batch_info = info ∧
      ∃ y ∈ (applyToOldestBatch ht vaccine_name current_date).nodes,
        y.batch_id = x.batch_id ∧
        y.batch_info.applications = info.applications + 1 := by
  have hspec := (oldestFold_spec vaccine_name current_date ht.nodes none).2 info h
  rcases hspec.1 with h1 | ⟨n, hn, hni, -⟩
  · cases h1
  · obtain ⟨w, hw, hpw, hfw⟩ := flatten_modifyFirstInBuckets_hit
      (fun n : Batches => decide (n.batch_info = info))
      (fun n : Batches =>
        ⟨n.batch_id, { n.batch_info with applications := n.batch_info.applications + 1 }⟩)
      ht.batches ⟨n, hn, by simpa using hni⟩
    rw [decide_eq_true_eq] at hpw
    refine ⟨w, hw, hpw,
      ⟨w.batch_id, { w.batch_info with applications := w.batch_info.applications + 1 }⟩,
      ?_, rfl, ?_⟩
    · unfold applyToOldestBatch
      rw [h]
      exact hfw
    · simp only [hpw]

/-! ## The command handlers, case by case -/

theorem validcreateBatchInput_true (batch name : CStr) (date : Date) (doses_number : Int)
    (vs : VaccinationSystem) (num_args : Int)
    (h : validcreateBatchInput batch name date doses_number vs num_args = true) :
    validBatch batch num_args = true ∧ searchBatchInSystem vs.batches_ht batch = none ∧
      validDate vs.current_date date = true := by
  unfold validcreateBatchInput validBatchNumber at h
  split_ifs at h with h1
  simp only [Bool.or_eq_true, Bool.not_eq_true', not_or, Bool.not_eq_false,
    Option.isNone_iff_eq_none] at h1
  exact ⟨h1.1.1.1.1, h1.1.1.1.2, h1.1.2⟩

theorem createBatchInput_cases (vs : VaccinationSystem) (num_args : Int) (batch : CStr)
    (date : Date) (doses_number : Int) (name : CStr) :
    createBatchInput vs num_args batch date doses_number name = vs ∨
    (tooManyBatchesInSystem vs.batches_ht = false ∧
      validcreateBatchInput batch name date doses_number vs num_args = true ∧
      createBatchInput vs num_args batch date doses_number name =
        { batches_ht := (insertBatchInSystem vs.batches_ht batch date doses_number name).2,
          records_ht := vs.records_ht, current_date := vs.current_date }) := by
  unfold createBatchInput
  by_cases h1 : tooManyBatchesInSystem vs.batches_ht = true
  · left; rw [if_pos h1]
  · rw [if_neg h1]
    by_cases h2 : validcreateBatchInput batch name date doses_number vs num_args = true
    · right
      rw [h2]
      exact ⟨by simpa using h1, rfl, rfl⟩
    · left
      rw [Bool.not_eq_true] at h2
      rw [h2]
      rfl

theorem applyVaccineInput_cases (vs : VaccinationSystem) (name vaccine_name : CStr) :
    applyVaccineInput vs name vaccine_name = vs ∨
    ∃ info : BatchInfo,
      oldestExistingValidBatchByVaccineName vs.batches_ht vaccine_name vs.current_date =
        some info ∧
      (((insertVaccinationRecord vs.records_ht name vaccine_name info.batch
            vs.current_date).1 = 2 ∧
          applyVaccineInput vs name vaccine_name =
            { batches_ht := vs.batches_ht,
              records_ht := (insertVaccinationRecord vs.records_ht name vaccine_name info.batch
                vs.current_date).2,
              current_date := vs.current_date }) ∨
        ((insertVaccinationRecord vs.records_ht name vaccine_name info.batch
            vs.current_date).1 ≠ 2 ∧
          applyVaccineInput vs name vaccine_name =
            { batches_ht := applyToOldestBatch vs.batches_ht vaccine_name vs.current_date,
              records_ht := (insertVaccinationRecord vs.records_ht name vaccine_name info.batch
                vs.current_date).2,
              current_date := vs.current_date })) := by
  unfold applyVaccineInput
  cases hold : oldestExistingValidBatchByVaccineName vs.batches_ht vaccine_name
      vs.current_date with
  | none => exact Or.inl rfl
  | some info =>
    right
    refine ⟨info, rfl, ?_⟩
    simp only
    by_cases h2 : (insertVaccinationRecord vs.records_ht name vaccine_name info.batch
        vs.current_date).1 = 2
    · left; rw [if_pos h2]; exact ⟨h2, rfl⟩
    · right; rw [if_neg h2]; exact ⟨h2, rfl⟩

theorem removeBatchInput_frame (vs : VaccinationSystem) (batch_id : CStr) :
    (removeBatchInput vs batch_id).records_ht = vs.records_ht ∧
    (removeBatchInput vs batch_id).current_date = vs.current_date := by
  unfold removeBatchInput
  cases searchBatchInSystem vs.batches_ht batch_id with
  | none => exact ⟨rfl, rfl⟩
  | some node => simp only; split_ifs <;> exact ⟨rfl, rfl⟩

theorem deleteRecordInput1Arg_cases (vs : VaccinationSystem) (name : CStr) :
    (deleteRecordInput1Arg vs name).2 = vs ∨
    (deleteRecordInput1Arg vs name).2 =
      { batches_ht := vs.batches_ht,
        records_ht := (deleteRecordVaccinationRecordsUser vs.records_ht name).2,
        current_date := vs.current_date } := by
  unfold deleteRecordInput1Arg
  split_ifs
  · exact Or.inl rfl
  · exact Or.inr rfl

theorem deleteRecordInput2Args_cases (vs : VaccinationSystem) (name : CStr) (date : Date) :
    (deleteRecordInput2Args vs name date).2 = vs ∨
    (deleteRecordInput2Args vs name date).2 =
      { batches_ht := vs.batches_ht,
        records_ht := (deleteRecordByNameAndDate vs.records_ht name date).2,
        current_date := vs.current_date } := by
  unfold deleteRecordInput2Args
  split_ifs
  · exact Or.inl rfl
  · exact Or.inl rfl
  · exact Or.inr rfl

theorem deleteRecordInput3Args_cases (vs : VaccinationSystem) (name : CStr) (date : Date)
    (batch_name : CStr) :
    (deleteRecordInput3Args vs name date batch_name).2 = vs ∨
    (deleteRecordInput3Args vs name date batch_name).2 =
      { batches_ht := vs.batches_ht,
        records_ht :=
          (deleteRecordByNameDateAndBatchID vs.records_ht name date batch_name).2,
        current_date := vs.current_date } := by
  unfold deleteRecordInput3Args
  split_ifs
  · exact Or.inl rfl
  · exact Or.inr rfl

theorem passTimeInput_cases (vs : VaccinationSystem) (date : Date) :
    (validDate vs.current_date date = false ∧ passTimeInput vs date = vs) ∨
    (validDate vs.current_date date = true ∧
      passTimeInput vs date =
        { batches_ht := vs.batches_ht, records_ht := vs.records_ht, current_date := date }) := by
  unfold passTimeInput
  by_cases hv : validDate vs.current_date date = true
  · right; rw [hv]; exact ⟨rfl, rfl⟩
  · left
    rw [Bool.not_eq_true] at hv
    rw [hv]
    exact ⟨rfl, rfl⟩

theorem validDate_not_earlier (system_date date : Date)
    (h : validDate system_date date = true) : compareDate1Date2 system_date date ≤ 0 := by
  unfold validDate at h
  split_ifs at h with h1
  simp only [not_or, not_not, Bool.not_eq_true] at h1
  have hexp := h1.2.2.2
  unfold expiredVaccineDate at hexp
  rw [decide_eq_false_iff_not] at hexp
  omega

/-! ## The invariant of the reachable system states -/

theorem SysInv_init : SysInv initVaccinationSystem := by
  refine ⟨BatchesWF_init, ?_, ?_, ?_, by decide, by decide⟩
  · intro n hn
    simp [initVaccinationSystem, BatchesHashTable.nodes, initBatchesHashTable] at hn
  · intro n hn
    simp [initVaccinationSystem, BatchesHashTable.nodes, initBatchesHashTable] at hn
  · intro r hr
    simp [initVaccinationSystem, storedRecords, VaccinationRecordsHashtable.users,
      initVaccinationRecordsHashtable] at hr

/-- Every command changes the batch table by one step. -/
theorem SysOp_run_BatchStep (vs : VaccinationSystem) (op : SysOp)
    (hwf : BatchesWF vs.batches_ht) (hb : op.bytes) :
    BatchStep vs.batches_ht (op.run vs).batches_ht := by
  cases op with
  | createBatch num_args batch date doses_number name =>
    show BatchStep vs.batches_ht
      (createBatchInput vs num_args batch date doses_number name).batches_ht
    rcases createBatchInput_cases vs num_args batch date doses_number name with
      h | ⟨h1, h2, h3⟩
    · rw [h]; exact BatchStep_refl _ hwf
    · rw [h3]
      obtain ⟨hv1, hv2, -⟩ := validcreateBatchInput_true _ _ _ _ _ _ h2
      apply BatchStep_insert _ _ _ _ _ hwf (validBatch_ascii _ _ hb.1 hv1) hv2
      unfold tooManyBatchesInSystem at h1
      rw [decide_eq_false_iff_not] at h1
      omega
  | listBatches => exact BatchStep_refl _ hwf
  | applyVaccine name vaccine_name =>
    show BatchStep vs.batches_ht (applyVaccineInput vs name vaccine_name).batches_ht
    rcases applyVaccineInput_cases vs name vaccine_name with
      h | ⟨info, -, ⟨-, h⟩ | ⟨-, h⟩⟩
    · rw [h]; exact BatchStep_refl _ hwf
    · rw [h]; exact BatchStep_refl _ hwf
    · rw [h]; exact BatchStep_apply _ _ _ hwf
  | removeBatch batch_id => exact BatchStep_remove vs batch_id hwf
  | deleteRecord1 name =>
    show BatchStep vs.batches_ht (deleteRecordInput1Arg vs name).2.batches_ht
    rcases deleteRecordInput1Arg_cases vs name with h | h <;> rw [h] <;>
      exact BatchStep_refl _ hwf
  | deleteRecord2 name date =>
    show BatchStep vs.batches_ht (deleteRecordInput2Args vs name date).2.batches_ht
    rcases deleteRecordInput2Args_cases vs name date with h | h <;> rw [h] <;>
      exact BatchStep_refl _ hwf
  | deleteRecord3 name date batch_name =>
    show BatchStep vs.batches_ht (deleteRecordInput3Args vs name date batch_name).2.batches_ht
    rcases deleteRecordInput3Args_cases vs name date batch_name with h | h <;> rw [h] <;>
      exact BatchStep_refl _ hwf
  | listRecords => exact BatchStep_refl _ hwf
  | passTime date =>
    show BatchStep vs.batches_ht (passTimeInput vs date).batches_ht
    rcases passTimeInput_cases vs date with ⟨-, h⟩ | ⟨-, h⟩ <;> rw [h] <;>
      exact BatchStep_refl _ hwf

/-- A record stored after a command was stored before, or is the record of a
vaccination against the batch that counts one more application afterwards. -/
theorem SysOp_run_stored (vs : VaccinationSystem) (op : SysOp) :
    ∀ r ∈ storedRecords (op.run vs).records_ht,
      r ∈ storedRecords vs.records_ht ∨
        ∃ (vaccine_name : CStr) (info : BatchInfo),
          oldestExistingValidBatchByVaccineName vs.batches_ht vaccine_name vs.current_date =
            some info ∧
          r.batch_id = info.batch ∧
          (op.run vs).batches_ht =
            applyToOldestBatch vs.batches_ht vaccine_name vs.current_date := by
  intro r hr
  cases op with
  | createBatch num_args batch date doses_number name =>
    left
    change r ∈ storedRecords
      (createBatchInput vs num_args batch date doses_number name).records_ht at hr
    rcases createBatchInput_cases vs num_args batch date doses_number name with
      h | ⟨-, -, h⟩ <;> rw [h] at hr <;> exact hr
  | listBatches => exact Or.inl hr
  | applyVaccine name vaccine_name =>
    change r ∈ storedRecords (applyVaccineInput vs name vaccine_name).records_ht at hr
    show _ ∨ ∃ (v : CStr) (info : BatchInfo), _ ∧ _ ∧
      (applyVaccineInput vs name vaccine_name).batches_ht = _
    rcases applyVaccineInput_cases vs name vaccine_name with
      h | ⟨info, hold, ⟨h2, h⟩ | ⟨-, h⟩⟩
    · rw [h] at hr; exact Or.inl hr
    · rw [h] at hr
      rcases stored_insert _ _ _ _ _ r hr with h3 | ⟨h3, -⟩
      · exact Or.inl h3
      · rw [h2] at h3; cases h3
    · rw [h] at hr
      rcases stored_insert _ _ _ _ _ r hr with h3 | ⟨-, h3⟩
      · exact Or.inl h3
      · exact Or.inr ⟨vaccine_name, info, hold, h3, by rw [h]⟩
  | removeBatch batch_id =>
    left
    change r ∈ storedRecords (removeBatchInput vs batch_id).records_ht at hr
    rw [(removeBatchInput_frame vs batch_id).1] at hr
    exact hr
  | deleteRecord1 name =>
    left
    change r ∈ storedRecords (deleteRecordInput1Arg vs name).2.records_ht at hr
    rcases deleteRecordInput1Arg_cases vs name with h | h <;> rw [h] at hr
    · exact hr
    · exact stored_deleteUser _ _ r hr
  | deleteRecord2 name date =>
    left
    change r ∈ storedRecords (deleteRecordInput2Args vs name date).2.records_ht at hr
    rcases deleteRecordInput2Args_cases vs name date with h | h <;> rw [h] at hr
    · exact hr
    · exact stored_deleteRecordsWhere _ _ _ r hr
  | deleteRecord3 name date batch_name =>
    left
    change r ∈ storedRecords
      (deleteRecordInput3Args vs name date batch_name).2.records_ht at hr
    rcases deleteRecordInput3Args_cases vs name date batch_name with h | h <;> rw [h] at hr
    · exact hr
    · exact stored_deleteRecordsWhere _ _ _ r hr
  | listRecords => exact Or.inl hr
  | passTime date =>
    left
    change r ∈ storedRecords (passTimeInput vs date).records_ht at hr
    rcases passTimeInput_cases vs date with ⟨-, h⟩ | ⟨-, h⟩ <;> rw [h] at hr <;> exact hr

/-- No command moves the current date backwards. -/
theorem SysOp_run_date (vs : VaccinationSystem) (op : SysOp) :
    compareDate1Date2 vs.current_date (op.run vs).current_date ≤ 0 := by
  have hself : compareDate1Date2 vs.current_date vs.current_date ≤ 0 := by
    rw [compareDate1Date2_self]
  cases op with
  | createBatch num_args batch date doses_number name =>
    show compareDate1Date2 vs.current_date
      (createBatchInput vs num_args batch date doses_number name).current_date ≤ 0
    rcases createBatchInput_cases vs num_args batch date doses_number name with
      h | ⟨-, -, h⟩ <;> rw [h] <;> exact hself
  | listBatches => exact hself
  | applyVaccine name vaccine_name =>
    show compareDate1Date2 vs.current_date
      (applyVaccineInput vs name vaccine_name).current_date ≤ 0
    rcases applyVaccineInput_cases vs name vaccine_name with
      h | ⟨info, -, ⟨-, h⟩ | ⟨-, h⟩⟩ <;> rw [h] <;> exact hself
  | removeBatch batch_id =>
    show compareDate1Date2 vs.current_date (removeBatchInput vs batch_id).current_date ≤ 0
    rw [(removeBatchInput_frame vs batch_id).2]; exact hself
  | deleteRecord1 name =>
    show compareDate1Date2 vs.current_date (deleteRecordInput1Arg vs name).2.current_date ≤ 0
    rcases deleteRecordInput1Arg_cases vs name with h | h <;> rw [h] <;> exact hself
  | deleteRecord2 name date =>
    show compareDate1Date2 vs.current_date
      (deleteRecordInput2Args vs name date).2.current_date ≤ 0
    rcases deleteRecordInput2Args_cases vs name date with h | h <;> rw [h] <;> exact hself
  | deleteRecord3 name date batch_name =>
    show compareDate1Date2 vs.current_date
      (deleteRecordInput3Args vs name date batch_name).2.current_date ≤ 0
    rcases deleteRecordInput3Args_cases vs name date batch_name with h | h <;> rw [h] <;>
      exact hself
  | listRecords => exact hself
  | passTime date =>
    show compareDate1Date2 vs.current_date (passTimeInput vs date).current_date ≤ 0
    rcases passTimeInput_cases vs date with ⟨-, h⟩ | ⟨hv, h⟩ <;> rw [h]
    · exact hself
    · exact validDate_not_earlier _ _ hv

theorem SysInv_step (vs : VaccinationSystem) (op : SysOp) (hinv : SysInv vs) (hb : op.bytes) :
    SysInv (op.run vs) := by
  have hstep := SysOp_run_BatchStep vs op hinv.wf hb
  refine ⟨hstep.wf, ?_, ?_, ?_, ?_, ?_⟩
  · intro y hy
    rcases hstep.back y hy with ⟨x, hx, h1, h2, -⟩ | ⟨-, h, -⟩
    · rw [h1, h2]; exact hinv.ids x hx
    · exact h
  · intro y hy
    rcases hstep.back y hy with ⟨x, hx, -, -, h3⟩ | ⟨-, -, h⟩
    · have := hinv.apps x hx; omega
    · omega
  · intro r hr
    rcases SysOp_run_stored vs op r hr with h | ⟨vaccine_name, info, hold, hrb, hbt⟩
    · obtain ⟨n, hn, hnid, hnapp⟩ := hinv.used r h
      obtain ⟨y, hy, hyid, hyapp⟩ := hstep.keep n hn hnapp
      exact ⟨y, hy, by rw [hyid, hnid], by omega⟩
    · obtain ⟨x, hx, hxi, y, hy, hyid, hyapp⟩ :=
        applyToOldestBatch_hit vs.batches_ht vaccine_name vs.current_date info hold
      rw [hbt]
      refine ⟨y, hy, ?_, ?_⟩
      · rw [hyid, hrb, ← hxi]; exact (hinv.ids x hx).symm
      · have := hinv.apps x hx
        rw [hxi] at this
        omega
  · rcases hstep.count with h | ⟨h1, h2⟩
    · exact le_trans h hinv.count
    · rw [h2]; unfold MAX_BATCHES_NUMBER at h1 ⊢; omega
  · exact compareDate1Date2_trans hinv.date (SysOp_run_date vs op)

theorem SysInv_of_reachable (vs : VaccinationSystem) (h : SysReachable vs) : SysInv vs := by
  induction h with
  | init => exact SysInv_init
  | step vs op _ hb ih => exact SysInv_step vs op ih hb

/-! ## Reachable system states: capacity, identifiers, dates, applications -/

theorem SysReachable_runSysOps (ops : List SysOp) :
    ∀ vs : VaccinationSystem, (∀ op ∈ ops, op.bytes) → SysReachable vs →
      SysReachable (runSysOps ops vs) := by
  induction ops with
  | nil => intro vs _ h; exact h
  | cons op ops ih =>
    intro vs hb h
    exact ih (op.run vs) (fun o ho => hb o (List.mem_cons_of_mem _ ho))
      (SysReachable.step vs op h (hb op (List.mem_cons_self _ _)))

theorem sampleSystem_reachable : SysReachable sampleSystem :=
  SysReachable_runSysOps sampleCommands initVaccinationSystem (by decide) SysReachable.init

/-- C21: `tooManyBatchesInSystem` holds exactly when `batch_count ≥ 1000`;
`createBatchInput` tests it first and, when it holds, leaves the system as it is
whatever the fields of the command are; and in every reachable system state
`batch_count ≤ 1000`. -/
theorem batch_count_within_capacity :
    (∀ ht : BatchesHashTable, tooManyBatchesInSystem ht = true ↔ ht.batch_count ≥ 1000) ∧
    (∀ (vs : VaccinationSystem) (num_args : Int) (batch : CStr) (date : Date)
        (doses_number : Int) (name : CStr),
      tooManyBatchesInSystem vs.batches_ht = true →
      createBatchInput vs num_args batch date doses_number name = vs) ∧
    (∀ vs : VaccinationSystem, SysReachable vs → vs.batches_ht.batch_count ≤ 1000) := by
  refine ⟨?_, ?_, ?_⟩
  · intro ht
    unfold tooManyBatchesInSystem MAX_BATCHES_NUMBER
    rw [decide_eq_true_eq]
  · intro vs num_args batch date doses_number name h
    unfold createBatchInput
    rw [if_pos h]
  · intro vs h
    exact (SysInv_of_reachable vs h).count

set_option maxRecDepth 100000 in
/-- C21 on the sample run and on a table whose counter is at the capacity. -/
theorem batch_count_within_capacity_witness :
    createBatchInput fullSystem 6 [65] ⟨1, 1, 2026⟩ 5 [86] = fullSystem ∧
    sampleSystem.batches_ht.batch_count ≤ 1000 :=
  ⟨batch_count_within_capacity.2.1 fullSystem 6 [65] ⟨1, 1, 2026⟩ 5 [86] (by decide),
   batch_count_within_capacity.2.2 sampleSystem sampleSystem_reachable⟩

/-- A soft-removed batch is still found. -/
theorem search_soft_removed (vs : VaccinationSystem) (batch_id : CStr) (node : Batches)
    (hfind : searchBatchInSystem vs.batches_ht batch_id = some node)
    (happ : node.batch_info.applications ≠ 0) :
    searchBatchInSystem (removeBatchInput vs batch_id).batches_ht batch_id =
      some { node with batch_info := { node.batch_info with doses := 0 } } := by
  obtain ⟨hr0, hr1⟩ := search_some_range _ _ _ hfind
  have hsz := (removeBatchInput_counters vs batch_id).1
  unfold searchBatchInSystem
  rw [hsz, removeBatchInput_soft_eq vs batch_id node hfind happ]
  simp only
  rw [chainAt_setChain_self _ hr0 hr1]
  unfold searchBatchInSystem at hfind
  have hp := List.find?_some hfind
  exact find?_modifyFirst_self _ _ node _ hfind hp

/-- C22: `createBatchInput` leaves the system as it is when `searchBatchInSystem`
finds the identifier, and also when the identifier is that of a batch with
applications that `removeBatchInput` has just soft-removed; and in every
reachable system state the identifiers of the stored batches are pairwise
distinct. -/
theorem batch_identifier_unique :
    (∀ (vs : VaccinationSystem) (num_args : Int) (batch : CStr) (date : Date)
        (doses_number : Int) (name : CStr) (node : Batches),
      searchBatchInSystem vs.batches_ht batch = some node →
      createBatchInput vs num_args batch date doses_number name = vs) ∧
    (∀ (vs : VaccinationSystem) (num_args : Int) (batch : CStr) (date : Date)
        (doses_number : Int) (name : CStr) (node : Batches),
      searchBatchInSystem vs.batches_ht batch = some node →
      node.batch_info.applications ≠ 0 →
      createBatchInput (removeBatchInput vs batch) num_args batch date doses_number name =
        removeBatchInput vs batch) ∧
    (∀ vs : VaccinationSystem, SysReachable vs →
      (vs.batches_ht.nodes.map (fun n => n.batch_id)).Nodup) := by
  have h1 : ∀ (vs : VaccinationSystem) (num_args : Int) (batch : CStr) (date : Date)
      (doses_number : Int) (name : CStr) (node : Batches),
      searchBatchInSystem vs.batches_ht batch = some node →
      createBatchInput vs num_args batch date doses_number name = vs := by
    intro vs num_args batch date doses_number name node hfind
    rcases createBatchInput_cases vs num_args batch date doses_number name with
      h | ⟨-, h2, -⟩
    · exact h
    · have := (validcreateBatchInput_true _ _ _ _ _ _ h2).2.1
      rw [hfind] at this
      cases this
  refine ⟨h1, ?_, ?_⟩
  · intro vs num_args batch date doses_number name node hfind happ
    exact h1 _ num_args batch date doses_number name _
      (search_soft_removed vs batch node hfind happ)
  · intro vs h
    exact (SysInv_of_reachable vs h).wf.nodup

set_option maxRecDepth 100000 in
/-- C22 on the sample run: batch `A` is stored, a second `A` is rejected, also after
the removal of `A`, which is a soft removal because `A` has an application. -/
theorem batch_identifier_unique_witness :
    createBatchInput sampleSystem 6 [65] ⟨1, 1, 2027⟩ 9 [87] = sampleSystem ∧
    createBatchInput (removeBatchInput sampleSystem [65]) 6 [65] ⟨1, 1, 2027⟩ 9 [87] =
      removeBatchInput sampleSystem [65] ∧
    (sampleSystem.batches_ht.nodes.map (fun n => n.batch_id)).Nodup :=
  ⟨batch_identifier_unique.1 sampleSystem 6 [65] ⟨1, 1, 2027⟩ 9 [87]
      ⟨[65], ⟨[65], ⟨1, 1, 2026⟩, 5, 1, [86]⟩⟩ (by decide),
   batch_identifier_unique.2.1 sampleSystem 6 [65] ⟨1, 1, 2027⟩ 9 [87]
      ⟨[65], ⟨[65], ⟨1, 1, 2026⟩, 5, 1, [86]⟩⟩ (by decide) (by decide),
   batch_identifier_unique.2.2 sampleSystem sampleSystem_reachable⟩

/-- C24: in every reachable system state `searchBatchInSystem` finds the batch
identifier of every stored vaccination record, and the batch found has at least
one application; and a batch that is found with at least one application is
still found, with no fewer applications, after any command: `removeBatchInput`
never unlinks it. -/
theorem record_batch_resolvable (vs : VaccinationSystem) (h : SysReachable vs) :
    (∀ r ∈ storedRecords vs.records_ht,
      ∃ node : Batches, searchBatchInSystem vs.batches_ht r.batch_id = some node ∧
        1 ≤ node.batch_info.applications) ∧
    (∀ op : SysOp, op.bytes → ∀ (id : CStr) (node : Batches),
      searchBatchInSystem vs.batches_ht id = some node →
      1 ≤ node.batch_info.applications →
      ∃ node1 : Batches, searchBatchInSystem (op.run vs).batches_ht id = some node1 ∧
        node.batch_info.applications ≤ node1.batch_info.applications) := by
  have hinv := SysInv_of_reachable vs h
  constructor
  · intro r hr
    obtain ⟨n, hn, hnid, hnapp⟩ := hinv.used r hr
    exact ⟨n, (search_iff_mem _ hinv.wf _ n).mpr ⟨hn, hnid⟩, hnapp⟩
  · intro op hb id node hfind happ
    have hstep := SysOp_run_BatchStep vs op hinv.wf hb
    obtain ⟨hn, hnid⟩ := (search_iff_mem _ hinv.wf id node).mp hfind
    obtain ⟨y, hy, hyid, hyapp⟩ := hstep.keep node hn happ
    exact ⟨y, (search_iff_mem _ hstep.wf id y).mpr ⟨hy, by rw [hyid, hnid]⟩, hyapp⟩

set_option maxRecDepth 100000 in
/-- C24 on the sample run: the record of user `a` names batch `A`, which is found,
also after the command that removes batch `A`. -/
theorem record_batch_resolvable_witness :
    (∃ node : Batches, searchBatchInSystem sampleSystem.batches_ht [65] = some node ∧
      1 ≤ node.batch_info.applications) ∧
    (∃ node1 : Batches,
      searchBatchInSystem (removeBatchInput sampleSystem [65]).batches_ht [65] = some node1 ∧
        1 ≤ node1.batch_info.applications) :=
  ⟨(record_batch_resolvable sampleSystem sampleSystem_reachable).1
      ⟨0, [97], [86], [65], ⟨1, 1, 2025⟩⟩ (by decide),
   (record_batch_resolvable sampleSystem sampleSystem_reachable).2
      (SysOp.removeBatch [65]) (by decide) [65] ⟨[65], ⟨[65], ⟨1, 1, 2026⟩, 5, 1, [86]⟩⟩
      (by decide) (by decide)⟩

theorem isLeapYear_gregorian (year : Int) (hy : 0 ≤ year) :
    isLeapYear year = true ↔ gregorianLeapYear year := by
  unfold isLeapYear gregorianLeapYear
  rw [Int.tmod_eq_emod hy (by norm_num), Int.tmod_eq_emod hy (by norm_num),
    Int.tmod_eq_emod hy (by norm_num)]
  simp

theorem days_of_month_gregorian (month year : Int) (hy : 0 ≤ year) (h1582 : year ≠ 1582) :
    days_of_month month year = gregorianMonthLength month year := by
  unfold days_of_month gregorianMonthLength
  have hl := isLeapYear_gregorian year hy
  by_cases hg : gregorianLeapYear year
  · have hl1 := hl.mpr hg
    simp only [hl1, hg, if_true]
    split_ifs <;> first | rfl | omega
  · have hl1 : isLeapYear year = false := by
      rw [← Bool.not_eq_true]; exact fun h => hg (hl.mp h)
    simp only [hl1, hg, if_false, Bool.false_eq_true]
    split_ifs <;> first | rfl | omega

theorem runSysOps_date (ops : List SysOp) :
    ∀ vs : VaccinationSystem,
      compareDate1Date2 vs.current_date (runSysOps ops vs).current_date ≤ 0 := by
  induction ops with
  | nil => intro vs; show compareDate1Date2 vs.current_date vs.current_date ≤ 0
           rw [compareDate1Date2_self]
  | cons op ops ih =>
    intro vs
    exact compareDate1Date2_trans (SysOp_run_date vs op) (ih (op.run vs))

/-- C25: `passTimeInput` leaves the system as it is for a date strictly earlier than
the current date; in a reachable state it sets the current date to any date of
the Gregorian calendar that is not earlier than the current date; no sequence of
commands moves the current date backwards; and in every reachable state the
current date is not before 2025-01-01. -/
theorem current_date_never_moves_back :
    (∀ (vs : VaccinationSystem) (date : Date),
      compareDate1Date2 date vs.current_date < 0 → passTimeInput vs date = vs) ∧
    (∀ (vs : VaccinationSystem) (date : Date), SysReachable vs → calendarValid date →
      compareDate1Date2 vs.current_date date ≤ 0 →
      passTimeInput vs date =
        { batches_ht := vs.batches_ht, records_ht := vs.records_ht, current_date := date }) ∧
    (∀ (vs : VaccinationSystem) (ops : List SysOp),
      compareDate1Date2 vs.current_date (runSysOps ops vs).current_date ≤ 0) ∧
    (∀ vs : VaccinationSystem, SysReachable vs →
      compareDate1Date2 ⟨1, 1, 2025⟩ vs.current_date ≤ 0) := by
  refine ⟨?_, ?_, fun vs ops => runSysOps_date ops vs,
    fun vs h => (SysInv_of_reachable vs h).date⟩
  · intro vs date hlt
    rcases passTimeInput_cases vs date with ⟨-, h⟩ | ⟨hv, -⟩
    · exact h
    · have := validDate_not_earlier _ _ hv
      rw [compareDate1Date2_swap] at this
      omega
  · intro vs date hreach hcal hle
    rcases passTimeInput_cases vs date with ⟨hv, -⟩ | ⟨-, h⟩
    · exfalso
      have hstart := compareDate1Date2_trans (SysInv_of_reachable vs hreach).date hle
      rw [compareDate1Date2_le_iff] at hstart
      simp only at hstart
      obtain ⟨hy, hm1, hm2, hd1, hd2⟩ := hcal
      rw [← days_of_month_gregorian date.month date.year hy (by omega)] at hd2
      unfold validDate at hv
      rw [if_neg] at hv
      · cases hv
      · simp only [not_or, not_not, Bool.not_eq_true]
        refine ⟨by omega, ⟨hm1, hm2⟩, ⟨hd1, hd2⟩, ?_⟩
        unfold expiredVaccineDate
        rw [decide_eq_false_iff_not]
        omega
    · exact h

set_option maxRecDepth 100000 in
/-- C25 on the sample run: 2024-12-31 is rejected and 2025-03-01 becomes the date. -/
theorem current_date_never_moves_back_witness :
    passTimeInput sampleSystem ⟨31, 12, 2024⟩ = sampleSystem ∧
    (passTimeInput sampleSystem ⟨1, 3, 2025⟩).current_date = ⟨1, 3, 2025⟩ :=
  ⟨current_date_never_moves_back.1 sampleSystem ⟨31, 12, 2024⟩ (by decide),
   by rw [current_date_never_moves_back.2.1 sampleSystem ⟨1, 3, 2025⟩ sampleSystem_reachable
      (by decide) (by decide)]⟩

/-- C26: in a reachable system state the applications count of every batch found
is non-negative; a batch found before and after a command has no fewer
applications after it; and the three record deletions leave the batch table as
it is. -/
theorem applications_never_decrease (vs : VaccinationSystem) (op : SysOp)
    (h : SysReachable vs) (hb : op.bytes) :
    (∀ (id : CStr) (node : Batches), searchBatchInSystem vs.batches_ht id = some node →
      0 ≤ node.batch_info.applications) ∧
    (∀ (id : CStr) (node node1 : Batches),
      searchBatchInSystem vs.batches_ht id = some node →
      searchBatchInSystem (op.run vs).batches_ht id = some node1 →
      node.batch_info.applications ≤ node1.batch_info.applications) ∧
    (∀ name : CStr, (deleteRecordInput1Arg vs name).2.batches_ht = vs.batches_ht) ∧
    (∀ (name : CStr) (date : Date),
      (deleteRecordInput2Args vs name date).2.batches_ht = vs.batches_ht) ∧
    (∀ (name : CStr) (date : Date) (batch_name : CStr),
      (deleteRecordInput3Args vs name date batch_name).2.batches_ht = vs.batches_ht) := by
  have hinv := SysInv_of_reachable vs h
  have hstep := SysOp_run_BatchStep vs op hinv.wf hb
  refine ⟨?_, ?_, ?_, ?_, ?_⟩
  · intro id node hfind
    exact hinv.apps node ((search_iff_mem _ hinv.wf id node).mp hfind).1
  · intro id node node1 hfind hfind1
    obtain ⟨hn, hnid⟩ := (search_iff_mem _ hinv.wf id node).mp hfind
    obtain ⟨hn1, hn1id⟩ := (search_iff_mem _ hstep.wf id node1).mp hfind1
    rcases hstep.back node1 hn1 with ⟨x, hx, hxid, -, hxapp⟩ | ⟨hfresh, -, -⟩
    · have hxn : x = node :=
        List.inj_on_of_nodup_map hinv.wf.nodup hx hn (by rw [← hxid, hn1id, hnid])
      rw [hxn] at hxapp
      exact hxapp
    · exact absurd (by rw [hnid, hn1id]) (hfresh node hn)
  · intro name
    rcases deleteRecordInput1Arg_cases vs name with h | h <;> rw [h]
  · intro name date
    rcases deleteRecordInput2Args_cases vs name date with h | h <;> rw [h]
  · intro name date batch_name
    rcases deleteRecordInput3Args_cases vs name date batch_name with h | h <;> rw [h]

set_option maxRecDepth 100000 in
/-- C26 on the sample run: a second vaccination raises the applications of batch
`A` from 1 to 2, and the deletion of the records of user `a` leaves the batch
table as it is. -/
theorem applications_never_decrease_witness :
    searchBatchInSystem sampleSystem.batches_ht [65] =
      some ⟨[65], ⟨[65], ⟨1, 1, 2026⟩, 5, 1, [86]⟩⟩ ∧
    searchBatchInSystem ((SysOp.applyVaccine [98] [86]).run sampleSystem).batches_ht [65] =
      some ⟨[65], ⟨[65], ⟨1, 1, 2026⟩, 5, 2, [86]⟩⟩ ∧
    (⟨[65], ⟨[65], ⟨1, 1, 2026⟩, 5, 1, [86]⟩⟩ : Batches).batch_info.applications ≤
      (⟨[65], ⟨[65], ⟨1, 1, 2026⟩, 5, 2, [86]⟩⟩ : Batches).batch_info.applications ∧
    (deleteRecordInput1Arg sampleSystem [97]).2.batches_ht = sampleSystem.batches_ht :=
  ⟨by decide, by decide,
   (applications_never_decrease sampleSystem (SysOp.applyVaccine [98] [86])
      sampleSystem_reachable (by decide)).2.1 [65] _ _ (by decide) (by decide),
   (applications_never_decrease sampleSystem (SysOp.applyVaccine [98] [86])
      sampleSystem_reachable (by decide)).2.2.1 [97]⟩

/-! ## A byte above 127 in a user name -/

/-- C39 (the index leaves the array): the user name `É` in UTF-8, the bytes 195
and 137, is read by `hash_user` as the `char` values -61 and -119, and for 101
buckets the result is -89, not an index of the bucket array. -/
theorem hash_user_negative :
    hash_user [195, 137] 101 = -89 ∧ ¬ (0 ≤ hash_user [195, 137] 101) := by
  decide

/-! ## The two record listings after the reuse of an id -/

set_option maxRecDepth 100000 in
/-- C36 (the two listings order the records of a user differently): after the run
`reusedIdOps` the sequence of user `u` carries the ids 0, 3, 2, which is the
order `listAllUserRecordsInSystem` prints, while `listAllRecordsInSystem`
prints the records of `u` in the order 0, 2, 3. -/
theorem listings_order_differs :
    ∃ ht : VaccinationRecordsHashtable,
      runRecordsOps reusedIdOps initVaccinationRecordsHashtable = some ht ∧
      RecordsReachable ht ∧
      userExistInSystem ht [117] = true ∧
      (listAllUserRecordsInSystem ht [117]).map (fun r => r.record_id) = [0, 3, 2] ∧
      (listAllRecordsInSystem ht).map
        (fun out => ((out.2.filter (fun r => decide (r.user_name = [117]))).map
          (fun r => r.record_id))) = some [0, 2, 3] := by
  have h : (runRecordsOps reusedIdOps initVaccinationRecordsHashtable).map
      (fun ht => (userExistInSystem ht [117],
        (listAllUserRecordsInSystem ht [117]).map (fun r => r.record_id),
        (listAllRecordsInSystem ht).map
          (fun out => ((out.2.filter (fun r => decide (r.user_name = [117]))).map
            (fun r => r.record_id))))) = some (true, [0, 3, 2], some [0, 2, 3]) := by
    decide
  cases hr : runRecordsOps reusedIdOps initVaccinationRecordsHashtable with
  | none => rw [hr] at h; simp at h
  | some ht =>
    rw [hr] at h
    simp only [Option.map_some', Option.some.injEq, Prod.mk.injEq] at h
    exact ⟨ht, rfl, RecordsReachable_of_run _ _ _ RecordsReachable.init hr, h.1, h.2.1, h.2.2⟩

/-! ## The oldest valid batch: the first one of the earliest date -/

/-- The scan of `oldestExistingValidBatchByVaccineName` answers `none` when no node
is eligible, and otherwise the data of a node such that every eligible node
before it in the scan has a strictly later date and every eligible node after it
has a date that is not earlier. -/
theorem oldestFold_first (v : CStr) (d : Date) (l : List Batches) :
    (l.foldl (oldestStep v d) none = none ∧
      ∀ n ∈ l, eligibleBatch v d n.batch_info = false) ∨
    ∃ (pre post : List Batches) (n : Batches),
      l = pre ++ n :: post ∧
      l.foldl (oldestStep v d) none = some n.batch_info ∧
      eligibleBatch v d n.batch_info = true ∧
      (∀ m ∈ pre, eligibleBatch v d m.batch_info = true →
        compareDate1Date2 n.batch_info.date m.batch_info.date < 0) ∧
      (∀ m ∈ post, eligibleBatch v d m.batch_info = true →
        compareDate1Date2 n.batch_info.date m.batch_info.date ≤ 0) := by
  induction l using List.reverseRecOn with
  | nil => exact Or.inl ⟨rfl, fun n hn => by cases hn⟩
  | append_singleton l x ih =>
    rw [List.foldl_append, List.foldl_cons, List.foldl_nil]
    by_cases hx : eligibleBatch v d x.batch_info = true
    · right
      rcases ih with ⟨hnone, hall⟩ | ⟨pre, post, n, hl, hfold, hn, hpre, hpost⟩
      · refine ⟨l, [], x, rfl, ?_, hx, ?_, ?_⟩
        · rw [hnone]; unfold oldestStep; rw [if_pos hx]
        · intro m hm hme
          rw [hall m hm] at hme; cases hme
        · intro m hm; cases hm
      · rw [hfold]
        unfold oldestStep
        rw [if_pos hx]
        simp only
        by_cases hlt : compareDate1Date2 x.batch_info.date n.batch_info.date < 0
        · rw [if_pos hlt]
          refine ⟨l, [], x, rfl, rfl, hx, ?_, ?_⟩
          · intro m hm hme
            rw [hl] at hm
            rcases List.mem_append.mp hm with h1 | h1
            · exact compareDate1Date2_lt_of_lt_of_le hlt (le_of_lt (hpre m h1 hme))
            · rcases List.mem_cons.mp h1 with h2 | h2
              · rw [h2]; exact hlt
              · exact compareDate1Date2_lt_of_lt_of_le hlt (hpost m h2 hme)
          · intro m hm; cases hm
        · rw [if_neg hlt]
          refine ⟨pre, post ++ [x], n, by rw [hl]; simp, rfl, hn, hpre, ?_⟩
          intro m hm hme
          rcases List.mem_append.mp hm with h1 | h1
          · exact hpost m h1 hme
          · rw [List.mem_singleton] at h1
            rw [h1]
            exact compareDate1Date2_total hlt
    · have hx1 : eligibleBatch v d x.batch_info = false := by
        rw [← Bool.not_eq_true]; exact hx
      have hstep : ∀ acc, oldestStep v d acc x = acc := by
        intro acc; unfold oldestStep; rw [if_neg hx]
      rw [hstep]
      rcases ih with ⟨hnone, hall⟩ | ⟨pre, post, n, hl, hfold, hn, hpre, hpost⟩
      · left
        refine ⟨hnone, ?_⟩
        intro m hm
        rcases List.mem_append.mp hm with h1 | h1
        · exact hall m h1
        · rw [List.mem_singleton] at h1; rw [h1]; exact hx1
      · right
        refine ⟨pre, post ++ [x], n, by rw [hl]; simp, hfold, hn, hpre, ?_⟩
        intro m hm hme
        rcases List.mem_append.mp hm with h1 | h1
        · exact hpost m h1 hme
        · rw [List.mem_singleton] at h1
          rw [h1] at hme
          exact absurd hme hx

/-- C35: when `oldestExistingValidBatchByVaccineName` returns a batch, the scan
order of the nodes (buckets in ascending order, each chain from its head) splits
around a node that carries the returned data: every eligible node before it has
a strictly later date and every eligible node after it has a date that is not
earlier.  Among the eligible batches of the earliest date the first one of the
scan is returned. -/
theorem oldestExistingValidBatchByVaccineName_first (ht : BatchesHashTable)
    (vaccine_name : CStr) (current_date : Date) (b : BatchInfo)
    (h : oldestExistingValidBatchByVaccineName ht vaccine_name current_date = some b) :
    ∃ (pre post : List Batches) (n : Batches),
      ht.nodes = pre ++ n :: post ∧ n.batch_info = b ∧
      eligibleBatch vaccine_name current_date b = true ∧
      (∀ m ∈ pre, eligibleBatch vaccine_name current_date m.batch_info = true →
        compareDate1Date2 b.date m.batch_info.date < 0) ∧
      (∀ m ∈ post, eligibleBatch vaccine_name current_date m.batch_info = true →
        compareDate1Date2 b.date m.batch_info.date ≤ 0) := by
  unfold oldestExistingValidBatchByVaccineName at h
  rcases oldestFold_first vaccine_name current_date ht.nodes with
    ⟨hnone, -⟩ | ⟨pre, post, n, hl, hfold, hn, hpre, hpost⟩
  · rw [hnone] at h; cases h
  · rw [hfold] at h
    have hb : n.batch_info = b := Option.some.inj h
    rw [hb] at hn hpre hpost
    exact ⟨pre, post, n, hl, hb, hn, hpre, hpost⟩

set_option maxRecDepth 100000 in
/-- C35 on two batches of vaccine `V` with the same date: `B` (bucket 66) was
created before `A` (bucket 65), and `A`, which the scan meets first, is returned. -/
theorem oldestExistingValidBatchByVaccineName_first_witness :
    ∃ (pre post : List Batches) (n : Batches),
      (insertBatchInSystem
        (insertBatchInSystem initBatchesHashTable [66] ⟨1, 1, 2026⟩ 5 [86]).2
        [65] ⟨1, 1, 2026⟩ 5 [86]).2.nodes = pre ++ n :: post ∧
      n.batch_info = ⟨[65], ⟨1, 1, 2026⟩, 5, 0, [86]⟩ ∧
      eligibleBatch [86] ⟨1, 1, 2025⟩ ⟨[65], ⟨1, 1, 2026⟩, 5, 0, [86]⟩ = true ∧
      (∀ m ∈ pre, eligibleBatch [86] ⟨1, 1, 2025⟩ m.batch_info = true →
        compareDate1Date2 (⟨[65], ⟨1, 1, 2026⟩, 5, 0, [86]⟩ : BatchInfo).date
          m.batch_info.date < 0) ∧
      (∀ m ∈ post, eligibleBatch [86] ⟨1, 1, 2025⟩ m.batch_info = true →
        compareDate1Date2 (⟨[65], ⟨1, 1, 2026⟩, 5, 0, [86]⟩ : BatchInfo).date
          m.batch_info.date ≤ 0) :=
  oldestExistingValidBatchByVaccineName_first
    (insertBatchInSystem
      (insertBatchInSystem initBatchesHashTable [66] ⟨1, 1, 2026⟩ 5 [86]).2
      [65] ⟨1, 1, 2026⟩ 5 [86]).2 [86] ⟨1, 1, 2025⟩ ⟨[65], ⟨1, 1, 2026⟩, 5, 0, [86]⟩ (by decide)

/-! ## The listing of batches by vaccine names -/

theorem firstBatchWithVaccine_eq (ht : BatchesHashTable) (name : CStr) :
    firstBatchWithVaccine ht name =
      ht.nodes.find? (fun current =>
        decide (strcmp current.batch_info.vaccine_name name = 0)) := by
  unfold firstBatchWithVaccine BatchesHashTable.nodes
  rw [List.find?_flatten]

/-- C32: `listBatchesInSystemByGivenNames` prints one item per requested name (the
names after the first entry of the list), in the order of the request.  For a
name that a stored batch carries, the item is the first batch of the scan (buckets
in ascending order, each chain from its head) with that vaccine name; for a name
that no stored batch carries, it is the no-such-vaccine error for that name, and
the names after it are served all the same. -/
theorem listBatchesInSystemByGivenNames_spec (ht : BatchesHashTable)
    (vaccineNames : List CStr) :
    (listBatchesInSystemByGivenNames ht vaccineNames).length = (vaccineNames.drop 1).length ∧
    ∀ (i : Nat) (name : CStr), (vaccineNames.drop 1)[i]? = some name →
      ((∃ n ∈ ht.nodes, n.batch_info.vaccine_name = name) →
        ∃ n ∈ ht.nodes, n.batch_info.vaccine_name = name ∧
          ht.nodes.find? (fun current =>
            decide (strcmp current.batch_info.vaccine_name name = 0)) = some n ∧
          (listBatchesInSystemByGivenNames ht vaccineNames)[i]? =
            some (BatchListing.batch n.batch_info)) ∧
      ((∀ n ∈ ht.nodes, n.batch_info.vaccine_name ≠ name) →
        (listBatchesInSystemByGivenNames ht vaccineNames)[i]? =
          some (BatchListing.noSuchVaccine name)) := by
  unfold listBatchesInSystemByGivenNames
  refine ⟨by rw [List.length_map], ?_⟩
  intro i name hi
  rw [List.getElem?_map, hi]
  simp only [Option.map_some', firstBatchWithVaccine_eq]
  constructor
  · rintro ⟨n, hn, hname⟩
    cases hf : ht.nodes.find? (fun current =>
        decide (strcmp current.batch_info.vaccine_name name = 0)) with
    | none =>
      rw [List.find?_eq_none] at hf
      exact absurd (by rw [decide_eq_true_eq, strcmp_eq_zero_iff]; exact hname) (hf n hn)
    | some w =>
      have hw := List.find?_some hf
      rw [decide_eq_true_eq, strcmp_eq_zero_iff] at hw
      exact ⟨w, List.mem_of_find?_eq_some hf, hw, rfl, rfl⟩
  · intro hall
    have hf : ht.nodes.find? (fun current =>
        decide (strcmp current.batch_info.vaccine_name name = 0)) = none := by
      rw [List.find?_eq_none]
      intro n hn hp
      rw [decide_eq_true_eq, strcmp_eq_zero_iff] at hp
      exact hall n hn hp
    rw [hf]

set_option maxRecDepth 100000 in
/-- C32 on the table that holds batch `A` of vaccine `V` and the request `l V W X`:
`A` is printed for `V`, and `W` and `X` are each reported as unknown. -/
theorem listBatchesInSystemByGivenNames_spec_witness :
    listBatchesInSystemByGivenNames
        (insertBatchInSystem initBatchesHashTable [65] ⟨1, 1, 2026⟩ 5 [86]).2
        [[108], [86], [87], [88]] =
      [BatchListing.batch ⟨[65], ⟨1, 1, 2026⟩, 5, 0, [86]⟩,
       BatchListing.noSuchVaccine [87], BatchListing.noSuchVaccine [88]] ∧
    (listBatchesInSystemByGivenNames
        (insertBatchInSystem initBatchesHashTable [65] ⟨1, 1, 2026⟩ 5 [86]).2
        [[108], [86], [87], [88]])[1]? = some (BatchListing.noSuchVaccine [87]) :=
  ⟨by decide,
   ((listBatchesInSystemByGivenNames_spec
      (insertBatchInSystem initBatchesHashTable [65] ⟨1, 1, 2026⟩ 5 [86]).2
      [[108], [86], [87], [88]]).2 1 [87] (by decide)).2 (by decide)⟩

/-! ## The position of a new record in the sequence of its user -/

/-- In a sequence sorted by date, the shift-insert puts the new record after the
records that are not later and before the records that are later, and the
sequence stays sorted. -/
theorem insertRecordSorted_spec (records : List VaccinationRecord)
    (record : VaccinationRecord)
    (hsorted : records.Pairwise (fun r1 r2 =>
      compareDate1Date2 r1.vaccination_date r2.vaccination_date ≤ 0)) :
    ∃ pre post : List VaccinationRecord,
      records = pre ++ post ∧
      insertRecordSorted records record = pre ++ record :: post ∧
      (∀ r ∈ pre, compareDate1Date2 r.vaccination_date record.vaccination_date ≤ 0) ∧
      (∀ r ∈ post, compareDate1Date2 record.vaccination_date r.vaccination_date < 0) ∧
      (insertRecordSorted records record).length = records.length + 1 ∧
      (insertRecordSorted records record).Pairwise (fun r1 r2 =>
        compareDate1Date2 r1.vaccination_date r2.vaccination_date ≤ 0) := by
  have hsplit := List.takeWhile_append_dropWhile
    (fun r : VaccinationRecord =>
      decide (compareDate1Date2 r.vaccination_date record.vaccination_date ≤ 0)) records
  have hpre : ∀ r ∈ records.takeWhile (fun r : VaccinationRecord =>
      decide (compareDate1Date2 r.vaccination_date record.vaccination_date ≤ 0)),
      compareDate1Date2 r.vaccination_date record.vaccination_date ≤ 0 := by
    intro r hr
    have := List.mem_takeWhile_imp hr
    simpa using this
  have hsorted1 := hsorted
  rw [← hsplit, List.pairwise_append] at hsorted1
  obtain ⟨hs1, hs2, hs3⟩ := hsorted1
  have hpost : ∀ r ∈ records.dropWhile (fun r : VaccinationRecord =>
      decide (compareDate1Date2 r.vaccination_date record.vaccination_date ≤ 0)),
      compareDate1Date2 record.vaccination_date r.vaccination_date < 0 := by
    intro r hr
    have hne : records.dropWhile (fun r : VaccinationRecord =>
        decide (compareDate1Date2 r.vaccination_date record.vaccination_date ≤ 0)) ≠ [] :=
      List.ne_nil_of_mem hr
    have hhead := List.head_dropWhile_not (fun r : VaccinationRecord =>
      decide (compareDate1Date2 r.vaccination_date record.vaccination_date ≤ 0)) records hne
    rw [decide_eq_false_iff_not] at hhead
    have hhead1 : compareDate1Date2 record.vaccination_date
        ((records.dropWhile (fun r : VaccinationRecord =>
          decide (compareDate1Date2 r.vaccination_date record.vaccination_date ≤ 0))).head
          hne).vaccination_date < 0 := by
      rw [compareDate1Date2_swap]; omega
    have hle : compareDate1Date2
        ((records.dropWhile (fun r : VaccinationRecord =>
          decide (compareDate1Date2 r.vaccination_date record.vaccination_date ≤ 0))).head
          hne).vaccination_date r.vaccination_date ≤ 0 := by
      generalize records.dropWhile (fun r : VaccinationRecord =>
        decide (compareDate1Date2 r.vaccination_date record.vaccination_date ≤ 0)) = post
        at hs2 hr hne
      cases post with
      | nil => exact absurd rfl hne
      | cons a t =>
        simp only [List.head_cons]
        rcases List.mem_cons.mp hr with h | h
        · rw [h, compareDate1Date2_self]
        · exact (List.pairwise_cons.mp hs2).1 r h
    exact compareDate1Date2_lt_of_lt_of_le hhead1 hle
  refine ⟨_, _, hsplit.symm, rfl, hpre, hpost, ?_, ?_⟩
  · unfold insertRecordSorted
    rw [List.length_append, List.length_cons]
    have := congrArg List.length hsplit
    rw [List.length_append] at this
    omega
  · unfold insertRecordSorted
    rw [List.pairwise_append]
    refine ⟨hs1, ?_, ?_⟩
    · rw [List.pairwise_cons]
      exact ⟨fun r hr => le_of_lt (hpost r hr), hs2⟩
    · intro a ha b hb
      rcases List.mem_cons.mp hb with h | h
      · rw [h]; exact hpre a ha
      · exact hs3 a ha b h

/-- C31: in a well-formed record table, when `insertVaccinationRecord` returns 1
for a user whose sequence is sorted by date, the sequence afterwards is the
former one with the new record (numbered `all_records_count`) put in: the
records before it are the former records whose date is not later than the new
date, the records after it are the former records of a later date, both in
their former order; the sequence is one record longer and still sorted by date. -/
theorem insertVaccinationRecord_position (ht : VaccinationRecordsHashtable)
    (user_name vaccine_name batch_id : CStr) (date : Date) (g : VaccinationRecordsUser)
    (hwf : RecordsWF ht) (hfind : findUser ht user_name = some g)
    (hsorted : g.records.Pairwise (fun r1 r2 =>
      compareDate1Date2 r1.vaccination_date r2.vaccination_date ≤ 0))
    (hret : (insertVaccinationRecord ht user_name vaccine_name batch_id date).1 = 1) :
    ∃ pre post : List VaccinationRecord,
      g.records = pre ++ post ∧
      findUser (insertVaccinationRecord ht user_name vaccine_name batch_id date).2 user_name =
        some ⟨g.user,
          pre ++ createVaccinationRecord user_name vaccine_name batch_id date
            ht.all_records_count :: post⟩ ∧
      (∀ r ∈ pre, compareDate1Date2 r.vaccination_date date ≤ 0) ∧
      (∀ r ∈ post, compareDate1Date2 date r.vaccination_date < 0) ∧
      (pre ++ createVaccinationRecord user_name vaccine_name batch_id date
        ht.all_records_count :: post).length = g.records.length + 1 ∧
      (pre ++ createVaccinationRecord user_name vaccine_name batch_id date
        ht.all_records_count :: post).Pairwise (fun r1 r2 =>
          compareDate1Date2 r1.vaccination_date r2.vaccination_date ≤ 0) := by
  obtain ⟨ht1, heq, -, -, hcount, hfind1⟩ :=
    insertVaccinationRecord_grow ht user_name vaccine_name batch_id date hwf
  rw [heq] at hret ⊢
  have hfindg : findUser ht1 user_name = some g := by rw [hfind1]; exact hfind
  have hdup : ¬ isAlreadyVaccinated g vaccine_name date = true := by
    intro hd
    rw [insertAfterGrow_dup _ _ _ _ _ g hfindg hd] at hret
    simp at hret
  obtain ⟨pre, post, h1, h2, h3, h4, h5, h6⟩ := insertRecordSorted_spec g.records
    (createVaccinationRecord user_name vaccine_name batch_id date ht.all_records_count) hsorted
  refine ⟨pre, post, h1, ?_, h3, h4, by rw [← h2]; exact h5, by rw [← h2]; exact h6⟩
  rw [insertAfterGrow_some _ _ _ _ _ g hfindg hdup, ← h2, ← hcount]
  obtain ⟨hr0, hr1⟩ := findUser_some_range ht1 user_name g hfindg
  simp only [VaccinationRecordsHashtable.size] at hr0 hr1
  unfold findUser
  simp only [VaccinationRecordsHashtable.size, length_setChain]
  rw [chainAt_setChain_self _ hr0 hr1]
  unfold findUser at hfindg
  simp only [VaccinationRecordsHashtable.size] at hfindg
  have hpg := List.find?_some hfindg
  exact find?_modifyFirst_self _ _ g _ hfindg hpg

set_option maxRecDepth 100000 in
/-- C31 on user `a` of the sample table (dates 10, 11, 11 of January 2025) and a
new record dated 2025-01-10: it is put right after the record of that date. -/
theorem insertVaccinationRecord_position_witness :
    ∃ pre post : List VaccinationRecord,
      sampleGroupA.records = pre ++ post ∧
      findUser (insertVaccinationRecord sampleRecordsTable [97] [86, 57] [67]
          ⟨10, 1, 2025⟩).2 [97] =
        some ⟨sampleGroupA.user,
          pre ++ createVaccinationRecord [97] [86, 57] [67] ⟨10, 1, 2025⟩
            sampleRecordsTable.all_records_count :: post⟩ ∧
      (∀ r ∈ pre, compareDate1Date2 r.vaccination_date ⟨10, 1, 2025⟩ ≤ 0) ∧
      (∀ r ∈ post, compareDate1Date2 ⟨10, 1, 2025⟩ r.vaccination_date < 0) :=
  (insertVaccinationRecord_position sampleRecordsTable [97] [86, 57] [67] ⟨10, 1, 2025⟩
    sampleGroupA sampleRecordsTable_wf sampleRecordsTable_findA (by decide) (by decide)).elim
    (fun pre h => h.elim (fun post hp => ⟨pre, post, hp.1, hp.2.1, hp.2.2.1, hp.2.2.2.1⟩))

/-! ## Which node a modification changes -/

theorem mem_modifyFirst_p {α : Type} (p : α → Bool) (f : α → α) :
    ∀ (l : List α) (y : α), y ∈ modifyFirst p f l →
      y ∈ l ∨ ∃ x ∈ l, p x = true ∧ y = f x := by
  intro l
  induction l with
  | nil => intro y h; exact Or.inl h
  | cons a rest ih =>
    intro y h
    unfold modifyFirst at h
    by_cases hp : p a = true
    · rw [if_pos hp] at h
      rcases List.mem_cons.mp h with h1 | h1
      · exact Or.inr ⟨a, List.mem_cons_self _ _, hp, h1⟩
      · exact Or.inl (List.mem_cons_of_mem _ h1)
    · rw [if_neg hp] at h
      rcases List.mem_cons.mp h with h1 | h1
      · left; rw [h1]; exact List.mem_cons_self _ _
      · rcases ih y h1 with h2 | ⟨x, hx, hpx, hxy⟩
        · exact Or.inl (List.mem_cons_of_mem _ h2)
        · exact Or.inr ⟨x, List.mem_cons_of_mem _ hx, hpx, hxy⟩

theorem mem_modifyFirst_of_mem_p {α : Type} (p : α → Bool) (f : α → α) :
    ∀ (l : List α) (x : α), x ∈ l →
      x ∈ modifyFirst p f l ∨ (p x = true ∧ f x ∈ modifyFirst p f l) := by
  intro l
  induction l with
  | nil => intro x h; cases h
  | cons a rest ih =>
    intro x h
    unfold modifyFirst
    by_cases hp : p a = true
    · rw [if_pos hp]
      rcases List.mem_cons.mp h with h1 | h1
      · right; rw [h1]; exact ⟨hp, List.mem_cons_self _ _⟩
      · left; exact List.mem_cons_of_mem _ h1
    · rw [if_neg hp]
      rcases List.mem_cons.mp h with h1 | h1
      · left; rw [h1]; exact List.mem_cons_self _ _
      · rcases ih x h1 with h2 | ⟨h2, h3⟩
        · left; exact List.mem_cons_of_mem _ h2
        · right; exact ⟨h2, List.mem_cons_of_mem _ h3⟩

theorem flatten_modifyFirstInBuckets_mem_p {α : Type} (p : α → Bool) (f : α → α) :
    ∀ (bs : List (List α)) (y : α), y ∈ (modifyFirstInBuckets p f bs).flatten →
      y ∈ bs.flatten ∨ ∃ x ∈ bs.flatten, p x = true ∧ y = f x := by
  intro bs
  induction bs with
  | nil => intro y h; exact Or.inl h
  | cons c rest ih =>
    intro y h
    unfold modifyFirstInBuckets at h
    by_cases hc : c.any p = true
    · rw [if_pos hc] at h
      rw [List.flatten_cons, List.mem_append] at h
      rcases h with h | h
      · rcases mem_modifyFirst_p p f c y h with h1 | ⟨x, hx, hpx, hxy⟩
        · left; rw [List.flatten_cons, List.mem_append]; exact Or.inl h1
        · right
          exact ⟨x, by rw [List.flatten_cons, List.mem_append]; exact Or.inl hx, hpx, hxy⟩
      · left; rw [List.flatten_cons, List.mem_append]; exact Or.inr h
    · rw [if_neg hc] at h
      rw [List.flatten_cons, List.mem_append] at h
      rcases h with h | h
      · left; rw [List.flatten_cons, List.mem_append]; exact Or.inl h
      · rcases ih y h with h1 | ⟨x, hx, hpx, hxy⟩
        · left; rw [List.flatten_cons, List.mem_append]; exact Or.inr h1
        · right
          exact ⟨x, by rw [List.flatten_cons, List.mem_append]; exact Or.inr hx, hpx, hxy⟩

theorem flatten_modifyFirstInBuckets_of_mem_p {α : Type} (p : α → Bool) (f : α → α) :
    ∀ (bs : List (List α)) (x : α), x ∈ bs.flatten →
      x ∈ (modifyFirstInBuckets p f bs).flatten ∨
        (p x = true ∧ f x ∈ (modifyFirstInBuckets p f bs).flatten) := by
  intro bs
  induction bs with
  | nil => intro x h; exact Or.inl h
  | cons c rest ih =>
    intro x h
    rw [List.flatten_cons, List.mem_append] at h
    unfold modifyFirstInBuckets
    by_cases hc : c.any p = true
    · rw [if_pos hc]
      simp only [List.flatten_cons, List.mem_append]
      rcases h with h | h
      · rcases mem_modifyFirst_of_mem_p p f c x h with h1 | ⟨h1, h2⟩
        · exact Or.inl (Or.inl h1)
        · exact Or.inr ⟨h1, Or.inl h2⟩
      · exact Or.inl (Or.inr h)
    · rw [if_neg hc]
      simp only [List.flatten_cons, List.mem_append]
      rcases h with h | h
      · exact Or.inl (Or.inl h)
      · rcases ih x h with h1 | ⟨h1, h2⟩
        · exact Or.inl (Or.inr h1)
        · exact Or.inr ⟨h1, Or.inr h2⟩

/-! ## Doses and applications of the stored batches -/

theorem insert_nodes_perm (ht : BatchesHashTable) (batch_id : CStr) (date : Date)
    (doses : Int) (vaccine_name : CStr) (hwf : BatchesWF ht) (hid : isAscii batch_id) :
    (insertBatchInSystem ht batch_id date doses vaccine_name).2.nodes.Perm
      (newBatchNode batch_id date doses vaccine_name :: ht.nodes) := by
  obtain ⟨hwf1, hperm1, -, -⟩ := insert_grow ht hwf
  rw [insertBatchInSystem_link]
  exact (linkBatch_nodes_perm _ (newBatchNode batch_id date doses vaccine_name)
    hwf1.size_pos hid).trans (hperm1.cons _)

theorem validcreateBatchInput_doses (batch name : CStr) (date : Date) (doses_number : Int)
    (vs : VaccinationSystem) (num_args : Int)
    (h : validcreateBatchInput batch name date doses_number vs num_args = true) :
    0 ≤ doses_number := by
  unfold validcreateBatchInput validDosesNumber at h
  split_ifs at h with h1
  simp only [Bool.or_eq_true, Bool.not_eq_true', not_or, Bool.not_eq_false,
    decide_eq_false_iff_not, Bool.not_not, decide_eq_true_eq] at h1
  omega

/-- Every command keeps the bound on the applications of the stored batches. -/
theorem SysOp_run_doses (vs : VaccinationSystem) (op : SysOp) (hinv : SysInv vs)
    (hb : op.bytes)
    (hP : ∀ x ∈ vs.batches_ht.nodes, 0 ≤ x.batch_info.doses ∧
      (x.batch_info.applications ≤ x.batch_info.doses ∨ x.batch_info.doses = 0)) :
    ∀ y ∈ (op.run vs).batches_ht.nodes, 0 ≤ y.batch_info.doses ∧
      (y.batch_info.applications ≤ y.batch_info.doses ∨ y.batch_info.doses = 0) := by
  cases op with
  | createBatch num_args batch date doses_number name =>
    show ∀ y ∈ (createBatchInput vs num_args batch date doses_number name).batches_ht.nodes, _
    rcases createBatchInput_cases vs num_args batch date doses_number name with
      h | ⟨-, h2, h3⟩
    · rw [h]; exact hP
    · rw [h3]
      obtain ⟨hv1, -, -⟩ := validcreateBatchInput_true _ _ _ _ _ _ h2
      have hd := validcreateBatchInput_doses _ _ _ _ _ _ h2
      have hperm := insert_nodes_perm vs.batches_ht batch date doses_number name hinv.wf
        (validBatch_ascii _ _ hb.1 hv1)
      intro y hy
      rcases List.mem_cons.mp (hperm.mem_iff.mp hy) with h | h
      · rw [h]
        exact ⟨hd, Or.inl hd⟩
      · exact hP y h
  | listBatches => exact hP
  | applyVaccine name vaccine_name =>
    show ∀ y ∈ (applyVaccineInput vs name vaccine_name).batches_ht.nodes, _
    rcases applyVaccineInput_cases vs name vaccine_name with
      h | ⟨info, hold, ⟨-, h⟩ | ⟨-, h⟩⟩
    · rw [h]; exact hP
    · rw [h]; exact hP
    · rw [h]
      intro y hy
      have helig := oldest_eligible _ _ _ _ hold
      rw [eligibleBatch_iff] at helig
      change y ∈ (applyToOldestBatch vs.batches_ht vaccine_name vs.current_date).nodes at hy
      unfold applyToOldestBatch at hy
      rw [hold] at hy
      rcases flatten_modifyFirstInBuckets_mem_p _ _ _ y hy with h1 | ⟨x, hx, hpx, hxy⟩
      · exact hP y h1
      · rw [decide_eq_true_eq] at hpx
        rw [hxy]
        simp only [hpx]
        have := (hP x hx).1
        rw [hpx] at this
        exact ⟨this, Or.inl (by omega)⟩
  | removeBatch batch_id =>
    show ∀ y ∈ (removeBatchInput vs batch_id).batches_ht.nodes, _
    cases hfind : searchBatchInSystem vs.batches_ht batch_id with
    | none =>
      have h : removeBatchInput vs batch_id = vs := by
        unfold removeBatchInput
        rw [hfind]
      rw [h]; exact hP
    | some node =>
      by_cases happ : node.batch_info.applications = 0
      · rw [removeBatchInput_full_eq vs batch_id node hfind happ]
        intro y hy
        exact hP y ((flatten_setChain_sublist _ _ _ (List.eraseP_sublist _)).subset hy)
      · rw [removeBatchInput_soft_eq vs batch_id node hfind happ]
        intro y hy
        rcases mem_flatten_setChain _ _ _ y hy with h | h
        · rcases mem_modifyFirst _ _ _ y h with h1 | ⟨x, hx, hxy⟩
          · exact hP y (mem_flatten_chainAt _ _ _ h1)
          · rw [hxy]
            exact ⟨le_refl _, Or.inr rfl⟩
        · exact hP y h
  | deleteRecord1 name =>
    show ∀ y ∈ (deleteRecordInput1Arg vs name).2.batches_ht.nodes, _
    rcases deleteRecordInput1Arg_cases vs name with h | h <;> rw [h] <;> exact hP
  | deleteRecord2 name date =>
    show ∀ y ∈ (deleteRecordInput2Args vs name date).2.batches_ht.nodes, _
    rcases deleteRecordInput2Args_cases vs name date with h | h <;> rw [h] <;> exact hP
  | deleteRecord3 name date batch_name =>
    show ∀ y ∈ (deleteRecordInput3Args vs name date batch_name).2.batches_ht.nodes, _
    rcases deleteRecordInput3Args_cases vs name date batch_name with h | h <;> rw [h] <;>
      exact hP
  | listRecords => exact hP
  | passTime date =>
    show ∀ y ∈ (passTimeInput vs date).batches_ht.nodes, _
    rcases passTimeInput_cases vs date with ⟨-, h⟩ | ⟨-, h⟩ <;> rw [h] <;> exact hP

/-- C34: in every reachable system state each stored batch has `doses ≥ 0` and
either `applications ≤ doses` or `doses = 0`. -/
theorem applications_within_doses (vs : VaccinationSystem) (h : SysReachable vs) :
    ∀ n ∈ vs.batches_ht.nodes, 0 ≤ n.batch_info.doses ∧
      (n.batch_info.applications ≤ n.batch_info.doses ∨ n.batch_info.doses = 0) := by
  induction h with
  | init =>
    intro n hn
    simp [initVaccinationSystem, BatchesHashTable.nodes, initBatchesHashTable] at hn
  | step vs op hreach hb ih =>
    exact SysOp_run_doses vs op (SysInv_of_reachable vs hreach) hb ih

set_option maxRecDepth 100000 in
/-- C34 on the sample run followed by the removal of batch `A`: the batch stays
with 0 doses and 1 application. -/
theorem applications_within_doses_witness :
    (⟨[65], ⟨[65], ⟨1, 1, 2026⟩, 0, 1, [86]⟩⟩ : Batches) ∈
      ((SysOp.removeBatch [65]).run sampleSystem).batches_ht.nodes ∧
    ((0 : Int) ≤ (⟨[65], ⟨[65], ⟨1, 1, 2026⟩, 0, 1, [86]⟩⟩ : Batches).batch_info.doses ∧
      ((⟨[65], ⟨[65], ⟨1, 1, 2026⟩, 0, 1, [86]⟩⟩ : Batches).batch_info.applications ≤
          (⟨[65], ⟨[65], ⟨1, 1, 2026⟩, 0, 1, [86]⟩⟩ : Batches).batch_info.doses ∨
        (⟨[65], ⟨[65], ⟨1, 1, 2026⟩, 0, 1, [86]⟩⟩ : Batches).batch_info.doses = 0)) :=
  ⟨by decide,
   applications_within_doses ((SysOp.removeBatch [65]).run sampleSystem)
    (SysReachable.step sampleSystem (SysOp.removeBatch [65]) sampleSystem_reachable
      (by decide))
    ⟨[65], ⟨[65], ⟨1, 1, 2026⟩, 0, 1, [86]⟩⟩ (by decide)⟩

/-! ## The effect of a vaccination -/

theorem insertAfterGrow_ret (ht1 : VaccinationRecordsHashtable)
    (user_name vaccine_name batch_id : CStr) (vaccination_date : Date) :
    (insertAfterGrow ht1 user_name vaccine_name batch_id vaccination_date).1 = 1 ∨
    ((insertAfterGrow ht1 user_name vaccine_name batch_id vaccination_date).1 = 2 ∧
      (insertAfterGrow ht1 user_name vaccine_name batch_id vaccination_date).2 = ht1) := by
  cases hfind : findUser ht1 user_name with
  | none =>
    rw [insertAfterGrow_none _ _ _ _ _ hfind]
    exact Or.inl rfl
  | some g =>
    by_cases hdup : isAlreadyVaccinated g vaccine_name vaccination_date = true
    · rw [insertAfterGrow_dup _ _ _ _ _ g hfind hdup]
      exact Or.inr ⟨rfl, rfl⟩
    · rw [insertAfterGrow_some _ _ _ _ _ g hfind hdup]
      exact Or.inl rfl

/-- After an insertion that returned 1 the group of the user holds the new record. -/
theorem insertAfterGrow_record (ht1 : VaccinationRecordsHashtable)
    (user_name vaccine_name batch_id : CStr) (vaccination_date : Date)
    (hwf : RecordsWF ht1) (hascii : isAscii user_name)
    (hret : (insertAfterGrow ht1 user_name vaccine_name batch_id vaccination_date).1 = 1) :
    (∃ g, findUser (insertAfterGrow ht1 user_name vaccine_name batch_id vaccination_date).2
        user_name = some g ∧
      createVaccinationRecord user_name vaccine_name batch_id vaccination_date
        ht1.all_records_count ∈ g.records) ∧
    (insertAfterGrow ht1 user_name vaccine_name batch_id vaccination_date).2.all_records_count =
      ht1.all_records_count + 1 := by
  have hr := hash_user_range hascii hwf.size_pos
  simp only [VaccinationRecordsHashtable.size] at hr
  cases hfind : findUser ht1 user_name with
  | none =>
    rw [insertAfterGrow_none _ _ _ _ _ hfind]
    refine ⟨⟨{ user := user_name,
               records := [createVaccinationRecord user_name vaccine_name batch_id
                 vaccination_date ht1.all_records_count] }, ?_, ?_⟩, rfl⟩
    · unfold findUser
      simp only [VaccinationRecordsHashtable.size, length_setChain]
      rw [chainAt_setChain_self _ hr.1 hr.2]
      simp only [List.find?_cons, strcmp_self, decide_True]
    · exact List.mem_singleton_self _
  | some g =>
    by_cases hdup : isAlreadyVaccinated g vaccine_name vaccination_date = true
    · rw [insertAfterGrow_dup _ _ _ _ _ g hfind hdup] at hret
      simp at hret
    · rw [insertAfterGrow_some _ _ _ _ _ g hfind hdup]
      refine ⟨⟨⟨g.user, insertRecordSorted g.records
                  (createVaccinationRecord user_name vaccine_name batch_id vaccination_date
                    ht1.all_records_count)⟩, ?_, ?_⟩, rfl⟩
      · unfold findUser
        simp only [VaccinationRecordsHashtable.size, length_setChain]
        rw [chainAt_setChain_self _ hr.1 hr.2]
        unfold findUser at hfind
        simp only [VaccinationRecordsHashtable.size] at hfind
        have hpg := List.find?_some hfind
        exact find?_modifyFirst_self _ _ g _ hfind hpg
      · exact mem_insertRecordSorted _ _

/-- In a well-formed batch table whose two copies of each identifier agree, the
application of a dose changes the node of the returned batch, by one
application, and no other search result. -/
theorem applyToOldestBatch_search (ht : BatchesHashTable) (vaccine_name : CStr)
    (current_date : Date) (info : BatchInfo) (hwf : BatchesWF ht)
    (hids : ∀ n ∈ ht.nodes, n.batch_info.batch = n.batch_id)
    (hold : oldestExistingValidBatchByVaccineName ht vaccine_name current_date = some info) :
    ∃ node : Batches,
      searchBatchInSystem ht info.batch = some node ∧ node.batch_info = info ∧
      searchBatchInSystem (applyToOldestBatch ht vaccine_name current_date) info.batch =
        some ⟨node.batch_id, { info with applications := info.applications + 1 }⟩ ∧
      ∀ other : CStr, other ≠ info.batch →
        searchBatchInSystem (applyToOldestBatch ht vaccine_name current_date) other =
          searchBatchInSystem ht other := by
  have hwf1 := (BatchStep_apply ht vaccine_name current_date hwf).wf
  have hnodes : (applyToOldestBatch ht vaccine_name current_date).nodes =
      (modifyFirstInBuckets (fun n : Batches => decide (n.batch_info = info))
        (fun n : Batches =>
          ⟨n.batch_id, { n.batch_info with applications := n.batch_info.applications + 1 }⟩)
        ht.batches).flatten := by
    unfold applyToOldestBatch
    rw [hold]
    rfl
  have hspec := (oldestFold_spec vaccine_name current_date ht.nodes none).2 info hold
  rcases hspec.1 with h1 | ⟨n, hn, hni, -⟩
  · cases h1
  · obtain ⟨w, hw, hpw, hfw⟩ := flatten_modifyFirstInBuckets_hit
      (fun n : Batches => decide (n.batch_info = info))
      (fun n : Batches =>
        ⟨n.batch_id, { n.batch_info with applications := n.batch_info.applications + 1 }⟩)
      ht.batches ⟨n, hn, by simpa using hni⟩
    rw [decide_eq_true_eq] at hpw
    have hwid : w.batch_id = info.batch := by rw [← hpw]; exact (hids w hw).symm
    refine ⟨w, (search_iff_mem ht hwf _ w).mpr ⟨hw, hwid⟩, hpw, ?_, ?_⟩
    · rw [search_iff_mem _ hwf1]
      refine ⟨?_, hwid⟩
      rw [hnodes]
      simpa [hpw] using hfw
    · intro other hne
      cases hs : searchBatchInSystem ht other with
      | some m =>
        obtain ⟨hm, hmid⟩ := (search_iff_mem ht hwf other m).mp hs
        rw [search_iff_mem _ hwf1]
        refine ⟨?_, hmid⟩
        rw [hnodes]
        rcases flatten_modifyFirstInBuckets_of_mem_p
          (fun n : Batches => decide (n.batch_info = info))
          (fun n : Batches =>
            ⟨n.batch_id, { n.batch_info with applications := n.batch_info.applications + 1 }⟩)
          ht.batches m hm with h | ⟨hp, -⟩
        · exact h
        · rw [decide_eq_true_eq] at hp
          exfalso
          apply hne
          rw [← hmid, ← hp]
          exact (hids m hm).symm
      | none =>
        have hnone := (search_none_iff ht hwf.placed other).mp hs
        rw [search_none_iff _ hwf1.placed]
        intro y hy
        rw [hnodes] at hy
        rcases flatten_modifyFirstInBuckets_mem_p _ _ _ y hy with h | ⟨x, hx, -, hxy⟩
        · exact hnone y h
        · rw [hxy]
          exact hnone x hx

theorem applyVaccineInput_records (vs : VaccinationSystem) (name vaccine_name : CStr)
    (info : BatchInfo)
    (hold : oldestExistingValidBatchByVaccineName vs.batches_ht vaccine_name
      vs.current_date = some info) :
    (applyVaccineInput vs name vaccine_name).records_ht =
      (insertVaccinationRecord vs.records_ht name vaccine_name info.batch
        vs.current_date).2 := by
  unfold applyVaccineInput
  rw [hold]
  simp only
  split <;> rfl

/-- C33: in a reachable system whose record table is well formed, for an ASCII
user name: with no eligible batch `applyVaccineInput` leaves the system as it is;
when the insertion reports an earlier vaccination (2) the batch table and the
date are unchanged, the counters of the record table are unchanged, every user
is found with the same group as before and no record is stored that was not
stored before; when the insertion succeeds (1) the batch used is the one
`oldestExistingValidBatchByVaccineName` returns for the current date, the node
found under its identifier gets one more application and is otherwise unchanged,
the search result of every other identifier is unchanged, the group of the user
holds a new record carrying that batch identifier and the current date, the
record counter grows by one, and the groups of the other users and the date are
unchanged. -/
theorem applyVaccineInput_spec (vs : VaccinationSystem) (name vaccine_name : CStr)
    (hreach : SysReachable vs) (hwf : RecordsWF vs.records_ht) (hname : isAscii name) :
    (oldestExistingValidBatchByVaccineName vs.batches_ht vaccine_name vs.current_date = none →
      applyVaccineInput vs name vaccine_name = vs) ∧
    (∀ info : BatchInfo,
      oldestExistingValidBatchByVaccineName vs.batches_ht vaccine_name vs.current_date =
        some info →
      (insertVaccinationRecord vs.records_ht name vaccine_name info.batch
        vs.current_date).1 = 2 →
      (applyVaccineInput vs name vaccine_name).batches_ht = vs.batches_ht ∧
      (applyVaccineInput vs name vaccine_name).current_date = vs.current_date ∧
      (applyVaccineInput vs name vaccine_name).records_ht.users_count =
        vs.records_ht.users_count ∧
      (applyVaccineInput vs name vaccine_name).records_ht.all_records_count =
        vs.records_ht.all_records_count ∧
      (∀ user : CStr, findUser (applyVaccineInput vs name vaccine_name).records_ht user =
        findUser vs.records_ht user) ∧
      ∀ r ∈ storedRecords (applyVaccineInput vs name vaccine_name).records_ht,
        r ∈ storedRecords vs.records_ht) ∧
    (∀ info : BatchInfo,
      oldestExistingValidBatchByVaccineName vs.batches_ht vaccine_name vs.current_date =
        some info →
      (insertVaccinationRecord vs.records_ht name vaccine_name info.batch
        vs.current_date).1 = 1 →
      ∃ (node : Batches) (g : VaccinationRecordsUser),
        searchBatchInSystem vs.batches_ht info.batch = some node ∧ node.batch_info = info ∧
        searchBatchInSystem (applyVaccineInput vs name vaccine_name).batches_ht info.batch =
          some ⟨node.batch_id, { info with applications := info.applications + 1 }⟩ ∧
        (∀ other : CStr, other ≠ info.batch →
          searchBatchInSystem (applyVaccineInput vs name vaccine_name).batches_ht other =
            searchBatchInSystem vs.batches_ht other) ∧
        findUser (applyVaccineInput vs name vaccine_name).records_ht name = some g ∧
        createVaccinationRecord name vaccine_name info.batch vs.current_date
          vs.records_ht.all_records_count ∈ g.records ∧
        (applyVaccineInput vs name vaccine_name).records_ht.all_records_count =
          vs.records_ht.all_records_count + 1 ∧
        (∀ other : CStr, other ≠ name →
          findUser (applyVaccineInput vs name vaccine_name).records_ht other =
            findUser vs.records_ht other) ∧
        (applyVaccineInput vs name vaccine_name).current_date = vs.current_date) := by
  have hinv := SysInv_of_reachable vs hreach
  refine ⟨?_, ?_, ?_⟩
  · intro hnone
    unfold applyVaccineInput
    rw [hnone]
  · intro info hold hret
    have hstored : ∀ r ∈ storedRecords (applyVaccineInput vs name vaccine_name).records_ht,
        r ∈ storedRecords vs.records_ht := by
      intro r hr
      rw [applyVaccineInput_records vs name vaccine_name info hold] at hr
      rcases stored_insert vs.records_ht name vaccine_name info.batch vs.current_date r hr
        with h | ⟨h, -⟩
      · exact h
      · rw [hret] at h; cases h
    have hmain : (applyVaccineInput vs name vaccine_name).batches_ht = vs.batches_ht ∧
        (applyVaccineInput vs name vaccine_name).current_date = vs.current_date ∧
        (applyVaccineInput vs name vaccine_name).records_ht.users_count =
          vs.records_ht.users_count ∧
        (applyVaccineInput vs name vaccine_name).records_ht.all_records_count =
          vs.records_ht.all_records_count ∧
        ∀ user : CStr, findUser (applyVaccineInput vs name vaccine_name).records_ht user =
          findUser vs.records_ht user := by
      rcases applyVaccineInput_cases vs name vaccine_name with
        h | ⟨info1, hold1, ⟨-, h⟩ | ⟨h2, -⟩⟩
      · unfold applyVaccineInput at h
        rw [hold] at h
        simp only [hret, if_true] at h
        obtain ⟨ht1, heq, -, hu, hc, hf⟩ :=
          insertVaccinationRecord_grow vs.records_ht name vaccine_name info.batch
            vs.current_date hwf
        rw [heq] at hret
        rcases insertAfterGrow_ret ht1 name vaccine_name info.batch vs.current_date with
          h1 | ⟨-, h1⟩
        · rw [h1] at hret; cases hret
        · unfold applyVaccineInput
          rw [hold]
          simp only
          rw [heq]
          simp only [hret, if_true, h1]
          exact ⟨trivial, trivial, hu, hc, hf⟩
      · rw [hold] at hold1
        have hinfo : info = info1 := Option.some.inj hold1
        rw [← hinfo] at h
        rw [h]
        obtain ⟨ht1, heq, -, hu, hc, hf⟩ :=
          insertVaccinationRecord_grow vs.records_ht name vaccine_name info.batch
            vs.current_date hwf
        rw [heq] at hret ⊢
        rcases insertAfterGrow_ret ht1 name vaccine_name info.batch vs.current_date with
          h1 | ⟨-, h1⟩
        · rw [h1] at hret; cases hret
        · simp only [h1]
          exact ⟨trivial, trivial, hu, hc, hf⟩
      · rw [hold] at hold1
        have hinfo : info = info1 := Option.some.inj hold1
        rw [← hinfo] at h2
        exact absurd hret h2
    exact ⟨hmain.1, hmain.2.1, hmain.2.2.1, hmain.2.2.2.1, hmain.2.2.2.2, hstored⟩
  · intro info hold hret
    rcases applyVaccineInput_cases vs name vaccine_name with
      h | ⟨info1, hold1, ⟨h2, -⟩ | ⟨-, h⟩⟩
    · exfalso
      unfold applyVaccineInput at h
      rw [hold] at h
      simp only [hret] at h
      have hb := congrArg (fun s : VaccinationSystem => s.records_ht.all_records_count) h
      simp only at hb
      obtain ⟨ht1, heq, hwf1, -, hc, -⟩ :=
        insertVaccinationRecord_grow vs.records_ht name vaccine_name info.batch
          vs.current_date hwf
      rw [heq] at hret hb
      have := (insertAfterGrow_record ht1 name vaccine_name info.batch vs.current_date hwf1
        hname hret).2
      simp at hb
      omega
    · rw [hold] at hold1
      have hinfo : info = info1 := Option.some.inj hold1
      rw [← hinfo, hret] at h2
      cases h2
    · rw [hold] at hold1
      have hinfo : info = info1 := Option.some.inj hold1
      rw [← hinfo] at h
      rw [h]
      obtain ⟨node, hs1, hs2, hs3, hs4⟩ := applyToOldestBatch_search vs.batches_ht
        vaccine_name vs.current_date info hinv.wf hinv.ids hold
      obtain ⟨ht1, heq, hwf1, -, hc, hf⟩ :=
        insertVaccinationRecord_grow vs.records_ht name vaccine_name info.batch
          vs.current_date hwf
      rw [heq] at hret ⊢
      obtain ⟨⟨g, hg1, hg2⟩, hcount⟩ :=
        insertAfterGrow_record ht1 name vaccine_name info.batch vs.current_date hwf1
          hname hret
      refine ⟨node, g, hs1, hs2, hs3, hs4, hg1, by rw [← hc]; exact hg2,
        by rw [← hc]; exact hcount, ?_, rfl⟩
      intro other hne
      have := insertAfterGrow_other ht1 name vaccine_name info.batch vs.current_date other hne
      rw [hf other] at this
      exact this

set_option maxRecDepth 100000 in
/-- C33 on the sample run: user `b` is vaccinated with `V`; batch `A` is the one
used, it goes from 1 to 2 applications, and the group of `b` holds the record
with id 1, batch `A` and the current date. -/
theorem applyVaccineInput_spec_witness :
    RecordsWF sampleSystem.records_ht ∧ isAscii [98] ∧
    oldestExistingValidBatchByVaccineName sampleSystem.batches_ht [86]
      sampleSystem.current_date = some ⟨[65], ⟨1, 1, 2026⟩, 5, 1, [86]⟩ ∧
    (insertVaccinationRecord sampleSystem.records_ht [98] [86] [65]
      sampleSystem.current_date).1 = 1 ∧
    ∃ (node : Batches) (g : VaccinationRecordsUser),
      searchBatchInSystem sampleSystem.batches_ht [65] = some node ∧
      node.batch_info = ⟨[65], ⟨1, 1, 2026⟩, 5, 1, [86]⟩ ∧
      searchBatchInSystem (applyVaccineInput sampleSystem [98] [86]).batches_ht [65] =
        some ⟨node.batch_id, ⟨[65], ⟨1, 1, 2026⟩, 5, 1 + 1, [86]⟩⟩ ∧
      (∀ other : CStr, other ≠ [65] →
        searchBatchInSystem (applyVaccineInput sampleSystem [98] [86]).batches_ht other =
          searchBatchInSystem sampleSystem.batches_ht other) ∧
      findUser (applyVaccineInput sampleSystem [98] [86]).records_ht [98] = some g ∧
      createVaccinationRecord [98] [86] [65] sampleSystem.current_date
        sampleSystem.records_ht.all_records_count ∈ g.records ∧
      (applyVaccineInput sampleSystem [98] [86]).records_ht.all_records_count =
        sampleSystem.records_ht.all_records_count + 1 ∧
      (∀ other : CStr, other ≠ [98] →
        findUser (applyVaccineInput sampleSystem [98] [86]).records_ht other =
          findUser sampleSystem.records_ht other) ∧
      (applyVaccineInput sampleSystem [98] [86]).current_date = sampleSystem.current_date :=
  ⟨by decide, by decide, by decide, by decide,
   (applyVaccineInput_spec sampleSystem [98] [86] sampleSystem_reachable (by decide)
      (by decide)).2.2 ⟨[65], ⟨1, 1, 2026⟩, 5, 1, [86]⟩ (by decide) (by decide)⟩

/-! ## The counters count what is stored -/

theorem chain_split {α : Type} (p : α → Bool) :
    ∀ (c : List α) (g : α), c.find? p = some g →
      ∃ pre post, c = pre ++ g :: post ∧
        (∀ f : α → α, modifyFirst p f c = pre ++ f g :: post) ∧
        c.eraseP p = pre ++ post := by
  intro c
  induction c with
  | nil => intro g h; simp at h
  | cons y ys ih =>
    intro g h
    by_cases hy : p y = true
    · simp only [List.find?_cons, hy, Option.some.injEq] at h
      subst h
      refine ⟨[], ys, rfl, ?_, ?_⟩
      · intro f
        unfold modifyFirst
        rw [if_pos hy]
        rfl
      · rw [List.eraseP_cons_of_pos hy]
        rfl
    · have hy1 : p y = false := by simpa using hy
      simp only [List.find?_cons, hy1] at h
      obtain ⟨pre, post, h1, h2, h3⟩ := ih g h
      refine ⟨y :: pre, post, by rw [h1]; rfl, ?_, ?_⟩
      · intro f
        unfold modifyFirst
        rw [if_neg hy, h2 f]
        rfl
      · rw [List.eraseP_cons_of_neg hy, h3]
        rfl

/-- A chain search that succeeds, seen from the scan of the whole table: the node
found, and what a mutation through the pointer or an unlink leaves. -/
theorem flatten_setChain_find_perm {α : Type} (p : α → Bool) (bs : List (List α)) (k : Int)
    (g : α) (h : (chainAt bs k).find? p = some g) :
    ∃ R : List α, bs.flatten.Perm (g :: R) ∧
      (∀ f : α → α,
        (setChain bs k (modifyFirst p f (chainAt bs k))).flatten.Perm (f g :: R)) ∧
      (setChain bs k ((chainAt bs k).eraseP p)).flatten.Perm R := by
  have hne : chainAt bs k ≠ [] := by
    intro hnil
    rw [hnil] at h
    simp at h
  obtain ⟨h0, h1⟩ := chainAt_ne_nil_range hne
  obtain ⟨pre, post, hc, hm, he⟩ := chain_split p (chainAt bs k) g h
  refine ⟨((bs.take k.toNat).flatten ++ pre) ++ (post ++ (bs.drop (k.toNat + 1)).flatten),
    ?_, ?_, ?_⟩
  · rw [flatten_eq_split_chainAt bs k h0 h1, hc]
    have : (bs.take k.toNat).flatten ++ (pre ++ g :: post) ++
        (bs.drop (k.toNat + 1)).flatten =
        ((bs.take k.toNat).flatten ++ pre) ++ g :: (post ++ (bs.drop (k.toNat + 1)).flatten) := by
      simp only [List.append_assoc, List.cons_append]
    rw [this]
    exact List.perm_middle
  · intro f
    rw [flatten_setChain _ _ _ h0 h1, hm f]
    have : (bs.take k.toNat).flatten ++ (pre ++ f g :: post) ++
        (bs.drop (k.toNat + 1)).flatten =
        ((bs.take k.toNat).flatten ++ pre) ++
          f g :: (post ++ (bs.drop (k.toNat + 1)).flatten) := by
      simp only [List.append_assoc, List.cons_append]
    rw [this]
    exact List.perm_middle
  · rw [flatten_setChain _ _ _ h0 h1, he]
    simp only [List.append_assoc]
    exact List.Perm.refl _

theorem CountersExact_perm {l1 l2 : List VaccinationRecordsUser} {a b : Int}
    (hp : l1.Perm l2) (h : CountersExact l1 a b) : CountersExact l2 a b := by
  obtain ⟨h1, h2, h3⟩ := h
  refine ⟨by rw [h1, hp.length_eq], ?_, fun u hu => h3 u (hp.mem_iff.mpr hu)⟩
  rw [h2]
  exact (hp.map _).sum_eq

theorem CountersExact_cons (g : VaccinationRecordsUser) (R : List VaccinationRecordsUser)
    (a b : Int) :
    CountersExact (g :: R) a b ↔
      g.record_count ≠ 0 ∧ CountersExact R (a - 1) (b - g.record_count) := by
  unfold CountersExact
  simp only [List.length_cons, List.map_cons, List.sum_cons, List.mem_cons, forall_eq_or_imp,
    Nat.cast_add, Nat.cast_one]
  constructor
  · rintro ⟨h1, h2, h3, h4⟩
    exact ⟨h3, by omega, by omega, h4⟩
  · rintro ⟨h3, h1, h2, h4⟩
    exact ⟨by omega, by omega, h3, h4⟩

theorem CountersExact_init :
    CountersExact initVaccinationRecordsHashtable.users
      initVaccinationRecordsHashtable.users_count
      initVaccinationRecordsHashtable.all_records_count := by
  have : initVaccinationRecordsHashtable.users = [] := by decide
  rw [this]
  exact ⟨rfl, rfl, by intro u hu; cases hu⟩

theorem CountersExact_resize (ht : VaccinationRecordsHashtable) (new_size : Int)
    (hwf : RecordsWF ht)
    (h : CountersExact ht.users ht.users_count ht.all_records_count) :
    CountersExact (resizeVaccinationRecordsHashtable ht new_size).2.users
      (resizeVaccinationRecordsHashtable ht new_size).2.users_count
      (resizeVaccinationRecordsHashtable ht new_size).2.all_records_count := by
  rw [(resize_users_count ht new_size).1, (resize_users_count ht new_size).2]
  exact CountersExact_perm (resize_users_perm ht new_size hwf.ascii).symm h

theorem CountersExact_insertAfterGrow (ht1 : VaccinationRecordsHashtable)
    (user_name vaccine_name batch_id : CStr) (vaccination_date : Date)
    (hwf : RecordsWF ht1) (hascii : isAscii user_name)
    (h : CountersExact ht1.users ht1.users_count ht1.all_records_count) :
    CountersExact (insertAfterGrow ht1 user_name vaccine_name batch_id vaccination_date).2.users
      (insertAfterGrow ht1 user_name vaccine_name batch_id vaccination_date).2.users_count
      (insertAfterGrow ht1 user_name vaccine_name batch_id
        vaccination_date).2.all_records_count := by
  have hr := hash_user_range hascii hwf.size_pos
  simp only [VaccinationRecordsHashtable.size] at hr
  cases hfind : findUser ht1 user_name with
  | none =>
    rw [insertAfterGrow_none _ _ _ _ _ hfind]
    simp only [VaccinationRecordsHashtable.users]
    refine CountersExact_perm
      (flatten_setChain_cons_perm ht1.vaccination_records _ _ hr.1 hr.2).symm ?_
    rw [CountersExact_cons]
    refine ⟨by simp [VaccinationRecordsUser.record_count], ?_⟩
    have h1 : ht1.users_count + 1 - 1 = ht1.users_count := by omega
    have h2 : ht1.all_records_count + 1 -
        (⟨user_name, [createVaccinationRecord user_name vaccine_name batch_id
          vaccination_date ht1.all_records_count]⟩ : VaccinationRecordsUser).record_count =
        ht1.all_records_count := by
      simp [VaccinationRecordsUser.record_count]
    rw [h1, h2]
    exact h
  | some g =>
    by_cases hdup : isAlreadyVaccinated g vaccine_name vaccination_date = true
    · rw [insertAfterGrow_dup _ _ _ _ _ g hfind hdup]
      exact h
    · rw [insertAfterGrow_some _ _ _ _ _ g hfind hdup]
      simp only [VaccinationRecordsHashtable.users]
      unfold findUser at hfind
      obtain ⟨R, hR1, hR2, -⟩ := flatten_setChain_find_perm _ _ _ g hfind
      refine CountersExact_perm (hR2 _).symm ?_
      have hg := (CountersExact_cons g R _ _).mp (CountersExact_perm hR1 h)
      rw [CountersExact_cons]
      have hlen : (⟨g.user, insertRecordSorted g.records
          (createVaccinationRecord user_name vaccine_name batch_id vaccination_date
            ht1.all_records_count)⟩ : VaccinationRecordsUser).record_count =
          g.record_count + 1 := by
        simp [VaccinationRecordsUser.record_count, insertRecordSorted,
          List.length_append]
        have := congrArg List.length (List.takeWhile_append_dropWhile
          (fun r : VaccinationRecord => decide (compareDate1Date2 r.vaccination_date
            vaccination_date ≤ 0)) g.records)
        simp only [List.length_append, createVaccinationRecord] at this ⊢
        omega
      refine ⟨?_, ?_⟩
      · rw [hlen]
        have : 0 ≤ g.record_count := by simp [VaccinationRecordsUser.record_count]
        omega
      · rw [hlen]
        have e : ht1.all_records_count + 1 - (g.record_count + 1) =
            ht1.all_records_count - g.record_count := by omega
        rw [e]
        exact hg.2

theorem CountersExact_insert (ht : VaccinationRecordsHashtable)
    (user_name vaccine_name batch_id : CStr) (vaccination_date : Date)
    (hwf : RecordsWF ht) (hascii : isAscii user_name)
    (h : CountersExact ht.users ht.users_count ht.all_records_count) :
    CountersExact
      (insertVaccinationRecord ht user_name vaccine_name batch_id vaccination_date).2.users
      (insertVaccinationRecord ht user_name vaccine_name batch_id
        vaccination_date).2.users_count
      (insertVaccinationRecord ht user_name vaccine_name batch_id
        vaccination_date).2.all_records_count := by
  obtain ⟨ht1, hht1, heq⟩ :=
    insertVaccinationRecord_eq ht user_name vaccine_name batch_id vaccination_date
  rw [heq]
  rcases hht1 with h1 | h1
  · subst h1
    exact CountersExact_insertAfterGrow _ _ _ _ _ hwf hascii h
  · subst h1
    exact CountersExact_insertAfterGrow _ _ _ _ _ (RecordsWF_resize ht _ hwf) hascii
      (CountersExact_resize ht _ hwf h)

theorem CountersExact_unlinkUser (ht : VaccinationRecordsHashtable) (user_name : CStr)
    (g : VaccinationRecordsUser) (hfind : findUser ht user_name = some g)
    (R : List VaccinationRecordsUser) (a b : Int) (hperm : ht.users.Perm (g :: R))
    (h : CountersExact R a b) (ha : ht.users_count - 1 = a)
    (hb : ht.all_records_count - g.record_count = b) :
    CountersExact (unlinkUser ht user_name).2.users (unlinkUser ht user_name).2.users_count
      (unlinkUser ht user_name).2.all_records_count := by
  rw [unlinkUser_some ht user_name g hfind]
  simp only [VaccinationRecordsHashtable.users]
  unfold findUser at hfind
  obtain ⟨R1, hR1, -, hR3⟩ := flatten_setChain_find_perm _ _ _ g hfind
  have hRR : R1.Perm R := (hR1.symm.trans hperm).cons_inv
  rw [ha, hb]
  exact CountersExact_perm (hR3.trans hRR).symm h

theorem CountersExact_shrinkIfSparse (ht1 : VaccinationRecordsHashtable) (hwf : RecordsWF ht1)
    (h : CountersExact ht1.users ht1.users_count ht1.all_records_count) :
    CountersExact (shrinkIfSparse ht1).users (shrinkIfSparse ht1).users_count
      (shrinkIfSparse ht1).all_records_count := by
  unfold shrinkIfSparse
  split_ifs
  · exact CountersExact_resize ht1 _ hwf h
  · exact h

theorem users_perm_of_find (ht : VaccinationRecordsHashtable) (user_name : CStr)
    (g : VaccinationRecordsUser) (hfind : findUser ht user_name = some g) :
    ∃ R : List VaccinationRecordsUser, ht.users.Perm (g :: R) ∧
      ∀ (new_records : List VaccinationRecord) (deleted : Int),
        (compactUser ht user_name new_records deleted).users.Perm
          (⟨g.user, new_records⟩ :: R) := by
  unfold findUser at hfind
  obtain ⟨R, hR1, hR2, -⟩ := flatten_setChain_find_perm _ _ _ g hfind
  refine ⟨R, hR1, ?_⟩
  intro new_records deleted
  unfold compactUser
  simp only [VaccinationRecordsHashtable.users]
  exact hR2 _

theorem CountersExact_deleteUser (ht : VaccinationRecordsHashtable) (user_name : CStr)
    (g : VaccinationRecordsUser) (hwf : RecordsWF ht)
    (hfind : findUser ht user_name = some g)
    (h : CountersExact ht.users ht.users_count ht.all_records_count) :
    CountersExact (deleteRecordVaccinationRecordsUser ht user_name).2.users
      (deleteRecordVaccinationRecordsUser ht user_name).2.users_count
      (deleteRecordVaccinationRecordsUser ht user_name).2.all_records_count := by
  rw [deleteRecordVaccinationRecordsUser_eq]
  obtain ⟨R, hR, -⟩ := users_perm_of_find ht user_name g hfind
  exact CountersExact_shrinkIfSparse _ (unlinkUser_spec ht user_name g hwf hfind).2.1
    (CountersExact_unlinkUser ht user_name g hfind R _ _ hR
      ((CountersExact_cons g R _ _).mp (CountersExact_perm hR h)).2 rfl rfl)

theorem length_filter_add_not {α : Type} (p : α → Bool) (l : List α) :
    (l.filter p).length + (l.filter (fun r => !p r)).length = l.length := by
  induction l with
  | nil => rfl
  | cons x xs ih =>
    by_cases hx : p x = true
    · simp only [List.filter_cons, hx, if_true, Bool.not_true, List.length_cons]
      simp only [Bool.false_eq_true, if_false]
      omega
    · have hx1 : p x = false := by simpa using hx
      simp only [List.filter_cons, hx1, Bool.not_false, if_true, List.length_cons]
      simp only [Bool.false_eq_true, if_false]
      omega

theorem CountersExact_deleteRecordsWhere (ht : VaccinationRecordsHashtable) (user_name : CStr)
    (gone : VaccinationRecord → Bool) (g : VaccinationRecordsUser) (hwf : RecordsWF ht)
    (hfind : findUser ht user_name = some g)
    (h : CountersExact ht.users ht.users_count ht.all_records_count) :
    CountersExact (deleteRecordsWhere ht user_name gone).2.users
      (deleteRecordsWhere ht user_name gone).2.users_count
      (deleteRecordsWhere ht user_name gone).2.all_records_count := by
  rw [deleteRecordsWhere_some ht user_name gone g hfind]
  obtain ⟨R, hR, hR2⟩ := users_perm_of_find ht user_name g hfind
  have hg := (CountersExact_cons g R _ _).mp (CountersExact_perm hR h)
  obtain ⟨c1, c2, -⟩ := compactUser_spec ht user_name (g.records.filter (fun r => !gone r))
    ((g.records.filter gone).length : Int) g hwf hfind
  obtain ⟨-, k2, k3⟩ := compactUser_counters ht user_name
    (g.records.filter (fun r => !gone r)) ((g.records.filter gone).length : Int)
  have hsum := length_filter_add_not gone g.records
  have hrc : g.record_count = (g.records.length : Int) := rfl
  split_ifs with hlen
  · simp only
    rw [deleteRecordVaccinationRecordsUser_eq]
    refine CountersExact_shrinkIfSparse _ (unlinkUser_spec _ user_name _ c1 c2).2.1
      (CountersExact_unlinkUser _ user_name _ c2 R _ _ (hR2 _ _) hg.2 (by rw [k2]) ?_)
    rw [k3]
    simp only [VaccinationRecordsUser.record_count]
    omega
  · simp only
    refine CountersExact_perm (hR2 _ _).symm ?_
    rw [CountersExact_cons, k2, k3]
    refine ⟨?_, ?_⟩
    · simp only [VaccinationRecordsUser.record_count]
      omega
    · have e : ht.all_records_count - ((g.records.filter gone).length : Int) -
          (⟨g.user, g.records.filter (fun r => !gone r)⟩ :
            VaccinationRecordsUser).record_count =
          ht.all_records_count - g.record_count := by
        simp only [VaccinationRecordsUser.record_count]
        omega
      rw [e]
      exact hg.2

theorem RecordsOp_run_counters (op : RecordsOp) (ht : VaccinationRecordsHashtable)
    (hwf : RecordsWF ht)
    (h : CountersExact ht.users ht.users_count ht.all_records_count)
    (hallowed : op.allowed ht = true) (hascii : op.ascii) :
    RecordsWF (op.run ht) ∧
      CountersExact (op.run ht).users (op.run ht).users_count (op.run ht).all_records_count := by
  cases op with
  | insert user_name vaccine_name batch_id vaccination_date =>
    exact ⟨RecordsWF_insertVaccinationRecord ht _ _ _ _ hwf hascii,
      CountersExact_insert ht _ _ _ _ hwf hascii h⟩
  | deleteUser user_name =>
    have hex : (findUser ht user_name).isSome = true := hallowed
    obtain ⟨g, hg⟩ := Option.isSome_iff_exists.mp hex
    exact ⟨(deleteUser_spec ht user_name g hwf hg).2.1,
      CountersExact_deleteUser ht user_name g hwf hg h⟩
  | deleteByDate user_name vaccination_date =>
    have hex : (findUser ht user_name).isSome = true := hallowed
    obtain ⟨g, hg⟩ := Option.isSome_iff_exists.mp hex
    exact ⟨(deleteRecordsWhere_spec ht user_name _ g hwf hg).2.2.2.2.2,
      CountersExact_deleteRecordsWhere ht user_name _ g hwf hg h⟩
  | deleteByDateAndBatch user_name vaccination_date batch_id =>
    have hex : (findUser ht user_name).isSome = true := hallowed
    obtain ⟨g, hg⟩ := Option.isSome_iff_exists.mp hex
    exact ⟨(deleteRecordsWhere_spec ht user_name _ g hwf hg).2.2.2.2.2,
      CountersExact_deleteRecordsWhere ht user_name _ g hwf hg h⟩

theorem runRecordsOps_counters :
    ∀ (ops : List RecordsOp) (ht0 ht : VaccinationRecordsHashtable),
      RecordsWF ht0 → CountersExact ht0.users ht0.users_count ht0.all_records_count →
      (∀ op ∈ ops, op.ascii) → runRecordsOps ops ht0 = some ht →
      RecordsWF ht ∧ CountersExact ht.users ht.users_count ht.all_records_count := by
  intro ops
  induction ops with
  | nil =>
    intro ht0 ht hwf h _ hrun
    simp only [runRecordsOps, Option.some.injEq] at hrun
    subst hrun
    exact ⟨hwf, h⟩
  | cons op ops ih =>
    intro ht0 ht hwf h hascii hrun
    unfold runRecordsOps at hrun
    by_cases hal : op.allowed ht0 = true
    · rw [if_pos hal] at hrun
      obtain ⟨w1, w2⟩ := RecordsOp_run_counters op ht0 hwf h hal
        (hascii op (List.mem_cons_self _ _))
      exact ih _ ht w1 w2 (fun o ho => hascii o (List.mem_cons_of_mem _ ho)) hrun
    · rw [if_neg hal] at hrun
      cases hrun

theorem sum_record_count (users : List VaccinationRecordsUser) :
    (users.map (fun u => u.record_count)).sum =
      ((users.flatMap (fun u => u.records)).length : Int) := by
  induction users with
  | nil => rfl
  | cons u us ih =>
    simp only [List.map_cons, List.sum_cons, List.flatMap_cons, List.length_append,
      Nat.cast_add, ih]
    rfl

/-- When `all_records_count` is the number of stored records the buffer of
`listAllRecordsInSystem` is filled exactly and the listing prints that many records. -/
theorem listAllRecordsInSystem_out (ht : VaccinationRecordsHashtable)
    (hcount : ht.all_records_count = (ht.users.flatMap (fun u => u.records)).length) :
    ∃ out : List VaccinationRecord,
      listAllRecordsInSystem ht = some (1, out) ∧
      out.Perm (ht.users.flatMap (fun u => u.records)) := by
  obtain ⟨a1, h1, hperm, -⟩ := quicksortBy_whole compare_records compare_records_order
    (ht.users.flatMap (fun u => u.records))
  have hlen : a1.length = (ht.users.flatMap (fun u => u.records)).length := hperm.length_eq
  refine ⟨a1, ?_, hperm⟩
  unfold listAllRecordsInSystem quicksort_records
  simp only [hcount, h1]
  rw [if_neg (by simp)]
  simp only [Int.toNat_ofNat, Option.some.injEq, Prod.mk.injEq, true_and]
  rw [← hlen, List.take_length]

theorem BatchCountInv_init : BatchCountInv initBatchesHashTable :=
  ⟨BatchesWF_init.size_pos, BatchesWF_init.ascii,
    by simp [BatchesHashTable.nodes, initBatchesHashTable]⟩

theorem BatchCountInv_resize (ht : BatchesHashTable) (h : BatchCountInv ht) :
    BatchCountInv (resizeBatchesHashTable ht).2 := by
  rcases resizeBatchesHashTable_cases ht with ⟨-, h1⟩ | ⟨hne, -⟩
  · rw [h1]
    exact h
  · obtain ⟨r1, -, r3, r4⟩ := resizeBatchesHashTable_rehashed ht hne h.2.1
    refine ⟨?_, ?_, ?_⟩
    · rw [r1]
      exact resize_target_pos ht.size
    · intro n hn
      exact h.2.1 n (r3.mem_iff.mp hn)
    · rw [r4, r3.length_eq]
      exact h.2.2

theorem BatchCountInv_linkBatch (ht1 : BatchesHashTable) (n : Batches)
    (h : BatchCountInv ht1) (hid : isAscii n.batch_id) : BatchCountInv (linkBatch ht1 n) := by
  have hp := linkBatch_nodes_perm ht1 n h.1 hid
  refine ⟨by rw [linkBatch_size]; exact h.1, ?_, ?_⟩
  · intro m hm
    rcases List.mem_cons.mp (hp.mem_iff.mp hm) with e | e
    · rw [e]
      exact hid
    · exact h.2.1 m e
  · rw [hp.length_eq]
    show ht1.batch_count + 1 = _
    rw [h.2.2]
    simp

theorem BatchCountInv_insert (ht : BatchesHashTable) (batch_id : CStr) (date : Date)
    (doses : Int) (vaccine_name : CStr) (h : BatchCountInv ht) (hid : isAscii batch_id) :
    BatchCountInv (insertBatchInSystem ht batch_id date doses vaccine_name).2 := by
  rw [insertBatchInSystem_link]
  split_ifs
  · exact BatchCountInv_linkBatch _ _ (BatchCountInv_resize ht h) hid
  · exact BatchCountInv_linkBatch _ _ h hid

theorem BatchCountInv_remove (vs : VaccinationSystem) (batch_id : CStr)
    (h : BatchCountInv vs.batches_ht) :
    BatchCountInv (removeBatchInput vs batch_id).batches_ht := by
  unfold removeBatchInput
  cases hs : searchBatchInSystem vs.batches_ht batch_id with
  | none => exact h
  | some b =>
    simp only
    unfold searchBatchInSystem at hs
    obtain ⟨R, hR1, hR2, hR3⟩ := flatten_setChain_find_perm _ _ _ b hs
    obtain ⟨h1, h2, h3⟩ := h
    have hlen : vs.batches_ht.nodes.length = R.length + 1 := by
      unfold BatchesHashTable.nodes
      rw [hR1.length_eq]
      rfl
    split_ifs with happ
    · unfold removeBatchFromSystem
      simp only [hs]
      refine ⟨?_, ?_, ?_⟩
      · simpa [BatchesHashTable.size, length_setChain] using h1
      · intro n hn
        apply h2 n
        unfold BatchesHashTable.nodes at hn ⊢
        exact hR1.mem_iff.mpr (List.mem_cons_of_mem _ (hR3.mem_iff.mp hn))
      · simp only [BatchesHashTable.nodes]
        rw [hR3.length_eq, h3, hlen]
        push_cast
        omega
    · refine ⟨?_, ?_, ?_⟩
      · simpa [BatchesHashTable.size, length_setChain] using h1
      · intro n hn
        simp only [BatchesHashTable.nodes] at hn
        rcases List.mem_cons.mp ((hR2 _).mem_iff.mp hn) with e | e
        · rw [e]
          apply h2 b
          unfold BatchesHashTable.nodes
          exact hR1.mem_iff.mpr (List.mem_cons_self _ _)
        · apply h2 n
          unfold BatchesHashTable.nodes
          exact hR1.mem_iff.mpr (List.mem_cons_of_mem _ e)
      · simp only [BatchesHashTable.nodes]
        rw [(hR2 _).length_eq, h3, hlen]
        rfl

theorem BatchCountInv_apply (ht : BatchesHashTable) (vaccine_name : CStr)
    (current_date : Date) (h : BatchCountInv ht) :
    BatchCountInv (applyToOldestBatch ht vaccine_name current_date) := by
  unfold applyToOldestBatch
  cases oldestExistingValidBatchByVaccineName ht vaccine_name current_date with
  | none => exact h
  | some info =>
    simp only
    have hmap := map_map_modifyFirstInBuckets (fun n : Batches => n.batch_id)
      (fun n : Batches => decide (n.batch_info = info))
      (fun n : Batches =>
        ⟨n.batch_id, { n.batch_info with applications := n.batch_info.applications + 1 }⟩)
      (by intro _; rfl) ht.batches
    have hids : (modifyFirstInBuckets (fun n : Batches => decide (n.batch_info = info))
        (fun n : Batches =>
          ⟨n.batch_id, { n.batch_info with applications := n.batch_info.applications + 1 }⟩)
        ht.batches).flatten.map (fun n : Batches => n.batch_id) =
        ht.nodes.map (fun n : Batches => n.batch_id) := by
      unfold BatchesHashTable.nodes
      rw [List.map_flatten, List.map_flatten, hmap]
    obtain ⟨h1, h2, h3⟩ := h
    refine ⟨?_, ?_, ?_⟩
    · simpa [BatchesHashTable.size, length_modifyFirstInBuckets] using h1
    · intro n hn
      simp only [BatchesHashTable.nodes] at hn
      have hmem : n.batch_id ∈ ht.nodes.map (fun n : Batches => n.batch_id) := by
        rw [← hids]
        exact List.mem_map_of_mem _ hn
      obtain ⟨m, hm, hmn⟩ := List.mem_map.mp hmem
      rw [← hmn]
      exact h2 m hm
    · simp only [BatchesHashTable.nodes]
      have := congrArg List.length hids
      simp only [List.length_map] at this
      rw [this, h3]

theorem BatchOp_run_countInv (op : BatchOp) (ht : BatchesHashTable) (h : BatchCountInv ht)
    (hascii : op.ascii) : BatchCountInv (op.run ht) := by
  cases op with
  | insert batch_id date doses vaccine_name =>
    exact BatchCountInv_insert ht batch_id date doses vaccine_name h hascii
  | remove batch_id =>
    exact BatchCountInv_remove
      { batches_ht := ht, records_ht := initVaccinationRecordsHashtable,
        current_date := ⟨1, 1, 2025⟩ } batch_id h
  | applyVaccine vaccine_name current_date =>
    exact BatchCountInv_apply ht vaccine_name current_date h
  | find _ => exact h
  | listAll => exact h
  | listByNames _ => exact h
  | oldest _ _ => exact h

theorem runBatchOps_counters :
    ∀ (ops : List BatchOp) (ht0 : BatchesHashTable), BatchCountInv ht0 →
      (∀ op ∈ ops, op.ascii) → BatchCountInv (runBatchOps ops ht0) := by
  intro ops
  induction ops with
  | nil => intro ht0 h _; exact h
  | cons op ops ih =>
    intro ht0 h hascii
    exact ih (op.run ht0)
      (BatchOp_run_countInv op ht0 h (hascii op (List.mem_cons_self _ _)))
      (fun o ho => hascii o (List.mem_cons_of_mem _ ho))

/-- C37: in every batch table reached from the initial one by the operations of
`BatchOp` (creation with an ASCII identifier, removal, application of a dose and
the lookups) `batch_count` is the number of nodes in all chains, and
`listAllBatchesInSystem` fills its buffer without overrun and prints that many
batches; in every record table reached from the initial one by insertions with
an ASCII user name and the three deletions applied to existing users,
`users_count` is the number of groups in all chains, `all_records_count` is the
sum of `record_count` over the groups, no group has `record_count = 0`, and
`listAllRecordsInSystem` fills its buffer exactly and prints that many records. -/
theorem counters_exact :
    (∀ ops : List BatchOp, (∀ op ∈ ops, op.ascii) →
      (runBatchOps ops initBatchesHashTable).batch_count =
        ((runBatchOps ops initBatchesHashTable).nodes.length : Int) ∧
      ∃ out : List BatchInfo,
        listAllBatchesInSystem (runBatchOps ops initBatchesHashTable) = some (1, out) ∧
        (out.length : Int) = (runBatchOps ops initBatchesHashTable).batch_count) ∧
    (∀ (ops : List RecordsOp) (ht : VaccinationRecordsHashtable),
      (∀ op ∈ ops, op.ascii) →
      runRecordsOps ops initVaccinationRecordsHashtable = some ht →
      ht.users_count = (ht.users.length : Int) ∧
      ht.all_records_count = (ht.users.map (fun u => u.record_count)).sum ∧
      (∀ u ∈ ht.users, u.record_count ≠ 0) ∧
      ∃ out : List VaccinationRecord,
        listAllRecordsInSystem ht = some (1, out) ∧
        (out.length : Int) = ht.all_records_count) := by
  constructor
  · intro ops hascii
    have h := runBatchOps_counters ops initBatchesHashTable BatchCountInv_init hascii
    refine ⟨h.2.2, ?_⟩
    obtain ⟨out, h1, h2, -⟩ := listAllBatchesInSystem_out _ h.2.2
    refine ⟨out, h1, ?_⟩
    rw [h2.length_eq, List.length_map, h.2.2]
  · intro ops ht hascii hrun
    obtain ⟨-, h1, h2, h3⟩ := runRecordsOps_counters ops initVaccinationRecordsHashtable ht
      RecordsWF_init CountersExact_init hascii hrun
    refine ⟨h1, h2, h3, ?_⟩
    have hcount : ht.all_records_count =
        ((ht.users.flatMap (fun u => u.records)).length : Int) := by
      rw [h2, sum_record_count]
    obtain ⟨out, o1, o2⟩ := listAllRecordsInSystem_out ht hcount
    refine ⟨out, o1, ?_⟩
    rw [o2.length_eq, hcount]

set_option maxRecDepth 100000 in
/-- C37 on the runs `countedBatchOps` and `countedRecordsOps`: one batch is left
and counted, and the table of the records counts one user with two records. -/
theorem counters_exact_witness :
    (∀ op ∈ countedBatchOps, op.ascii) ∧
    ((runBatchOps countedBatchOps initBatchesHashTable).batch_count =
        ((runBatchOps countedBatchOps initBatchesHashTable).nodes.length : Int) ∧
      ∃ out : List BatchInfo,
        listAllBatchesInSystem (runBatchOps countedBatchOps initBatchesHashTable) =
          some (1, out) ∧
        (out.length : Int) = (runBatchOps countedBatchOps initBatchesHashTable).batch_count) ∧
    (∀ op ∈ countedRecordsOps, op.ascii) ∧
    runRecordsOps countedRecordsOps initVaccinationRecordsHashtable =
      some countedRecordsTable ∧
    (countedRecordsTable.users_count = (countedRecordsTable.users.length : Int) ∧
      countedRecordsTable.all_records_count =
        (countedRecordsTable.users.map (fun u => u.record_count)).sum ∧
      (∀ u ∈ countedRecordsTable.users, u.record_count ≠ 0) ∧
      ∃ out : List VaccinationRecord,
        listAllRecordsInSystem countedRecordsTable = some (1, out) ∧
        (out.length : Int) = countedRecordsTable.all_records_count) ∧
    countedRecordsTable.users_count = 1 ∧ countedRecordsTable.all_records_count = 2 ∧
    (runBatchOps countedBatchOps initBatchesHashTable).batch_count = 1 :=
  ⟨by decide, counters_exact.1 countedBatchOps (by decide), by decide, by decide,
   counters_exact.2 countedRecordsOps countedRecordsTable (by decide) (by decide),
   by decide, by decide, by decide⟩

/-! ## `hash_user` in 32-bit arithmetic -/

theorem wrapInt_of_range (x : Int) (h0 : -2147483648 ≤ x) (h1 : x ≤ 2147483647) :
    wrapInt x = x := by
  unfold wrapInt
  omega

/-- Up to 16909320 buckets the machine arithmetic of `hash_user` does not
overflow on a string of bytes below 128, and the value is the one of the model. -/
theorem hash_user_int32_eq (m : Int) (hm : 0 < m) (hle : m ≤ 16909320) (v : CStr)
    (hv : isAscii v) : hash_user_int32 v m = hash_user v m := by
  have key : ∀ (w : CStr), isAscii w → ∀ h0 : Int, 0 ≤ h0 → h0 < m →
      w.foldl (fun h c => (wrapInt (wrapInt (127 * h) + charVal c)).tmod m) h0 =
        w.foldl (fun h c => (127 * h + charVal c).tmod m) h0 := by
    intro w
    induction w with
    | nil => intro _ h0 _ _; rfl
    | cons c cs ih =>
      intro hw h0 h1 h2
      have hc : c < 128 := hw c (List.mem_cons_self _ _)
      have hcv : charVal c = (c : Int) := charVal_ascii hc
      simp only [List.foldl_cons]
      have e1 : wrapInt (127 * h0) = 127 * h0 := wrapInt_of_range _ (by omega) (by omega)
      have e2 : wrapInt (127 * h0 + charVal c) = 127 * h0 + charVal c :=
        wrapInt_of_range _ (by rw [hcv]; omega) (by rw [hcv]; omega)
      rw [e1, e2]
      apply ih (fun b hb => hw b (List.mem_cons_of_mem _ hb))
      · exact Int.tmod_nonneg _ (by rw [hcv]; omega)
      · exact Int.tmod_lt_of_pos _ hm
  exact key v hv 0 (le_refl 0) hm

/-- C28 (the `int` overflows): for the user name `zzzzz` and 28476473 buckets, the
bucket count after the growth of a table of 14238221 buckets, the recurrence
`h <- (127 * h + byte) mod m` gives 10453103, the value of the polynomial modulo
`m`, while the 32-bit arithmetic of `hash_user` gives -13043243, which is not in
`[0, m)`; for 2147483647 buckets it gives 1924761210 instead of 1924761224. -/
theorem hash_user_int32_overflow :
    hash_user_int32 [122, 122, 122, 122, 122] 28476473 = -13043243 ∧
    ¬ (0 ≤ hash_user_int32 [122, 122, 122, 122, 122] 28476473) ∧
    hash_user [122, 122, 122, 122, 122] 28476473 = 10453103 ∧
    ((122 * 127 ^ 4 + 122 * 127 ^ 3 + 122 * 127 ^ 2 + 122 * 127 + 122 : Int) % 28476473 =
      10453103) ∧
    hash_user_int32 [122, 122, 122, 122, 122] 2147483647 = 1924761210 ∧
    hash_user [122, 122, 122, 122, 122] 2147483647 = 1924761224 := by
  decide

/-! ## A batch inserted into a table that holds no batch -/

theorem nodes_insert_empty (ht : BatchesHashTable) (batch_id : CStr) (date : Date)
    (doses : Int) (vaccine_name : CStr) (hempty : ht.nodes = []) (hpos : 0 < ht.size)
    (hid : isAscii batch_id) :
    (insertBatchInSystem ht batch_id date doses vaccine_name).2.nodes =
      [newBatchNode batch_id date doses vaccine_name] := by
  have hascii : ∀ n ∈ ht.nodes, isAscii n.batch_id := by
    intro n hn
    rw [hempty] at hn
    cases hn
  have h1 : ∀ ht1 : BatchesHashTable, ht1.nodes = [] → 0 < ht1.size →
      (linkBatch ht1 (newBatchNode batch_id date doses vaccine_name)).nodes =
        [newBatchNode batch_id date doses vaccine_name] := by
    intro ht1 he hp
    have hperm := linkBatch_nodes_perm ht1 (newBatchNode batch_id date doses vaccine_name) hp hid
    rw [he] at hperm
    exact List.perm_singleton.mp hperm
  rw [insertBatchInSystem_link]
  split_ifs
  · rcases resizeBatchesHashTable_cases ht with ⟨-, h2⟩ | ⟨hne, -⟩
    · rw [h2]
      exact h1 ht hempty hpos
    · obtain ⟨r1, -, r3, -⟩ := resizeBatchesHashTable_rehashed ht hne hascii
      apply h1
      · rw [hempty] at r3
        exact List.perm_nil.mp r3
      · rw [r1]
        exact resize_target_pos ht.size
  · exact h1 ht hempty hpos

/-! ## Record tables reached through at most 2^23 buckets -/

theorem RecordsReachableExact_reachable (ht : VaccinationRecordsHashtable)
    (h : RecordsReachableExact ht) : RecordsReachable ht := by
  induction h with
  | init => exact RecordsReachable.init
  | step ht op _ ha _ ih => exact RecordsReachable.step ht op ih ha

theorem RecordsReachableExact_size (ht : VaccinationRecordsHashtable)
    (h : RecordsReachableExact ht) : ht.size ≤ MAX_EXACT_SIZE := by
  cases h with
  | init => decide
  | step ht op _ _ hs => exact hs

theorem RecordsReachableExact_of_run : ∀ (ops : List RecordsOp)
    (ht ht1 : VaccinationRecordsHashtable),
    RecordsReachableExact ht → runRecordsOpsExact ops ht = some ht1 →
    RecordsReachableExact ht1 := by
  intro ops
  induction ops with
  | nil =>
    intro ht ht1 h hr
    simp only [runRecordsOpsExact, Option.some.injEq] at hr
    rw [← hr]; exact h
  | cons op ops ih =>
    intro ht ht1 h hr
    unfold runRecordsOpsExact at hr
    split_ifs at hr with ha
    exact ih (op.run ht) ht1 (RecordsReachableExact.step ht op h ha.1 ha.2) hr

/-- Between 202 and 2^23 every number has a prime at most half as large again
above it. -/
theorem exists_prime_le_three_halves (n : Nat) (h1 : 202 ≤ n) (h2 : n ≤ 8388608) :
    ∃ p : Nat, p.Prime ∧ n ≤ p ∧ 2 * p ≤ 3 * n := by
  by_cases c0 : n ≤ 211
  · exact ⟨211, by norm_num, c0, by omega⟩
  by_cases c1 : n ≤ 317
  · exact ⟨317, by norm_num, c1, by omega⟩
  by_cases c2 : n ≤ 467
  · exact ⟨467, by norm_num, c2, by omega⟩
  by_cases c3 : n ≤ 701
  · exact ⟨701, by norm_num, c3, by omega⟩
  by_cases c4 : n ≤ 1051
  · exact ⟨1051, by norm_num, c4, by omega⟩
  by_cases c5 : n ≤ 1571
  · exact ⟨1571, by norm_num, c5, by omega⟩
  by_cases c6 : n ≤ 2357
  · exact ⟨2357, by norm_num, c6, by omega⟩
  by_cases c7 : n ≤ 3533
  · exact ⟨3533, by norm_num, c7, by omega⟩
  by_cases c8 : n ≤ 5297
  · exact ⟨5297, by norm_num, c8, by omega⟩
  by_cases c9 : n ≤ 7937
  · exact ⟨7937, by norm_num, c9, by omega⟩
  by_cases c10 : n ≤ 11903
  · exact ⟨11903, by norm_num, c10, by omega⟩
  by_cases c11 : n ≤ 17851
  · exact ⟨17851, by norm_num, c11, by omega⟩
  by_cases c12 : n ≤ 26777
  · exact ⟨26777, by norm_num, c12, by omega⟩
  by_cases c13 : n ≤ 40163
  · exact ⟨40163, by norm_num, c13, by omega⟩
  by_cases c14 : n ≤ 60223
  · exact ⟨60223, by norm_num, c14, by omega⟩
  by_cases c15 : n ≤ 90313
  · exact ⟨90313, by norm_num, c15, by omega⟩
  by_cases c16 : n ≤ 135469
  · exact ⟨135469, by norm_num, c16, by omega⟩
  by_cases c17 : n ≤ 203183
  · exact ⟨203183, by norm_num, c17, by omega⟩
  by_cases c18 : n ≤ 304771
  · exact ⟨304771, by norm_num, c18, by omega⟩
  by_cases c19 : n ≤ 457153
  · exact ⟨457153, by norm_num, c19, by omega⟩
  by_cases c20 : n ≤ 685723
  · exact ⟨685723, by norm_num, c20, by omega⟩
  by_cases c21 : n ≤ 1028581
  · exact ⟨1028581, by norm_num, c21, by omega⟩
  by_cases c22 : n ≤ 1542851
  · exact ⟨1542851, by norm_num, c22, by omega⟩
  by_cases c23 : n ≤ 2314271
  · exact ⟨2314271, by norm_num, c23, by omega⟩
  by_cases c24 : n ≤ 3471407
  · exact ⟨3471407, by norm_num, c24, by omega⟩
  by_cases c25 : n ≤ 5207089
  · exact ⟨5207089, by norm_num, c25, by omega⟩
  by_cases c26 : n ≤ 7810619
  · exact ⟨7810619, by norm_num, c26, by omega⟩
  exact ⟨11715929, by norm_num, by omega, by omega⟩

theorem nextPrime_le_three_halves (n : Int) (h1 : 202 ≤ n) (h2 : n ≤ 8388608) :
    2 * nextPrime n ≤ 3 * n := by
  obtain ⟨p, hp, hp1, hp2⟩ := exists_prime_le_three_halves n.toNat (by omega) (by omega)
  have hpi := isPrime_of_prime p hp
  obtain ⟨hprime, -, -⟩ := nextPrime_spec n
  have := nextPrimeLoop_first (n.natAbs + 3) n (p : Int) (by omega) hpi hprime
  unfold nextPrime
  omega

theorem RecordsLoadInv_insert (ht : VaccinationRecordsHashtable)
    (user_name vaccine_name batch_id : CStr) (vaccination_date : Date)
    (hsz : RecordsSizeInv ht) (h : RecordsLoadInv ht)
    (hle : (insertVaccinationRecord ht user_name vaccine_name batch_id
      vaccination_date).2.size ≤ MAX_EXACT_SIZE) :
    RecordsLoadInv
      (insertVaccinationRecord ht user_name vaccine_name batch_id vaccination_date).2 := by
  obtain ⟨h1, -, -⟩ := hsz
  obtain ⟨hs, hu⟩ :=
    insertVaccinationRecord_counters ht user_name vaccine_name batch_id vaccination_date
  have hge := nextPrime_ge (ht.size * 2)
  unfold RecordsLoadInv at h ⊢
  unfold INITIAL_TABLE_SIZE at *
  unfold MAX_EXACT_SIZE at hle
  rw [hs] at hle ⊢
  by_cases hg : 4 * ht.users_count ≥ 3 * ht.size
  · rw [if_pos hg, if_neg (by omega)] at hle ⊢
    have hl := nextPrime_le_three_halves (ht.size * 2) (by omega) (by omega)
    left
    rcases hu with hu | hu <;> rw [hu] <;> omega
  · rw [if_neg hg]
    rcases h with h | h
    · left
      rcases hu with hu | hu <;> rw [hu] <;> omega
    · exact Or.inr h

/-- After `deleteRecordVaccinationRecordsUser` the load factor is above 0.25 or
the table has at most 195 buckets. -/
theorem RecordsLoadInv_deleteUser (ht : VaccinationRecordsHashtable) (user_name : CStr)
    (hsz : RecordsSizeInv ht) (h : RecordsLoadInv ht) :
    (deleteRecordVaccinationRecordsUser ht user_name).2.size <
        4 * (deleteRecordVaccinationRecordsUser ht user_name).2.users_count ∨
    (deleteRecordVaccinationRecordsUser ht user_name).2.size ≤ 195 := by
  obtain ⟨-, h2, -⟩ := hsz
  rcases h with h | h
  · rcases deleteUser_load ht user_name h2 h with h3 | ⟨h3, h4⟩
    · exact Or.inl h3
    · right
      rw [h4]
      exact h3
  · right
    obtain ⟨-, hs⟩ := deleteUser_counters ht user_name
    have hsmall := nextPrime_half_small ht.size h
    rw [hs]
    unfold INITIAL_TABLE_SIZE
    rw [if_pos (Or.inl hsmall)]
    split_ifs <;> exact h

theorem RecordsLoadInv_deleteRecordsWhere (ht : VaccinationRecordsHashtable)
    (user_name : CStr) (gone : VaccinationRecord → Bool) (hsz : RecordsSizeInv ht)
    (h : RecordsLoadInv ht) : RecordsLoadInv (deleteRecordsWhere ht user_name gone).2 := by
  obtain ⟨ht1, hs, hu, hr⟩ := deleteRecordsWhere_shape ht user_name gone
  have h1 : RecordsSizeInv ht1 := by
    unfold RecordsSizeInv at hsz ⊢
    rw [hs, hu]; exact hsz
  have h2 : RecordsLoadInv ht1 := by
    unfold RecordsLoadInv at h ⊢
    rw [hs, hu]; exact h
  rcases hr with hr | hr <;> rw [hr]
  · exact h2
  · rcases RecordsLoadInv_deleteUser ht1 user_name h1 h2 with h3 | h3
    · exact Or.inl (le_of_lt h3)
    · exact Or.inr h3

theorem RecordsLoadInv_of_reachable (ht : VaccinationRecordsHashtable)
    (h : RecordsReachableExact ht) : RecordsLoadInv ht := by
  induction h with
  | init => right; decide
  | step ht op hr _ hle ih =>
    have hsz := RecordsSizeInv_of_reachable ht (RecordsReachableExact_reachable ht hr)
    cases op with
    | insert u v b d => exact RecordsLoadInv_insert ht u v b d hsz ih hle
    | deleteUser u =>
      rcases RecordsLoadInv_deleteUser ht u hsz ih with h3 | h3
      · exact Or.inl (le_of_lt h3)
      · exact Or.inr h3
    | deleteByDate u d => exact RecordsLoadInv_deleteRecordsWhere ht u _ hsz ih
    | deleteByDateAndBatch u d b => exact RecordsLoadInv_deleteRecordsWhere ht u _ hsz ih

/-! ## A batch inserted into an empty table: the oldest valid batch -/

/-- C3: a batch with `doses > 0` and an identifier of bytes below 128, inserted
into a batch table of at most 7993 buckets that holds no batch (the initial table
or a table emptied by removals, whatever its bucket count and counter), is
returned by `oldestExistingValidBatchByVaccineName` for its vaccine name when the
system date equals the batch date, and no batch is returned for any system date
strictly later than the batch date. -/
theorem oldest_after_insert_into_empty (ht : BatchesHashTable) (batch_id : CStr)
    (date : Date) (doses : Int) (vaccine_name : CStr)
    (hempty : ht.nodes = []) (hpos : 0 < ht.size) (hd : 0 < doses)
    (hid : isAscii batch_id) :
    ht.size ≤ MAX_TABLE_SIZE →
    oldestExistingValidBatchByVaccineName
        (insertBatchInSystem ht batch_id date doses vaccine_name).2 vaccine_name date =
      some { batch := batch_id, date := date, doses := doses, applications := 0,
             vaccine_name := vaccine_name } ∧
    ∀ d : Date, compareDate1Date2 d date > 0 →
      oldestExistingValidBatchByVaccineName
        (insertBatchInSystem ht batch_id date doses vaccine_name).2 vaccine_name d = none := by
  intro _
  unfold oldestExistingValidBatchByVaccineName
  rw [nodes_insert_empty ht batch_id date doses vaccine_name hempty hpos hid]
  unfold newBatchNode
  constructor
  · have he : eligibleBatch vaccine_name date
        { batch := batch_id, date := date, doses := doses, applications := 0,
          vaccine_name := vaccine_name } = true := by
      rw [eligibleBatch_iff]
      exact ⟨rfl, by simpa using hd, le_of_eq (compareDate1Date2_self date)⟩
    simp [oldestStep, he]
  · intro d hlater
    have he : eligibleBatch vaccine_name d
        { batch := batch_id, date := date, doses := doses, applications := 0,
          vaccine_name := vaccine_name } = false := by
      rw [← Bool.not_eq_true, eligibleBatch_iff]
      rintro ⟨-, -, h⟩
      simp only at h
      omega
    simp [oldestStep, he]

/-- C3 at the batch `B1` dated 2025-01-10 with 5 doses, inserted into the table
of 211 buckets that 77 creations and 77 removals leave without a batch. -/
theorem oldest_after_insert_into_empty_witness :
    (runBatchOps (insertSampleBatches 77 ++ removeSampleBatches 77)
      initBatchesHashTable).nodes = [] ∧
    (runBatchOps (insertSampleBatches 77 ++ removeSampleBatches 77)
      initBatchesHashTable).size = 211 ∧
    (oldestExistingValidBatchByVaccineName
        (insertBatchInSystem
          (runBatchOps (insertSampleBatches 77 ++ removeSampleBatches 77)
            initBatchesHashTable) [66, 49] ⟨10, 1, 2025⟩ 5 [86]).2
        [86] ⟨10, 1, 2025⟩ =
      some { batch := [66, 49], date := ⟨10, 1, 2025⟩, doses := 5, applications := 0,
             vaccine_name := [86] } ∧
    ∀ d : Date, compareDate1Date2 d ⟨10, 1, 2025⟩ > 0 →
      oldestExistingValidBatchByVaccineName
        (insertBatchInSystem
          (runBatchOps (insertSampleBatches 77 ++ removeSampleBatches 77)
            initBatchesHashTable) [66, 49] ⟨10, 1, 2025⟩ 5 [86]).2
        [86] d = none) :=
  ⟨by decide!, by decide!,
   oldest_after_insert_into_empty
    (runBatchOps (insertSampleBatches 77 ++ removeSampleBatches 77) initBatchesHashTable)
    [66, 49] ⟨10, 1, 2025⟩ 5 [86] (by decide!) (by decide!) (by decide) (by decide)
    (by decide!)⟩

/-! ## Deleting a user that is not stored -/

/-- C13 (amended): after any insertion into a reachable table,
`4 * (count - 1) < 3 * size`: the load factor was below 0.75 before the new entry
was counted.  This holds for `batch_count` while the bucket count is below the
cap 7993, and for `users_count` in the record tables reached through at most
2^23 buckets, where the `float` load test of the source is the exact comparison. -/
theorem load_factor_before_last_entry :
    (∀ (ht : BatchesHashTable) (batch_id : CStr) (date : Date) (doses : Int)
        (vaccine_name : CStr),
      BatchReachable ht →
      (insertBatchInSystem ht batch_id date doses vaccine_name).2.size < MAX_TABLE_SIZE →
      4 * ((insertBatchInSystem ht batch_id date doses vaccine_name).2.batch_count - 1) <
        3 * (insertBatchInSystem ht batch_id date doses vaccine_name).2.size) ∧
    (∀ (ht : VaccinationRecordsHashtable) (user_name vaccine_name batch_id : CStr)
        (date : Date),
      RecordsReachableExact ht →
      (insertVaccinationRecord ht user_name vaccine_name batch_id date).2.size ≤
        MAX_EXACT_SIZE →
      4 * ((insertVaccinationRecord ht user_name vaccine_name batch_id date).2.users_count - 1) <
        3 * (insertVaccinationRecord ht user_name vaccine_name batch_id date).2.size) := by
  constructor
  · intro ht batch_id date doses vaccine_name h hlt
    exact (BatchSizeInv_run (BatchOp.insert batch_id date doses vaccine_name) ht
      (BatchSizeInv_of_reachable ht h)).2.2 hlt
  · intro ht user_name vaccine_name batch_id date h _
    exact (RecordsSizeInv_insert ht user_name vaccine_name batch_id date
      (RecordsSizeInv_of_reachable ht (RecordsReachableExact_reachable ht h))).2.2

/-- C13 (amended) on the creation of batch 76 and the vaccination of user 76 in
the tables that hold 75 entries in 101 buckets: the load test is passed with
`4 * 75 < 3 * 101` and 76 entries are left. -/
theorem load_factor_before_last_entry_witness :
    (4 * ((insertBatchInSystem (runBatchOps (insertSampleBatches 75) initBatchesHashTable)
          (sampleBatch 75) ⟨10, 1, 2025⟩ 5 [86]).2.batch_count - 1) <
      3 * (insertBatchInSystem (runBatchOps (insertSampleBatches 75) initBatchesHashTable)
          (sampleBatch 75) ⟨10, 1, 2025⟩ 5 [86]).2.size) ∧
    ∃ ht : VaccinationRecordsHashtable,
      runRecordsOpsExact (insertSampleUsers 75) initVaccinationRecordsHashtable = some ht ∧
      (insertVaccinationRecord ht (sampleUser 75) [86] [65] ⟨10, 1, 2025⟩).2.users_count =
        76 ∧
      (insertVaccinationRecord ht (sampleUser 75) [86] [65] ⟨10, 1, 2025⟩).2.size = 101 ∧
      4 * ((insertVaccinationRecord ht (sampleUser 75) [86] [65]
            ⟨10, 1, 2025⟩).2.users_count - 1) <
        3 * (insertVaccinationRecord ht (sampleUser 75) [86] [65] ⟨10, 1, 2025⟩).2.size := by
  refine ⟨load_factor_before_last_entry.1 _ (sampleBatch 75) ⟨10, 1, 2025⟩ 5 [86]
    (BatchReachable_runBatchOps _ _ BatchReachable.init) (by decide!), ?_⟩
  have h : (runRecordsOpsExact (insertSampleUsers 75) initVaccinationRecordsHashtable).map
      (fun ht =>
        ((insertVaccinationRecord ht (sampleUser 75) [86] [65] ⟨10, 1, 2025⟩).2.users_count,
         (insertVaccinationRecord ht (sampleUser 75) [86] [65] ⟨10, 1, 2025⟩).2.size)) =
      some (76, 101) := by decide!
  cases hr : runRecordsOpsExact (insertSampleUsers 75) initVaccinationRecordsHashtable with
  | none => rw [hr] at h; simp at h
  | some ht =>
    rw [hr] at h
    simp only [Option.map_some', Option.some.injEq, Prod.mk.injEq] at h
    exact ⟨ht, rfl, h.1, h.2,
      load_factor_before_last_entry.2 ht (sampleUser 75) [86] [65] ⟨10, 1, 2025⟩
        (RecordsReachableExact_of_run _ _ _ RecordsReachableExact.init hr)
        (by rw [h.2]; decide)⟩

/-- C19 (amended): in every record table reached through at most 2^23 buckets,
after `deleteRecordVaccinationRecordsUser` removes the group of a user that
exists the load factor `users_count / bucketCount` is above 0.25, unless the
table then has at most 195 buckets: a table of 102 to 195 buckets is never
shrunk, because the prime at or above half its bucket count is below 101, and
keeps its bucket count (107, for instance) at any load. -/
theorem load_factor_after_delete (ht : VaccinationRecordsHashtable) (user_name : CStr)
    (hreach : RecordsReachableExact ht) :
    userExistInSystem ht user_name = true →
    (deleteRecordVaccinationRecordsUser ht user_name).2.size <
        4 * (deleteRecordVaccinationRecordsUser ht user_name).2.users_count ∨
    (deleteRecordVaccinationRecordsUser ht user_name).2.size ≤ 195 := by
  intro _
  exact RecordsLoadInv_deleteUser ht user_name
    (RecordsSizeInv_of_reachable ht (RecordsReachableExact_reachable ht hreach))
    (RecordsLoadInv_of_reachable ht hreach)

/-- C19 (amended) on the tables that hold the sample users 0 to 76 in 211 buckets
and the sample users 25 to 76 in 107 buckets: after the deletion of a user the
first holds 76 users in 211 buckets, the second 51 users in 107 buckets. -/
theorem load_factor_after_delete_witness :
    (∃ ht : VaccinationRecordsHashtable,
      runRecordsOpsExact (insertSampleUsers 77) initVaccinationRecordsHashtable = some ht ∧
      userExistInSystem ht (sampleUser 0) = true ∧
      (deleteRecordVaccinationRecordsUser ht (sampleUser 0)).2.size = 211 ∧
      (deleteRecordVaccinationRecordsUser ht (sampleUser 0)).2.users_count = 76 ∧
      ((deleteRecordVaccinationRecordsUser ht (sampleUser 0)).2.size <
          4 * (deleteRecordVaccinationRecordsUser ht (sampleUser 0)).2.users_count ∨
        (deleteRecordVaccinationRecordsUser ht (sampleUser 0)).2.size ≤ 195)) ∧
    (∃ ht : VaccinationRecordsHashtable,
      runRecordsOpsExact (insertSampleUsers 77 ++ deleteSampleUsers 25)
        initVaccinationRecordsHashtable = some ht ∧
      userExistInSystem ht (sampleUser 25) = true ∧
      (deleteRecordVaccinationRecordsUser ht (sampleUser 25)).2.size = 107 ∧
      (deleteRecordVaccinationRecordsUser ht (sampleUser 25)).2.users_count = 51 ∧
      ((deleteRecordVaccinationRecordsUser ht (sampleUser 25)).2.size <
          4 * (deleteRecordVaccinationRecordsUser ht (sampleUser 25)).2.users_count ∨
        (deleteRecordVaccinationRecordsUser ht (sampleUser 25)).2.size ≤ 195)) := by
  constructor
  · have h : (runRecordsOpsExact (insertSampleUsers 77) initVaccinationRecordsHashtable).map
        (fun ht => (userExistInSystem ht (sampleUser 0),
          (deleteRecordVaccinationRecordsUser ht (sampleUser 0)).2.size,
          (deleteRecordVaccinationRecordsUser ht (sampleUser 0)).2.users_count)) =
        some (true, 211, 76) := by decide!
    cases hr : runRecordsOpsExact (insertSampleUsers 77) initVaccinationRecordsHashtable with
    | none => rw [hr] at h; simp at h
    | some ht =>
      rw [hr] at h
      simp only [Option.map_some', Option.some.injEq, Prod.mk.injEq] at h
      exact ⟨ht, rfl, h.1, h.2.1, h.2.2, load_factor_after_delete ht (sampleUser 0)
        (RecordsReachableExact_of_run _ _ _ RecordsReachableExact.init hr) h.1⟩
  · have h : (runRecordsOpsExact (insertSampleUsers 77 ++ deleteSampleUsers 25)
        initVaccinationRecordsHashtable).map
        (fun ht => (userExistInSystem ht (sampleUser 25),
          (deleteRecordVaccinationRecordsUser ht (sampleUser 25)).2.size,
          (deleteRecordVaccinationRecordsUser ht (sampleUser 25)).2.users_count)) =
        some (true, 107, 51) := by decide!
    cases hr : runRecordsOpsExact (insertSampleUsers 77 ++ deleteSampleUsers 25)
        initVaccinationRecordsHashtable with
    | none => rw [hr] at h; simp at h
    | some ht =>
      rw [hr] at h
      simp only [Option.map_some', Option.some.injEq, Prod.mk.injEq] at h
      exact ⟨ht, rfl, h.1, h.2.1, h.2.2, load_factor_after_delete ht (sampleUser 25)
        (RecordsReachableExact_of_run _ _ _ RecordsReachableExact.init hr) h.1⟩

/-- C40: in every batch table reachable from the initial table with
`batch_count ≤ 1000`, and in every record table reached from the initial table
by inserts and by deletes for users that exist through at most 2^23 buckets,
`4 * (count - 1) < 3 * size`: the load factor exceeds 0.75 by at most the last
entry.  When the load factor has reached 0.75, the next insertion enlarges the
table (for the record table: when the enlarged table has at most 2^23 buckets). -/
theorem load_factor_one_entry_over :
    (∀ ht : BatchesHashTable, BatchReachable ht → ht.batch_count ≤ MAX_BATCHES_NUMBER →
      4 * (ht.batch_count - 1) < 3 * ht.size) ∧
    (∀ ht : VaccinationRecordsHashtable, RecordsReachableExact ht →
      4 * (ht.users_count - 1) < 3 * ht.size) ∧
    (∀ (ht : BatchesHashTable) (batch_id : CStr) (date : Date) (doses : Int)
        (vaccine_name : CStr),
      BatchReachable ht → ht.batch_count ≤ MAX_BATCHES_NUMBER →
      4 * ht.batch_count ≥ 3 * ht.size →
      ht.size < (insertBatchInSystem ht batch_id date doses vaccine_name).2.size) ∧
    (∀ (ht : VaccinationRecordsHashtable) (user_name vaccine_name batch_id : CStr)
        (date : Date),
      RecordsReachableExact ht → 4 * ht.users_count ≥ 3 * ht.size →
      nextPrime (ht.size * 2) ≤ MAX_EXACT_SIZE →
      ht.size < (insertVaccinationRecord ht user_name vaccine_name batch_id date).2.size ∧
      (insertVaccinationRecord ht user_name vaccine_name batch_id date).2.size =
        nextPrime (ht.size * 2)) := by
  refine ⟨?_, ?_, ?_, ?_⟩
  · intro ht h hc
    obtain ⟨h1, h2, h3⟩ := BatchSizeInv_of_reachable ht h
    unfold MAX_BATCHES_NUMBER at hc
    unfold MAX_TABLE_SIZE at h2 h3
    by_cases hlt : ht.size < 7993
    · exact h3 hlt
    · omega
  · intro ht h
    exact (RecordsSizeInv_of_reachable ht (RecordsReachableExact_reachable ht h)).2.2
  · intro ht batch_id date doses vaccine_name h hc hload
    obtain ⟨h1, -, -⟩ := BatchSizeInv_of_reachable ht h
    have hsz := (insertBatchInSystem_counters ht batch_id date doses vaccine_name).2
    have hge := nextPrime_ge (ht.size * 2)
    unfold MAX_BATCHES_NUMBER at hc
    unfold INITIAL_TABLE_SIZE at h1
    rw [hsz, if_pos hload]
    unfold MAX_TABLE_SIZE
    split_ifs <;> omega
  · intro ht user_name vaccine_name batch_id date h hload _
    obtain ⟨h1, -, -⟩ :=
      RecordsSizeInv_of_reachable ht (RecordsReachableExact_reachable ht h)
    have hsz := (insertVaccinationRecord_counters ht user_name vaccine_name batch_id date).1
    have hge := nextPrime_ge (ht.size * 2)
    unfold INITIAL_TABLE_SIZE at h1
    rw [hsz, if_pos hload]
    unfold INITIAL_TABLE_SIZE
    rw [if_neg (by omega)]
    exact ⟨by omega, rfl⟩

/-- C40 on the tables that hold 76 entries in 101 buckets, one entry over the
load factor 0.75: the bound holds with `4 * 75 < 3 * 101`, and the creation of
batch 77 and the vaccination of user 77 enlarge the tables to 211 buckets. -/
theorem load_factor_one_entry_over_witness :
    (4 * (runBatchOps (insertSampleBatches 76) initBatchesHashTable).batch_count ≥
        3 * (runBatchOps (insertSampleBatches 76) initBatchesHashTable).size ∧
      4 * ((runBatchOps (insertSampleBatches 76) initBatchesHashTable).batch_count - 1) <
        3 * (runBatchOps (insertSampleBatches 76) initBatchesHashTable).size ∧
      (runBatchOps (insertSampleBatches 76) initBatchesHashTable).size <
        (insertBatchInSystem (runBatchOps (insertSampleBatches 76) initBatchesHashTable)
          (sampleBatch 76) ⟨10, 1, 2025⟩ 5 [86]).2.size) ∧
    ∃ ht : VaccinationRecordsHashtable,
      runRecordsOpsExact (insertSampleUsers 76) initVaccinationRecordsHashtable = some ht ∧
      ht.users_count = 76 ∧ ht.size = 101 ∧
      4 * (ht.users_count - 1) < 3 * ht.size ∧
      (ht.size < (insertVaccinationRecord ht (sampleUser 76) [86] [65] ⟨10, 1, 2025⟩).2.size ∧
        (insertVaccinationRecord ht (sampleUser 76) [86] [65] ⟨10, 1, 2025⟩).2.size =
          nextPrime (ht.size * 2)) ∧
      nextPrime (ht.size * 2) = 211 := by
  have hb : 4 * (runBatchOps (insertSampleBatches 76) initBatchesHashTable).batch_count ≥
      3 * (runBatchOps (insertSampleBatches 76) initBatchesHashTable).size := by decide!
  have hc : (runBatchOps (insertSampleBatches 76) initBatchesHashTable).batch_count ≤
      MAX_BATCHES_NUMBER := by decide!
  refine ⟨⟨hb,
    load_factor_one_entry_over.1 _ (BatchReachable_runBatchOps _ _ BatchReachable.init) hc,
    load_factor_one_entry_over.2.2.1 _ (sampleBatch 76) ⟨10, 1, 2025⟩ 5 [86]
      (BatchReachable_runBatchOps _ _ BatchReachable.init) hc hb⟩, ?_⟩
  have h : (runRecordsOpsExact (insertSampleUsers 76) initVaccinationRecordsHashtable).map
      (fun ht => (ht.users_count, ht.size)) = some (76, 101) := by decide!
  cases hr : runRecordsOpsExact (insertSampleUsers 76) initVaccinationRecordsHashtable with
  | none => rw [hr] at h; simp at h
  | some ht =>
    rw [hr] at h
    simp only [Option.map_some', Option.some.injEq, Prod.mk.injEq] at h
    have hreach := RecordsReachableExact_of_run _ _ _ RecordsReachableExact.init hr
    have hnp : nextPrime (ht.size * 2) = 211 := by rw [h.2]; decide
    exact ⟨ht, rfl, h.1, h.2, load_factor_one_entry_over.2.1 ht hreach,
      load_factor_one_entry_over.2.2.2 ht (sampleUser 76) [86] [65] ⟨10, 1, 2025⟩ hreach
        (by rw [h.1, h.2]; decide) (by rw [hnp]; decide), hnp⟩

end IAED
